import Mathlib

/-!
# Sprite blitting and palette expansion of OpenTyrian2000

A shallow embedding of `src/sprite.c` (the two run-length sprite decoders and
their blit variants, and the loading and freeing of sprite tables), of the
palette expansion loop of `scale_and_flip` in `src/video.c`, of the block
scalers of `src/video_scale_hires.c` and of the anti-aliasing pass of
`src/video_scale_aa.c`.

Conventions of the embedding.

* A byte is a `Nat` below 256.  Pixel memory is a function `Int → Nat` whose
  argument is the byte offset from `surface->pixels`; the pointer `pixels` of
  the C code is that offset, so `pixels_ll` is `0` and `pixels_ul` is
  `surface->h * surface->pitch`.  No bound is built into the memory: a store
  at any offset is visible in the result.
* `unsigned int` is 32 bits wide and a pointer is wider (the LP64 / LLP64 data
  models of the x86-64 targets the AVX-512 paths are written for): the
  `unsigned int` difference `surface->pitch - x_offset` is taken modulo `2^32`
  and then added to the pointer as a non-negative number.
* `int` arithmetic that the C code performs on coordinates is modelled on
  `Int`; the theorems that depend on it staying in range say so.
* A stream is a `List Nat` together with the number of bytes the C code may
  read; the loops are driven by a fuel argument that is always instantiated
  with a bound on the number of iterations.
* A locked texture is byte memory addressed by a `Nat` offset; a `Uint32`
  store writes four bytes, least significant first.  The array that
  `apply_fxaa` works on is addressed by `Uint32` element index.
* `float` arithmetic is not fixed: the anti-aliasing filter is embedded over a
  record of the operations it uses, and `exact_arith` is an instance in which
  the operations are exact.
* A byte source (a file being read) is the `List Nat` of the bytes not yet
  consumed; a read that finds too few bytes ends the load.
-/

namespace OpenTyrian

/-! ## Memory -/

/-- Byte memory addressed by the signed offset from `surface->pixels`. -/
abbrev Mem := Int → Nat

/-- The store `*p = v`. -/
def poke (m : Mem) (p : Int) (v : Nat) : Mem :=
  fun q => if q = p then v else m q

/-- The relevant fields of `SDL_Surface` for an 8-bit surface. -/
structure SDL_Surface where
  w : Nat
  h : Nat
  pitch : Nat
  pixels : Mem

/-- Difference of two `unsigned int` values. -/
def subU32 (a b : Nat) : Nat := (a + 2 ^ 32 - b % 2 ^ 32) % 2 ^ 32

/-- `pixels_ul`, as an offset from `surface->pixels`: the `int` product
`surface->h * surface->pitch`, for a surface whose size is in the range of `int`. -/
def pixels_ul (surface : SDL_Surface) : Int := (surface.h : Int) * (surface.pitch : Int)

/-- The initial cursor `(y * surface->pitch) + x`, as an offset from `surface->pixels`.
The product is an `int` product in C: this is its value when `y * surface->pitch` lies in
the range of `int` (outside it the C expression overflows), and the theorems about a
position whose rows lie outside the buffer state that range. -/
def pixels_start (surface : SDL_Surface) (x y : Int) : Int := y * (surface.pitch : Int) + x

/-! ## Indexed-array sprites -/

/-- Modelled from the spec: the `Sprite` record of `sprite.h` (not among the
sources): `{width: u16, height: u16, size: u32, data: owned byte buffer | absent}`. -/
structure Sprite where
  width : Nat
  height : Nat
  size : Nat
  data : Option (List Nat)

/-- Modelled from the spec: the `Sprite_array` record of `sprite.h`, a count and
a fixed collection of possibly absent sprites. -/
structure Sprite_array where
  count : Nat
  sprite : List Sprite

/-- The empty slot. -/
def Sprite.empty : Sprite := ⟨0, 0, 0, none⟩

/-- Modelled from the spec: `sprite(table, index)` of `sprite.h`, the slot of a table. -/
def sprite (table : Sprite_array) (index : Nat) : Sprite :=
  table.sprite.getD index Sprite.empty

/-- Modelled from the spec: `sprite_exists(table, index)` of `sprite.h`, true when the
slot holds data. -/
def sprite_exists (table : Sprite_array) (index : Nat) : Bool :=
  (sprite table index).data.isSome

/-- The byte `data[i]` of a stream; a byte outside the list reads as `0`
(the loops never let such a byte influence a store). -/
def byteAt (data : List Nat) (i : Nat) : Nat := data.getD i 0

/-- The common tail of every iteration of the indexed decode loops:
`if (x_offset >= width) { pixels += surface->pitch - x_offset; x_offset = 0; }`. -/
def row_wrap (width pitch : Nat) (p : Int) (xo : Nat) : Int × Nat :=
  if xo ≥ width then (p + (subU32 pitch xo : Nat), 0) else (p, xo)

/-- The decode loop shared by `blit_sprite_blend`, `blit_sprite_hv_unsafe`,
`blit_sprite_hv`, `blit_sprite_hv_blend` and `blit_sprite_dark`: one opcode per
iteration; `rule s d` is the value stored for source byte `s` over destination
byte `d`.  `i` is the index of `data` in the stream, `p` the cursor `pixels`,
`xo` is `x_offset`. -/
def sprite_loop (rule : Nat → Nat → Nat) (data : List Nat) (size width pitch : Nat) (ul : Int) :
    Nat → Nat → Int → Nat → Mem → Mem
  | 0, _, _, _, m => m
  | fuel + 1, i, p, xo, m =>
    if i < size then
      if byteAt data i = 255 then
        let n := byteAt data (i + 1)
        let c := row_wrap width pitch (p + (n : Int)) (xo + n)
        sprite_loop rule data size width pitch ul fuel (i + 2) c.1 c.2 m
      else if byteAt data i = 254 then
        let c := row_wrap width pitch (p + (subU32 width xo : Nat)) width
        sprite_loop rule data size width pitch ul fuel (i + 1) c.1 c.2 m
      else if byteAt data i = 253 then
        let c := row_wrap width pitch (p + 1) (xo + 1)
        sprite_loop rule data size width pitch ul fuel (i + 1) c.1 c.2 m
      else if p ≥ ul then m
      else
        let m1 := if p ≥ 0 then poke m p (rule (byteAt data i) (m p)) else m
        let c := row_wrap width pitch (p + 1) (xo + 1)
        sprite_loop rule data size width pitch ul fuel (i + 1) c.1 c.2 m1
    else m

/-- The run-ahead loop of `blit_sprite`:
`while (x_offset < width && data[1] < 253 && (data + 1) < data_ul)`.
Returns the new `data` index, cursor, `x_offset` and memory. -/
def run_ahead (data : List Nat) (size width : Nat) (ul : Int) :
    Nat → Nat → Int → Nat → Mem → Nat × Int × Nat × Mem
  | 0, i, p, xo, m => (i, p, xo, m)
  | fuel + 1, i, p, xo, m =>
    if xo < width ∧ byteAt data (i + 1) < 253 ∧ i + 1 < size then
      let m1 := if p ≥ 0 ∧ p < ul then poke m p (byteAt data (i + 1)) else m
      run_ahead data size width ul fuel (i + 1) (p + 1) (xo + 1) m1
    else (i, p, xo, m)

/-- The decode loop of `blit_sprite`, with the run-ahead after an opaque pixel. -/
def blit_sprite_loop (data : List Nat) (size width pitch : Nat) (ul : Int) :
    Nat → Nat → Int → Nat → Mem → Mem
  | 0, _, _, _, m => m
  | fuel + 1, i, p, xo, m =>
    if i < size then
      if byteAt data i = 255 then
        let n := byteAt data (i + 1)
        let c := row_wrap width pitch (p + (n : Int)) (xo + n)
        blit_sprite_loop data size width pitch ul fuel (i + 2) c.1 c.2 m
      else if byteAt data i = 254 then
        let c := row_wrap width pitch (p + (subU32 width xo : Nat)) width
        blit_sprite_loop data size width pitch ul fuel (i + 1) c.1 c.2 m
      else if byteAt data i = 253 then
        let c := row_wrap width pitch (p + 1) (xo + 1)
        blit_sprite_loop data size width pitch ul fuel (i + 1) c.1 c.2 m
      else if p ≥ ul then m
      else
        let m1 := if p ≥ 0 then poke m p (byteAt data i) else m
        let r := run_ahead data size width ul size i (p + 1) (xo + 1) m1
        let c := row_wrap width pitch r.2.1 r.2.2.1
        blit_sprite_loop data size width pitch ul fuel (r.1 + 1) c.1 c.2 r.2.2.2
    else m

/-- The stream of a populated slot (`cur_sprite->data`). -/
def Sprite.bytes (s : Sprite) : List Nat := s.data.getD []

/-- `blit_sprite` of `sprite.c` (assertions disabled): the destination memory after the call. -/
def blit_sprite (surface : SDL_Surface) (x y : Int) (table : Sprite_array) (index : Nat) : Mem :=
  if index ≥ table.count ∨ ¬ sprite_exists table index then surface.pixels
  else
    let cur_sprite := sprite table index
    blit_sprite_loop cur_sprite.bytes cur_sprite.size cur_sprite.width surface.pitch
      (pixels_ul surface) cur_sprite.size 0 (pixels_start surface x y) 0 surface.pixels

/-! ### Pixel rules of the indexed-array variants -/

/-- `hue <<= 4` on a `Uint8`. -/
def hue_shift (hue : Nat) : Nat := (hue <<< 4) % 256

/-- Conversion of an `int` to `Uint8`. -/
def toU8 (v : Int) : Nat := (v % 256).toNat

/-- Store expression of `blit_sprite_blend`:
`(*data & 0xf0) | (((*pixels & 0x0f) + (*data & 0x0f)) / 2)`. -/
def blend_rule (s d : Nat) : Nat := (s &&& 0xf0) ||| (((d &&& 0x0f) + (s &&& 0x0f)) / 2)

/-- Store expression of `blit_sprite_hv_unsafe`: `hue | ((*data & 0x0f) + value)`,
an `int` converted to `Uint8` by the store; `hue` is the shifted hue. -/
def hv_unsafe_rule (hue : Nat) (value : Int) (s _d : Nat) : Nat :=
  toU8 (Int.lor (hue : Int) (((s &&& 0x0f : Nat) : Int) + value))

/-- The clamped `temp_value` of `blit_sprite_hv` and `blit_sprite_hv_blend`:
`Uint8 temp_value = (*data & 0x0f) + value;
 if (temp_value > 0xf) temp_value = (temp_value >= 0x1f) ? 0x0 : 0xf;`. -/
def hv_temp_value (value : Int) (s : Nat) : Nat :=
  let temp_value := toU8 (((s &&& 0x0f : Nat) : Int) + value)
  if temp_value > 0xf then (if temp_value ≥ 0x1f then 0x0 else 0xf) else temp_value

/-- Store expression of `blit_sprite_hv`: `hue | temp_value`. -/
def hv_rule (hue : Nat) (value : Int) (s _d : Nat) : Nat := hue ||| hv_temp_value value s

/-- Store expression of `blit_sprite_hv_blend`: `hue | (((*pixels & 0x0f) + temp_value) / 2)`. -/
def hv_blend_rule (hue : Nat) (value : Int) (s d : Nat) : Nat :=
  hue ||| (((d &&& 0x0f) + hv_temp_value value s) / 2)

/-- Store expression of `blit_sprite_dark`:
`black ? 0x00 : ((*pixels & 0xf0) | ((*pixels & 0x0f) / 2))`. -/
def dark_rule (black : Bool) (_s d : Nat) : Nat :=
  if black then 0x00 else ((d &&& 0xf0) ||| ((d &&& 0x0f) / 2))

/-- The body shared by the five one-opcode-per-iteration variants, after the index guard. -/
def sprite_blit (rule : Nat → Nat → Nat) (surface : SDL_Surface) (x y : Int)
    (table : Sprite_array) (index : Nat) : Mem :=
  if index ≥ table.count ∨ ¬ sprite_exists table index then surface.pixels
  else
    let cur_sprite := sprite table index
    sprite_loop rule cur_sprite.bytes cur_sprite.size cur_sprite.width surface.pitch
      (pixels_ul surface) cur_sprite.size 0 (pixels_start surface x y) 0 surface.pixels

/-- `blit_sprite_blend` of `sprite.c`. -/
def blit_sprite_blend (surface : SDL_Surface) (x y : Int) (table : Sprite_array)
    (index : Nat) : Mem :=
  sprite_blit blend_rule surface x y table index

/-- `blit_sprite_hv_unsafe` of `sprite.c`. -/
def blit_sprite_hv_unsafe (surface : SDL_Surface) (x y : Int) (table : Sprite_array)
    (index : Nat) (hue : Nat) (value : Int) : Mem :=
  sprite_blit (hv_unsafe_rule (hue_shift hue) value) surface x y table index

/-- `blit_sprite_hv` of `sprite.c`. -/
def blit_sprite_hv (surface : SDL_Surface) (x y : Int) (table : Sprite_array)
    (index : Nat) (hue : Nat) (value : Int) : Mem :=
  sprite_blit (hv_rule (hue_shift hue) value) surface x y table index

/-- `blit_sprite_hv_blend` of `sprite.c`. -/
def blit_sprite_hv_blend (surface : SDL_Surface) (x y : Int) (table : Sprite_array)
    (index : Nat) (hue : Nat) (value : Int) : Mem :=
  sprite_blit (hv_blend_rule (hue_shift hue) value) surface x y table index

/-- `blit_sprite_dark` of `sprite.c`. -/
def blit_sprite_dark (surface : SDL_Surface) (x y : Int) (table : Sprite_array)
    (index : Nat) (black : Bool) : Mem :=
  sprite_blit (dark_rule black) surface x y table index

/-! ## Compact run-length sheets (`Sprite2_array`) -/

/-- Modelled from the spec: the `Sprite2_array` record of `sprite.h`,
`{size: u32, data: owned byte buffer}`; an unloaded sheet has the empty buffer. -/
structure Sprite2_array where
  size : Nat
  data : List Nat

/-- How a compact decode loop ended. -/
inductive Exit where
  /-- The loop condition `*data != 0x0f` failed. -/
  | terminator
  /-- An early `return` (cursor at or past `pixels_ul`, or `y >= surface->h`). -/
  | cutoff
  /-- The loop needed a byte outside the sheet buffer (undefined behaviour in C). -/
  | fault
  /-- The fuel of the model ran out (excluded by `blit_sprite2_fuel`). -/
  | fuel
  deriving DecidableEq, Repr

/-- Outcome of a compact decode loop: the destination memory, the index of `data`
in the sheet buffer when the loop ended, and how it ended. -/
structure Run where
  mem : Mem
  stop : Nat
  exit : Exit

/-- `SDL_SwapLE16(((Uint16*)sprite2s.data)[index - 1])`: the little-endian 16-bit
entry `index - 1` (in `unsigned int` arithmetic) of the offset table, if it lies
in the buffer. -/
def sheet_offset (data : List Nat) (index : Nat) : Option Nat :=
  match data[2 * subU32 index 1]?, data[2 * subU32 index 1 + 1]? with
  | some lo, some hi => some (lo + 256 * hi)
  | _, _ => none

/-- `memcpy(pixels, data, count)`: `count` bytes from `data[i ..]` to offset `p ..`;
the flag is false when a source byte lies outside the sheet buffer. -/
def memcpy (data : List Nat) : Nat → Nat → Int → Mem → Mem × Bool
  | 0, _, _, m => (m, true)
  | c + 1, i, p, m =>
    match data[i]? with
    | none => (m, false)
    | some b => memcpy data c (i + 1) (p + 1) (poke m p b)

/-- The clipping fallback of `blit_sprite2_generic` and `blit_sprite2_AVX512`:
`while (count--) { if (pixels >= pixels_ll && pixels < pixels_ul) *pixels = *data;
 ++pixels; ++data; }`. -/
def copy_clipped (data : List Nat) (ul : Int) : Nat → Nat → Int → Mem → Mem × Bool
  | 0, _, _, m => (m, true)
  | c + 1, i, p, m =>
    if p ≥ 0 ∧ p < ul then
      match data[i]? with
      | none => (m, false)
      | some b => copy_clipped data ul c (i + 1) (p + 1) (poke m p b)
    else copy_clipped data ul c (i + 1) (p + 1) m

/-- `blit_sprite2_generic` of `sprite.c`. -/
def blit_sprite2_generic (data : List Nat) (ul : Int) (pitch : Int) :
    Nat → Nat → Int → Mem → Run
  | 0, i, _, m => ⟨m, i, Exit.fuel⟩
  | fuel + 1, i, p, m =>
    match data[i]? with
    | none => ⟨m, i, Exit.fault⟩
    | some b =>
      if b = 0x0f then ⟨m, i, Exit.terminator⟩
      else
        let p1 := p + ((b &&& 0x0f : Nat) : Int)
        let count := (b &&& 0xf0) >>> 4
        if count = 0 then blit_sprite2_generic data ul pitch fuel (i + 1) (p1 + (pitch - 12)) m
        else
          let r := if p1 ≥ 0 ∧ p1 + (count : Int) ≤ ul then memcpy data count (i + 1) p1 m
                   else copy_clipped data ul count (i + 1) p1 m
          if r.2 then blit_sprite2_generic data ul pitch fuel (i + count + 1) (p1 + (count : Int)) r.1
          else ⟨r.1, i + 1, Exit.fault⟩

/-- The mask `(n >= 64) ? ~0ULL : (1ULL << n) - 1`. -/
def mask64 (n : Int) : Nat := if n ≥ 64 then 2 ^ 64 - 1 else (1 <<< n.toNat) - 1

/-- True when every lane of `data[i ..]` selected by the mask lies in the buffer. -/
def lanes_readable (data : List Nat) (mask i : Nat) : Bool :=
  (List.range 64).all (fun k => !mask.testBit k || decide (i + k < data.length))

/-- `_mm512_maskz_loadu_epi8(mask, src)` from the sheet buffer: 64 byte lanes. -/
def maskz_loadu_data (data : List Nat) (mask i : Nat) : Nat → Nat :=
  fun k => if mask.testBit k then byteAt data (i + k) else 0

/-- `_mm512_maskz_loadu_epi8(mask, dst)` from pixel memory. -/
def maskz_loadu_mem (m : Mem) (mask : Nat) (p : Int) : Nat → Nat :=
  fun k => if mask.testBit k then m (p + (k : Int)) else 0

/-- `_mm512_mask_storeu_epi8(dst, mask, v)`. -/
def mask_storeu (m : Mem) (p : Int) (mask : Nat) (v : Nat → Nat) : Mem :=
  fun q => if 0 ≤ q - p ∧ q - p < 64 ∧ mask.testBit (q - p).toNat then v (q - p).toNat else m q

/-- The masked copy loop of `blit_sprite2_AVX512`: `while (n > 0) { ... n -= 64; }`. -/
def avx512_copy (data : List Nat) : Nat → Int → Nat → Int → Mem → Mem × Bool
  | 0, _, _, _, m => (m, true)
  | fuel + 1, n, src, dst, m =>
    if n > 0 then
      if lanes_readable data (mask64 n) src then
        avx512_copy data fuel (n - 64) (src + 64) (dst + 64)
          (mask_storeu m dst (mask64 n) (maskz_loadu_data data (mask64 n) src))
      else (m, false)
    else (m, true)

/-- `blit_sprite2_AVX512` of `sprite.c`. -/
def blit_sprite2_AVX512 (data : List Nat) (ul : Int) (pitch : Int) :
    Nat → Nat → Int → Mem → Run
  | 0, i, _, m => ⟨m, i, Exit.fuel⟩
  | fuel + 1, i, p, m =>
    match data[i]? with
    | none => ⟨m, i, Exit.fault⟩
    | some control =>
      if control = 0x0f then ⟨m, i, Exit.terminator⟩
      else
        let skip := control &&& 0x0f
        let count := (control &&& 0xf0) >>> 4
        let p1 := p + (skip : Int)
        if count = 0 then blit_sprite2_AVX512 data ul pitch fuel (i + 1) (p1 + (pitch - 12)) m
        else
          let r := if p1 ≥ 0 ∧ p1 + (count : Int) ≤ ul then
                     avx512_copy data count (count : Int) (i + 1) p1 m
                   else copy_clipped data ul count (i + 1) p1 m
          if r.2 then blit_sprite2_AVX512 data ul pitch fuel (i + count + 1) (p1 + (count : Int)) r.1
          else ⟨r.1, i + 1, Exit.fault⟩

/-- Fuel that no compact decode loop can exhaust: every iteration reads the byte
under `data`, inside the buffer, and moves `data` forward. -/
def blit_sprite2_fuel (sprite2s : Sprite2_array) : Nat := sprite2s.data.length + 1

/-- `blit_sprite2` of `sprite.c`; `g_hasAVX512` is the cached detection result and
`VGAScreen_pitch` is `VGAScreen->pitch`. -/
def blit_sprite2 (g_hasAVX512 : Int) (VGAScreen_pitch : Int) (surface : SDL_Surface) (x y : Int)
    (sprite2s : Sprite2_array) (index : Nat) : Run :=
  match sheet_offset sprite2s.data index with
  | none => ⟨surface.pixels, 0, Exit.fault⟩
  | some start =>
    if g_hasAVX512 = 1 then
      blit_sprite2_AVX512 sprite2s.data (pixels_ul surface) VGAScreen_pitch
        (blit_sprite2_fuel sprite2s) start (pixels_start surface x y) surface.pixels
    else
      blit_sprite2_generic sprite2s.data (pixels_ul surface) VGAScreen_pitch
        (blit_sprite2_fuel sprite2s) start (pixels_start surface x y) surface.pixels

/-! ### Blended compact blit -/

/-- Store expression of the unrolled loop of `blit_sprite2_blend_generic`:
`(((data[k] & 0x0f) + (pixels[k] & 0x0f)) >> 1) | (data[k] & 0xf0)`. -/
def blend2_rule_shift (s d : Nat) : Nat := (((s &&& 0x0f) + (d &&& 0x0f)) >>> 1) ||| (s &&& 0xf0)

/-- Store expression of the byte loops of the blended compact blit:
`(((*data & 0x0f) + (*pixels & 0x0f)) / 2) | (*data & 0xf0)`. -/
def blend2_rule (s d : Nat) : Nat := (((s &&& 0x0f) + (d &&& 0x0f)) / 2) ||| (s &&& 0xf0)

/-- One store `pixels[k] = rule(data[k], pixels[k])`; `none` when `data[k]` lies outside
the sheet buffer. -/
def store_from (rule : Nat → Nat → Nat) (data : List Nat) (i : Nat) (p : Int) (m : Mem) :
    Option Mem :=
  match data[i]? with
  | none => none
  | some s => some (poke m p (rule s (m p)))

/-- The four stores of one unrolled step. -/
def blend_four (data : List Nat) (i : Nat) (p : Int) (m : Mem) : Option Mem :=
  (((store_from blend2_rule_shift data i p m).bind
    (store_from blend2_rule_shift data (i + 1) (p + 1))).bind
    (store_from blend2_rule_shift data (i + 2) (p + 2))).bind
    (store_from blend2_rule_shift data (i + 3) (p + 3))

/-- The unrolled loop `while (count >= 4) { ... pixels += 4; data += 4; count -= 4; }`
of `blit_sprite2_blend_generic`.  Returns the memory, the remaining `count` and whether
every byte read was inside the sheet buffer; `data` and `pixels` have advanced by the
number of pixels taken off `count`. -/
def blend_unrolled (data : List Nat) (ul : Int) : Nat → Nat → Nat → Int → Mem → Mem × Nat × Bool
  | 0, count, _, _, m => (m, count, true)
  | fuel + 1, count, i, p, m =>
    if count ≥ 4 then
      if p + 3 < ul ∧ p ≥ 0 then
        match blend_four data i p m with
        | none => (m, count, false)
        | some m1 => blend_unrolled data ul fuel (count - 4) (i + 4) (p + 4) m1
      else blend_unrolled data ul fuel (count - 4) (i + 4) (p + 4) m
    else (m, count, true)

/-- The byte loop `while (count--) { if (pixels >= pixels_ul) return; if (pixels >= pixels_ll)
*pixels = ...; pixels++; data++; }` of `blit_sprite2_blend_generic`; the second component is
`none` when the loop ran to its end. -/
def blend_tail (data : List Nat) (ul : Int) : Nat → Nat → Int → Mem → Mem × Option Exit
  | 0, _, _, m => (m, none)
  | c + 1, i, p, m =>
    if p ≥ ul then (m, some Exit.cutoff)
    else if p ≥ 0 then
      match store_from blend2_rule data i p m with
      | none => (m, some Exit.fault)
      | some m1 => blend_tail data ul c (i + 1) (p + 1) m1
    else blend_tail data ul c (i + 1) (p + 1) m

/-- `blit_sprite2_blend_generic` of `sprite.c`.  When the loop ends inside a run, `stop` is the
index of the first literal of that run. -/
def blit_sprite2_blend_generic (data : List Nat) (ul : Int) (pitch : Int) :
    Nat → Nat → Int → Mem → Run
  | 0, i, _, m => ⟨m, i, Exit.fuel⟩
  | fuel + 1, i, p, m =>
    match data[i]? with
    | none => ⟨m, i, Exit.fault⟩
    | some b =>
      if b = 0x0f then ⟨m, i, Exit.terminator⟩
      else
        let p1 := p + ((b &&& 0x0f : Nat) : Int)
        let count := (b &&& 0xf0) >>> 4
        if count = 0 then
          blit_sprite2_blend_generic data ul pitch fuel (i + 1) (p1 + (pitch - 12)) m
        else
          let u := blend_unrolled data ul count count (i + 1) p1 m
          if u.2.2 then
            let done := count - u.2.1
            let t := blend_tail data ul u.2.1 (i + 1 + done) (p1 + (done : Int)) u.1
            match t.2 with
            | none =>
              blit_sprite2_blend_generic data ul pitch fuel (i + count + 1) (p1 + (count : Int)) t.1
            | some e => ⟨t.1, i + 1, e⟩
          else ⟨u.1, i + 1, Exit.fault⟩

/-- `_mm512_set1_epi8(c)`. -/
def set1_epi8 (c : Nat) : Nat → Nat := fun _ => c

/-- `_mm512_and_si512` on byte lanes. -/
def and_si512 (a b : Nat → Nat) : Nat → Nat := fun k => a k &&& b k

/-- `_mm512_or_si512` on byte lanes. -/
def or_si512 (a b : Nat → Nat) : Nat → Nat := fun k => a k ||| b k

/-- `_mm512_add_epi8`: lane-wise sum modulo 256. -/
def add_epi8 (a b : Nat → Nat) : Nat → Nat := fun k => (a k + b k) % 256

/-- `_mm512_srli_epi16(a, s)` seen on byte lanes: bytes `2j` and `2j+1` form the 16-bit lane
`a (2j) + 256 * a (2j+1)`, which is shifted right as a whole. -/
def srli_epi16 (a : Nat → Nat) (s : Nat) : Nat → Nat :=
  fun k =>
    let w := (a (2 * (k / 2)) + 256 * a (2 * (k / 2) + 1)) >>> s
    if k % 2 = 0 then w % 256 else (w / 256) % 256

/-- The vector expression of `blit_sprite2_blend_AVX512` for loaded lanes `vSrc`, `vDst`. -/
def avx512_blend_lanes (vSrc vDst : Nat → Nat) : Nat → Nat :=
  let maskF := set1_epi8 0x0F
  let maskF0 := set1_epi8 0xF0
  let vSrcLow := and_si512 vSrc maskF
  let vDstLow := and_si512 vDst maskF
  let vSum := add_epi8 vSrcLow vDstLow
  let vAvg := and_si512 (srli_epi16 vSum 1) maskF
  let vSrcHigh := and_si512 vSrc maskF0
  or_si512 vAvg vSrcHigh

/-- The masked blend loop of `blit_sprite2_blend_AVX512`: `while (n > 0) { ... n -= 64; }`. -/
def avx512_blend (data : List Nat) : Nat → Int → Nat → Int → Mem → Mem × Bool
  | 0, _, _, _, m => (m, true)
  | fuel + 1, n, src, dst, m =>
    if n > 0 then
      if lanes_readable data (mask64 n) src then
        avx512_blend data fuel (n - 64) (src + 64) (dst + 64)
          (mask_storeu m dst (mask64 n)
            (avx512_blend_lanes (maskz_loadu_data data (mask64 n) src)
              (maskz_loadu_mem m (mask64 n) dst)))
      else (m, false)
    else (m, true)

/-- The fallback `while (count--) { if (pixels >= pixels_ll && pixels < pixels_ul) *pixels = ...;
pixels++; data++; }` of `blit_sprite2_blend_AVX512`. -/
def blend_clipped (data : List Nat) (ul : Int) : Nat → Nat → Int → Mem → Mem × Bool
  | 0, _, _, m => (m, true)
  | c + 1, i, p, m =>
    if p ≥ 0 ∧ p < ul then
      match store_from blend2_rule data i p m with
      | none => (m, false)
      | some m1 => blend_clipped data ul c (i + 1) (p + 1) m1
    else blend_clipped data ul c (i + 1) (p + 1) m

/-- `blit_sprite2_blend_AVX512` of `sprite.c`. -/
def blit_sprite2_blend_AVX512 (data : List Nat) (ul : Int) (pitch : Int) :
    Nat → Nat → Int → Mem → Run
  | 0, i, _, m => ⟨m, i, Exit.fuel⟩
  | fuel + 1, i, p, m =>
    match data[i]? with
    | none => ⟨m, i, Exit.fault⟩
    | some b =>
      if b = 0x0f then ⟨m, i, Exit.terminator⟩
      else
        let p1 := p + ((b &&& 0x0f : Nat) : Int)
        let count := (b &&& 0xf0) >>> 4
        if count = 0 then
          blit_sprite2_blend_AVX512 data ul pitch fuel (i + 1) (p1 + (pitch - 12)) m
        else
          let r := if p1 ≥ 0 ∧ p1 + (count : Int) ≤ ul then
                     avx512_blend data count (count : Int) (i + 1) p1 m
                   else blend_clipped data ul count (i + 1) p1 m
          if r.2 then
            blit_sprite2_blend_AVX512 data ul pitch fuel (i + count + 1) (p1 + (count : Int)) r.1
          else ⟨r.1, i + 1, Exit.fault⟩

/-- `blit_sprite2_blend` of `sprite.c`. -/
def blit_sprite2_blend (g_hasAVX512 : Int) (VGAScreen_pitch : Int) (surface : SDL_Surface)
    (x y : Int) (sprite2s : Sprite2_array) (index : Nat) : Run :=
  match sheet_offset sprite2s.data index with
  | none => ⟨surface.pixels, 0, Exit.fault⟩
  | some start =>
    if g_hasAVX512 = 1 then
      blit_sprite2_blend_AVX512 sprite2s.data (pixels_ul surface) VGAScreen_pitch
        (blit_sprite2_fuel sprite2s) start (pixels_start surface x y) surface.pixels
    else
      blit_sprite2_blend_generic sprite2s.data (pixels_ul surface) VGAScreen_pitch
        (blit_sprite2_fuel sprite2s) start (pixels_start surface x y) surface.pixels

/-! ### Darken and filter -/

/-- Store of `blit_sprite2_darken`: `((*pixels & 0x0f) / 2) + (*pixels & 0xf0)`; the literal
under `data` is not read. -/
def darken_store (_data : List Nat) (_i : Nat) (d : Nat) : Option Nat :=
  some (((d &&& 0x0f) / 2) + (d &&& 0xf0))

/-- Store of `blit_sprite2_filter`: `filter | (*data & 0x0f)`; `none` when the literal lies
outside the sheet buffer. -/
def filter_store (filter : Nat) (data : List Nat) (i : Nat) (_d : Nat) : Option Nat :=
  (data[i]?).map (fun s => filter ||| (s &&& 0x0f))

/-- The run loop of `blit_sprite2_darken` and `blit_sprite2_filter`:
`while (count--) { ++data; if (pixels >= pixels_ul) return; if (pixels >= pixels_ll)
*pixels = ...; ++pixels; }`; `i` is the index of `data` after the increment. -/
def sprite2_run (store : List Nat → Nat → Nat → Option Nat) (data : List Nat) (ul : Int) :
    Nat → Nat → Int → Mem → Mem × Option Exit
  | 0, _, _, m => (m, none)
  | c + 1, i, p, m =>
    if p ≥ ul then (m, some Exit.cutoff)
    else if p ≥ 0 then
      match store data i (m p) with
      | none => (m, some Exit.fault)
      | some v => sprite2_run store data ul c (i + 1) (p + 1) (poke m p v)
    else sprite2_run store data ul c (i + 1) (p + 1) m

/-- The decode loop of `blit_sprite2_darken` and `blit_sprite2_filter`.  When the loop ends
inside a run, `stop` is the index of the first literal of that run. -/
def sprite2_loop (store : List Nat → Nat → Nat → Option Nat) (data : List Nat) (ul : Int)
    (pitch : Int) : Nat → Nat → Int → Mem → Run
  | 0, i, _, m => ⟨m, i, Exit.fuel⟩
  | fuel + 1, i, p, m =>
    match data[i]? with
    | none => ⟨m, i, Exit.fault⟩
    | some b =>
      if b = 0x0f then ⟨m, i, Exit.terminator⟩
      else
        let p1 := p + ((b &&& 0x0f : Nat) : Int)
        let count := (b &&& 0xf0) >>> 4
        if count = 0 then sprite2_loop store data ul pitch fuel (i + 1) (p1 + (pitch - 12)) m
        else
          let r := sprite2_run store data ul count (i + 1) p1 m
          match r.2 with
          | none => sprite2_loop store data ul pitch fuel (i + count + 1) (p1 + (count : Int)) r.1
          | some e => ⟨r.1, i + 1, e⟩

/-- The body shared by `blit_sprite2_darken` and `blit_sprite2_filter`. -/
def sprite2_blit (store : List Nat → Nat → Nat → Option Nat) (VGAScreen_pitch : Int)
    (surface : SDL_Surface) (x y : Int) (sprite2s : Sprite2_array) (index : Nat) : Run :=
  match sheet_offset sprite2s.data index with
  | none => ⟨surface.pixels, 0, Exit.fault⟩
  | some start =>
    sprite2_loop store sprite2s.data (pixels_ul surface) VGAScreen_pitch
      (blit_sprite2_fuel sprite2s) start (pixels_start surface x y) surface.pixels

/-- `blit_sprite2_darken` of `sprite.c`. -/
def blit_sprite2_darken (VGAScreen_pitch : Int) (surface : SDL_Surface) (x y : Int)
    (sprite2s : Sprite2_array) (index : Nat) : Run :=
  sprite2_blit darken_store VGAScreen_pitch surface x y sprite2s index

/-- `blit_sprite2_filter` of `sprite.c`. -/
def blit_sprite2_filter (VGAScreen_pitch : Int) (surface : SDL_Surface) (x y : Int)
    (sprite2s : Sprite2_array) (index : Nat) (filter : Nat) : Run :=
  sprite2_blit (filter_store filter) VGAScreen_pitch surface x y sprite2s index

/-! ### Clipped compact blits -/

/-- The fill loop `do { ++data; if (x >= 0 && x < surface->pitch) pixel_row[x] = f(*data);
x += 1; } while (--fill_count);` for a non-zero `fill_count`; `i` is the index of `data`
after the increment, and `pixel_row[x]` is offset `y * pitch + x`. -/
def clip_run (f : Nat → Nat) (data : List Nat) (pitch : Nat) (y : Int) :
    Nat → Nat → Int → Mem → Mem × Bool
  | 0, _, _, m => (m, true)
  | c + 1, i, x, m =>
    if x ≥ 0 ∧ x < (pitch : Int) then
      match data[i]? with
      | none => (m, false)
      | some s => clip_run f data pitch y c (i + 1) (x + 1) (poke m (y * (pitch : Int) + x) (f s))
    else clip_run f data pitch y c (i + 1) (x + 1) m

/-- The decode loop of `blit_sprite2_clip` (`f` the identity) and of
`blit_sprite2_filter_clip` (`f s = filter | (s & 0x0f)`). -/
def clip_loop (f : Nat → Nat) (data : List Nat) (h pitch : Nat) :
    Nat → Nat → Int → Int → Mem → Run
  | 0, i, _, _, m => ⟨m, i, Exit.fuel⟩
  | fuel + 1, i, x, y, m =>
    match data[i]? with
    | none => ⟨m, i, Exit.fault⟩
    | some b =>
      if b = 0x0f then ⟨m, i, Exit.terminator⟩
      else if y ≥ (h : Int) then ⟨m, i, Exit.cutoff⟩
      else
        let x1 := x + ((b &&& 0x0f : Nat) : Int)
        let fill_count := (b >>> 4) &&& 0x0f
        if fill_count = 0 then clip_loop f data h pitch fuel (i + 1) (x1 - 12) (y + 1) m
        else if y ≥ 0 then
          let r := clip_run f data pitch y fill_count (i + 1) x1 m
          if r.2 then
            clip_loop f data h pitch fuel (i + fill_count + 1) (x1 + (fill_count : Int)) y r.1
          else ⟨r.1, i + 1, Exit.fault⟩
        else clip_loop f data h pitch fuel (i + fill_count + 1) (x1 + (fill_count : Int)) y m

/-- The body shared by the two clipped blits. -/
def clip_blit (f : Nat → Nat) (surface : SDL_Surface) (x y : Int) (sprite2s : Sprite2_array)
    (index : Nat) : Run :=
  match sheet_offset sprite2s.data index with
  | none => ⟨surface.pixels, 0, Exit.fault⟩
  | some start =>
    clip_loop f sprite2s.data surface.h surface.pitch (blit_sprite2_fuel sprite2s) start x y
      surface.pixels

/-- `blit_sprite2_clip` of `sprite.c`. -/
def blit_sprite2_clip (surface : SDL_Surface) (x y : Int) (sprite2s : Sprite2_array)
    (index : Nat) : Run :=
  clip_blit (fun s => s) surface x y sprite2s index

/-- `blit_sprite2_filter_clip` of `sprite.c`. -/
def blit_sprite2_filter_clip (surface : SDL_Surface) (x y : Int) (sprite2s : Sprite2_array)
    (index : Nat) (filter : Nat) : Run :=
  clip_blit (fun s => filter ||| (s &&& 0x0f)) surface x y sprite2s index

/-! ## Palette expansion (`scale_and_flip`) -/

/-- A `Uint32` array addressed by element index. -/
abbrev Buf32 := Nat → Nat

/-- Store of `lanes` consecutive 32-bit lanes `v 0 .. v (lanes-1)` at `dst[i ..]`
(`_mm512_storeu_si512`, `_mm256_storeu_si256`). -/
def store_lanes (lanes : Nat) (dst : Buf32) (i : Nat) (v : Nat → Nat) : Buf32 :=
  fun k => if i ≤ k ∧ k < i + lanes then v (k - i) else dst k

/-- Load of byte lanes at `src[i ..]`, zero-extended to 32 bits
(`_mm_loadu_si128` / `_mm_loadl_epi64` followed by `cvtepu8_epi32`). -/
def load_lanes (src : Nat → Nat) (i : Nat) : Nat → Nat := fun k => src (i + k)

/-- The gather `v[k] = pal[v[k]]` (`i32gather_epi32` with scale 4). -/
def gather (pal : Nat → Nat) (v : Nat → Nat) : Nat → Nat := fun k => pal (v k)

/-- One step of a vector tier handling `4 * lanes` pixels: four loads, four gathers,
four stores. -/
def vector_step (lanes : Nat) (src : Nat → Nat) (pal : Nat → Nat) (dst : Buf32) (i : Nat) : Buf32 :=
  let d0 := store_lanes lanes dst i (gather pal (load_lanes src i))
  let d1 := store_lanes lanes d0 (i + lanes) (gather pal (load_lanes src (i + lanes)))
  let d2 := store_lanes lanes d1 (i + 2 * lanes) (gather pal (load_lanes src (i + 2 * lanes)))
  store_lanes lanes d2 (i + 3 * lanes) (gather pal (load_lanes src (i + 3 * lanes)))

/-- The loop `for (; i <= count - 4*lanes; i += 4*lanes)` of a vector tier; returns the
final `i` and the buffer. -/
def vector_loop (lanes : Nat) (src : Nat → Nat) (pal : Nat → Nat) (count : Int) :
    Nat → Nat → Buf32 → Nat × Buf32
  | 0, i, dst => (i, dst)
  | fuel + 1, i, dst =>
    if (i : Int) ≤ count - (4 * lanes : Nat) then
      vector_loop lanes src pal count fuel (i + 4 * lanes) (vector_step lanes src pal dst i)
    else (i, dst)

/-- The scalar loop `for (; i < count; ++i) dst[i] = pal[src[i]];`. -/
def scalar_loop (src : Nat → Nat) (pal : Nat → Nat) (count : Int) :
    Nat → Nat → Buf32 → Buf32
  | 0, _, dst => dst
  | fuel + 1, i, dst =>
    if (i : Int) < count then
      scalar_loop src pal count fuel (i + 1) (fun k => if k = i then pal (src i) else dst k)
    else dst

/-- The expansion part of `scale_and_flip`: `avx512` stands for "compiled with
`__AVX512F__` and `SDL_HasAVX512F()`", `avx2` for "compiled with `__AVX2__` and
`SDL_HasAVX2()`"; `count` is `vga_width * vga_height`. -/
def scale_and_flip (avx512 avx2 : Bool) (src : Nat → Nat) (pal : Nat → Nat) (count : Int)
    (dst : Buf32) : Buf32 :=
  let s0 : Nat × Buf32 := (0, dst)
  let s1 := if avx512 then vector_loop 16 src pal count count.toNat s0.1 s0.2 else s0
  let s2 := if s1.1 = 0 ∧ avx2 then vector_loop 8 src pal count count.toNat s1.1 s1.2 else s1
  scalar_loop src pal count count.toNat s2.1 s2.2

/-! ## The index guard of the indexed-array blits and the stream bytes they read -/

/-- The guard `index >= sprite_table[table].count || !sprite_exists(table, index)` that opens
every indexed-array blit; when it holds the blit executes `assert(false); return;`.  The
`||` short-circuits: for `index >= count` the slot is not looked at. -/
def index_guard (table : Sprite_array) (index : Nat) : Bool :=
  decide (index ≥ table.count) || !sprite_exists table index

/-- An indexed-array blit in a build with assertions (`assertions = true`) or without them
(`NDEBUG`): `result` is the destination that the call leaves when assertions are compiled
out; `none` is the abort of `assert(false)`. -/
def with_assertions (assertions : Bool) (table : Sprite_array) (index : Nat) (result : Mem) :
    Option Mem :=
  if index_guard table index ∧ assertions then none else some result

/-- The indices of the stream bytes that `sprite_loop` reads, in order: the opcode under
`data` in every iteration and the count byte after a `255`. -/
def sprite_loop_reads (data : List Nat) (size width pitch : Nat) (ul : Int) :
    Nat → Nat → Int → Nat → List Nat
  | 0, _, _, _ => []
  | fuel + 1, i, p, xo =>
    if i < size then
      if byteAt data i = 255 then
        let n := byteAt data (i + 1)
        let c := row_wrap width pitch (p + (n : Int)) (xo + n)
        i :: (i + 1) :: sprite_loop_reads data size width pitch ul fuel (i + 2) c.1 c.2
      else if byteAt data i = 254 then
        let c := row_wrap width pitch (p + (subU32 width xo : Nat)) width
        i :: sprite_loop_reads data size width pitch ul fuel (i + 1) c.1 c.2
      else if byteAt data i = 253 then
        let c := row_wrap width pitch (p + 1) (xo + 1)
        i :: sprite_loop_reads data size width pitch ul fuel (i + 1) c.1 c.2
      else if p ≥ ul then [i]
      else
        let c := row_wrap width pitch (p + 1) (xo + 1)
        i :: sprite_loop_reads data size width pitch ul fuel (i + 1) c.1 c.2
    else []

/-- The indices read by the run-ahead loop of `blit_sprite`: the condition
`x_offset < width && data[1] < 253 && (data + 1) < data_ul` reads `data[1]` as soon as
`x_offset < width`, before the comparison with `data_ul`. -/
def run_ahead_reads (data : List Nat) (size width : Nat) : Nat → Nat → Nat → List Nat
  | 0, _, _ => []
  | fuel + 1, i, xo =>
    if xo < width then
      (i + 1) ::
        (if byteAt data (i + 1) < 253 ∧ i + 1 < size then
          run_ahead_reads data size width fuel (i + 1) (xo + 1)
        else [])
    else []

/-- The indices of the stream bytes that the decode loop of `blit_sprite` reads. -/
def blit_sprite_loop_reads (data : List Nat) (size width pitch : Nat) (ul : Int) :
    Nat → Nat → Int → Nat → List Nat
  | 0, _, _, _ => []
  | fuel + 1, i, p, xo =>
    if i < size then
      if byteAt data i = 255 then
        let n := byteAt data (i + 1)
        let c := row_wrap width pitch (p + (n : Int)) (xo + n)
        i :: (i + 1) :: blit_sprite_loop_reads data size width pitch ul fuel (i + 2) c.1 c.2
      else if byteAt data i = 254 then
        let c := row_wrap width pitch (p + (subU32 width xo : Nat)) width
        i :: blit_sprite_loop_reads data size width pitch ul fuel (i + 1) c.1 c.2
      else if byteAt data i = 253 then
        let c := row_wrap width pitch (p + 1) (xo + 1)
        i :: blit_sprite_loop_reads data size width pitch ul fuel (i + 1) c.1 c.2
      else if p ≥ ul then [i]
      else
        let r := run_ahead data size width ul size i (p + 1) (xo + 1) (fun _ => 0)
        let c := row_wrap width pitch r.2.1 r.2.2.1
        i :: (run_ahead_reads data size width size i (xo + 1) ++
          blit_sprite_loop_reads data size width pitch ul fuel (r.1 + 1) c.1 c.2)
    else []

/-- The stream bytes read by `blit_sprite`: none when the guard returns. -/
def blit_sprite_reads (surface : SDL_Surface) (x y : Int) (table : Sprite_array)
    (index : Nat) : List Nat :=
  if index ≥ table.count ∨ ¬ sprite_exists table index then []
  else
    let cur_sprite := sprite table index
    blit_sprite_loop_reads cur_sprite.bytes cur_sprite.size cur_sprite.width surface.pitch
      (pixels_ul surface) cur_sprite.size 0 (pixels_start surface x y) 0

/-- The stream bytes read by the five one-opcode-per-iteration variants. -/
def sprite_blit_reads (surface : SDL_Surface) (x y : Int) (table : Sprite_array)
    (index : Nat) : List Nat :=
  if index ≥ table.count ∨ ¬ sprite_exists table index then []
  else
    let cur_sprite := sprite table index
    sprite_loop_reads cur_sprite.bytes cur_sprite.size cur_sprite.width surface.pitch
      (pixels_ul surface) cur_sprite.size 0 (pixels_start surface x y) 0

/-! ## Loading and freeing indexed-array tables -/

/-- Modelled from the spec: `fread_u8_die(buffer, count, f)` of `file.h` (not among the
sources): the next `count` bytes of the byte source and the rest of the source; `none`
when fewer bytes remain (the load is aborted). -/
def fread_u8_die (count : Nat) (f : List Nat) : Option (List Nat × List Nat) :=
  if count ≤ f.length then some (f.take count, f.drop count) else none

/-- Modelled from the spec: `fread_u16_die(&v, 1, f)` of `file.h`: one little-endian
16-bit value. -/
def fread_u16_die (f : List Nat) : Option (Nat × List Nat) :=
  match f with
  | lo :: hi :: rest => some (lo + 256 * hi, rest)
  | _ => none

/-- Modelled from the spec: `fread_bool_die(&b, f)` of `file.h`: the one-byte "populated"
flag, set when the byte is not zero. -/
def fread_bool_die (f : List Nat) : Option (Bool × List Nat) :=
  match f with
  | b :: rest => some (b != 0, rest)
  | [] => none

/-- The table after an assignment to the fields of slot `index` (`*sprite(table, index) = s`);
a slot that the list does not reach is an empty one (see `sprite`). -/
def Sprite_array.store (table : Sprite_array) (index : Nat) (s : Sprite) : Sprite_array :=
  ⟨table.count,
    (table.sprite ++ List.replicate (index + 1 - table.sprite.length) Sprite.empty).set index s⟩

/-- The loop of `free_sprites`: width, height and size set to 0, the data freed and set
to `NULL`, for `i < count`. -/
def free_sprites_loop : Nat → Nat → Sprite_array → Sprite_array
  | 0, _, table => table
  | n + 1, i, table => free_sprites_loop n (i + 1) (table.store i Sprite.empty)

/-- `free_sprites` of `sprite.c`, on the table it is called for.  The slots are addressed
as in `sprite`; the size of the array is the concern of `load_sprites`, the only writer of
a non-zero `count`. -/
def free_sprites (table : Sprite_array) : Sprite_array :=
  ⟨0, (free_sprites_loop table.count 0 table).sprite⟩

/-- How `load_sprites` ends. -/
inductive Load where
  /-- The function returned: the table, and the bytes of the source not consumed. -/
  | loaded (table : Sprite_array) (rest : List Nat)
  /-- A `fread_*_die` found the source exhausted (fatal I/O error). -/
  | io_error
  /-- The assertion `count <= SPRITES_PER_TABLE_MAX` failed: the table and the source at
  that moment. -/
  | assert_failed (table : Sprite_array) (rest : List Nat)
  /-- The loop stored to `sprite[index]` with `index >= SPRITES_PER_TABLE_MAX`, outside
  the array of the table (undefined behaviour in C). -/
  | overrun (table : Sprite_array) (index : Nat)

deriving instance DecidableEq for Sprite

deriving instance DecidableEq for Sprite_array

deriving instance DecidableEq for Load

/-- The loop `for (i = 0; i < count; ++i)` of `load_sprites`; `n` is `count - i`.
`malloc0_null` says whether `malloc(0)` returns a null pointer, which C leaves to the
implementation. -/
def load_sprites_loop (malloc0_null : Bool) (SPRITES_PER_TABLE_MAX : Nat) :
    Nat → Nat → Sprite_array → List Nat → Load
  | 0, _, table, f => Load.loaded table f
  | n + 1, i, table, f =>
    match fread_bool_die f with
    | none => Load.io_error
    | some (false, f1) => load_sprites_loop malloc0_null SPRITES_PER_TABLE_MAX n (i + 1) table f1
    | some (true, f1) =>
      if i ≥ SPRITES_PER_TABLE_MAX then Load.overrun table i
      else
        match fread_u16_die f1 with
        | none => Load.io_error
        | some (width, f2) =>
          match fread_u16_die f2 with
          | none => Load.io_error
          | some (height, f3) =>
            match fread_u16_die f3 with
            | none => Load.io_error
            | some (size, f4) =>
              match fread_u8_die size f4 with
              | none => Load.io_error
              | some (bytes, f5) =>
                let data := if size = 0 ∧ malloc0_null then none else some bytes
                load_sprites_loop malloc0_null SPRITES_PER_TABLE_MAX n (i + 1)
                  (table.store i ⟨width, height, size, data⟩) f5

/-- `load_sprites` of `sprite.c` on the table it is called for and the byte source `f`.
`assertions` says whether `assert` is compiled in; `SPRITES_PER_TABLE_MAX` is the constant
of `sprite.h` (not among the sources).  The closing call of `JE_detectAVX512` sets
`g_hasAVX512` and does not touch the table. -/
def load_sprites (assertions malloc0_null : Bool) (SPRITES_PER_TABLE_MAX : Nat)
    (table : Sprite_array) (f : List Nat) : Load :=
  let table0 := free_sprites table
  match fread_u16_die f with
  | none => Load.io_error
  | some (temp, f1) =>
    let table1 : Sprite_array := ⟨temp, table0.sprite⟩
    if assertions ∧ temp > SPRITES_PER_TABLE_MAX then Load.assert_failed table1 f1
    else load_sprites_loop malloc0_null SPRITES_PER_TABLE_MAX temp 0 table1 f1

/-! ## High-resolution scalers (`video_scale_hires.c`, `video_scale_aa.c`) -/

/-- Byte memory of a locked texture, addressed by the byte offset from the pointer that
`SDL_LockTexture` returns; the offsets the scalers compute never decrease. -/
abbrev Tex := Nat → Nat

/-- Byte `k` of a 32-bit value. -/
def byte_of (v k : Nat) : Nat := (v / 256 ^ k) % 256

/-- The store `*(Uint32 *)(dst + p) = v` (little-endian, as on the x86 targets). -/
def store32 (m : Tex) (p v : Nat) : Tex :=
  fun q => if p ≤ q ∧ q < p + 4 then byte_of v (q - p) else m q

/-- The load `*(Uint32 *)(dst + p)`. -/
def load32 (m : Tex) (p : Nat) : Nat :=
  m p + 256 * m (p + 1) + 65536 * m (p + 2) + 16777216 * m (p + 3)

/-- `memcpy(dst + d, dst + s, n)` inside the texture: the bytes copied are those present
before the call (the regions of the one use do not overlap). -/
def memcpy_tex (m : Tex) (d s n : Nat) : Tex :=
  fun q => if d ≤ q ∧ q < d + n then m (s + (q - d)) else m q

/-- The innermost loop of `nn_hires`:
`for (int z = scale; z > 0; z--) { *(Uint32 *)dst = color; dst += dst_Bpp; }`;
returns `dst` and the memory. -/
def nn_fill (color : Nat) : Nat → Nat → Tex → Nat × Tex
  | 0, dst, m => (dst, m)
  | z + 1, dst, m => nn_fill color z (dst + 4) (store32 m dst color)

/-- The loop `for (int x = width; x > 0; x--)` of `nn_hires` over one source row;
`src` is the offset of the source pixel from `src_surface->pixels`. -/
def nn_row (rgb_palette : Nat → Nat) (src_pixels : Mem) (scale : Nat) :
    Nat → Nat → Nat → Tex → Nat × Tex
  | 0, _, dst, m => (dst, m)
  | x + 1, src, dst, m =>
    let r := nn_fill (rgb_palette (src_pixels (src : Int))) scale dst m
    nn_row rgb_palette src_pixels scale x (src + 1) r.1 r.2

/-- The loop `for (int z = scale; z > 1; z--) { memcpy(dst, dst_temp, dst_width * dst_Bpp);
dst += dst_pitch; }` of `nn_hires`; the first argument is the number of iterations. -/
def nn_copy (dst_temp dst_width dst_pitch : Nat) : Nat → Nat → Tex → Nat × Tex
  | 0, dst, m => (dst, m)
  | z + 1, dst, m =>
    nn_copy dst_temp dst_width dst_pitch z (dst + dst_pitch)
      (memcpy_tex m dst dst_temp (dst_width * 4))

/-- The loop `for (int y = height; y > 0; y--)` of `nn_hires`. -/
def nn_rows (rgb_palette : Nat → Nat) (src_pixels : Mem) (scale width src_pitch dst_width
    dst_pitch : Nat) : Nat → Nat → Nat → Tex → Tex
  | 0, _, _, m => m
  | y + 1, src, dst, m =>
    let r := nn_row rgb_palette src_pixels scale width src dst m
    let c := nn_copy dst dst_width dst_pitch (scale - 1) (dst + dst_pitch) r.2
    nn_rows rgb_palette src_pixels scale width src_pitch dst_width dst_pitch y (src + src_pitch)
      c.1 c.2

/-- `nn_hires` of `video_scale_hires.c`: the texture memory after the call.  `vga_width`
and `vga_height` are the logical size, `dst_width` is the width that `SDL_QueryTexture`
reports and `dst_pitch` the pitch that `SDL_LockTexture` reports. -/
def nn_hires (rgb_palette : Nat → Nat) (vga_width vga_height : Nat) (src_surface : SDL_Surface)
    (dst : Tex) (dst_width dst_pitch scale : Nat) : Tex :=
  nn_rows rgb_palette src_surface.pixels scale vga_width src_surface.pitch dst_width dst_pitch
    vga_height 0 0 dst

/-- The first pass of `hires_scale_aa` of `video_scale_aa.c`: every output pixel of every
block is computed and stored. -/
def hires_scale_aa_first_pass (rgb_palette : Nat → Nat) (vga_width vga_height : Nat)
    (src_surface : SDL_Surface) (dst : Tex) (dst_pitch scale : Nat) : Tex :=
  (List.range vga_height).foldl (fun m y =>
    (List.range vga_width).foldl (fun m x =>
      let color := rgb_palette (src_surface.pixels ((y * src_surface.pitch + x : Nat) : Int))
      (List.range scale).foldl (fun m dy =>
        (List.range scale).foldl (fun m dx =>
          let dst_x := x * scale + dx
          let dst_y := y * scale + dy
          store32 m (dst_y * dst_pitch + dst_x * 4) color) m) m) m) dst

/-! ### Colour channels -/

/-- `RED(c)`: `((c) >> 16) & 0xFF`. -/
def RED (c : Nat) : Nat := (c >>> 16) &&& 0xFF

/-- `GREEN(c)`: `((c) >> 8) & 0xFF`. -/
def GREEN (c : Nat) : Nat := (c >>> 8) &&& 0xFF

/-- `BLUE(c)`: `(c) & 0xFF`. -/
def BLUE (c : Nat) : Nat := c &&& 0xFF

/-- Conversion of an `int` to `Uint32`. -/
def toU32 (v : Int) : Nat := (v % 2 ^ 32).toNat

/-- Conversion of an `unsigned int` result to `int` (two's complement). -/
def toS32 (v : Int) : Int := (v + 2 ^ 31) % 2 ^ 32 - 2 ^ 31

/-- `MAKE_RGB(r, g, b)`: `((r) << 16) | ((g) << 8) | (b)` on `int` operands, returned as a
`Uint32`; the shift of a non-negative operand is a multiplication. -/
def MAKE_RGB (r g b : Int) : Nat := toU32 (Int.lor (Int.lor (r * 65536) (g * 256)) b)

/-- `CLAMP(x)`: `(x) < 0 ? 0 : ((x) > 255 ? 255 : (x))`. -/
def CLAMP (x : Int) : Int := if x < 0 then 0 else if x > 255 then 255 else x

/-! ### Bilateral smoothing -/

/-- The luminance `(RED(c) * 299 + GREEN(c) * 587 + BLUE(c) * 114) / 1000` of
`enhanced_bilateral`. -/
def bilateral_lum (c : Nat) : Int := ((RED c * 299 + GREEN c * 587 + BLUE c * 114) / 1000 : Nat)

/-- The accumulators of `enhanced_bilateral`. -/
structure Sums where
  r_sum : Int
  g_sum : Int
  b_sum : Int
  weight_sum : Int

/-- The body of the loop `for (int i = 0; i < 8; i++)` of `enhanced_bilateral` for the
neighbour `n = neighbors[i]`.  The products with a channel are `unsigned int` products
converted to `int` by the assignment. -/
def bilateral_step (center_lum edge_threshold : Int) (s : Sums) (i : Nat) (n : Nat) : Sums :=
  let n_lum := bilateral_lum n
  let lum_diff : Int := ((n_lum - center_lum).natAbs : Int)
  if lum_diff < edge_threshold then
    let weight0 : Int := if i < 4 then 3 else 2
    let weight : Int := if lum_diff > Int.tdiv edge_threshold 2 then Int.tdiv weight0 2 else weight0
    ⟨toS32 (s.r_sum + (RED n : Int) * weight), toS32 (s.g_sum + (GREEN n : Int) * weight),
      toS32 (s.b_sum + (BLUE n : Int) * weight), s.weight_sum + weight⟩
  else s

/-- The accumulators of `enhanced_bilateral` after its loop. -/
def bilateral_sums (center : Nat) (neighbors : List Nat) (strength : Int) : Sums :=
  let center_lum := bilateral_lum center
  let edge_threshold := 20 + strength * 2
  (List.range 8).foldl
    (fun s i => bilateral_step center_lum edge_threshold s i (neighbors.getD i 0))
    ⟨toS32 ((RED center : Int) * strength), toS32 ((GREEN center : Int) * strength),
      toS32 ((BLUE center : Int) * strength), strength⟩

/-- `enhanced_bilateral` of `video_scale_hires.c`; the three quotients are `int` divisions.
The value is that of the C function where the C function has one: for `weight_sum != 0` (a
zero `weight_sum` is a division by zero in C and gives the quotient 0 here) and an
`edge_threshold` in the range of `int`.  Both hold for `1 <= strength` and
`255 * (strength + 20) < 2^31`, the range that the theorems about the scaler state. -/
def enhanced_bilateral (center : Nat) (neighbors : List Nat) (strength : Int) : Nat :=
  let s := bilateral_sums center neighbors strength
  MAKE_RGB (Int.tdiv s.r_sum s.weight_sum) (Int.tdiv s.g_sum s.weight_sum)
    (Int.tdiv s.b_sum s.weight_sum)

/-- The clamp of a neighbour coordinate in `hires_scale_smooth`:
`if (n < 0) n = 0; if (n >= limit) n = limit - 1;`. -/
def clamp_coord (n : Int) (limit : Nat) : Int :=
  let n1 := if n < 0 then 0 else n
  if n1 ≥ (limit : Int) then (limit : Int) - 1 else n1

/-- The coordinates `(nx, ny)` that `hires_scale_smooth` samples for the source pixel
`(x, y)`, in the order of its loops over `dy` and `dx` (the centre is skipped). -/
def smooth_samples (width height x y : Nat) : List (Int × Int) :=
  ([-1, 0, 1] : List Int).flatMap (fun dy =>
    ([-1, 0, 1] : List Int).filterMap (fun dx =>
      if dx = 0 ∧ dy = 0 then none
      else some (clamp_coord ((x : Int) + dx) width, clamp_coord ((y : Int) + dy) height)))

/-- The array `neighbors` of `hires_scale_smooth` for the source pixel `(x, y)`. -/
def smooth_neighbors (rgb_palette : Nat → Nat) (width height : Nat) (src_surface : SDL_Surface)
    (x y : Nat) : List Nat :=
  (smooth_samples width height x y).map
    (fun c => rgb_palette (src_surface.pixels (c.2 * (src_surface.pitch : Int) + c.1)))

/-- The colour `smoothed` of `hires_scale_smooth` for the source pixel `(x, y)`. -/
def smoothed (rgb_palette : Nat → Nat) (width height : Nat) (src_surface : SDL_Surface)
    (smooth_strength : Int) (x y : Nat) : Nat :=
  enhanced_bilateral (rgb_palette (src_surface.pixels ((y * src_surface.pitch + x : Nat) : Int)))
    (smooth_neighbors rgb_palette width height src_surface x y) smooth_strength

/-- `hires_scale_smooth` of `video_scale_hires.c`: the texture memory after the call. -/
def hires_scale_smooth (rgb_palette : Nat → Nat) (vga_width vga_height : Nat)
    (src_surface : SDL_Surface) (dst : Tex) (dst_pitch scale : Nat) (smooth_strength : Int) :
    Tex :=
  (List.range vga_height).foldl (fun m y =>
    (List.range vga_width).foldl (fun m x =>
      let color := smoothed rgb_palette vga_width vga_height src_surface smooth_strength x y
      let dst_pos := y * scale * dst_pitch + x * scale * 4
      (List.range scale).foldl (fun m dy =>
        (List.range scale).foldl (fun m dx =>
          store32 m (dst_pos + dy * dst_pitch + dx * 4) color) m) m) m) dst

/-! ### Anti-aliasing (`video_scale_aa.c`) -/

/-- The operations on `float` values that `video_scale_aa.c` uses.  The filter is embedded
over any arithmetic that provides them; a theorem that needs a law of the arithmetic names
it as a hypothesis. -/
structure FloatOps (F : Type) where
  /-- Conversion of an `unsigned int` value to `float`. -/
  ofNat : Nat → F
  /-- The literal `num / den` (`0.299f` is `lit 299 1000`). -/
  lit : Nat → Nat → F
  /-- Addition. -/
  add : F → F → F
  /-- Subtraction. -/
  sub : F → F → F
  /-- Multiplication. -/
  mul : F → F → F
  /-- Division. -/
  div : F → F → F
  /-- The comparison `a < b`. -/
  lt : F → F → Bool
  /-- The function `fminf`. -/
  fminf : F → F → F
  /-- The function `fmaxf`. -/
  fmaxf : F → F → F
  /-- The function `fabsf`. -/
  fabsf : F → F
  /-- The conversion `(int)`. -/
  toInt : F → Int

/-- Exact arithmetic on fractions `num / den` with a positive denominator: an arithmetic
in which no operation rounds and `(int)` truncates toward zero. -/
def exact_arith : FloatOps (Int × Nat) where
  ofNat := fun n => ((n : Int), 1)
  lit := fun n d => ((n : Int), d)
  add := fun a b => (a.1 * b.2 + b.1 * a.2, a.2 * b.2)
  sub := fun a b => (a.1 * b.2 - b.1 * a.2, a.2 * b.2)
  mul := fun a b => (a.1 * b.1, a.2 * b.2)
  div := fun a b => (a.1 * b.2 * Int.sign b.1, a.2 * b.1.natAbs)
  lt := fun a b => decide (a.1 * b.2 < b.1 * a.2)
  fminf := fun a b => if b.1 * a.2 < a.1 * b.2 then b else a
  fmaxf := fun a b => if a.1 * b.2 < b.1 * a.2 then b else a
  fabsf := fun a => ((a.1.natAbs : Int), a.2)
  toInt := fun a => Int.tdiv a.1 a.2

/-- `luminance` of `video_scale_aa.c`:
`(RED(color) * 0.299f + GREEN(color) * 0.587f + BLUE(color) * 0.114f) / 255.0f`. -/
def luminance {F : Type} (ops : FloatOps F) (color : Nat) : F :=
  ops.div
    (ops.add
      (ops.add (ops.mul (ops.ofNat (RED color)) (ops.lit 299 1000))
        (ops.mul (ops.ofNat (GREEN color)) (ops.lit 587 1000)))
      (ops.mul (ops.ofNat (BLUE color)) (ops.lit 114 1000)))
    (ops.lit 255 1)

/-- One channel of `lerp_color`: `(int)(a * (1.0f - t) + b * t)`. -/
def lerp_channel {F : Type} (ops : FloatOps F) (a b : Nat) (t : F) : Int :=
  ops.toInt (ops.add (ops.mul (ops.ofNat a) (ops.sub (ops.lit 1 1) t)) (ops.mul (ops.ofNat b) t))

/-- `lerp_color` of `video_scale_aa.c`. -/
def lerp_color {F : Type} (ops : FloatOps F) (a b : Nat) (t : F) : Nat :=
  MAKE_RGB (CLAMP (lerp_channel ops (RED a) (RED b) t))
    (CLAMP (lerp_channel ops (GREEN a) (GREEN b) t))
    (CLAMP (lerp_channel ops (BLUE a) (BLUE b) t))

/-- One channel of the 4-way blend of `fxaa_pixel`:
`r += (int)((RED(N) + RED(S) + RED(E) + RED(W) - 4 * r) * blend)`; the difference is taken
in `unsigned int`. -/
def blend4 {F : Type} (ops : FloatOps F) (c n s e w : Nat) (blend : F) : Int :=
  (c : Int) + ops.toInt (ops.mul (ops.ofNat (subU32 (n + s + e + w) (4 * c))) blend)

/-- `fxaa_pixel` of `video_scale_aa.c`. -/
def fxaa_pixel {F : Type} (ops : FloatOps F) (center N S E W NW NE SW SE : Nat) : Nat :=
  let lum_C := luminance ops center
  let lum_N := luminance ops N
  let lum_S := luminance ops S
  let lum_E := luminance ops E
  let lum_W := luminance ops W
  let lum_NW := luminance ops NW
  let lum_NE := luminance ops NE
  let lum_SW := luminance ops SW
  let lum_SE := luminance ops SE
  let lum_min := ops.fminf lum_C (ops.fminf (ops.fminf lum_N lum_S) (ops.fminf lum_E lum_W))
  let lum_max := ops.fmaxf lum_C (ops.fmaxf (ops.fmaxf lum_N lum_S) (ops.fmaxf lum_E lum_W))
  let contrast := ops.sub lum_max lum_min
  if ops.lt contrast (ops.lit 5 100) then center
  else
    let two_C := ops.mul (ops.lit 2 1) lum_C
    let edge_horz := ops.fabsf (ops.sub (ops.add lum_N lum_S) two_C)
    let edge_vert := ops.fabsf (ops.sub (ops.add lum_E lum_W) two_C)
    let edge_diag1 := ops.fabsf (ops.sub (ops.add lum_NW lum_SE) two_C)
    let edge_diag2 := ops.fabsf (ops.sub (ops.add lum_NE lum_SW) two_C)
    if ops.lt (ops.mul edge_vert (ops.lit 12 10)) edge_horz then
      let blend := ops.fminf (ops.mul contrast (ops.lit 5 10)) (ops.lit 5 10)
      lerp_color ops (lerp_color ops center N blend) (lerp_color ops center S blend)
        (ops.lit 5 10)
    else if ops.lt (ops.mul edge_horz (ops.lit 12 10)) edge_vert then
      let blend := ops.fminf (ops.mul contrast (ops.lit 5 10)) (ops.lit 5 10)
      lerp_color ops (lerp_color ops center E blend) (lerp_color ops center W blend)
        (ops.lit 5 10)
    else if ops.lt (ops.fmaxf edge_horz edge_vert) edge_diag1 then
      let blend := ops.fminf (ops.mul contrast (ops.lit 4 10)) (ops.lit 4 10)
      lerp_color ops (lerp_color ops center NW blend) (lerp_color ops center SE blend)
        (ops.lit 5 10)
    else if ops.lt (ops.fmaxf edge_horz edge_vert) edge_diag2 then
      let blend := ops.fminf (ops.mul contrast (ops.lit 4 10)) (ops.lit 4 10)
      lerp_color ops (lerp_color ops center NE blend) (lerp_color ops center SW blend)
        (ops.lit 5 10)
    else
      let blend := ops.fminf (ops.mul contrast (ops.lit 25 100)) (ops.lit 25 100)
      MAKE_RGB (CLAMP (blend4 ops (RED center) (RED N) (RED S) (RED E) (RED W) blend))
        (CLAMP (blend4 ops (GREEN center) (GREEN N) (GREEN S) (GREEN E) (GREEN W) blend))
        (CLAMP (blend4 ops (BLUE center) (BLUE N) (BLUE S) (BLUE E) (BLUE W) blend))

/-- The copy loop of `apply_fxaa`:
`for (y = 0; y < height; y++) memcpy(fxaa_buffer + y * width, pixels + y * pitch_pixels,
width * sizeof(Uint32));` on arrays of `Uint32` addressed by element index. -/
def fxaa_snapshot (pixels : Mem) (width height : Nat) (pitch_pixels : Int) (fxaa_buffer : Mem) :
    Mem :=
  (List.range height).foldl (fun buf y =>
    fun k =>
      if ((y * width : Nat) : Int) ≤ k ∧ k < ((y * width + width : Nat) : Int) then
        pixels ((y : Int) * pitch_pixels + (k - ((y * width : Nat) : Int)))
      else buf k) fxaa_buffer

/-- The value that the inner loop body of `apply_fxaa` computes for the pixel `(x, y)` from
the copy `buf` of the frame: `fxaa_pixel(C, N, S, E, W, NW, NE, SW, SE)` with the nine
samples at `buf[(y + dy) * width + (x + dx)]`. -/
def fxaa_at {F : Type} (ops : FloatOps F) (buf : Mem) (width : Int) (x y : Int) : Nat :=
  fxaa_pixel ops (buf (y * width + x))
    (buf ((y - 1) * width + x))
    (buf ((y + 1) * width + x))
    (buf (y * width + (x + 1)))
    (buf (y * width + (x - 1)))
    (buf ((y - 1) * width + (x - 1)))
    (buf ((y - 1) * width + (x + 1)))
    (buf ((y + 1) * width + (x - 1)))
    (buf ((y + 1) * width + (x + 1)))

/-- `apply_fxaa` of `video_scale_aa.c`: the array `pixels` (of `Uint32`, addressed by
element index) after the call.  `realloc_ok` says that the persistent buffer is large
enough or that `realloc` succeeds; `fxaa_buffer` is what the buffer holds before the copy.
The loops are `for (y = 1; y < height - 1; y++)` and `for (x = 1; x < width - 1; x++)`. -/
def apply_fxaa {F : Type} (ops : FloatOps F) (realloc_ok : Bool) (fxaa_buffer : Mem)
    (pixels : Mem) (width height : Nat) (pitch_pixels : Int) : Mem :=
  if realloc_ok then
    let buf := fxaa_snapshot pixels width height pitch_pixels fxaa_buffer
    (List.range' 1 (height - 2)).foldl (fun m (y : Nat) =>
      (List.range' 1 (width - 2)).foldl (fun m (x : Nat) =>
        poke m ((y : Int) * pitch_pixels + (x : Int))
          (fxaa_at ops buf (width : Int) (x : Int) (y : Int))) m) pixels
  else pixels

/-! ## The main shape tables -/

/-- A `Sprite2_array` variable together with its pointer: `data` is `none` for `NULL`. -/
structure Sheet where
  data : Option (List Nat)
  size : Nat

deriving instance DecidableEq for Sheet

/-- `free_sprite2s` of `sprite.c`: the data freed and set to `NULL`, the size set to 0. -/
def free_sprite2s (_sprite2s : Sheet) : Sheet := ⟨none, 0⟩

/-- How a loader of the main shape tables ends. -/
inductive Step (α : Type) where
  /-- The function returned. -/
  | done (a : α)
  /-- A `fread_*_die` found the source exhausted (fatal I/O error). -/
  | io_error
  /-- An assertion failed. -/
  | assert_failed
  /-- A store outside an array (undefined behaviour in C). -/
  | fault

deriving instance DecidableEq for Step

/-- `JE_loadCompShapesB` of `sprite.c`: `assert(sprite2s->data == NULL)`, then the buffer
is allocated and `sprite2s->size` bytes are read into it.  Without assertions a pointer
that was not `NULL` is overwritten. -/
def JE_loadCompShapesB (assertions malloc0_null : Bool) (sprite2s : Sheet) (f : List Nat) :
    Step (Sheet × List Nat) :=
  if assertions ∧ sprite2s.data.isSome then Step.assert_failed
  else
    match fread_u8_die sprite2s.size f with
    | none => Step.io_error
    | some (bytes, rest) =>
      Step.done (⟨if sprite2s.size = 0 ∧ malloc0_null then none else some bytes, sprite2s.size⟩, rest)

/-- The global sprite tables and the compact sheets that `JE_loadMainShapeTables` fills. -/
structure Shapes where
  sprite_table : List Sprite_array
  spriteSheet8 : Sheet
  spriteSheet9 : Sheet
  spriteSheet10 : Sheet
  spriteSheet11 : Sheet
  spriteSheet12 : Sheet
  spriteSheetT2000 : Sheet

deriving instance DecidableEq for Shapes

/-- `free_main_shape_tables` of `sprite.c`: `free_sprites(i)` for every table, then
`free_sprite2s` for `spriteSheet8`, `spriteSheet9`, `spriteSheet10`, `spriteSheet11` and
`spriteSheet12`. -/
def free_main_shape_tables (s : Shapes) : Shapes :=
  { sprite_table := s.sprite_table.map free_sprites
    spriteSheet8 := free_sprite2s s.spriteSheet8
    spriteSheet9 := free_sprite2s s.spriteSheet9
    spriteSheet10 := free_sprite2s s.spriteSheet10
    spriteSheet11 := free_sprite2s s.spriteSheet11
    spriteSheet12 := free_sprite2s s.spriteSheet12
    spriteSheetT2000 := s.spriteSheetT2000 }

/-- Modelled from the spec: `fread_s32_die(buffer, count, f)` of `file.h`: `count`
little-endian signed 32-bit values. -/
def fread_s32_die : Nat → List Nat → Option (List Int × List Nat)
  | 0, f => some ([], f)
  | count + 1, f =>
    match f with
    | b0 :: b1 :: b2 :: b3 :: rest =>
      match fread_s32_die count rest with
      | none => none
      | some (vs, rest2) =>
        some (toS32 ((b0 + 256 * b1 + 65536 * b2 + 16777216 * b3 : Nat) : Int) :: vs, rest2)
    | _ => none

/-- `fseek(f, pos, SEEK_SET)` on the file `file`: the bytes from `pos` on; a negative
position fails and leaves the stream `f` where it was. -/
def fseek_set (file f : List Nat) (pos : Int) : List Nat :=
  if pos < 0 then f else file.drop pos.toNat

/-- The loop `for (i = 0; i < 7; i++) { fseek(f, shpPos[i], SEEK_SET); load_sprites(i, f); }`
of `JE_loadMainShapeTables`; `n` is `7 - i`. -/
def load_tables (assertions malloc0_null : Bool) (SPRITES_PER_TABLE_MAX : Nat) (file : List Nat)
    (shpPos : Nat → Int) : Nat → Nat → List Sprite_array → List Nat →
    Step (List Sprite_array × List Nat)
  | 0, _, tables, f => Step.done (tables, f)
  | n + 1, i, tables, f =>
    match load_sprites assertions malloc0_null SPRITES_PER_TABLE_MAX (tables.getD i ⟨0, []⟩)
        (fseek_set file f (shpPos i)) with
    | Load.loaded table rest =>
      load_tables assertions malloc0_null SPRITES_PER_TABLE_MAX file shpPos n (i + 1)
        (tables.set i table) rest
    | Load.io_error => Step.io_error
    | Load.assert_failed _ _ => Step.assert_failed
    | Load.overrun _ _ => Step.fault

/-- One of the six steps `sheet.size = shpPos[i + 1] - shpPos[i];
JE_loadCompShapesB(&sheet, f);` of `JE_loadMainShapeTables`. -/
def load_sheet (assertions malloc0_null : Bool) (shpPos : Nat → Int) (i : Nat) (sheet : Sheet)
    (f : List Nat) : Step (Sheet × List Nat) :=
  JE_loadCompShapesB assertions malloc0_null ⟨sheet.data, toU32 (shpPos (i + 1) - shpPos i)⟩ f

/-- `JE_loadMainShapeTables` of `sprite.c` on the bytes `file` of the shape file.
`shpPos` has 14 entries; a `shpNumb` above 14 stores outside it. -/
def JE_loadMainShapeTables (assertions malloc0_null : Bool) (SPRITES_PER_TABLE_MAX : Nat)
    (s : Shapes) (file : List Nat) : Step Shapes :=
  match fread_u16_die file with
  | none => Step.io_error
  | some (shpNumb, f1) =>
    if assertions ∧ shpNumb + 1 ≠ 14 then Step.assert_failed
    else if shpNumb > 14 then Step.fault
    else
      match fread_s32_die shpNumb f1 with
      | none => Step.io_error
      | some (pos, f2) =>
        let shpPos : Nat → Int := fun i => if i < shpNumb then pos.getD i 0 else (file.length : Int)
        match load_tables assertions malloc0_null SPRITES_PER_TABLE_MAX file shpPos 7 0
            s.sprite_table f2 with
        | Step.done (tables, f3) =>
          match load_sheet assertions malloc0_null shpPos 7 s.spriteSheet8 f3 with
          | Step.done (sheet8, f4) =>
            match load_sheet assertions malloc0_null shpPos 8 s.spriteSheet9 f4 with
            | Step.done (sheet9, f5) =>
              match load_sheet assertions malloc0_null shpPos 9 s.spriteSheet10 f5 with
              | Step.done (sheet10, f6) =>
                match load_sheet assertions malloc0_null shpPos 10 s.spriteSheet11 f6 with
                | Step.done (sheet11, f7) =>
                  match load_sheet assertions malloc0_null shpPos 11 s.spriteSheet12 f7 with
                  | Step.done (sheet12, f8) =>
                    match load_sheet assertions malloc0_null shpPos 12 s.spriteSheetT2000 f8 with
                    | Step.done (sheetT2000, _) =>
                      Step.done ⟨tables, sheet8, sheet9, sheet10, sheet11, sheet12, sheetT2000⟩
                    | Step.io_error => Step.io_error
                    | Step.assert_failed => Step.assert_failed
                    | Step.fault => Step.fault
                  | Step.io_error => Step.io_error
                  | Step.assert_failed => Step.assert_failed
                  | Step.fault => Step.fault
                | Step.io_error => Step.io_error
                | Step.assert_failed => Step.assert_failed
                | Step.fault => Step.fault
              | Step.io_error => Step.io_error
              | Step.assert_failed => Step.assert_failed
              | Step.fault => Step.fault
            | Step.io_error => Step.io_error
            | Step.assert_failed => Step.assert_failed
            | Step.fault => Step.fault
          | Step.io_error => Step.io_error
          | Step.assert_failed => Step.assert_failed
          | Step.fault => Step.fault
        | Step.io_error => Step.io_error
        | Step.assert_failed => Step.assert_failed
        | Step.fault => Step.fault

/-! ## Specification-side definitions -/

/-- The alpha-blend rule in the words of the spec:
`dst = (s & 0xF0) | (((d & 0x0F) + (s & 0x0F)) / 2)`. -/
def alpha_blend (s d : Nat) : Nat := (s &&& 0xF0) ||| (((d &&& 0x0F) + (s &&& 0x0F)) / 2)

/-- `Stores ok m m1`: memory `m1` is obtained from `m` by a finite sequence of single-byte
stores, each of a value `v` at an offset `p` over the byte `d` then present, with `ok p d v`. -/
inductive Stores (ok : Int → Nat → Nat → Prop) : Mem → Mem → Prop where
  | refl (m : Mem) : Stores ok m m
  | step {m m1 : Mem} (p : Int) (v : Nat) :
      Stores ok m m1 → ok p (m1 p) v → Stores ok m (poke m1 p v)

/-- The stores a blit may perform: inside `[0, ul)`, of `rule s d` for a byte `s` of the
stream over the byte `d` present at the offset. -/
def blit_store (rule : Nat → Nat → Nat) (data : List Nat) (ul : Int) (p : Int) (d v : Nat) : Prop :=
  0 ≤ p ∧ p < ul ∧ ∃ i, v = rule (byteAt data i) d

/-- Row wrap of the indexed grammar in the words of the spec: "when accumulated horizontal
offset reaches width, the cursor wraps to the next row". -/
def cell_wrap (width r c : Nat) : Nat × Nat := if c ≥ width then (r + 1, 0) else (r, c)

/-- The indexed-array grammar in the words of the spec: `255` skips `N` pixels (`N` the
following byte), `254` advances to the next row, `253` skips one pixel, any other byte is an
opaque pixel; a row ends at `width`.  The result lists the opaque pixels in stream order as
`(row, column, value)`, starting from stream index `i` at `(r, c)`. -/
def sprite_cells (data : List Nat) (size width : Nat) :
    Nat → Nat → Nat → Nat → List (Nat × Nat × Nat)
  | 0, _, _, _ => []
  | fuel + 1, i, r, c =>
    if i < size then
      if byteAt data i = 255 then
        let n := cell_wrap width r (c + byteAt data (i + 1))
        sprite_cells data size width fuel (i + 2) n.1 n.2
      else if byteAt data i = 254 then
        sprite_cells data size width fuel (i + 1) (r + 1) 0
      else if byteAt data i = 253 then
        let n := cell_wrap width r (c + 1)
        sprite_cells data size width fuel (i + 1) n.1 n.2
      else
        let n := cell_wrap width r (c + 1)
        (r, c, byteAt data i) :: sprite_cells data size width fuel (i + 1) n.1 n.2
    else []

/-- Number of rows a list of pixels spans: one more than the largest row index, `0` for no
pixel. -/
def rows_spanned {α : Type} (cells : List (Nat × α)) : Nat :=
  cells.foldr (fun c acc => max (c.1 + 1) acc) 0

/-- The compact grammar in the words of the spec: the low nibble of a control byte is the
transparent skip, the high nibble the run length, followed by that many literal bytes; run
length 0 advances to the next row (rows are 12 columns wide); `0x0F` ends the stream.  The
result is the index of the first control byte equal to `0x0F` met from index `i`. -/
def first_terminator (data : List Nat) : Nat → Nat → Option Nat
  | 0, _ => none
  | fuel + 1, i =>
    match data[i]? with
    | none => none
    | some b =>
      if b = 0x0f then some i
      else first_terminator data fuel (i + 1 + b / 16 % 16)

/-- The literal pixels of a compact stream in stream order, as `(row, column, value)`, walking
the grammar from control index `i` at `(r, c)`; the column of a pixel counts the skips and
pixels before it in its row, and a row advance subtracts the row width 12 from it. -/
def compact_cells (data : List Nat) : Nat → Nat → Nat → Int → List (Nat × Int × Nat)
  | 0, _, _, _ => []
  | fuel + 1, i, r, c =>
    match data[i]? with
    | none => []
    | some b =>
      if b = 0x0f then []
      else if b / 16 % 16 = 0 then
        compact_cells data fuel (i + 1) (r + 1) (c + ((b % 16 : Nat) : Int) - 12)
      else
        (List.range (b / 16 % 16)).map
            (fun k : Nat => (r, c + ((b % 16 : Nat) : Int) + (k : Int), byteAt data (i + 1 + k)))
          ++ compact_cells data fuel (i + 1 + b / 16 % 16) r
              (c + ((b % 16 : Nat) : Int) + ((b / 16 % 16 : Nat) : Int))

/-- Clip by coordinates: the pixels (in order) are stored, through `g`, at
`(y + row) * pitch + (x + column)` when `0 <= x + column < width` and `0 <= y + row < h`,
and dropped otherwise. -/
def paint_clipped (g : Nat → Nat) (h width pitch : Nat) (x y : Int) (m : Mem)
    (cells : List (Nat × Int × Nat)) : Mem :=
  cells.foldl
    (fun acc c =>
      if 0 ≤ x + c.2.1 ∧ x + c.2.1 < (width : Int) ∧ 0 ≤ y + (c.1 : Int) ∧ y + (c.1 : Int) < (h : Int)
      then poke acc ((y + (c.1 : Int)) * (pitch : Int) + (x + c.2.1)) (g c.2.2) else acc)
    m

/-- The darken rule in the words of the spec: `dst = (d & 0xF0) | ((d & 0x0F) / 2)`. -/
def darken_pixel (d : Nat) : Nat := (d &&& 0xF0) ||| ((d &&& 0x0F) / 2)

/-- A slot record of the table file in the words of the spec:
`{bool populated; if populated: u16 width, u16 height, u16 size, byte[size] data}`;
`populated` is the flag byte, and the size is the length of `data`. -/
structure SlotRecord where
  populated : Nat
  width : Nat
  height : Nat
  data : List Nat

/-- The two bytes of a little-endian 16-bit value. -/
def u16_bytes (v : Nat) : List Nat := [v % 256, v / 256]

/-- The bytes of one slot record. -/
def SlotRecord.encode (r : SlotRecord) : List Nat :=
  if r.populated = 0 then [0]
  else r.populated :: (u16_bytes r.width ++ u16_bytes r.height ++ u16_bytes r.data.length
    ++ r.data)

/-- The bytes of a sequence of slot records. -/
def encode_slots : List SlotRecord → List Nat
  | [] => []
  | r :: rs => r.encode ++ encode_slots rs

/-- The table file of the spec: `u16 count`, then the slot records. -/
def table_file (records : List SlotRecord) : List Nat :=
  u16_bytes records.length ++ encode_slots records

/-- The table invariant of the spec: every slot at `index >= count` is empty. -/
def table_inv (table : Sprite_array) : Prop :=
  ∀ i, table.count ≤ i → sprite table i = Sprite.empty

/-- The output of a block scaler in the words of the spec, byte by byte: `m1` is `m` in
which the bytes selected by `P` (row `q / pitch`, byte `q % pitch` of the row) hold the
colour `col x y` of the source pixel whose `scale x scale` block they lie in, and the
other bytes are unchanged. -/
def Painted (pitch scale : Nat) (col : Nat → Nat → Nat) (P : Nat → Nat → Prop) (m m1 : Tex) :
    Prop :=
  ∀ q, (P (q / pitch) (q % pitch) →
      m1 q = byte_of (col (q % pitch / 4 / scale) (q / pitch / scale)) (q % pitch % 4)) ∧
    (¬ P (q / pitch) (q % pitch) → m1 q = m q)

/-- A block scaler in the words of the spec: for every source pixel `(x, y)` the colour
`col x y` is stored to each of the `scale x scale` output pixels
`(x * scale + dx, y * scale + dy)`, at byte offset `dst_y * dst_pitch + dst_x * 4`. -/
def block_scaler (col : Nat → Nat → Nat) (width height : Nat) (dst : Tex)
    (dst_pitch scale : Nat) : Tex :=
  (List.range height).foldl (fun m y =>
    (List.range width).foldl (fun m x =>
      (List.range scale).foldl (fun m dy =>
        (List.range scale).foldl (fun m dx =>
          store32 m ((y * scale + dy) * dst_pitch + (x * scale + dx) * 4) (col x y)) m) m) m) dst

/-- The sprite of the end-to-end scenario: stream `01 254 03 255 01`, width 2. -/
def scenarioSprite : Sprite := ⟨2, 2, 5, some [1, 254, 3, 255, 1]⟩

/-- A table holding only the scenario sprite. -/
def scenarioTable : Sprite_array := ⟨1, [scenarioSprite]⟩

/-- The zeroed 20x20 indexed surface. -/
def scenarioSurface : SDL_Surface := ⟨20, 20, 20, fun _ => 0⟩

/-- A sheet with one sprite: a single run of four literals `1E 2E 3E 4E`. -/
def straddleSheet : Sprite2_array := ⟨8, [2, 0, 0x40, 0x1E, 0x2E, 0x3E, 0x4E, 0x0F]⟩

/-- A sheet with one sprite of two rows: a full row of twelve literals `1 .. 12`, a row
advance, and the single literal `99` at column 0 of the second row. -/
def twoRowSheet : Sprite2_array :=
  ⟨19, [2, 0, 0xC0, 1, 2, 3, 4, 5, 6, 7, 8, 9, 10, 11, 12, 0x00, 0x10, 99, 0x0F]⟩

/-- A zeroed destination surface 24 pixels wide with pitch 24 and 20 rows, narrower than the
320-byte pitch of the screen surface. -/
def narrowSurface : SDL_Surface := ⟨24, 20, 24, fun _ => 0⟩

/-- A shape file with 13 positions, seven empty sprite tables (count 0) at the offsets
54, 56, ..., 66 and six sheets of one byte each (`0x0f`) at the offsets 68 .. 73. -/
def demoShapeFile : List Nat :=
  [13, 0] ++
  [54, 0, 0, 0, 56, 0, 0, 0, 58, 0, 0, 0, 60, 0, 0, 0, 62, 0, 0, 0, 64, 0, 0, 0,
   66, 0, 0, 0, 68, 0, 0, 0, 69, 0, 0, 0, 70, 0, 0, 0, 71, 0, 0, 0, 72, 0, 0, 0,
   73, 0, 0, 0] ++
  [0, 0, 0, 0, 0, 0, 0, 0, 0, 0, 0, 0, 0, 0] ++
  [0x0f, 0x0f, 0x0f, 0x0f, 0x0f, 0x0f]

/-- The tables and sheets before anything is loaded: seven tables of count 0 and six
sheets with a `NULL` pointer and size 0. -/
def emptyShapes : Shapes :=
  ⟨List.replicate 7 ⟨0, []⟩, ⟨none, 0⟩, ⟨none, 0⟩, ⟨none, 0⟩, ⟨none, 0⟩, ⟨none, 0⟩, ⟨none, 0⟩⟩

/-! # Theorems -/

/-! ## Palette expansion -/

/-- A gathered store of `lanes` lanes, as a function of the element index. -/
theorem store_lanes_eq (lanes : Nat) (src pal : Nat → Nat) (dst : Buf32) (i : Nat) :
    store_lanes lanes dst i (gather pal (load_lanes src i))
      = fun k => if i ≤ k ∧ k < i + lanes then pal (src k) else dst k := by
  funext k
  unfold store_lanes gather load_lanes
  by_cases h : i ≤ k ∧ k < i + lanes
  · simp only [h, and_self, if_true]
    have : i + (k - i) = k := by omega
    rw [this]
  · simp only [h, if_false]

theorem vector_step_eq (lanes : Nat) (src pal : Nat → Nat) (dst : Buf32) (i : Nat) :
    vector_step lanes src pal dst i
      = fun k => if i ≤ k ∧ k < i + 4 * lanes then pal (src k) else dst k := by
  unfold vector_step
  simp only [store_lanes_eq]
  funext k
  split_ifs <;> first | rfl | (exfalso; omega)

theorem vector_loop_spec (lanes : Nat) (src pal : Nat → Nat) (n : Nat) :
    ∀ (fuel i : Nat) (dst : Buf32), i ≤ n →
      i ≤ (vector_loop lanes src pal (n : Int) fuel i dst).1 ∧
      (vector_loop lanes src pal (n : Int) fuel i dst).1 ≤ n ∧
      (vector_loop lanes src pal (n : Int) fuel i dst).2
        = fun k => if i ≤ k ∧ k < (vector_loop lanes src pal (n : Int) fuel i dst).1
                   then pal (src k) else dst k := by
  intro fuel
  induction fuel with
  | zero =>
    intro i dst h
    refine ⟨Nat.le_refl _, h, ?_⟩
    funext k
    simp only [vector_loop]
    have : ¬ (i ≤ k ∧ k < i) := by omega
    simp only [this, if_false]
  | succ f ih =>
    intro i dst h
    unfold vector_loop
    by_cases hc : (i : Int) ≤ (n : Int) - ((4 * lanes : Nat) : Int)
    · simp only [hc, if_true]
      have hle : i + 4 * lanes ≤ n := by omega
      obtain ⟨h1, h2, h3⟩ := ih (i + 4 * lanes) (vector_step lanes src pal dst i) hle
      refine ⟨by omega, h2, ?_⟩
      rw [h3, vector_step_eq]
      funext k
      by_cases a : i + 4 * lanes ≤ k ∧ k < (vector_loop lanes src pal (n : Int) f (i + 4 * lanes)
          (vector_step lanes src pal dst i)).1
      · have b : i ≤ k ∧ k < (vector_loop lanes src pal (n : Int) f (i + 4 * lanes)
            (vector_step lanes src pal dst i)).1 := ⟨by omega, a.2⟩
        simp only [vector_step_eq] at a b ⊢
        simp only [a, b, and_self, if_true]
      · simp only [vector_step_eq] at a h1 ⊢
        simp only [a, if_false]
        by_cases c : i ≤ k ∧ k < i + 4 * lanes
        · have b : i ≤ k ∧ k < (vector_loop lanes src pal (n : Int) f (i + 4 * lanes)
              (fun k => if i ≤ k ∧ k < i + 4 * lanes then pal (src k) else dst k)).1 :=
            ⟨c.1, by omega⟩
          simp only [c, b, and_self, if_true]
        · have b : ¬ (i ≤ k ∧ k < (vector_loop lanes src pal (n : Int) f (i + 4 * lanes)
              (fun k => if i ≤ k ∧ k < i + 4 * lanes then pal (src k) else dst k)).1) := by
            intro hb
            apply a
            exact ⟨by omega, hb.2⟩
          simp only [c, b, if_false]
    · simp only [hc, if_false]
      refine ⟨Nat.le_refl _, h, ?_⟩
      funext k
      have : ¬ (i ≤ k ∧ k < i) := by omega
      simp only [this, if_false]

theorem scalar_loop_spec (src pal : Nat → Nat) (n : Nat) :
    ∀ (fuel i : Nat) (dst : Buf32), n ≤ i + fuel →
      scalar_loop src pal (n : Int) fuel i dst
        = fun k => if i ≤ k ∧ k < n then pal (src k) else dst k := by
  intro fuel
  induction fuel with
  | zero =>
    intro i dst h
    funext k
    simp only [scalar_loop]
    have : ¬ (i ≤ k ∧ k < n) := by omega
    simp only [this, if_false]
  | succ f ih =>
    intro i dst h
    unfold scalar_loop
    by_cases hc : (i : Int) < (n : Int)
    · simp only [hc, if_true]
      rw [ih (i + 1) _ (by omega)]
      funext k
      by_cases a : i + 1 ≤ k ∧ k < n
      · have b : i ≤ k ∧ k < n := ⟨by omega, a.2⟩
        simp only [a, b, and_self, if_true]
      · simp only [a, if_false]
        by_cases c : k = i
        · have b : i ≤ k ∧ k < n := ⟨by omega, by omega⟩
          simp only [c, b, and_self, if_true] at *
          simp only [b, and_self, if_true]
        · have b : ¬ (i ≤ k ∧ k < n) := by omega
          simp only [c, b, if_false]
    · simp only [hc, if_false]
      funext k
      have : ¬ (i ≤ k ∧ k < n) := by omega
      simp only [this, if_false]

/-- Closed form of the expansion loop, and its agreement with the scalar loop. -/
theorem scale_and_flip_spec (avx512 avx2 : Bool) (src pal : Nat → Nat) (n : Nat)
    (dst : Buf32) :
    scale_and_flip avx512 avx2 src pal (n : Int) dst
        = (fun k => if k < n then pal (src k) else dst k) ∧
    scale_and_flip avx512 avx2 src pal (n : Int) dst
        = scalar_loop src pal (n : Int) n 0 dst := by
  have key : ∀ (s : Nat × Buf32), s.1 ≤ n →
      s.2 = (fun k => if k < s.1 then pal (src k) else dst k) →
      scalar_loop src pal (n : Int) n s.1 s.2 = fun k => if k < n then pal (src k) else dst k := by
    intro s h1 h2
    rw [scalar_loop_spec src pal n n s.1 s.2 (by omega), h2]
    funext k
    by_cases a : s.1 ≤ k ∧ k < n
    · have : k < n := a.2
      simp only [a, this, and_self, if_true]
    · simp only [a, if_false]
      by_cases b : k < s.1
      · have : k < n := by omega
        simp only [b, this, if_true]
      · have : ¬ k < n := by omega
        simp only [b, this, if_false]
  have step : ∀ (lanes : Nat) (s : Nat × Buf32), s.1 ≤ n →
      s.2 = (fun k => if k < s.1 then pal (src k) else dst k) → s.1 = 0 →
      (vector_loop lanes src pal (n : Int) n s.1 s.2).1 ≤ n ∧
      (vector_loop lanes src pal (n : Int) n s.1 s.2).2
        = (fun k => if k < (vector_loop lanes src pal (n : Int) n s.1 s.2).1
                    then pal (src k) else dst k) := by
    intro lanes s h1 h2 h0
    obtain ⟨a, b, c⟩ := vector_loop_spec lanes src pal n n s.1 s.2 h1
    refine ⟨b, ?_⟩
    rw [c, h2]
    funext k
    simp only [h0, Nat.zero_le, true_and, Nat.not_lt_zero, if_false]
  have base : ((0, dst) : Nat × Buf32).2
      = (fun k => if k < ((0, dst) : Nat × Buf32).1 then pal (src k) else dst k) := by
    funext k
    simp only [Nat.not_lt_zero, if_false]
  have main : scale_and_flip avx512 avx2 src pal (n : Int) dst
      = (fun k => if k < n then pal (src k) else dst k) := by
    unfold scale_and_flip
    simp only [Int.toNat_ofNat]
    cases avx512 <;> cases avx2
    · simpa using key (0, dst) (Nat.zero_le _) base
    · simp only [if_false, Bool.false_eq_true, and_true, if_true]
      obtain ⟨a, b⟩ := step 8 (0, dst) (Nat.zero_le _) base rfl
      exact key _ a b
    · simp only [if_true, Bool.false_eq_true, and_false, if_false]
      obtain ⟨a, b⟩ := step 16 (0, dst) (Nat.zero_le _) base rfl
      exact key _ a b
    · simp only [if_true, and_true]
      obtain ⟨a, b⟩ := step 16 (0, dst) (Nat.zero_le _) base rfl
      by_cases hz : (vector_loop 16 src pal (n : Int) n 0 dst).1 = 0
      · simp only [hz, if_true]
        have hz2 : (vector_loop 16 src pal (n : Int) n 0 dst).2 = dst := by
          rw [b]
          funext k
          simp only [hz, Nat.not_lt_zero, if_false]
        rw [hz2]
        obtain ⟨a2, b2⟩ := step 8 (0, dst) (Nat.zero_le _) base rfl
        exact key _ a2 b2
      · simp only [hz, if_false]
        exact key _ a b
  refine ⟨main, ?_⟩
  rw [main, scalar_loop_spec src pal n n 0 dst (by omega)]
  funext k
  simp only [Nat.zero_le, true_and]

/-- C2: whatever the capability flags, the expansion loop of `scale_and_flip` on `n` pixels
stores `pal (src k)` at every `k < n`, leaves every element at index `>= n` as it was, and so
produces the same buffer as the scalar loop alone. -/
theorem scale_and_flip_tier_invariant (avx512 avx2 : Bool) (src pal : Nat → Nat) (n : Nat)
    (dst : Buf32) :
    scale_and_flip avx512 avx2 src pal (n : Int) dst
        = (fun k => if k < n then pal (src k) else dst k) ∧
    scale_and_flip avx512 avx2 src pal (n : Int) dst
        = scalar_loop src pal (n : Int) n 0 dst ∧
    scale_and_flip avx512 avx2 src pal (n : Int) dst
        = scale_and_flip false false src pal (n : Int) dst := by
  refine ⟨(scale_and_flip_spec avx512 avx2 src pal n dst).1,
    (scale_and_flip_spec avx512 avx2 src pal n dst).2, ?_⟩
  rw [(scale_and_flip_spec avx512 avx2 src pal n dst).1,
    (scale_and_flip_spec false false src pal n dst).1]

/-! ## The end-to-end scenario -/

theorem scenario_blit :
    blit_sprite scenarioSurface 10 10 scenarioTable 0
      = poke (poke (fun _ => 0) (10 * 20 + 10) 1) (11 * 20 + 10) 3 := by
  rfl

/-- C1: blitting the stream `01 254 03 255 01` (width 2) at (10,10) onto the zeroed 20x20
surface leaves 1 at (10,10), 3 at (10,11) and 0 at every other offset; the palette expansion
of the 400 pixels then holds `pal 1` at (10,10), `pal 3` at (10,11) and `pal 0` elsewhere,
whatever the capability flags. -/
theorem scenario_end_to_end :
    (∀ o : Int, blit_sprite scenarioSurface 10 10 scenarioTable 0 o
        = if o = 10 * 20 + 10 then 1 else if o = 11 * 20 + 10 then 3 else 0) ∧
    (∀ (avx512 avx2 : Bool) (pal : Nat → Nat) (dst : Buf32) (k : Fin 400),
      scale_and_flip avx512 avx2
          (fun i => blit_sprite scenarioSurface 10 10 scenarioTable 0 (i : Int)) pal 400 dst k
        = if k.val = 10 * 20 + 10 then pal 1 else if k.val = 11 * 20 + 10 then pal 3
          else pal 0) := by
  have h : ∀ o : Int, blit_sprite scenarioSurface 10 10 scenarioTable 0 o
        = if o = 10 * 20 + 10 then 1 else if o = 11 * 20 + 10 then 3 else 0 := by
    intro o
    rw [scenario_blit]
    unfold poke
    split_ifs <;> first | rfl | (exfalso; omega)
  refine ⟨h, ?_⟩
  intro avx512 avx2 pal dst k
  have e := (scale_and_flip_spec avx512 avx2
    (fun i => blit_sprite scenarioSurface 10 10 scenarioTable 0 (i : Int)) pal 400 dst).1
  have e2 : ((400 : Nat) : Int) = 400 := rfl
  rw [e2] at e
  rw [e]
  have hk : k.val < 400 := k.isLt
  simp only [hk, if_true, h]
  split_ifs <;> first | rfl | (exfalso; omega)

/-! ## Sequences of stores -/

theorem Stores.trans {ok : Int → Nat → Nat → Prop} {m m1 m2 : Mem}
    (h1 : Stores ok m m1) (h2 : Stores ok m1 m2) : Stores ok m m2 := by
  induction h2 with
  | refl => exact h1
  | step p v _ hok ih => exact Stores.step p v ih hok

theorem Stores.single {ok : Int → Nat → Nat → Prop} (m : Mem) (p : Int) (v : Nat)
    (h : ok p (m p) v) : Stores ok m (poke m p v) :=
  Stores.step p v (Stores.refl m) h

theorem Stores.mono {ok ok2 : Int → Nat → Nat → Prop} (hk : ∀ p d v, ok p d v → ok2 p d v)
    {m m1 : Mem} (h : Stores ok m m1) : Stores ok2 m m1 := by
  induction h with
  | refl => exact Stores.refl _
  | step p v _ hok ih => exact Stores.step p v ih (hk _ _ _ hok)

/-- Stores that stay inside `[0, ul)` leave every byte outside that range as it was. -/
theorem Stores.frame {ok : Int → Nat → Nat → Prop} {ul : Int}
    (hk : ∀ p d v, ok p d v → 0 ≤ p ∧ p < ul) {m m1 : Mem} (h : Stores ok m m1) :
    ∀ o : Int, ¬ (0 ≤ o ∧ o < ul) → m1 o = m o := by
  induction h with
  | refl => intro o _; rfl
  | step p v _ hok ih =>
    intro o ho
    have hp := hk _ _ _ hok
    have hne : o ≠ p := by
      intro e
      subst e
      exact ho hp
    simp only [poke, hne, if_false]
    exact ih o ho

theorem byteAt_of_getElem? {data : List Nat} {i s : Nat} (h : data[i]? = some s) :
    byteAt data i = s := by
  simp [byteAt, List.getD, h]

/-! ## The indexed-array loops perform only rule stores inside the buffer -/

theorem sprite_loop_stores (rule : Nat → Nat → Nat) (data : List Nat) (size width pitch : Nat)
    (ul : Int) : ∀ (fuel i : Nat) (p : Int) (xo : Nat) (m : Mem),
      Stores (blit_store rule data ul) m (sprite_loop rule data size width pitch ul fuel i p xo m) := by
  intro fuel
  induction fuel with
  | zero => intro i p xo m; exact Stores.refl m
  | succ f ih =>
    intro i p xo m
    unfold sprite_loop
    split_ifs with h1 h2 h3 h4 h5 h6
    · exact ih _ _ _ _
    · exact ih _ _ _ _
    · exact ih _ _ _ _
    · exact Stores.refl m
    · refine Stores.trans (Stores.single m p _ ⟨h6, by omega, i, rfl⟩) ?_
      simp only [h6, if_true]
      exact ih _ _ _ _
    · simp only [h6, if_false]
      exact ih _ _ _ _
    · exact Stores.refl m

theorem run_ahead_stores (data : List Nat) (size width : Nat) (ul : Int) :
    ∀ (fuel i : Nat) (p : Int) (xo : Nat) (m : Mem),
      Stores (blit_store (fun s _ => s) data ul) m (run_ahead data size width ul fuel i p xo m).2.2.2 := by
  intro fuel
  induction fuel with
  | zero => intro i p xo m; exact Stores.refl m
  | succ f ih =>
    intro i p xo m
    unfold run_ahead
    split_ifs with h1 h2
    · exact Stores.trans (Stores.single m p _ ⟨h2.1, h2.2, i + 1, rfl⟩) (ih _ _ _ _)
    · exact ih _ _ _ _
    · exact Stores.refl m

theorem blit_sprite_loop_stores (data : List Nat) (size width pitch : Nat)
    (ul : Int) : ∀ (fuel i : Nat) (p : Int) (xo : Nat) (m : Mem),
      Stores (blit_store (fun s _ => s) data ul) m
        (blit_sprite_loop data size width pitch ul fuel i p xo m) := by
  intro fuel
  induction fuel with
  | zero => intro i p xo m; exact Stores.refl m
  | succ f ih =>
    intro i p xo m
    unfold blit_sprite_loop
    split_ifs with h1 h2 h3 h4 h5 h6
    · exact ih _ _ _ _
    · exact ih _ _ _ _
    · exact ih _ _ _ _
    · exact Stores.refl m
    · refine Stores.trans (Stores.single m p _ ⟨h6, by omega, i, rfl⟩) ?_
      simp only [h6, if_true]
      exact Stores.trans (run_ahead_stores _ _ _ _ _ _ _ _ _) (ih _ _ _ _)
    · simp only [h6, if_false]
      exact Stores.trans (run_ahead_stores _ _ _ _ _ _ _ _ _) (ih _ _ _ _)
    · exact Stores.refl m

/-! ## The compact loops perform only rule stores inside the buffer -/

theorem memcpy_stores (data : List Nat) (ul : Int) :
    ∀ (c i : Nat) (p : Int) (m : Mem), 0 ≤ p → p + (c : Int) ≤ ul →
      Stores (blit_store (fun s _ => s) data ul) m (memcpy data c i p m).1 := by
  intro c
  induction c with
  | zero => intro i p m _ _; exact Stores.refl m
  | succ c ih =>
    intro i p m h0 h1
    unfold memcpy
    cases hb : data[i]? with
    | none => exact Stores.refl m
    | some b =>
      simp only
      refine Stores.trans (Stores.single m p b ⟨h0, by omega, i, ?_⟩) (ih _ _ _ (by omega) (by omega))
      exact (byteAt_of_getElem? hb).symm

theorem copy_clipped_stores (data : List Nat) (ul : Int) :
    ∀ (c i : Nat) (p : Int) (m : Mem),
      Stores (blit_store (fun s _ => s) data ul) m (copy_clipped data ul c i p m).1 := by
  intro c
  induction c with
  | zero => intro i p m; exact Stores.refl m
  | succ c ih =>
    intro i p m
    unfold copy_clipped
    split_ifs with h
    · cases hb : data[i]? with
      | none => exact Stores.refl m
      | some b =>
        simp only
        refine Stores.trans (Stores.single m p b ⟨h.1, h.2, i, ?_⟩) (ih _ _ _)
        exact (byteAt_of_getElem? hb).symm
    · exact ih _ _ _

/-- The first `j` lanes of a masked store. -/
theorem mask_storeu_stores (ok : Int → Nat → Nat → Prop) (m : Mem) (p : Int) (mask : Nat)
    (v : Nat → Nat) (hv : ∀ k, k < 64 → mask.testBit k = true → ok (p + (k : Int)) (m (p + (k : Int))) (v k)) :
    Stores ok m (mask_storeu m p mask v) := by
  have key : ∀ j : Nat, j ≤ 64 → Stores ok m
      (fun q => if 0 ≤ q - p ∧ q - p < (j : Int) ∧ mask.testBit (q - p).toNat = true
        then v (q - p).toNat else m q) := by
    intro j
    induction j with
    | zero =>
      intro _
      have : (fun q => if 0 ≤ q - p ∧ q - p < ((0 : Nat) : Int) ∧ mask.testBit (q - p).toNat = true
        then v (q - p).toNat else m q) = m := by
        funext q
        have : ¬ (0 ≤ q - p ∧ q - p < ((0 : Nat) : Int) ∧ mask.testBit (q - p).toNat = true) := by
          intro h; omega
        simp only [this, if_false]
      rw [this]
      exact Stores.refl m
    | succ j ih =>
      intro hj
      have prev := ih (by omega)
      by_cases hb : mask.testBit j = true
      · have e : (fun q => if 0 ≤ q - p ∧ q - p < ((j + 1 : Nat) : Int) ∧ mask.testBit (q - p).toNat = true
            then v (q - p).toNat else m q)
            = poke (fun q => if 0 ≤ q - p ∧ q - p < (j : Int) ∧ mask.testBit (q - p).toNat = true
            then v (q - p).toNat else m q) (p + (j : Int)) (v j) := by
          funext q
          unfold poke
          by_cases hq : q = p + (j : Int)
          · subst hq
            have t : (p + (j : Int) - p).toNat = j := by omega
            have c : 0 ≤ p + (j : Int) - p ∧ p + (j : Int) - p < ((j + 1 : Nat) : Int) ∧
                mask.testBit (p + (j : Int) - p).toNat = true :=
              ⟨by omega, by omega, by rw [t]; exact hb⟩
            rw [if_pos c, if_pos rfl, t]
          · simp only [hq, if_false]
            by_cases c : 0 ≤ q - p ∧ q - p < (j : Int) ∧ mask.testBit (q - p).toNat = true
            · have c2 : 0 ≤ q - p ∧ q - p < ((j + 1 : Nat) : Int) ∧ mask.testBit (q - p).toNat = true :=
                ⟨c.1, by omega, c.2.2⟩
              simp only [c, c2, and_self, if_true]
            · have c2 : ¬ (0 ≤ q - p ∧ q - p < ((j + 1 : Nat) : Int) ∧ mask.testBit (q - p).toNat = true) := by
                intro h
                apply c
                exact ⟨h.1, by omega, h.2.2⟩
              simp only [c, c2, if_false]
        rw [e]
        refine Stores.step _ _ prev ?_
        have : ¬ (0 ≤ p + (j : Int) - p ∧ p + (j : Int) - p < (j : Int) ∧
            mask.testBit (p + (j : Int) - p).toNat = true) := by
          intro h; omega
        simp only [this, if_false]
        exact hv j (by omega) hb
      · have e : (fun q => if 0 ≤ q - p ∧ q - p < ((j + 1 : Nat) : Int) ∧ mask.testBit (q - p).toNat = true
            then v (q - p).toNat else m q)
            = (fun q => if 0 ≤ q - p ∧ q - p < (j : Int) ∧ mask.testBit (q - p).toNat = true
            then v (q - p).toNat else m q) := by
          funext q
          by_cases c : 0 ≤ q - p ∧ q - p < (j : Int) ∧ mask.testBit (q - p).toNat = true
          · have c2 : 0 ≤ q - p ∧ q - p < ((j + 1 : Nat) : Int) ∧ mask.testBit (q - p).toNat = true :=
              ⟨c.1, by omega, c.2.2⟩
            simp only [c, c2, and_self, if_true]
          · have c2 : ¬ (0 ≤ q - p ∧ q - p < ((j + 1 : Nat) : Int) ∧ mask.testBit (q - p).toNat = true) := by
              intro h
              apply c
              refine ⟨h.1, ?_, h.2.2⟩
              by_contra hh
              have t : (q - p).toNat = j := by omega
              rw [t] at h
              exact hb h.2.2
            simp only [c, c2, if_false]
        rw [e]
        exact prev
  have := key 64 (Nat.le_refl _)
  exact this

theorem mask64_testBit (n : Int) (k : Nat) (hk : k < 64) :
    (mask64 n).testBit k = decide ((k : Int) < n) := by
  unfold mask64
  split_ifs with h
  · rw [Nat.testBit_two_pow_sub_one]
    simp only [hk, decide_True]
    symm
    simp only [decide_eq_true_eq]
    omega
  · rw [Nat.one_shiftLeft, Nat.testBit_two_pow_sub_one]
    congr 1
    apply propext
    omega

theorem avx512_copy_stores (data : List Nat) (ul : Int) :
    ∀ (fuel : Nat) (n : Int) (src : Nat) (dst : Int) (m : Mem), 0 ≤ dst → dst + n ≤ ul →
      Stores (blit_store (fun s _ => s) data ul) m (avx512_copy data fuel n src dst m).1 := by
  intro fuel
  induction fuel with
  | zero => intro n src dst m _ _; exact Stores.refl m
  | succ f ih =>
    intro n src dst m h0 h1
    unfold avx512_copy
    split_ifs with hn hr
    · refine Stores.trans (mask_storeu_stores _ m dst (mask64 n) _ ?_) (ih _ _ _ _ (by omega) (by omega))
      intro k hk hb
      rw [mask64_testBit n k hk] at hb
      have hkn : (k : Int) < n := by simpa using hb
      refine ⟨by omega, by omega, src + k, ?_⟩
      unfold maskz_loadu_data
      rw [mask64_testBit n k hk]
      simp only [hkn, decide_True, if_true]
    · exact Stores.refl m
    · exact Stores.refl m

theorem blit_sprite2_generic_stores (data : List Nat) (ul pitch : Int) :
    ∀ (fuel i : Nat) (p : Int) (m : Mem),
      Stores (blit_store (fun s _ => s) data ul) m
        (blit_sprite2_generic data ul pitch fuel i p m).mem := by
  intro fuel
  induction fuel with
  | zero => intro i p m; exact Stores.refl m
  | succ f ih =>
    intro i p m
    unfold blit_sprite2_generic
    cases hb : data[i]? with
    | none => exact Stores.refl m
    | some b =>
      simp only
      split_ifs with h1 h2 h3 h4 h5
      · exact Stores.refl m
      · exact ih _ _ _
      · exact Stores.trans (memcpy_stores data ul _ _ _ m h3.1 h3.2) (ih _ _ _)
      · exact memcpy_stores data ul _ _ _ m h3.1 h3.2
      · exact Stores.trans (copy_clipped_stores data ul _ _ _ m) (ih _ _ _)
      · exact copy_clipped_stores data ul _ _ _ m

theorem blit_sprite2_AVX512_stores (data : List Nat) (ul pitch : Int) :
    ∀ (fuel i : Nat) (p : Int) (m : Mem),
      Stores (blit_store (fun s _ => s) data ul) m
        (blit_sprite2_AVX512 data ul pitch fuel i p m).mem := by
  intro fuel
  induction fuel with
  | zero => intro i p m; exact Stores.refl m
  | succ f ih =>
    intro i p m
    unfold blit_sprite2_AVX512
    cases hb : data[i]? with
    | none => exact Stores.refl m
    | some b =>
      simp only
      split_ifs with h1 h2 h3 h4 h5
      · exact Stores.refl m
      · exact ih _ _ _
      · exact Stores.trans (avx512_copy_stores data ul _ _ _ _ m h3.1 h3.2) (ih _ _ _)
      · exact avx512_copy_stores data ul _ _ _ _ m h3.1 h3.2
      · exact Stores.trans (copy_clipped_stores data ul _ _ _ m) (ih _ _ _)
      · exact copy_clipped_stores data ul _ _ _ m

/-! ## The blend expressions of the three code paths -/

theorem blend_rule_eq : blend_rule = alpha_blend := rfl

theorem blend2_rule_eq : blend2_rule = alpha_blend := by
  funext s d
  unfold blend2_rule alpha_blend
  rw [Nat.lor_comm, Nat.add_comm]

theorem blend2_rule_shift_eq : blend2_rule_shift = alpha_blend := by
  funext s d
  unfold blend2_rule_shift alpha_blend
  rw [Nat.lor_comm, Nat.add_comm, Nat.shiftRight_eq_div_pow]

theorem and_15 (s : Nat) : s &&& 15 = s % 16 := Nat.and_pow_two_sub_one_eq_mod s 4

/-- Every byte lane of the AVX-512 blend expression is the alpha-blend of the two bytes loaded
into that lane: the 16-bit shift moves at most bit 0 of the upper byte into bit 7 of the lower
one, which the mask `0x0F` clears. -/
theorem avx512_blend_lanes_eq (vSrc vDst : Nat → Nat) (k : Nat) :
    avx512_blend_lanes vSrc vDst k = alpha_blend (vSrc k) (vDst k) := by
  unfold avx512_blend_lanes alpha_blend
  simp only [or_si512, and_si512, set1_epi8, srli_epi16, add_epi8, Nat.shiftRight_eq_div_pow]
  rw [Nat.lor_comm]
  congr 1
  simp only [and_15]
  have e : 2 * (k / 2) = k ∨ 2 * (k / 2) + 1 = k := by omega
  rcases e with e | e
  · have hk : k % 2 = 0 := by omega
    simp only [hk, if_true, e]
    omega
  · have hk : ¬ (k % 2 = 0) := by omega
    simp only [hk, if_false, e]
    omega

theorem store_from_stores (rule : Nat → Nat → Nat) (data : List Nat) (ul : Int) (i : Nat)
    (p : Int) (m m1 : Mem) (h0 : 0 ≤ p) (h1 : p < ul) (h : store_from rule data i p m = some m1) :
    Stores (blit_store rule data ul) m m1 := by
  unfold store_from at h
  cases hb : data[i]? with
  | none => rw [hb] at h; cases h
  | some s =>
    rw [hb] at h
    simp only [Option.some.injEq] at h
    rw [← h]
    refine Stores.single m p _ ⟨h0, h1, i, ?_⟩
    rw [byteAt_of_getElem? hb]

theorem blend_four_stores (data : List Nat) (ul : Int) (i : Nat) (p : Int) (m m1 : Mem)
    (h0 : 0 ≤ p) (h1 : p + 3 < ul) (h : blend_four data i p m = some m1) :
    Stores (blit_store alpha_blend data ul) m m1 := by
  unfold blend_four at h
  rw [blend2_rule_shift_eq] at h
  cases ha : store_from alpha_blend data i p m with
  | none => rw [ha] at h; cases h
  | some ma =>
    rw [ha] at h
    simp only [Option.bind] at h
    cases hb : store_from alpha_blend data (i + 1) (p + 1) ma with
    | none => rw [hb] at h; cases h
    | some mb =>
      rw [hb] at h
      simp only at h
      cases hc : store_from alpha_blend data (i + 2) (p + 2) mb with
      | none => rw [hc] at h; cases h
      | some mc =>
        rw [hc] at h
        simp only at h
        exact Stores.trans (store_from_stores _ _ ul _ _ _ _ h0 (by omega) ha)
          (Stores.trans (store_from_stores _ _ ul _ _ _ _ (by omega) (by omega) hb)
            (Stores.trans (store_from_stores _ _ ul _ _ _ _ (by omega) (by omega) hc)
              (store_from_stores _ _ ul _ _ _ _ (by omega) (by omega) h)))

theorem blend_unrolled_stores (data : List Nat) (ul : Int) :
    ∀ (fuel count i : Nat) (p : Int) (m : Mem),
      Stores (blit_store alpha_blend data ul) m (blend_unrolled data ul fuel count i p m).1 := by
  intro fuel
  induction fuel with
  | zero => intro count i p m; exact Stores.refl m
  | succ f ih =>
    intro count i p m
    unfold blend_unrolled
    split_ifs with h1 h2
    · cases hb : blend_four data i p m with
      | none => exact Stores.refl m
      | some m1 =>
        simp only
        exact Stores.trans (blend_four_stores data ul i p m m1 h2.2 h2.1 hb) (ih _ _ _ _)
    · exact ih _ _ _ _
    · exact Stores.refl m

theorem blend_tail_stores (data : List Nat) (ul : Int) :
    ∀ (c i : Nat) (p : Int) (m : Mem),
      Stores (blit_store alpha_blend data ul) m (blend_tail data ul c i p m).1 := by
  intro c
  induction c with
  | zero => intro i p m; exact Stores.refl m
  | succ c ih =>
    intro i p m
    unfold blend_tail
    split_ifs with h1 h2
    · exact Stores.refl m
    · rw [blend2_rule_eq]
      cases hb : store_from alpha_blend data i p m with
      | none => exact Stores.refl m
      | some m1 =>
        simp only
        exact Stores.trans (store_from_stores _ _ ul _ _ _ _ h2 (by omega) hb) (ih _ _ _)
    · exact ih _ _ _

theorem blend_clipped_stores (data : List Nat) (ul : Int) :
    ∀ (c i : Nat) (p : Int) (m : Mem),
      Stores (blit_store alpha_blend data ul) m (blend_clipped data ul c i p m).1 := by
  intro c
  induction c with
  | zero => intro i p m; exact Stores.refl m
  | succ c ih =>
    intro i p m
    unfold blend_clipped
    split_ifs with h1
    · rw [blend2_rule_eq]
      cases hb : store_from alpha_blend data i p m with
      | none => exact Stores.refl m
      | some m1 =>
        simp only
        exact Stores.trans (store_from_stores _ _ ul _ _ _ _ h1.1 h1.2 hb) (ih _ _ _)
    · exact ih _ _ _

theorem avx512_blend_stores (data : List Nat) (ul : Int) :
    ∀ (fuel : Nat) (n : Int) (src : Nat) (dst : Int) (m : Mem), 0 ≤ dst → dst + n ≤ ul →
      Stores (blit_store alpha_blend data ul) m (avx512_blend data fuel n src dst m).1 := by
  intro fuel
  induction fuel with
  | zero => intro n src dst m _ _; exact Stores.refl m
  | succ f ih =>
    intro n src dst m h0 h1
    unfold avx512_blend
    split_ifs with hn hr
    · refine Stores.trans (mask_storeu_stores _ m dst (mask64 n) _ ?_) (ih _ _ _ _ (by omega) (by omega))
      intro k hk hb
      rw [mask64_testBit n k hk] at hb
      have hkn : (k : Int) < n := by simpa using hb
      refine ⟨by omega, by omega, src + k, ?_⟩
      rw [avx512_blend_lanes_eq]
      unfold maskz_loadu_data maskz_loadu_mem
      rw [mask64_testBit n k hk]
      simp only [hkn, decide_True, if_true]
    · exact Stores.refl m
    · exact Stores.refl m

theorem blit_sprite2_blend_generic_stores (data : List Nat) (ul pitch : Int) :
    ∀ (fuel i : Nat) (p : Int) (m : Mem),
      Stores (blit_store alpha_blend data ul) m
        (blit_sprite2_blend_generic data ul pitch fuel i p m).mem := by
  intro fuel
  induction fuel with
  | zero => intro i p m; exact Stores.refl m
  | succ f ih =>
    intro i p m
    unfold blit_sprite2_blend_generic
    cases hb : data[i]? with
    | none => exact Stores.refl m
    | some b =>
      simp only
      split_ifs with h1 h2 h3
      · exact Stores.refl m
      · exact ih _ _ _
      · have hu := blend_unrolled_stores data ul ((b &&& 0xf0) >>> 4) ((b &&& 0xf0) >>> 4) (i + 1)
          (p + ((b &&& 0x0f : Nat) : Int)) m
        have ht := blend_tail_stores data ul
          (blend_unrolled data ul ((b &&& 0xf0) >>> 4) ((b &&& 0xf0) >>> 4) (i + 1)
            (p + ((b &&& 0x0f : Nat) : Int)) m).2.1
          (i + 1 + (((b &&& 0xf0) >>> 4) - (blend_unrolled data ul ((b &&& 0xf0) >>> 4)
            ((b &&& 0xf0) >>> 4) (i + 1) (p + ((b &&& 0x0f : Nat) : Int)) m).2.1))
          (p + ((b &&& 0x0f : Nat) : Int) + ((((b &&& 0xf0) >>> 4) - (blend_unrolled data ul
            ((b &&& 0xf0) >>> 4) ((b &&& 0xf0) >>> 4) (i + 1)
            (p + ((b &&& 0x0f : Nat) : Int)) m).2.1 : Nat) : Int))
          (blend_unrolled data ul ((b &&& 0xf0) >>> 4) ((b &&& 0xf0) >>> 4) (i + 1)
            (p + ((b &&& 0x0f : Nat) : Int)) m).1
        split
        · exact Stores.trans (Stores.trans hu ht) (ih _ _ _)
        · exact Stores.trans hu ht
      · exact blend_unrolled_stores data ul _ _ _ _ m

theorem blit_sprite2_blend_AVX512_stores (data : List Nat) (ul pitch : Int) :
    ∀ (fuel i : Nat) (p : Int) (m : Mem),
      Stores (blit_store alpha_blend data ul) m
        (blit_sprite2_blend_AVX512 data ul pitch fuel i p m).mem := by
  intro fuel
  induction fuel with
  | zero => intro i p m; exact Stores.refl m
  | succ f ih =>
    intro i p m
    unfold blit_sprite2_blend_AVX512
    cases hb : data[i]? with
    | none => exact Stores.refl m
    | some b =>
      simp only
      split_ifs with h1 h2 h3 h4 h5
      · exact Stores.refl m
      · exact ih _ _ _
      · exact Stores.trans (avx512_blend_stores data ul _ _ _ _ m h3.1 h3.2) (ih _ _ _)
      · exact avx512_blend_stores data ul _ _ _ _ m h3.1 h3.2
      · exact Stores.trans (blend_clipped_stores data ul _ _ _ m) (ih _ _ _)
      · exact blend_clipped_stores data ul _ _ _ m

theorem sprite2_run_stores (ok : Int → Nat → Nat → Prop)
    (store : List Nat → Nat → Nat → Option Nat) (data : List Nat) (ul : Int)
    (hs : ∀ i d v p, store data i d = some v → 0 ≤ p → p < ul → ok p d v) :
    ∀ (c i : Nat) (p : Int) (m : Mem), Stores ok m (sprite2_run store data ul c i p m).1 := by
  intro c
  induction c with
  | zero => intro i p m; exact Stores.refl m
  | succ c ih =>
    intro i p m
    unfold sprite2_run
    split_ifs with h1 h2
    · exact Stores.refl m
    · cases hb : store data i (m p) with
      | none => exact Stores.refl m
      | some v =>
        simp only
        exact Stores.trans (Stores.single m p v (hs i (m p) v p hb h2 (by omega))) (ih _ _ _)
    · exact ih _ _ _

theorem sprite2_loop_stores (ok : Int → Nat → Nat → Prop)
    (store : List Nat → Nat → Nat → Option Nat) (data : List Nat) (ul pitch : Int)
    (hs : ∀ i d v p, store data i d = some v → 0 ≤ p → p < ul → ok p d v) :
    ∀ (fuel i : Nat) (p : Int) (m : Mem),
      Stores ok m (sprite2_loop store data ul pitch fuel i p m).mem := by
  intro fuel
  induction fuel with
  | zero => intro i p m; exact Stores.refl m
  | succ f ih =>
    intro i p m
    unfold sprite2_loop
    cases hb : data[i]? with
    | none => exact Stores.refl m
    | some b =>
      simp only
      split_ifs with h1 h2
      · exact Stores.refl m
      · exact ih _ _ _
      · have hr := sprite2_run_stores ok store data ul hs ((b &&& 0xf0) >>> 4) (i + 1)
          (p + ((b &&& 0x0f : Nat) : Int)) m
        split
        · exact Stores.trans hr (ih _ _ _)
        · exact hr

/-- The darken expression of `blit_sprite2_darken`, as a rule. -/
theorem darken_store_ok (data : List Nat) (ul : Int) (i d v : Nat) (p : Int)
    (h : darken_store data i d = some v) (h0 : 0 ≤ p) (h1 : p < ul) :
    blit_store (fun _ d => ((d &&& 0x0f) / 2) + (d &&& 0xf0)) data ul p d v := by
  unfold darken_store at h
  simp only [Option.some.injEq] at h
  exact ⟨h0, h1, 0, h.symm⟩

theorem filter_store_ok (filter : Nat) (data : List Nat) (ul : Int) (i d v : Nat) (p : Int)
    (h : filter_store filter data i d = some v) (h0 : 0 ≤ p) (h1 : p < ul) :
    blit_store (fun s _ => filter ||| (s &&& 0x0f)) data ul p d v := by
  unfold filter_store at h
  cases hb : data[i]? with
  | none => rw [hb] at h; cases h
  | some s =>
    rw [hb] at h
    simp only [Option.map, Option.some.injEq] at h
    refine ⟨h0, h1, i, ?_⟩
    rw [byteAt_of_getElem? hb]
    exact h.symm

theorem row_col_in_bounds (h pitch : Nat) (x y : Int) (hy0 : 0 ≤ y) (hy1 : y < (h : Int))
    (hx0 : 0 ≤ x) (hx1 : x < (pitch : Int)) :
    0 ≤ y * (pitch : Int) + x ∧ y * (pitch : Int) + x < (h : Int) * (pitch : Int) := by
  constructor
  · have : 0 ≤ y * (pitch : Int) := Int.mul_nonneg hy0 (by omega)
    omega
  · have h1 : (y + 1) * (pitch : Int) ≤ (h : Int) * (pitch : Int) :=
      Int.mul_le_mul_of_nonneg_right (by omega) (by omega)
    have h2 : (y + 1) * (pitch : Int) = y * (pitch : Int) + (pitch : Int) := by ring
    omega

theorem clip_run_stores (f : Nat → Nat) (data : List Nat) (h pitch : Nat) (y : Int)
    (hy0 : 0 ≤ y) (hy1 : y < (h : Int)) :
    ∀ (c i : Nat) (x : Int) (m : Mem),
      Stores (blit_store (fun s _ => f s) data ((h : Int) * (pitch : Int))) m
        (clip_run f data pitch y c i x m).1 := by
  intro c
  induction c with
  | zero => intro i x m; exact Stores.refl m
  | succ c ih =>
    intro i x m
    unfold clip_run
    split_ifs with h1
    · cases hb : data[i]? with
      | none => exact Stores.refl m
      | some s =>
        simp only
        have hb2 := row_col_in_bounds h pitch x y hy0 hy1 h1.1 h1.2
        refine Stores.trans (Stores.single m _ _ ⟨hb2.1, hb2.2, i, ?_⟩) (ih _ _ _)
        rw [byteAt_of_getElem? hb]
    · exact ih _ _ _

theorem clip_loop_stores (f : Nat → Nat) (data : List Nat) (h pitch : Nat) :
    ∀ (fuel i : Nat) (x y : Int) (m : Mem),
      Stores (blit_store (fun s _ => f s) data ((h : Int) * (pitch : Int))) m
        (clip_loop f data h pitch fuel i x y m).mem := by
  intro fuel
  induction fuel with
  | zero => intro i x y m; exact Stores.refl m
  | succ fu ih =>
    intro i x y m
    unfold clip_loop
    cases hb : data[i]? with
    | none => exact Stores.refl m
    | some b =>
      simp only
      split_ifs with h1 h2 h3 h4 h5
      · exact Stores.refl m
      · exact Stores.refl m
      · exact ih _ _ _ _
      · exact Stores.trans (clip_run_stores f data h pitch y h4 (by omega) _ _ _ m) (ih _ _ _ _)
      · exact clip_run_stores f data h pitch y h4 (by omega) _ _ _ m
      · exact ih _ _ _ _

/-! ## Whole-blit store lemmas -/

theorem sprite_blit_stores (rule : Nat → Nat → Nat) (surface : SDL_Surface) (x y : Int)
    (table : Sprite_array) (index : Nat) :
    Stores (blit_store rule (sprite table index).bytes (pixels_ul surface)) surface.pixels
      (sprite_blit rule surface x y table index) := by
  unfold sprite_blit
  split_ifs
  · exact Stores.refl _
  · exact sprite_loop_stores _ _ _ _ _ _ _ _ _ _ _

theorem blit_sprite_stores (surface : SDL_Surface) (x y : Int) (table : Sprite_array)
    (index : Nat) :
    Stores (blit_store (fun s _ => s) (sprite table index).bytes (pixels_ul surface))
      surface.pixels (blit_sprite surface x y table index) := by
  unfold blit_sprite
  split_ifs
  · exact Stores.refl _
  · exact blit_sprite_loop_stores _ _ _ _ _ _ _ _ _ _

theorem blit_sprite2_stores (g_hasAVX512 VGAScreen_pitch : Int) (surface : SDL_Surface)
    (x y : Int) (sprite2s : Sprite2_array) (index : Nat) :
    Stores (blit_store (fun s _ => s) sprite2s.data (pixels_ul surface)) surface.pixels
      (blit_sprite2 g_hasAVX512 VGAScreen_pitch surface x y sprite2s index).mem := by
  unfold blit_sprite2
  cases sheet_offset sprite2s.data index with
  | none => exact Stores.refl _
  | some start =>
    simp only
    split_ifs
    · exact blit_sprite2_AVX512_stores _ _ _ _ _ _ _
    · exact blit_sprite2_generic_stores _ _ _ _ _ _ _

theorem blit_sprite2_blend_stores (g_hasAVX512 VGAScreen_pitch : Int) (surface : SDL_Surface)
    (x y : Int) (sprite2s : Sprite2_array) (index : Nat) :
    Stores (blit_store alpha_blend sprite2s.data (pixels_ul surface)) surface.pixels
      (blit_sprite2_blend g_hasAVX512 VGAScreen_pitch surface x y sprite2s index).mem := by
  unfold blit_sprite2_blend
  cases sheet_offset sprite2s.data index with
  | none => exact Stores.refl _
  | some start =>
    simp only
    split_ifs
    · exact blit_sprite2_blend_AVX512_stores _ _ _ _ _ _ _
    · exact blit_sprite2_blend_generic_stores _ _ _ _ _ _ _

theorem sprite2_blit_stores (ok : Int → Nat → Nat → Prop)
    (store : List Nat → Nat → Nat → Option Nat) (VGAScreen_pitch : Int) (surface : SDL_Surface)
    (x y : Int) (sprite2s : Sprite2_array) (index : Nat)
    (hs : ∀ i d v p, store sprite2s.data i d = some v → 0 ≤ p → p < pixels_ul surface → ok p d v) :
    Stores ok surface.pixels (sprite2_blit store VGAScreen_pitch surface x y sprite2s index).mem := by
  unfold sprite2_blit
  cases sheet_offset sprite2s.data index with
  | none => exact Stores.refl _
  | some start => exact sprite2_loop_stores ok store _ _ _ hs _ _ _ _

theorem clip_blit_stores (f : Nat → Nat) (surface : SDL_Surface) (x y : Int)
    (sprite2s : Sprite2_array) (index : Nat) :
    Stores (blit_store (fun s _ => f s) sprite2s.data (pixels_ul surface)) surface.pixels
      (clip_blit f surface x y sprite2s index).mem := by
  unfold clip_blit
  cases sheet_offset sprite2s.data index with
  | none => exact Stores.refl _
  | some start => exact clip_loop_stores f _ _ _ _ _ _ _ _

theorem blit_store_frame {rule : Nat → Nat → Nat} {data : List Nat} {ul : Int} {m m1 : Mem}
    (h : Stores (blit_store rule data ul) m m1) :
    ∀ o : Int, ¬ (0 ≤ o ∧ o < ul) → m1 o = m o :=
  Stores.frame (fun _ _ _ hk => ⟨hk.1, hk.2.1⟩) h

/-! ## The alpha-blend rule -/

theorem and_f0 (s : Nat) (h : s < 256) : s &&& 0xF0 = 16 * (s / 16) := by
  interval_cases s <;> rfl

theorem lor_low (a c : Nat) (h : c < 16) : (16 * a) ||| c = 16 * a + c :=
  (Nat.mul_add_lt_is_or (i := 4) h a).symm

theorem alpha_blend_nibbles (s d : Nat) (hs : s < 256) :
    alpha_blend s d / 16 = s / 16 ∧ alpha_blend s d % 16 = (d % 16 + s % 16) / 2 ∧
      alpha_blend s d % 16 ≤ 0xF := by
  unfold alpha_blend
  have e1 : s &&& 0x0F = s % 16 := and_15 s
  have e2 : d &&& 0x0F = d % 16 := and_15 d
  rw [and_f0 s hs, e1, e2, lor_low _ _ (by omega)]
  omega

theorem hue_shift_eq (hue : Nat) : hue_shift hue = 16 * (hue % 16) := by
  unfold hue_shift
  rw [Nat.shiftLeft_eq]
  omega

/-- C5: every blit operation of both formats leaves each byte at an offset outside
`[0, h * pitch)` (below `surface->pixels` or at or past `pixels_ul`) as it was, for every
stream, position and surface, also when the decode ends in a cutoff or needs a byte outside
the sheet buffer. -/
theorem no_store_outside_surface (surface : SDL_Surface) (x y : Int) (o : Int)
    (ho : ¬ (0 ≤ o ∧ o < (surface.h : Int) * (surface.pitch : Int))) :
    (∀ (table : Sprite_array) (index : Nat),
      blit_sprite surface x y table index o = surface.pixels o ∧
      blit_sprite_blend surface x y table index o = surface.pixels o ∧
      (∀ (hue : Nat) (value : Int),
        blit_sprite_hv_unsafe surface x y table index hue value o = surface.pixels o ∧
        blit_sprite_hv surface x y table index hue value o = surface.pixels o ∧
        blit_sprite_hv_blend surface x y table index hue value o = surface.pixels o) ∧
      (∀ black : Bool, blit_sprite_dark surface x y table index black o = surface.pixels o)) ∧
    (∀ (VGAScreen_pitch : Int) (sprite2s : Sprite2_array) (index : Nat),
      (∀ g_hasAVX512 : Int,
        (blit_sprite2 g_hasAVX512 VGAScreen_pitch surface x y sprite2s index).mem o
          = surface.pixels o ∧
        (blit_sprite2_blend g_hasAVX512 VGAScreen_pitch surface x y sprite2s index).mem o
          = surface.pixels o) ∧
      (blit_sprite2_darken VGAScreen_pitch surface x y sprite2s index).mem o = surface.pixels o ∧
      (∀ filter : Nat,
        (blit_sprite2_filter VGAScreen_pitch surface x y sprite2s index filter).mem o
          = surface.pixels o ∧
        (blit_sprite2_filter_clip surface x y sprite2s index filter).mem o = surface.pixels o) ∧
      (blit_sprite2_clip surface x y sprite2s index).mem o = surface.pixels o) := by
  have ho2 : ¬ (0 ≤ o ∧ o < pixels_ul surface) := ho
  refine ⟨?_, ?_⟩
  · intro table index
    refine ⟨blit_store_frame (blit_sprite_stores surface x y table index) o ho2,
      blit_store_frame (sprite_blit_stores blend_rule surface x y table index) o ho2, ?_, ?_⟩
    · intro hue value
      exact ⟨blit_store_frame (sprite_blit_stores _ surface x y table index) o ho2,
        blit_store_frame (sprite_blit_stores _ surface x y table index) o ho2,
        blit_store_frame (sprite_blit_stores _ surface x y table index) o ho2⟩
    · intro black
      exact blit_store_frame (sprite_blit_stores _ surface x y table index) o ho2
  · intro vp sprite2s index
    refine ⟨?_, ?_, ?_, ?_⟩
    · intro g
      exact ⟨blit_store_frame (blit_sprite2_stores g vp surface x y sprite2s index) o ho2,
        blit_store_frame (blit_sprite2_blend_stores g vp surface x y sprite2s index) o ho2⟩
    · exact blit_store_frame (sprite2_blit_stores _ darken_store vp surface x y sprite2s index
        (fun i d v p h h0 h1 => darken_store_ok sprite2s.data (pixels_ul surface) i d v p h h0 h1))
        o ho2
    · intro filter
      exact ⟨blit_store_frame (sprite2_blit_stores _ (filter_store filter) vp surface x y sprite2s
          index (fun i d v p h h0 h1 =>
            filter_store_ok filter sprite2s.data (pixels_ul surface) i d v p h h0 h1)) o ho2,
        blit_store_frame (clip_blit_stores _ surface x y sprite2s index) o ho2⟩
    · exact blit_store_frame (clip_blit_stores _ surface x y sprite2s index) o ho2

/-- Witness for C5: offset 400 of the 20x20 surface, for a sprite blitted on the bottom row and
for a compact run `7 8 9` whose last pixel would fall on offset 400. -/
theorem no_store_outside_surface_witness :
    ¬ (0 ≤ (400 : Int) ∧ (400 : Int) < ((scenarioSurface.h : Int) * (scenarioSurface.pitch : Int))) ∧
    blit_sprite scenarioSurface 10 19 scenarioTable 0 400 = scenarioSurface.pixels 400 ∧
    (blit_sprite2 0 20 scenarioSurface 18 19 ⟨7, [2, 0, 0x30, 7, 8, 9, 0x0f]⟩ 1).mem 400
      = scenarioSurface.pixels 400 :=
  ⟨by decide,
    ((no_store_outside_surface scenarioSurface 10 19 400 (by decide)).1 scenarioTable 0).1,
    (((no_store_outside_surface scenarioSurface 18 19 400 (by decide)).2 20
      ⟨7, [2, 0, 0x30, 7, 8, 9, 0x0f]⟩ 1).1 0).1⟩

/-! ## The run-ahead of `blit_sprite` -/

theorem row_wrap_ge (width pitch : Nat) (p : Int) (xo : Nat) :
    p ≤ (row_wrap width pitch p xo).1 := by
  unfold row_wrap
  split_ifs
  · simp only
    omega
  · exact Int.le_refl _

theorem row_wrap_lt (width pitch : Nat) (p : Int) (xo : Nat) (h : xo < width) :
    row_wrap width pitch p xo = (p, xo) := by
  unfold row_wrap
  have : ¬ xo ≥ width := by omega
  simp only [this, if_false]

/-- Once the cursor is at or past `pixels_ul` it stays there and nothing is stored. -/
theorem sprite_loop_above (rule : Nat → Nat → Nat) (data : List Nat) (size width pitch : Nat)
    (ul : Int) : ∀ (fuel i : Nat) (p : Int) (xo : Nat) (m : Mem), ul ≤ p →
      sprite_loop rule data size width pitch ul fuel i p xo m = m := by
  intro fuel
  induction fuel with
  | zero => intro i p xo m _; rfl
  | succ f ih =>
    intro i p xo m hp
    unfold sprite_loop
    split_ifs
    all_goals first
      | rfl
      | (exfalso; omega)
      | exact ih _ _ _ _ (le_trans (by omega) (row_wrap_ge _ _ _ _))

theorem sprite_loop_fuel (rule : Nat → Nat → Nat) (data : List Nat) (size width pitch : Nat)
    (ul : Int) : ∀ (f1 f2 i : Nat) (p : Int) (xo : Nat) (m : Mem), size ≤ i + f1 → size ≤ i + f2 →
      sprite_loop rule data size width pitch ul f1 i p xo m
        = sprite_loop rule data size width pitch ul f2 i p xo m := by
  intro f1
  induction f1 with
  | zero =>
    intro f2 i p xo m h1 _
    cases f2 with
    | zero => rfl
    | succ g =>
      unfold sprite_loop
      have : ¬ i < size := by omega
      simp only [this, if_false]
  | succ f ih =>
    intro f2 i p xo m h1 h2
    cases f2 with
    | zero =>
      unfold sprite_loop
      have : ¬ i < size := by omega
      simp only [this, if_false]
    | succ g =>
      by_cases hi : i < size
      · rw [sprite_loop, sprite_loop]
        simp only [hi, if_true]
        split_ifs
        all_goals first
          | rfl
          | exact ih _ _ _ _ _ (by omega) (by omega)
      · rw [sprite_loop, sprite_loop]
        simp only [hi, if_false]

theorem run_ahead_above (data : List Nat) (size width : Nat) (ul : Int) :
    ∀ (k i : Nat) (p : Int) (xo : Nat) (m : Mem), ul ≤ p →
      (run_ahead data size width ul k i p xo m).2.2.2 = m ∧
      ul ≤ (run_ahead data size width ul k i p xo m).2.1 := by
  intro k
  induction k with
  | zero => intro i p xo m hp; exact ⟨rfl, hp⟩
  | succ k ih =>
    intro i p xo m hp
    unfold run_ahead
    split_ifs with h1 h2
    · exact absurd h2.2 (by omega)
    · exact ih _ _ _ _ (by omega)
    · exact ⟨rfl, hp⟩

theorem run_ahead_index_ge (data : List Nat) (size width : Nat) (ul : Int) :
    ∀ (k i : Nat) (p : Int) (xo : Nat) (m : Mem),
      i ≤ (run_ahead data size width ul k i p xo m).1 := by
  intro k
  induction k with
  | zero => intro i p xo m; exact Nat.le_refl _
  | succ k ih =>
    intro i p xo m
    unfold run_ahead
    split_ifs
    all_goals first
      | exact Nat.le_refl _
      | exact le_trans (Nat.le_succ i) (ih _ _ _ _)

/-- The one-opcode-per-iteration loop absorbs a run-ahead: continuing after the run-ahead gives
what the plain loop gives from the byte after the first pixel. -/
theorem sprite_loop_run_ahead (data : List Nat) (size width pitch : Nat) (ul : Int) :
    ∀ (k i : Nat) (p : Int) (xo : Nat) (m : Mem) (g g2 : Nat), size ≤ i + 1 + g →
      size ≤ (run_ahead data size width ul k i p xo m).1 + 1 + g2 →
      sprite_loop (fun s _ => s) data size width pitch ul g (i + 1)
          (row_wrap width pitch p xo).1 (row_wrap width pitch p xo).2 m
        = sprite_loop (fun s _ => s) data size width pitch ul g2
            ((run_ahead data size width ul k i p xo m).1 + 1)
            (row_wrap width pitch (run_ahead data size width ul k i p xo m).2.1
              (run_ahead data size width ul k i p xo m).2.2.1).1
            (row_wrap width pitch (run_ahead data size width ul k i p xo m).2.1
              (run_ahead data size width ul k i p xo m).2.2.1).2
            (run_ahead data size width ul k i p xo m).2.2.2 := by
  intro k
  induction k with
  | zero =>
    intro i p xo m g g2 h1 h2
    simp only [run_ahead] at h2 ⊢
    exact sprite_loop_fuel _ _ _ _ _ _ _ _ _ _ _ _ h1 h2
  | succ k ih =>
    intro i p xo m g g2 h1 h2
    by_cases hc : xo < width ∧ byteAt data (i + 1) < 253 ∧ i + 1 < size
    · have hr : run_ahead data size width ul (k + 1) i p xo m
          = run_ahead data size width ul k (i + 1) (p + 1) (xo + 1)
              (if p ≥ 0 ∧ p < ul then poke m p (byteAt data (i + 1)) else m) := by
        rw [run_ahead]
        simp only [hc, and_self, if_true]
      rw [hr] at h2 ⊢
      rw [row_wrap_lt _ _ _ _ hc.1]
      simp only
      cases g with
      | zero => omega
      | succ g =>
        rw [sprite_loop]
        have b1 : ¬ byteAt data (i + 1) = 255 := by omega
        have b2 : ¬ byteAt data (i + 1) = 254 := by omega
        have b3 : ¬ byteAt data (i + 1) = 253 := by omega
        simp only [hc.2.2, if_true, b1, b2, b3, if_false]
        by_cases hp : p ≥ ul
        · simp only [hp, if_true]
          have hlt : ¬ (p ≥ 0 ∧ p < ul) := by omega
          simp only [hlt, if_false] at h2 ⊢
          have ha := run_ahead_above data size width ul k (i + 1) (p + 1) (xo + 1) m (by omega)
          rw [sprite_loop_above _ _ _ _ _ _ _ _ _ _ _ (le_trans ha.2 (row_wrap_ge _ _ _ _))]
          exact ha.1.symm
        · simp only [hp, if_false]
          have e : (if p ≥ 0 then poke m p (byteAt data (i + 1)) else m)
              = (if p ≥ 0 ∧ p < ul then poke m p (byteAt data (i + 1)) else m) := by
            by_cases h0 : p ≥ 0
            · have : p ≥ 0 ∧ p < ul := ⟨h0, by omega⟩
              rw [if_pos h0, if_pos this]
            · have : ¬ (p ≥ 0 ∧ p < ul) := by omega
              rw [if_neg h0, if_neg this]
          rw [e]
          exact ih (i + 1) (p + 1) (xo + 1) _ g g2 (by omega) h2
    · have hr : run_ahead data size width ul (k + 1) i p xo m = (i, p, xo, m) := by
        rw [run_ahead]
        simp only [hc, if_false]
      rw [hr] at h2 ⊢
      exact sprite_loop_fuel _ _ _ _ _ _ _ _ _ _ _ _ h1 h2

theorem blit_sprite_loop_eq (data : List Nat) (size width pitch : Nat) (ul : Int) :
    ∀ (fuel i : Nat) (p : Int) (xo : Nat) (m : Mem) (f2 : Nat), size ≤ i + fuel → size ≤ i + f2 →
      blit_sprite_loop data size width pitch ul fuel i p xo m
        = sprite_loop (fun s _ => s) data size width pitch ul f2 i p xo m := by
  intro fuel
  induction fuel with
  | zero =>
    intro i p xo m f2 h1 h2
    cases f2 with
    | zero => rfl
    | succ g =>
      rw [blit_sprite_loop, sprite_loop]
      have : ¬ i < size := by omega
      simp only [this, if_false]
  | succ f ih =>
    intro i p xo m f2 h1 h2
    by_cases hi : i < size
    · cases f2 with
      | zero => omega
      | succ g =>
        rw [blit_sprite_loop, sprite_loop]
        simp only [hi, if_true]
        split_ifs with c1 c2 c3 c4 c5
        · exact ih _ _ _ _ _ (by omega) (by omega)
        · exact ih _ _ _ _ _ (by omega) (by omega)
        · exact ih _ _ _ _ _ (by omega) (by omega)
        · rfl
        · have hge := run_ahead_index_ge data size width ul size i (p + 1) (xo + 1)
            (poke m p (byteAt data i))
          rw [ih _ _ _ _ g (by omega) (by omega)]
          exact (sprite_loop_run_ahead data size width pitch ul size i (p + 1) (xo + 1) _ g g
            (by omega) (by omega)).symm
        · have hge := run_ahead_index_ge data size width ul size i (p + 1) (xo + 1) m
          rw [ih _ _ _ _ g (by omega) (by omega)]
          exact (sprite_loop_run_ahead data size width pitch ul size i (p + 1) (xo + 1) _ g g
            (by omega) (by omega)).symm
    · rw [blit_sprite_loop]
      simp only [hi, if_false]
      cases f2 with
      | zero => rfl
      | succ g =>
        rw [sprite_loop]
        simp only [hi, if_false]

theorem blit_sprite_eq (surface : SDL_Surface) (x y : Int) (table : Sprite_array) (index : Nat) :
    blit_sprite surface x y table index = sprite_blit (fun s _ => s) surface x y table index := by
  unfold blit_sprite sprite_blit
  split_ifs
  · rfl
  · exact blit_sprite_loop_eq _ _ _ _ _ _ _ _ _ _ _ (by omega) (by omega)

/-- C7: for every surface, position, table and sprite, `blit_sprite` with its run-ahead leaves
the destination equal to the one-opcode-per-iteration decode loop of the other indexed-array
variants run with the rule `dst = s`. -/
theorem run_ahead_unobservable (surface : SDL_Surface) (x y : Int) (table : Sprite_array)
    (index : Nat) :
    blit_sprite surface x y table index = sprite_blit (fun s _ => s) surface x y table index :=
  blit_sprite_eq surface x y table index

/-! ## Rows of opaque pixels -/

theorem subU32_of_le (a b : Nat) (hb : b ≤ a) (ha : a < 2 ^ 32) : subU32 a b = a - b := by
  unfold subU32
  have : b % 2 ^ 32 = b := Nat.mod_eq_of_lt (by omega)
  rw [this]
  omega

theorem hi_nibble (b : Nat) : (b &&& 0xf0) >>> 4 = b / 16 % 16 := by
  rw [Nat.shiftRight_eq_div_pow]
  have e : ∀ a : Nat, a / 2 ^ 4 = a / 2 / 2 / 2 / 2 := by
    intro a
    omega
  rw [e, Nat.and_div_two, Nat.and_div_two, Nat.and_div_two, Nat.and_div_two]
  have e2 : b / 2 / 2 / 2 / 2 = b / 16 := by omega
  rw [e2]
  exact Nat.and_pow_two_sub_one_eq_mod _ 4

theorem hi_nibble_shift (b : Nat) : (b >>> 4) &&& 0x0f = b / 16 % 16 := by
  rw [Nat.shiftRight_eq_div_pow]
  exact Nat.and_pow_two_sub_one_eq_mod _ 4

theorem start_above_ul (surface : SDL_Surface) (x y : Int) (hx : 0 ≤ x)
    (hy : (surface.h : Int) ≤ y) : pixels_ul surface ≤ pixels_start surface x y := by
  unfold pixels_ul pixels_start
  have : (surface.h : Int) * (surface.pitch : Int) ≤ y * (surface.pitch : Int) :=
    Int.mul_le_mul_of_nonneg_right hy (by omega)
  omega

theorem mem_rows_spanned {α : Type} (cells : List (Nat × α)) (c : Nat × α) (h : c ∈ cells) :
    c.1 + 1 ≤ rows_spanned cells := by
  induction cells with
  | nil => cases h
  | cons a t ih =>
    unfold rows_spanned
    simp only [List.foldr_cons]
    rcases List.mem_cons.1 h with e | e
    · subst e
      exact Nat.le_max_left _ _
    · exact le_trans (ih e) (Nat.le_max_right _ _)

/-- The cursor after the row check, for a cursor on the grid of the sprite: either it is again
on the grid, at the cell the grammar names, or it has jumped past `pixels_ul`. -/
theorem wrap_step (width pitch : Nat) (ul x y : Int) (r xo : Nat) (p : Int)
    (hx0 : 0 ≤ x) (hx : x + (width : Int) ≤ (pitch : Int)) (hpi : pitch < 2 ^ 32)
    (hjump : ul ≤ y * (pitch : Int) + x + 2 ^ 32)
    (hp : p = (y + (r : Int)) * (pitch : Int) + x + (xo : Int)) :
    (row_wrap width pitch p xo).2 = (cell_wrap width r xo).2 ∧
    (((row_wrap width pitch p xo).1
        = (y + ((cell_wrap width r xo).1 : Int)) * (pitch : Int) + x
            + ((cell_wrap width r xo).2 : Int) ∧
      ((cell_wrap width r xo).2 < width ∨ width = 0)) ∨
      ul ≤ (row_wrap width pitch p xo).1) := by
  unfold row_wrap cell_wrap
  have e1 : (y + (r : Int)) * (pitch : Int) = y * (pitch : Int) + (r : Int) * (pitch : Int) := by
    ring
  have e2 : (y + ((r + 1 : Nat) : Int)) * (pitch : Int)
      = y * (pitch : Int) + (r : Int) * (pitch : Int) + (pitch : Int) := by
    push_cast
    ring
  have e3 : 0 ≤ (r : Int) * (pitch : Int) := Int.mul_nonneg (by omega) (by omega)
  by_cases h : xo ≥ width
  · simp only [h, if_true]
    refine ⟨trivial, ?_⟩
    by_cases h2 : xo ≤ pitch
    · left
      rw [subU32_of_le pitch xo h2 hpi, e2, hp, e1]
      refine ⟨by omega, by omega⟩
    · right
      rw [hp, e1]
      unfold subU32
      norm_num at hjump hpi ⊢
      omega
  · simp only [h, if_false]
    exact ⟨trivial, Or.inl ⟨hp, Or.inl (by omega)⟩⟩

theorem sprite_loop_rows_above (rule : Nat → Nat → Nat) (data : List Nat)
    (size width pitch : Nat) (ul x y : Int)
    (hw : 1 ≤ width) (hx0 : 0 ≤ x) (hx : x + (width : Int) ≤ (pitch : Int)) (hpi : pitch < 2 ^ 32)
    (hjump : ul ≤ y * (pitch : Int) + x + 2 ^ 32) :
    ∀ (fuel i r xo : Nat) (p : Int) (m : Mem),
      ((p = (y + (r : Int)) * (pitch : Int) + x + (xo : Int) ∧ xo < width) ∨ ul ≤ p) →
      (∀ c ∈ sprite_cells data size width fuel i r xo, y + (c.1 : Int) < 0) →
      sprite_loop rule data size width pitch ul fuel i p xo m = m := by
  intro fuel
  induction fuel with
  | zero => intro i r xo p m _ _; rfl
  | succ f ih =>
    intro i r xo p m hinv hcells
    rcases hinv with ⟨hp, hxo⟩ | hab
    swap
    · exact sprite_loop_above _ _ _ _ _ _ _ _ _ _ _ hab
    have next : ∀ (n : Nat) (i2 : Nat) (m2 : Mem),
        (∀ c ∈ sprite_cells data size width f i2 (cell_wrap width r (xo + n)).1
          (cell_wrap width r (xo + n)).2, y + (c.1 : Int) < 0) →
        sprite_loop rule data size width pitch ul f i2
          (row_wrap width pitch (p + (n : Int)) (xo + n)).1
          (row_wrap width pitch (p + (n : Int)) (xo + n)).2 m2 = m2 := by
      intro n i2 m2 hc
      have hp2 : p + (n : Int) = (y + (r : Int)) * (pitch : Int) + x + ((xo + n : Nat) : Int) := by
        rw [hp]
        push_cast
        ring
      obtain ⟨w1, w2⟩ := wrap_step width pitch ul x y r (xo + n) (p + (n : Int)) hx0 hx hpi hjump hp2
      rw [w1]
      apply ih i2 (cell_wrap width r (xo + n)).1 _ _ m2 _ hc
      rcases w2 with ⟨a, b⟩ | a
      · left
        exact ⟨a, by omega⟩
      · right
        exact a
    rw [sprite_loop]
    rw [sprite_cells] at hcells
    by_cases hi : i < size
    · simp only [hi, if_true] at hcells ⊢
      by_cases b1 : byteAt data i = 255
      · simp only [b1, if_true] at hcells ⊢
        exact next _ _ _ hcells
      · simp only [b1, if_false] at hcells ⊢
        by_cases b2 : byteAt data i = 254
        · simp only [b2, if_true] at hcells ⊢
          have hs : subU32 width xo = width - xo := subU32_of_le width xo (by omega) (by omega)
          have hn := next (width - xo) (i + 1) m
          have e : xo + (width - xo) = width := by omega
          rw [e] at hn
          have hcw : cell_wrap width r width = (r + 1, 0) := by
            unfold cell_wrap
            simp only [ge_iff_le, le_refl, if_true]
          rw [hcw] at hn
          rw [hs]
          exact hn hcells
        · simp only [b2, if_false] at hcells ⊢
          by_cases b3 : byteAt data i = 253
          · simp only [b3, if_true] at hcells ⊢
            have hn := next 1 (i + 1) m
            simp only [Nat.cast_one] at hn
            exact hn hcells
          · simp only [b3, if_false] at hcells ⊢
            by_cases hu : p ≥ ul
            · simp only [hu, if_true]
            · simp only [hu, if_false]
              have hrow : y + (r : Int) < 0 := hcells (r, xo, byteAt data i) (List.mem_cons_self _ _)
              have hneg : ¬ p ≥ 0 := by
                have h1 : (y + (r : Int) + 1) * (pitch : Int) ≤ 0 :=
                  Int.mul_nonpos_of_nonpos_of_nonneg (by omega) (by omega)
                have h2 : (y + (r : Int) + 1) * (pitch : Int)
                    = (y + (r : Int)) * (pitch : Int) + (pitch : Int) := by ring
                omega
              simp only [hneg, if_false]
              have hn := next 1 (i + 1) m
              simp only [Nat.cast_one] at hn
              exact hn (fun c hc => hcells c (List.mem_cons_of_mem _ hc))
    · simp only [hi, if_false]

theorem copy_clipped_outside (data : List Nat) (ul : Int) :
    ∀ (c i : Nat) (p : Int) (m : Mem),
      (∀ k : Nat, k < c → ¬ (0 ≤ p + (k : Int) ∧ p + (k : Int) < ul)) →
      copy_clipped data ul c i p m = (m, true) := by
  intro c
  induction c with
  | zero => intro i p m _; rfl
  | succ c ih =>
    intro i p m h
    rw [copy_clipped]
    have h0 : ¬ (p ≥ 0 ∧ p < ul) := by
      have := h 0 (by omega)
      simp only [Nat.cast_zero, add_zero] at this
      intro hh
      exact this ⟨hh.1, hh.2⟩
    simp only [h0, if_false]
    apply ih
    intro k hk
    have := h (k + 1) (by omega)
    intro hh
    apply this
    push_cast
    constructor <;> omega

theorem blit_sprite2_generic_above (data : List Nat) (ul pitch : Int) (hp : 12 ≤ pitch) :
    ∀ (fuel i : Nat) (p : Int) (m : Mem), ul ≤ p →
      (blit_sprite2_generic data ul pitch fuel i p m).mem = m := by
  intro fuel
  induction fuel with
  | zero => intro i p m _; rfl
  | succ f ih =>
    intro i p m hab
    rw [blit_sprite2_generic]
    cases hb : data[i]? with
    | none => rfl
    | some b =>
      simp only
      by_cases h1 : b = 0x0f
      · simp only [h1, if_true]
      · simp only [h1, if_false]
        by_cases h2 : (b &&& 0xf0) >>> 4 = 0
        · simp only [h2, if_true]
          exact ih _ _ _ (by omega)
        · simp only [h2, if_false]
          have hg : ¬ (p + ((b &&& 0x0f : Nat) : Int) ≥ 0 ∧
              p + ((b &&& 0x0f : Nat) : Int) + (((b &&& 0xf0) >>> 4 : Nat) : Int) ≤ ul) := by
            omega
          simp only [hg, if_false]
          rw [copy_clipped_outside data ul _ _ _ m (by intro k _; omega)]
          simp only [if_true]
          exact ih _ _ _ (by omega)

theorem blit_sprite2_AVX512_above (data : List Nat) (ul pitch : Int) (hp : 12 ≤ pitch) :
    ∀ (fuel i : Nat) (p : Int) (m : Mem), ul ≤ p →
      (blit_sprite2_AVX512 data ul pitch fuel i p m).mem = m := by
  intro fuel
  induction fuel with
  | zero => intro i p m _; rfl
  | succ f ih =>
    intro i p m hab
    rw [blit_sprite2_AVX512]
    cases hb : data[i]? with
    | none => rfl
    | some b =>
      simp only
      by_cases h1 : b = 0x0f
      · simp only [h1, if_true]
      · simp only [h1, if_false]
        by_cases h2 : (b &&& 0xf0) >>> 4 = 0
        · simp only [h2, if_true]
          exact ih _ _ _ (by omega)
        · simp only [h2, if_false]
          have hg : ¬ (p + ((b &&& 0x0f : Nat) : Int) ≥ 0 ∧
              p + ((b &&& 0x0f : Nat) : Int) + (((b &&& 0xf0) >>> 4 : Nat) : Int) ≤ ul) := by
            omega
          simp only [hg, if_false]
          rw [copy_clipped_outside data ul _ _ _ m (by intro k _; omega)]
          simp only [if_true]
          exact ih _ _ _ (by omega)

/-- A literal pixel at row `r`, column `c < 12` of a sprite placed at `(x, y)` with
`x + 12 <= pitch` lies before the surface when `y + r < 0`, the rows being `vp <= pitch`
apart. -/
theorem cell_above (pitch : Nat) (vp x y c : Int) (r : Nat) (hx : x + 12 ≤ (pitch : Int))
    (hvp : vp ≤ (pitch : Int)) (hc : c < 12) (hr : y + (r : Int) < 0) :
    y * (pitch : Int) + x + (r : Int) * vp + c < 0 := by
  have h1 : (r : Int) * vp ≤ (r : Int) * (pitch : Int) :=
    Int.mul_le_mul_of_nonneg_left hvp (by omega)
  have h2 : (y + (r : Int) + 1) * (pitch : Int) ≤ 0 :=
    Int.mul_nonpos_of_nonpos_of_nonneg (by omega) (by omega)
  have h3 : (y + (r : Int) + 1) * (pitch : Int)
      = y * (pitch : Int) + (r : Int) * (pitch : Int) + (pitch : Int) := by ring
  omega

theorem blit_sprite2_generic_rows_above (data : List Nat) (pitch : Nat) (ul vp x y : Int)
    (hx : x + 12 ≤ (pitch : Int)) (hvp : vp ≤ (pitch : Int)) :
    ∀ (fuel i r : Nat) (c p : Int) (m : Mem),
      p = y * (pitch : Int) + x + (r : Int) * vp + c →
      (∀ cell ∈ compact_cells data fuel i r c, cell.2.1 < 12 ∧ y + (cell.1 : Int) < 0) →
      (blit_sprite2_generic data ul vp fuel i p m).mem = m := by
  intro fuel
  induction fuel with
  | zero => intro i r c p m _ _; rfl
  | succ f ih =>
    intro i r c p m hp hcells
    rw [blit_sprite2_generic]
    rw [compact_cells] at hcells
    cases hb : data[i]? with
    | none => rfl
    | some b =>
      rw [hb] at hcells
      simp only at hcells ⊢
      by_cases h1 : b = 0x0f
      · simp only [h1, if_true]
      · simp only [h1, if_false] at hcells ⊢
        rw [hi_nibble, and_15]
        by_cases h2 : b / 16 % 16 = 0
        · simp only [h2, if_true] at hcells ⊢
          apply ih (i + 1) (r + 1) (c + ((b % 16 : Nat) : Int) - 12) _ m _ hcells
          rw [hp]
          push_cast
          ring
        · simp only [h2, if_false] at hcells ⊢
          have hrun : ∀ k : Nat, k < b / 16 % 16 →
              p + ((b % 16 : Nat) : Int) + (k : Int) < 0 := by
            intro k hk
            have hm := hcells (r, c + ((b % 16 : Nat) : Int) + (k : Int), byteAt data (i + 1 + k))
              (List.mem_append_left _ (List.mem_map.2 ⟨k, List.mem_range.2 hk, rfl⟩))
            have := cell_above pitch vp x y (c + ((b % 16 : Nat) : Int) + (k : Int)) r hx hvp
              hm.1 hm.2
            omega
          have h0 := hrun 0 (by omega)
          have hg : ¬ (p + ((b % 16 : Nat) : Int) ≥ 0 ∧
              p + ((b % 16 : Nat) : Int) + ((b / 16 % 16 : Nat) : Int) ≤ ul) := by
            simp only [Nat.cast_zero, add_zero] at h0
            omega
          simp only [hg, if_false]
          rw [copy_clipped_outside data ul _ _ _ m (by intro k hk; have := hrun k hk; omega)]
          simp only [if_true]
          have e : i + b / 16 % 16 + 1 = i + 1 + b / 16 % 16 := by omega
          rw [e]
          apply ih (i + 1 + b / 16 % 16) r
            (c + ((b % 16 : Nat) : Int) + ((b / 16 % 16 : Nat) : Int)) _ m _
            (fun cell hc => hcells cell (List.mem_append_right _ hc))
          rw [hp]
          ring

theorem blit_sprite2_AVX512_rows_above (data : List Nat) (pitch : Nat) (ul vp x y : Int)
    (hx : x + 12 ≤ (pitch : Int)) (hvp : vp ≤ (pitch : Int)) :
    ∀ (fuel i r : Nat) (c p : Int) (m : Mem),
      p = y * (pitch : Int) + x + (r : Int) * vp + c →
      (∀ cell ∈ compact_cells data fuel i r c, cell.2.1 < 12 ∧ y + (cell.1 : Int) < 0) →
      (blit_sprite2_AVX512 data ul vp fuel i p m).mem = m := by
  intro fuel
  induction fuel with
  | zero => intro i r c p m _ _; rfl
  | succ f ih =>
    intro i r c p m hp hcells
    rw [blit_sprite2_AVX512]
    rw [compact_cells] at hcells
    cases hb : data[i]? with
    | none => rfl
    | some b =>
      rw [hb] at hcells
      simp only at hcells ⊢
      by_cases h1 : b = 0x0f
      · simp only [h1, if_true]
      · simp only [h1, if_false] at hcells ⊢
        rw [hi_nibble, and_15]
        by_cases h2 : b / 16 % 16 = 0
        · simp only [h2, if_true] at hcells ⊢
          apply ih (i + 1) (r + 1) (c + ((b % 16 : Nat) : Int) - 12) _ m _ hcells
          rw [hp]
          push_cast
          ring
        · simp only [h2, if_false] at hcells ⊢
          have hrun : ∀ k : Nat, k < b / 16 % 16 →
              p + ((b % 16 : Nat) : Int) + (k : Int) < 0 := by
            intro k hk
            have hm := hcells (r, c + ((b % 16 : Nat) : Int) + (k : Int), byteAt data (i + 1 + k))
              (List.mem_append_left _ (List.mem_map.2 ⟨k, List.mem_range.2 hk, rfl⟩))
            have := cell_above pitch vp x y (c + ((b % 16 : Nat) : Int) + (k : Int)) r hx hvp
              hm.1 hm.2
            omega
          have h0 := hrun 0 (by omega)
          have hg : ¬ (p + ((b % 16 : Nat) : Int) ≥ 0 ∧
              p + ((b % 16 : Nat) : Int) + ((b / 16 % 16 : Nat) : Int) ≤ ul) := by
            simp only [Nat.cast_zero, add_zero] at h0
            omega
          simp only [hg, if_false]
          rw [copy_clipped_outside data ul _ _ _ m (by intro k hk; have := hrun k hk; omega)]
          simp only [if_true]
          have e : i + b / 16 % 16 + 1 = i + 1 + b / 16 % 16 := by omega
          rw [e]
          apply ih (i + 1 + b / 16 % 16) r
            (c + ((b % 16 : Nat) : Int) + ((b / 16 % 16 : Nat) : Int)) _ m _
            (fun cell hc => hcells cell (List.mem_append_right _ hc))
          rw [hp]
          ring

/-- Counterexample to C6 as stated, on both blits.  A compact sprite whose single row holds 15
literal pixels, blitted by `blit_sprite2` at `(0, -1)` on a surface of pitch 12 and height 1
(screen pitch 12): the stream spans one row, so `y + rows <= 0`, yet offset 0 of the
destination is overwritten.  And an indexed sprite of declared width 0 holding one pixel,
blitted by `blit_sprite` at `(5, -1)` on a surface of pitch 5: `x + width <= pitch` and the
stream spans one row, yet offset 0 is overwritten.  And a position below the surface whose
`int` product leaves the range of `int`: for `y = 2^30` on a 320x200 surface the product
`y * pitch` is `2^30 * 320`, which as a 32-bit value is 0, the start of row 0, where a blit
at `x = 0` stores its pixel. -/
theorem vertical_miss_counterexample :
    ((0 : Int) ≤ 0 ∧ (0 : Int) + 12 ≤ 12 ∧ (12 : Int) ≤ 12 ∧
      (-1 : Int) + (rows_spanned (compact_cells
          [2, 0, 0xF0, 1, 2, 3, 4, 5, 6, 7, 8, 9, 10, 11, 12, 13, 14, 15, 0x0F] 20 2 0 0) : Int)
        ≤ 0 ∧
      (blit_sprite2 0 12 ⟨12, 1, 12, fun _ => 0⟩ 0 (-1)
          ⟨19, [2, 0, 0xF0, 1, 2, 3, 4, 5, 6, 7, 8, 9, 10, 11, 12, 13, 14, 15, 0x0F]⟩ 1).mem 0
        ≠ (fun _ => 0 : Mem) 0) ∧
    ((0 : Int) ≤ 5 ∧ (5 : Int) + ((0 : Nat) : Int) ≤ ((5 : Nat) : Int) ∧
      (-1 : Int) + (rows_spanned (sprite_cells [7] 1 0 1 0 0 0) : Int) ≤ 0 ∧
      blit_sprite ⟨5, 2, 5, fun _ => 0⟩ 5 (-1) ⟨1, [⟨0, 1, 1, some [7]⟩]⟩ 0 0
        ≠ (fun _ => 0 : Mem) 0) ∧
    ((200 : Int) ≤ 2 ^ 30 ∧ toS32 (2 ^ 30 * 320) = 0 ∧
      pixels_start ⟨320, 200, 320, fun _ => 0⟩ 0 0 = toS32 (2 ^ 30 * 320) + 0 ∧
      blit_sprite ⟨320, 200, 320, fun _ => 0⟩ 0 0 ⟨1, [⟨1, 1, 1, some [7]⟩]⟩ 0 0 = 7) := by
  decide

/-- C6 (amended): where the `int` product `y * surface->pitch` of the start cursor and the
product `surface->h * surface->pitch` are in the range of `int`, `blit_sprite` and
`blit_sprite2` (screen pitch at least 12) at a position with `0 <= x` leave the destination
unchanged when `y >= surface->h`; they also leave it unchanged when
`x + sprite width <= pitch` and every pixel of the stream lies in a row above the surface
(`y + rows <= 0`), for `blit_sprite` with a sprite width of at least 1, for `blit_sprite2`
with a screen pitch not above the surface's pitch and no literal pixel at a column
`>= 12`. -/
theorem vertical_miss_is_noop :
    (∀ (surface : SDL_Surface) (x y : Int) (table : Sprite_array) (index : Nat),
      0 ≤ x → (surface.h : Int) ≤ y →
      -(2 ^ 31) ≤ y * (surface.pitch : Int) → y * (surface.pitch : Int) < 2 ^ 31 →
      pixels_ul surface < 2 ^ 31 →
      blit_sprite surface x y table index = surface.pixels) ∧
    (∀ (surface : SDL_Surface) (x y : Int) (table : Sprite_array) (index : Nat),
      0 ≤ x → 1 ≤ (sprite table index).width →
      x + ((sprite table index).width : Int) ≤ (surface.pitch : Int) →
      surface.pitch < 2 ^ 31 →
      -(2 ^ 31) ≤ y * (surface.pitch : Int) → y * (surface.pitch : Int) < 2 ^ 31 →
      pixels_ul surface < 2 ^ 31 →
      y + (rows_spanned (sprite_cells (sprite table index).bytes (sprite table index).size
            (sprite table index).width (sprite table index).size 0 0 0) : Int) ≤ 0 →
      blit_sprite surface x y table index = surface.pixels) ∧
    (∀ (g_hasAVX512 VGAScreen_pitch : Int) (surface : SDL_Surface) (x y : Int)
      (sprite2s : Sprite2_array) (index : Nat),
      0 ≤ x → 12 ≤ VGAScreen_pitch → (surface.h : Int) ≤ y →
      -(2 ^ 31) ≤ y * (surface.pitch : Int) → y * (surface.pitch : Int) < 2 ^ 31 →
      pixels_ul surface < 2 ^ 31 →
      (blit_sprite2 g_hasAVX512 VGAScreen_pitch surface x y sprite2s index).mem
        = surface.pixels) ∧
    (∀ (g_hasAVX512 VGAScreen_pitch : Int) (surface : SDL_Surface) (x y : Int)
      (sprite2s : Sprite2_array) (index start : Nat),
      0 ≤ x → x + 12 ≤ (surface.pitch : Int) → 12 ≤ VGAScreen_pitch →
      VGAScreen_pitch ≤ (surface.pitch : Int) →
      -(2 ^ 31) ≤ y * (surface.pitch : Int) → y * (surface.pitch : Int) < 2 ^ 31 →
      pixels_ul surface < 2 ^ 31 →
      sheet_offset sprite2s.data index = some start →
      y + (rows_spanned (compact_cells sprite2s.data (blit_sprite2_fuel sprite2s) start 0 0)
            : Int) ≤ 0 →
      (∀ cell ∈ compact_cells sprite2s.data (blit_sprite2_fuel sprite2s) start 0 0,
        cell.2.1 < 12) →
      (blit_sprite2 g_hasAVX512 VGAScreen_pitch surface x y sprite2s index).mem
        = surface.pixels) := by
  refine ⟨?_, ?_, ?_, ?_⟩
  · intro surface x y table index hx hy _ _ _
    rw [blit_sprite_eq]
    unfold sprite_blit
    split_ifs
    · rfl
    · exact sprite_loop_above _ _ _ _ _ _ _ _ _ _ _ (start_above_ul surface x y hx hy)
  · intro surface x y table index hx hw hxw hpi hlo _ hul hrows
    rw [blit_sprite_eq]
    unfold sprite_blit
    split_ifs
    · rfl
    · apply sprite_loop_rows_above _ _ _ _ _ (pixels_ul surface) x y hw hx hxw (by omega)
        (by norm_num at hul hlo ⊢; omega) _ 0 0 0
      · left
        refine ⟨?_, by omega⟩
        unfold pixels_start
        simp only [Nat.cast_zero, add_zero]
      · intro c hc
        have := mem_rows_spanned _ c hc
        omega
  · intro g vp surface x y sprite2s index hx hvp hy _ _ _
    unfold blit_sprite2
    cases sheet_offset sprite2s.data index with
    | none => rfl
    | some start =>
      simp only
      split_ifs
      · exact blit_sprite2_AVX512_above _ _ _ hvp _ _ _ _ (start_above_ul surface x y hx hy)
      · exact blit_sprite2_generic_above _ _ _ hvp _ _ _ _ (start_above_ul surface x y hx hy)
  · intro g vp surface x y sprite2s index start hx hxw hvp hvp2 _ _ _ hstart hrows hcols
    have hcells : ∀ cell ∈ compact_cells sprite2s.data (blit_sprite2_fuel sprite2s) start 0 0,
        cell.2.1 < 12 ∧ y + (cell.1 : Int) < 0 := by
      intro cell hc
      have := mem_rows_spanned _ cell hc
      exact ⟨hcols cell hc, by omega⟩
    unfold blit_sprite2
    rw [hstart]
    simp only
    split_ifs
    · apply blit_sprite2_AVX512_rows_above _ surface.pitch _ _ x y hxw hvp2 _ _ 0 0 _ _ _ hcells
      unfold pixels_start
      simp only [Nat.cast_zero, zero_mul, add_zero]
    · apply blit_sprite2_generic_rows_above _ surface.pitch _ _ x y hxw hvp2 _ _ 0 0 _ _ _ hcells
      unfold pixels_start
      simp only [Nat.cast_zero, zero_mul, add_zero]

/-- Witness for C6: the scenario sprite two rows above the 20x20 surface and on the row below
it, and a compact sprite of one row `7 8 9` one row above the surface and on the row below
it. -/
theorem vertical_miss_is_noop_witness :
    blit_sprite scenarioSurface 10 (-2) scenarioTable 0 = scenarioSurface.pixels ∧
    blit_sprite scenarioSurface 10 20 scenarioTable 0 = scenarioSurface.pixels ∧
    (blit_sprite2 0 20 scenarioSurface 0 (-1) ⟨7, [2, 0, 0x30, 7, 8, 9, 0x0f]⟩ 1).mem
      = scenarioSurface.pixels ∧
    (blit_sprite2 0 20 scenarioSurface 0 20 ⟨7, [2, 0, 0x30, 7, 8, 9, 0x0f]⟩ 1).mem
      = scenarioSurface.pixels :=
  ⟨vertical_miss_is_noop.2.1 scenarioSurface 10 (-2) scenarioTable 0 (by decide) (by decide)
      (by decide) (by decide) (by decide) (by decide) (by decide) (by decide),
    vertical_miss_is_noop.1 scenarioSurface 10 20 scenarioTable 0 (by decide) (by decide)
      (by decide) (by decide) (by decide),
    vertical_miss_is_noop.2.2.2 0 20 scenarioSurface 0 (-1) ⟨7, [2, 0, 0x30, 7, 8, 9, 0x0f]⟩ 1 2
      (by decide) (by decide) (by decide) (by decide) (by decide) (by decide) (by decide)
      (by decide) (by decide) (by decide),
    vertical_miss_is_noop.2.2.1 0 20 scenarioSurface 0 20 ⟨7, [2, 0, 0x30, 7, 8, 9, 0x0f]⟩ 1
      (by decide) (by decide) (by decide) (by decide) (by decide) (by decide)⟩

/-! ## Grammar and termination of the compact decoders -/

theorem first_terminator_spec (data : List Nat) :
    ∀ (fuel i t : Nat), first_terminator data fuel i = some t →
      i ≤ t ∧ data[t]? = some 0x0f := by
  intro fuel
  induction fuel with
  | zero => intro i t h; cases h
  | succ f ih =>
    intro i t h
    rw [first_terminator] at h
    cases hb : data[i]? with
    | none => rw [hb] at h; cases h
    | some b =>
      rw [hb] at h
      simp only at h
      by_cases h1 : b = 0x0f
      · simp only [h1, if_true, Option.some.injEq] at h
        subst h
        rw [hb, h1]
        exact ⟨Nat.le_refl _, rfl⟩
      · simp only [h1, if_false] at h
        have := ih _ _ h
        exact ⟨by omega, this.2⟩

theorem lt_length_of_getElem? {data : List Nat} {t b : Nat} (h : data[t]? = some b) :
    t < data.length := by
  by_contra hh
  have : data[t]? = none := List.getElem?_eq_none (by omega)
  rw [this] at h
  cases h

theorem getElem?_isSome_of_lt (data : List Nat) (j : Nat) (h : j < data.length) :
    ∃ b, data[j]? = some b := ⟨data[j], List.getElem?_eq_getElem h⟩

theorem memcpy_agree (data data2 : List Nat) :
    ∀ (c i : Nat) (p : Int) (m : Mem),
      (∀ j, i ≤ j → j < i + c → data2[j]? = data[j]?) →
      memcpy data2 c i p m = memcpy data c i p m := by
  intro c
  induction c with
  | zero => intro i p m _; rfl
  | succ c ih =>
    intro i p m h
    rw [memcpy, memcpy, h i (Nat.le_refl _) (by omega)]
    cases data[i]? with
    | none => rfl
    | some b => exact ih _ _ _ (fun j h1 h2 => h j (by omega) (by omega))

theorem memcpy_ok (data : List Nat) :
    ∀ (c i : Nat) (p : Int) (m : Mem), i + c ≤ data.length → (memcpy data c i p m).2 = true := by
  intro c
  induction c with
  | zero => intro i p m _; rfl
  | succ c ih =>
    intro i p m h
    rw [memcpy]
    obtain ⟨b, hb⟩ := getElem?_isSome_of_lt data i (by omega)
    rw [hb]
    exact ih _ _ _ (by omega)

theorem copy_clipped_agree (data data2 : List Nat) (ul : Int) :
    ∀ (c i : Nat) (p : Int) (m : Mem),
      (∀ j, i ≤ j → j < i + c → data2[j]? = data[j]?) →
      copy_clipped data2 ul c i p m = copy_clipped data ul c i p m := by
  intro c
  induction c with
  | zero => intro i p m _; rfl
  | succ c ih =>
    intro i p m h
    rw [copy_clipped, copy_clipped, h i (Nat.le_refl _) (by omega)]
    split_ifs
    · cases data[i]? with
      | none => rfl
      | some b => exact ih _ _ _ (fun j h1 h2 => h j (by omega) (by omega))
    · exact ih _ _ _ (fun j h1 h2 => h j (by omega) (by omega))

theorem copy_clipped_ok (data : List Nat) (ul : Int) :
    ∀ (c i : Nat) (p : Int) (m : Mem), i + c ≤ data.length →
      (copy_clipped data ul c i p m).2 = true := by
  intro c
  induction c with
  | zero => intro i p m _; rfl
  | succ c ih =>
    intro i p m h
    rw [copy_clipped]
    obtain ⟨b, hb⟩ := getElem?_isSome_of_lt data i (by omega)
    rw [hb]
    split_ifs
    · exact ih _ _ _ (by omega)
    · exact ih _ _ _ (by omega)

/-- On a stream whose grammar reaches a terminator at `t`, `blit_sprite2_generic` ends at `t`
through the loop condition, and no byte after `t` takes part in the run. -/
theorem blit_sprite2_generic_terminates (data : List Nat) (ul pitch : Int) :
    ∀ (fuel i t : Nat) (p : Int) (m : Mem), first_terminator data fuel i = some t →
      (blit_sprite2_generic data ul pitch fuel i p m).exit = Exit.terminator ∧
      (blit_sprite2_generic data ul pitch fuel i p m).stop = t ∧
      ∀ data2 : List Nat, (∀ j, j ≤ t → data2[j]? = data[j]?) →
        blit_sprite2_generic data2 ul pitch fuel i p m
          = blit_sprite2_generic data ul pitch fuel i p m := by
  intro fuel
  induction fuel with
  | zero => intro i t p m h; cases h
  | succ f ih =>
    intro i t p m h
    have hsp := first_terminator_spec data _ _ _ h
    have htl := lt_length_of_getElem? hsp.2
    rw [first_terminator] at h
    cases hb : data[i]? with
    | none => rw [hb] at h; cases h
    | some b =>
      rw [hb] at h
      simp only at h
      by_cases h1 : b = 0x0f
      · simp only [h1, if_true, Option.some.injEq] at h
        refine ⟨?_, ?_, ?_⟩
        · rw [blit_sprite2_generic, hb]
          simp only [h1, if_true]
        · rw [blit_sprite2_generic, hb]
          simp only [h1, if_true]
          exact h
        · intro data2 hag
          rw [blit_sprite2_generic, blit_sprite2_generic, hag i hsp.1, hb]
          simp only [h1, if_true]
      · simp only [h1, if_false] at h
        have hnext := first_terminator_spec data _ _ _ h
        have hrun : ∀ data2 : List Nat, (∀ j, j ≤ t → data2[j]? = data[j]?) →
            blit_sprite2_generic data2 ul pitch (f + 1) i p m
              = if b / 16 % 16 = 0 then
                  blit_sprite2_generic data2 ul pitch f (i + 1)
                    (p + ((b % 16 : Nat) : Int) + (pitch - 12)) m
                else
                  blit_sprite2_generic data2 ul pitch f (i + 1 + b / 16 % 16)
                    (p + ((b % 16 : Nat) : Int) + ((b / 16 % 16 : Nat) : Int))
                    (if p + ((b % 16 : Nat) : Int) ≥ 0 ∧
                        p + ((b % 16 : Nat) : Int) + ((b / 16 % 16 : Nat) : Int) ≤ ul
                      then memcpy data (b / 16 % 16) (i + 1) (p + ((b % 16 : Nat) : Int)) m
                      else copy_clipped data ul (b / 16 % 16) (i + 1)
                        (p + ((b % 16 : Nat) : Int)) m).1 := by
          intro data2 hag
          rw [blit_sprite2_generic, hag i hsp.1, hb]
          simp only [h1, if_false]
          rw [hi_nibble, and_15]
          by_cases h2 : b / 16 % 16 = 0
          · simp only [h2, if_true]
          · simp only [h2, if_false]
            have hlit : ∀ j, i + 1 ≤ j → j < i + 1 + b / 16 % 16 → data2[j]? = data[j]? :=
              fun j _ h2 => hag j (by omega)
            rw [memcpy_agree data data2 _ _ _ _ hlit, copy_clipped_agree data data2 ul _ _ _ _ hlit]
            have e : i + b / 16 % 16 + 1 = i + 1 + b / 16 % 16 := by omega
            rw [e]
            split_ifs with c1 c2 c3
            · rfl
            · exact absurd (memcpy_ok data _ _ _ m (by omega)) c2
            · rfl
            · exact absurd (copy_clipped_ok data ul _ _ _ m (by omega)) c3
        have hself := hrun data (fun _ _ => rfl)
        by_cases h2 : b / 16 % 16 = 0
        · simp only [h2, if_true, Nat.add_zero] at h hself hrun
          obtain ⟨a1, a2, a3⟩ := ih (i + 1) t (p + ((b % 16 : Nat) : Int) + (pitch - 12)) m h
          rw [hself]
          refine ⟨a1, a2, ?_⟩
          intro data2 hag
          rw [hrun data2 hag]
          exact a3 data2 hag
        · simp only [h2, if_false] at hself hrun
          obtain ⟨a1, a2, a3⟩ := ih (i + 1 + b / 16 % 16) t
            (p + ((b % 16 : Nat) : Int) + ((b / 16 % 16 : Nat) : Int))
            (if p + ((b % 16 : Nat) : Int) ≥ 0 ∧
                        p + ((b % 16 : Nat) : Int) + ((b / 16 % 16 : Nat) : Int) ≤ ul
                      then memcpy data (b / 16 % 16) (i + 1) (p + ((b % 16 : Nat) : Int)) m
                      else copy_clipped data ul (b / 16 % 16) (i + 1)
                        (p + ((b % 16 : Nat) : Int)) m).1 h
          rw [hself]
          refine ⟨a1, a2, ?_⟩
          intro data2 hag
          rw [hrun data2 hag]
          exact a3 data2 hag

theorem sprite2_run_agree (store : List Nat → Nat → Nat → Option Nat) (data data2 : List Nat)
    (ul : Int) (hst : ∀ j d, data2[j]? = data[j]? → store data2 j d = store data j d) :
    ∀ (c i : Nat) (p : Int) (m : Mem),
      (∀ j, i ≤ j → j < i + c → data2[j]? = data[j]?) →
      sprite2_run store data2 ul c i p m = sprite2_run store data ul c i p m := by
  intro c
  induction c with
  | zero => intro i p m _; rfl
  | succ c ih =>
    intro i p m h
    rw [sprite2_run, sprite2_run, hst i (m p) (h i (Nat.le_refl _) (by omega))]
    split_ifs
    · rfl
    · cases store data i (m p) with
      | none => rfl
      | some v => exact ih _ _ _ (fun j h1 h2 => h j (by omega) (by omega))
    · exact ih _ _ _ (fun j h1 h2 => h j (by omega) (by omega))

theorem sprite2_run_exit (store : List Nat → Nat → Nat → Option Nat) (data : List Nat)
    (ul : Int) (hso : ∀ j d, j < data.length → store data j d ≠ none) :
    ∀ (c i : Nat) (p : Int) (m : Mem), i + c ≤ data.length →
      (sprite2_run store data ul c i p m).2 = none ∨
      (sprite2_run store data ul c i p m).2 = some Exit.cutoff := by
  intro c
  induction c with
  | zero => intro i p m _; exact Or.inl rfl
  | succ c ih =>
    intro i p m h
    rw [sprite2_run]
    split_ifs
    · exact Or.inr rfl
    · cases hs : store data i (m p) with
      | none => exact absurd hs (hso i (m p) (by omega))
      | some v => exact ih _ _ _ (by omega)
    · exact ih _ _ _ (by omega)

/-- On a stream whose grammar reaches a terminator at `t`, the loop of `blit_sprite2_darken`
and `blit_sprite2_filter` ends at `t` through the loop condition or earlier through the
cutoff `return`, and no byte after `t` takes part in the run. -/
theorem sprite2_loop_terminates (store : List Nat → Nat → Nat → Option Nat) (data : List Nat)
    (ul pitch : Int)
    (hst : ∀ (data2 : List Nat) (j d : Nat), data2[j]? = data[j]? →
      store data2 j d = store data j d)
    (hso : ∀ j d, j < data.length → store data j d ≠ none) :
    ∀ (fuel i t : Nat) (p : Int) (m : Mem), first_terminator data fuel i = some t →
      (((sprite2_loop store data ul pitch fuel i p m).exit = Exit.terminator ∧
        (sprite2_loop store data ul pitch fuel i p m).stop = t) ∨
       ((sprite2_loop store data ul pitch fuel i p m).exit = Exit.cutoff ∧
        (sprite2_loop store data ul pitch fuel i p m).stop ≤ t)) ∧
      ∀ data2 : List Nat, (∀ j, j ≤ t → data2[j]? = data[j]?) →
        sprite2_loop store data2 ul pitch fuel i p m
          = sprite2_loop store data ul pitch fuel i p m := by
  intro fuel
  induction fuel with
  | zero => intro i t p m h; cases h
  | succ f ih =>
    intro i t p m h
    have hsp := first_terminator_spec data _ _ _ h
    have htl := lt_length_of_getElem? hsp.2
    rw [first_terminator] at h
    cases hb : data[i]? with
    | none => rw [hb] at h; cases h
    | some b =>
      rw [hb] at h
      simp only at h
      by_cases h1 : b = 0x0f
      · simp only [h1, if_true, Option.some.injEq] at h
        refine ⟨Or.inl ⟨?_, ?_⟩, ?_⟩
        · rw [sprite2_loop, hb]
          simp only [h1, if_true]
        · rw [sprite2_loop, hb]
          simp only [h1, if_true]
          exact h
        · intro data2 hag
          rw [sprite2_loop, sprite2_loop, hag i hsp.1, hb]
          simp only [h1, if_true]
      · simp only [h1, if_false] at h
        have hnext := first_terminator_spec data _ _ _ h
        have hrun : ∀ data2 : List Nat, (∀ j, j ≤ t → data2[j]? = data[j]?) →
            sprite2_loop store data2 ul pitch (f + 1) i p m
              = if b / 16 % 16 = 0 then
                  sprite2_loop store data2 ul pitch f (i + 1)
                    (p + ((b % 16 : Nat) : Int) + (pitch - 12)) m
                else
                  match (sprite2_run store data ul (b / 16 % 16) (i + 1)
                      (p + ((b % 16 : Nat) : Int)) m).2 with
                  | none =>
                    sprite2_loop store data2 ul pitch f (i + 1 + b / 16 % 16)
                      (p + ((b % 16 : Nat) : Int) + ((b / 16 % 16 : Nat) : Int))
                      (sprite2_run store data ul (b / 16 % 16) (i + 1)
                        (p + ((b % 16 : Nat) : Int)) m).1
                  | some e =>
                    ⟨(sprite2_run store data ul (b / 16 % 16) (i + 1)
                        (p + ((b % 16 : Nat) : Int)) m).1, i + 1, e⟩ := by
          intro data2 hag
          rw [sprite2_loop, hag i hsp.1, hb]
          simp only [h1, if_false]
          rw [hi_nibble, and_15]
          by_cases h2 : b / 16 % 16 = 0
          · simp only [h2, if_true]
          · simp only [h2, if_false]
            have hlit : ∀ j, i + 1 ≤ j → j < i + 1 + b / 16 % 16 → data2[j]? = data[j]? :=
              fun j _ h2 => hag j (by omega)
            rw [sprite2_run_agree store data data2 ul (hst data2) _ _ _ _ hlit]
            have e : i + b / 16 % 16 + 1 = i + 1 + b / 16 % 16 := by omega
            rw [e]
        have hself := hrun data (fun _ _ => rfl)
        by_cases h2 : b / 16 % 16 = 0
        · simp only [h2, if_true, Nat.add_zero] at h hself hrun
          obtain ⟨a1, a3⟩ := ih (i + 1) t (p + ((b % 16 : Nat) : Int) + (pitch - 12)) m h
          rw [hself]
          refine ⟨a1, ?_⟩
          intro data2 hag
          rw [hrun data2 hag]
          exact a3 data2 hag
        · simp only [h2, if_false] at hself hrun
          rcases sprite2_run_exit store data ul hso (b / 16 % 16) (i + 1)
            (p + ((b % 16 : Nat) : Int)) m (by omega) with hx | hx
          · simp only [hx] at hself hrun
            obtain ⟨a1, a3⟩ := ih (i + 1 + b / 16 % 16) t
              (p + ((b % 16 : Nat) : Int) + ((b / 16 % 16 : Nat) : Int))
              (sprite2_run store data ul (b / 16 % 16) (i + 1)
                (p + ((b % 16 : Nat) : Int)) m).1 h
            rw [hself]
            refine ⟨a1, ?_⟩
            intro data2 hag
            rw [hrun data2 hag]
            exact a3 data2 hag
          · simp only [hx] at hself hrun
            rw [hself]
            refine ⟨Or.inr ⟨rfl, by simp only; omega⟩, ?_⟩
            intro data2 hag
            rw [hrun data2 hag]

theorem darken_store_agree (data data2 : List Nat) (j d : Nat) :
    darken_store data2 j d = darken_store data j d := rfl

theorem darken_store_total (data : List Nat) (j d : Nat) : darken_store data j d ≠ none := by
  unfold darken_store
  exact Option.some_ne_none _

theorem filter_store_agree (filter : Nat) (data data2 : List Nat) (j d : Nat)
    (h : data2[j]? = data[j]?) : filter_store filter data2 j d = filter_store filter data j d := by
  unfold filter_store
  rw [h]

theorem filter_store_total (filter : Nat) (data : List Nat) (j d : Nat) (h : j < data.length) :
    filter_store filter data j d ≠ none := by
  unfold filter_store
  obtain ⟨b, hb⟩ := getElem?_isSome_of_lt data j h
  rw [hb]
  exact Option.some_ne_none _

/-- Counterexample to C9 as stated: `blit_sprite2_darken` of the stream `10 07 0F` at row 20 of
the 20x20 surface.  The grammar reaches the terminator at index 4 of the sheet, but the blit
leaves through `if (pixels >= pixels_ul) return;` at the literal, index 3, and never reaches
the terminator. -/
theorem darken_stops_before_terminator :
    first_terminator [2, 0, 0x10, 7, 0x0F] (blit_sprite2_fuel ⟨5, [2, 0, 0x10, 7, 0x0F]⟩) 2
      = some 4 ∧
    (blit_sprite2_darken 20 scenarioSurface 0 20 ⟨5, [2, 0, 0x10, 7, 0x0F]⟩ 1).exit = Exit.cutoff ∧
    (blit_sprite2_darken 20 scenarioSurface 0 20 ⟨5, [2, 0, 0x10, 7, 0x0F]⟩ 1).stop = 3 := by
  decide

/-- C9 (amended): when the grammar walk from the sprite's start offset reaches a control byte
`0x0F` at index `t`, `blit_sprite2` on the generic path ends at `t` through its loop
condition; `blit_sprite2_darken` and `blit_sprite2_filter` end at `t` or, through the cutoff
`return`, inside an earlier run; none of the three loops depends on (or reads) a byte after
`t`.  A control byte with high nibble 0 moves the cursor by `low nibble + pitch - 12` and
consumes no literal; a literal `0x0F` inside a run does not end the stream; `0x1F` is a skip
of 15 followed by one literal, not a terminator. -/
theorem compact_grammar_termination (sprite2s : Sprite2_array) (index start t : Nat)
    (hstart : sheet_offset sprite2s.data index = some start)
    (ht : first_terminator sprite2s.data (blit_sprite2_fuel sprite2s) start = some t) :
    (∀ (g_hasAVX512 VGAScreen_pitch : Int) (surface : SDL_Surface) (x y : Int),
      g_hasAVX512 ≠ 1 →
      (blit_sprite2 g_hasAVX512 VGAScreen_pitch surface x y sprite2s index).exit
        = Exit.terminator ∧
      (blit_sprite2 g_hasAVX512 VGAScreen_pitch surface x y sprite2s index).stop = t) ∧
    (∀ (VGAScreen_pitch : Int) (surface : SDL_Surface) (x y : Int),
      ((blit_sprite2_darken VGAScreen_pitch surface x y sprite2s index).exit = Exit.terminator ∧
        (blit_sprite2_darken VGAScreen_pitch surface x y sprite2s index).stop = t) ∨
      ((blit_sprite2_darken VGAScreen_pitch surface x y sprite2s index).exit = Exit.cutoff ∧
        (blit_sprite2_darken VGAScreen_pitch surface x y sprite2s index).stop ≤ t)) ∧
    (∀ (VGAScreen_pitch : Int) (surface : SDL_Surface) (x y : Int) (filter : Nat),
      ((blit_sprite2_filter VGAScreen_pitch surface x y sprite2s index filter).exit
          = Exit.terminator ∧
        (blit_sprite2_filter VGAScreen_pitch surface x y sprite2s index filter).stop = t) ∨
      ((blit_sprite2_filter VGAScreen_pitch surface x y sprite2s index filter).exit
          = Exit.cutoff ∧
        (blit_sprite2_filter VGAScreen_pitch surface x y sprite2s index filter).stop ≤ t)) ∧
    (∀ (data2 : List Nat), (∀ j, j ≤ t → data2[j]? = sprite2s.data[j]?) →
      ∀ (ul pitch p : Int) (m : Mem) (filter : Nat),
        blit_sprite2_generic data2 ul pitch (blit_sprite2_fuel sprite2s) start p m
          = blit_sprite2_generic sprite2s.data ul pitch (blit_sprite2_fuel sprite2s) start p m ∧
        sprite2_loop darken_store data2 ul pitch (blit_sprite2_fuel sprite2s) start p m
          = sprite2_loop darken_store sprite2s.data ul pitch (blit_sprite2_fuel sprite2s)
              start p m ∧
        sprite2_loop (filter_store filter) data2 ul pitch (blit_sprite2_fuel sprite2s) start p m
          = sprite2_loop (filter_store filter) sprite2s.data ul pitch
              (blit_sprite2_fuel sprite2s) start p m) ∧
    (∀ (store : List Nat → Nat → Nat → Option Nat) (ul pitch p : Int) (m : Mem) (f i b : Nat),
      sprite2s.data[i]? = some b → b ≠ 0x0f → b / 16 % 16 = 0 →
        blit_sprite2_generic sprite2s.data ul pitch (f + 1) i p m
          = blit_sprite2_generic sprite2s.data ul pitch f (i + 1)
              (p + ((b % 16 : Nat) : Int) + (pitch - 12)) m ∧
        sprite2_loop store sprite2s.data ul pitch (f + 1) i p m
          = sprite2_loop store sprite2s.data ul pitch f (i + 1)
              (p + ((b % 16 : Nat) : Int) + (pitch - 12)) m) ∧
    ((blit_sprite2_generic [0x10, 0x0F, 0x0F] 100 20 4 0 5 (fun _ => 0)).stop = 2 ∧
      (blit_sprite2_generic [0x10, 0x0F, 0x0F] 100 20 4 0 5 (fun _ => 0)).mem 5 = 0x0F ∧
      (blit_sprite2_generic [0x1F, 7, 0x0F] 100 20 4 0 5 (fun _ => 0)).stop = 2 ∧
      (blit_sprite2_generic [0x1F, 7, 0x0F] 100 20 4 0 5 (fun _ => 0)).mem 20 = 7) := by
  refine ⟨?_, ?_, ?_, ?_, ?_, ?_⟩
  · intro g vp surface x y hg
    have h := blit_sprite2_generic_terminates sprite2s.data (pixels_ul surface) vp _ _ _
      (pixels_start surface x y) surface.pixels ht
    unfold blit_sprite2
    rw [hstart]
    simp only [hg, if_false]
    exact ⟨h.1, h.2.1⟩
  · intro vp surface x y
    have h := sprite2_loop_terminates darken_store sprite2s.data (pixels_ul surface) vp
      (fun data2 j d _ => darken_store_agree sprite2s.data data2 j d)
      (fun j d _ => darken_store_total sprite2s.data j d) _ _ _
      (pixels_start surface x y) surface.pixels ht
    unfold blit_sprite2_darken sprite2_blit
    rw [hstart]
    exact h.1
  · intro vp surface x y filter
    have h := sprite2_loop_terminates (filter_store filter) sprite2s.data (pixels_ul surface) vp
      (fun data2 j d hj => filter_store_agree filter sprite2s.data data2 j d hj)
      (fun j d hj => filter_store_total filter sprite2s.data j d hj) _ _ _
      (pixels_start surface x y) surface.pixels ht
    unfold blit_sprite2_filter sprite2_blit
    rw [hstart]
    exact h.1
  · intro data2 hag ul pitch p m filter
    refine ⟨(blit_sprite2_generic_terminates sprite2s.data ul pitch _ _ _ p m ht).2.2 data2 hag,
      (sprite2_loop_terminates darken_store sprite2s.data ul pitch
        (fun data2 j d _ => darken_store_agree sprite2s.data data2 j d)
        (fun j d _ => darken_store_total sprite2s.data j d) _ _ _ p m ht).2 data2 hag,
      (sprite2_loop_terminates (filter_store filter) sprite2s.data ul pitch
        (fun data2 j d hj => filter_store_agree filter sprite2s.data data2 j d hj)
        (fun j d hj => filter_store_total filter sprite2s.data j d hj) _ _ _ p m ht).2 data2 hag⟩
  · intro store ul pitch p m f i b hb h1 h2
    constructor
    · rw [blit_sprite2_generic, hb]
      simp only [h1, if_false]
      rw [hi_nibble, and_15]
      simp only [h2, if_true]
    · rw [sprite2_loop, hb]
      simp only [h1, if_false]
      rw [hi_nibble, and_15]
      simp only [h2, if_true]
  · decide

/-- Witness for C9: a sheet with one sprite, the run `7 8 9`; the terminator is at index 6. -/
theorem compact_grammar_termination_witness :
    (blit_sprite2 0 20 scenarioSurface 0 0 ⟨7, [2, 0, 0x30, 7, 8, 9, 0x0f]⟩ 1).exit
        = Exit.terminator ∧
    (blit_sprite2 0 20 scenarioSurface 0 0 ⟨7, [2, 0, 0x30, 7, 8, 9, 0x0f]⟩ 1).stop = 6 :=
  (compact_grammar_termination ⟨7, [2, 0, 0x30, 7, 8, 9, 0x0f]⟩ 1 2 6 (by decide) (by decide)).1
    0 20 scenarioSurface 0 0 (by decide)

/-! ## Coordinate clipping of the clipped compact blits -/

theorem compact_cells_ge (data : List Nat) :
    ∀ (fuel i r : Nat) (c : Int), ∀ cell ∈ compact_cells data fuel i r c,
      r < cell.1 ∨ (r = cell.1 ∧ c ≤ cell.2.1) := by
  intro fuel
  induction fuel with
  | zero => intro i r c cell h; cases h
  | succ f ih =>
    intro i r c cell h
    rw [compact_cells] at h
    cases hb : data[i]? with
    | none => rw [hb] at h; cases h
    | some b =>
      rw [hb] at h
      simp only at h
      by_cases h1 : b = 0x0f
      · simp only [h1, if_true] at h
        cases h
      · simp only [h1, if_false] at h
        by_cases h2 : b / 16 % 16 = 0
        · simp only [h2, if_true] at h
          rcases ih _ _ _ cell h with a | a
          · left; omega
          · left; omega
        · simp only [h2, if_false] at h
          rcases List.mem_append.1 h with a | a
          · obtain ⟨k, _, hk⟩ := List.mem_map.1 a
            subst hk
            right
            simp only
            exact ⟨trivial, by omega⟩
          · rcases ih _ _ _ cell a with a | a
            · left; exact a
            · right; exact ⟨a.1, by omega⟩

theorem paint_clipped_nil (g : Nat → Nat) (h width pitch : Nat) (x y : Int) (m : Mem) :
    paint_clipped g h width pitch x y m [] = m := rfl

theorem paint_clipped_cons (g : Nat → Nat) (h width pitch : Nat) (x y : Int) (m : Mem)
    (a : Nat × Int × Nat) (rest : List (Nat × Int × Nat)) :
    paint_clipped g h width pitch x y m (a :: rest)
      = paint_clipped g h width pitch x y
          (if 0 ≤ x + a.2.1 ∧ x + a.2.1 < (width : Int) ∧ 0 ≤ y + (a.1 : Int) ∧
              y + (a.1 : Int) < (h : Int)
            then poke m ((y + (a.1 : Int)) * (pitch : Int) + (x + a.2.1)) (g a.2.2) else m)
          rest := rfl

theorem paint_clipped_append (g : Nat → Nat) (h width pitch : Nat) (x y : Int) (m : Mem)
    (l1 l2 : List (Nat × Int × Nat)) :
    paint_clipped g h width pitch x y m (l1 ++ l2)
      = paint_clipped g h width pitch x y (paint_clipped g h width pitch x y m l1) l2 := by
  unfold paint_clipped
  rw [List.foldl_append]

/-- Pixels that are all clipped leave the memory as it is. -/
theorem paint_clipped_skip (g : Nat → Nat) (h width pitch : Nat) (x y : Int) :
    ∀ (cells : List (Nat × Int × Nat)) (m : Mem),
      (∀ cell ∈ cells, ¬ (0 ≤ x + cell.2.1 ∧ x + cell.2.1 < (width : Int) ∧
          0 ≤ y + (cell.1 : Int) ∧ y + (cell.1 : Int) < (h : Int))) →
      paint_clipped g h width pitch x y m cells = m := by
  intro cells
  induction cells with
  | nil => intro m _; rfl
  | cons a rest ih =>
    intro m hc
    rw [paint_clipped_cons]
    have := hc a (List.mem_cons_self _ _)
    simp only [this, if_false]
    exact ih m (fun cell hm => hc cell (List.mem_cons_of_mem _ hm))

/-- The fill loop on a visible row stores exactly the pixels of the run that pass the column
test. -/
theorem clip_run_paint (f : Nat → Nat) (data : List Nat) (h pitch : Nat) (x0 y0 : Int) (r : Nat)
    (hy0 : 0 ≤ y0 + (r : Int)) (hy1 : y0 + (r : Int) < (h : Int)) :
    ∀ (n j : Nat) (c : Int) (m : Mem), j + n ≤ data.length →
      clip_run f data pitch (y0 + (r : Int)) n j (x0 + c) m
        = (paint_clipped f h pitch pitch x0 y0 m
            ((List.range n).map (fun k : Nat => (r, c + (k : Int), byteAt data (j + k)))), true) := by
  intro n
  induction n with
  | zero => intro j c m _; rfl
  | succ n ih =>
    intro j c m hlen
    rw [clip_run, List.range_succ_eq_map, List.map_cons, List.map_map, paint_clipped_cons]
    obtain ⟨b, hb⟩ := getElem?_isSome_of_lt data j (by omega)
    rw [hb]
    simp only [Nat.cast_zero, add_zero]
    have hbyte : byteAt data j = b := byteAt_of_getElem? hb
    have hfun : ((fun k : Nat => (r, c + (k : Int), byteAt data (j + k))) ∘ Nat.succ)
        = (fun k : Nat => (r, c + 1 + (k : Int), byteAt data (j + 1 + k))) := by
      funext k
      simp only [Function.comp, Nat.succ_eq_add_one, Nat.cast_add, Nat.cast_one]
      have e1 : c + ((k : Int) + 1) = c + 1 + (k : Int) := by ring
      have e2 : j + (k + 1) = j + 1 + k := by omega
      rw [e1, e2]
    rw [hfun, hbyte]
    have hx : x0 + c + 1 = x0 + (c + 1) := by ring
    by_cases hc : x0 + c ≥ 0 ∧ x0 + c < (pitch : Int)
    · have hc2 : 0 ≤ x0 + c ∧ x0 + c < (pitch : Int) ∧ 0 ≤ y0 + (r : Int) ∧
          y0 + (r : Int) < (h : Int) := ⟨hc.1, hc.2, hy0, hy1⟩
      simp only [hc, hc2, and_self, if_true]
      rw [hx]
      exact ih (j + 1) (c + 1) _ (by omega)
    · have hc2 : ¬ (0 ≤ x0 + c ∧ x0 + c < (pitch : Int) ∧ 0 ≤ y0 + (r : Int) ∧
          y0 + (r : Int) < (h : Int)) := fun hh => hc ⟨hh.1, hh.2.1⟩
      simp only [hc, hc2, if_false]
      rw [hx]
      exact ih (j + 1) (c + 1) _ (by omega)

/-- On a terminated stream the clipped decode loop stores exactly the pixels of the stream that
pass the coordinate test against the pitch and the height, each at its own coordinate. -/
theorem clip_loop_paint (f : Nat → Nat) (data : List Nat) (h pitch : Nat) (x0 y0 : Int) :
    ∀ (fuel i t r : Nat) (c : Int) (m : Mem), first_terminator data fuel i = some t →
      (clip_loop f data h pitch fuel i (x0 + c) (y0 + (r : Int)) m).mem
        = paint_clipped f h pitch pitch x0 y0 m (compact_cells data fuel i r c) ∧
      ((clip_loop f data h pitch fuel i (x0 + c) (y0 + (r : Int)) m).exit = Exit.terminator ∨
       (clip_loop f data h pitch fuel i (x0 + c) (y0 + (r : Int)) m).exit = Exit.cutoff) := by
  intro fuel
  induction fuel with
  | zero => intro i t r c m h; cases h
  | succ fu ih =>
    intro i t r c m ht
    have hsp := first_terminator_spec data _ _ _ ht
    have htl := lt_length_of_getElem? hsp.2
    rw [first_terminator] at ht
    rw [clip_loop, compact_cells]
    cases hb : data[i]? with
    | none => rw [hb] at ht; cases ht
    | some b =>
      rw [hb] at ht
      simp only at ht ⊢
      by_cases h1 : b = 0x0f
      · simp only [h1, if_true]
        exact ⟨rfl, Or.inl trivial⟩
      · simp only [h1, if_false] at ht ⊢
        have hnext := first_terminator_spec data _ _ _ ht
        rw [hi_nibble_shift, and_15]
        by_cases hy : y0 + (r : Int) ≥ (h : Int)
        · simp only [hy, if_true]
          refine ⟨?_, Or.inr trivial⟩
          symm
          have hskip : ∀ cell ∈ compact_cells data (fu + 1) i r c,
              ¬ (0 ≤ x0 + cell.2.1 ∧ x0 + cell.2.1 < (pitch : Int) ∧
                0 ≤ y0 + (cell.1 : Int) ∧ y0 + (cell.1 : Int) < (h : Int)) := by
            intro cell hc hh
            rcases compact_cells_ge data _ _ _ _ cell hc with a | a <;> omega
          have := paint_clipped_skip f h pitch pitch x0 y0 _ m hskip
          rw [compact_cells, hb] at this
          simp only [h1, if_false] at this
          exact this
        · simp only [hy, if_false]
          by_cases h2 : b / 16 % 16 = 0
          · simp only [h2, if_true, Nat.add_zero] at ht ⊢
            have := ih (i + 1) t (r + 1) (c + ((b % 16 : Nat) : Int) - 12) m ht
            have e1 : x0 + (c + ((b % 16 : Nat) : Int) - 12) = x0 + c + ((b % 16 : Nat) : Int) - 12 := by
              ring
            have e2 : y0 + ((r + 1 : Nat) : Int) = y0 + (r : Int) + 1 := by
              push_cast
              ring
            rw [e1, e2] at this
            exact this
          · simp only [h2, if_false] at ht ⊢
            have e3 : i + b / 16 % 16 + 1 = i + 1 + b / 16 % 16 := by omega
            have e4 : x0 + c + ((b % 16 : Nat) : Int) + ((b / 16 % 16 : Nat) : Int)
                = x0 + (c + ((b % 16 : Nat) : Int) + ((b / 16 % 16 : Nat) : Int)) := by ring
            rw [paint_clipped_append, e3, e4]
            by_cases hy0 : y0 + (r : Int) ≥ 0
            · simp only [hy0, if_true]
              have e5 : x0 + c + ((b % 16 : Nat) : Int) = x0 + (c + ((b % 16 : Nat) : Int)) := by
                ring
              rw [e5, clip_run_paint f data h pitch x0 y0 r hy0 (by omega) _ _ _ m (by omega)]
              simp only [if_true]
              exact ih _ t r _ _ ht
            · simp only [hy0, if_false]
              rw [paint_clipped_skip f h pitch pitch x0 y0 _ m (by
                intro cell hc hh
                obtain ⟨k, _, hk⟩ := List.mem_map.1 hc
                subst hk
                simp only at hh
                omega)]
              exact ih _ t r _ _ ht

theorem compact_cells_sorted (data : List Nat) :
    ∀ (fuel i r : Nat) (c : Int),
      List.Pairwise (fun a b : Nat × Int × Nat => a.1 < b.1 ∨ (a.1 = b.1 ∧ a.2.1 < b.2.1))
        (compact_cells data fuel i r c) := by
  intro fuel
  induction fuel with
  | zero => intro i r c; exact List.Pairwise.nil
  | succ f ih =>
    intro i r c
    rw [compact_cells]
    cases hb : data[i]? with
    | none => exact List.Pairwise.nil
    | some b =>
      simp only
      by_cases h1 : b = 0x0f
      · simp only [h1, if_true]
        exact List.Pairwise.nil
      · simp only [h1, if_false]
        by_cases h2 : b / 16 % 16 = 0
        · simp only [h2, if_true]
          exact ih _ _ _
        · simp only [h2, if_false]
          rw [List.pairwise_append]
          refine ⟨?_, ih _ _ _, ?_⟩
          · rw [List.pairwise_map]
            refine List.Pairwise.imp ?_ (List.pairwise_lt_range _)
            intro a b hab
            right
            simp only
            exact ⟨trivial, by omega⟩
          · intro a ha b hb2
            obtain ⟨k, hk, hka⟩ := List.mem_map.1 ha
            have hk2 := List.mem_range.1 hk
            subst hka
            simp only
            rcases compact_cells_ge data _ _ _ _ b hb2 with q | q
            · left; exact q
            · right; exact ⟨q.1, by omega⟩

theorem coord_inj (pitch : Nat) (x y : Int) (ra rb : Nat) (ca cb : Int)
    (ha0 : 0 ≤ x + ca) (ha1 : x + ca < (pitch : Int)) (hb0 : 0 ≤ x + cb)
    (hb1 : x + cb < (pitch : Int))
    (h : (y + (ra : Int)) * (pitch : Int) + (x + ca) = (y + (rb : Int)) * (pitch : Int) + (x + cb)) :
    ra = rb ∧ ca = cb := by
  have ea : (y + (ra : Int)) * (pitch : Int) = y * (pitch : Int) + (ra : Int) * (pitch : Int) := by
    ring
  have eb : (y + (rb : Int)) * (pitch : Int) = y * (pitch : Int) + (rb : Int) * (pitch : Int) := by
    ring
  rw [ea, eb] at h
  have hr : ra = rb := by
    rcases Nat.lt_trichotomy ra rb with hlt | heq | hgt
    · exfalso
      have h1 : ((ra : Int) + 1) * (pitch : Int) ≤ (rb : Int) * (pitch : Int) :=
        Int.mul_le_mul_of_nonneg_right (by omega) (by omega)
      have h2 : ((ra : Int) + 1) * (pitch : Int) = (ra : Int) * (pitch : Int) + (pitch : Int) := by
        ring
      omega
    · exact heq
    · exfalso
      have h1 : ((rb : Int) + 1) * (pitch : Int) ≤ (ra : Int) * (pitch : Int) :=
        Int.mul_le_mul_of_nonneg_right (by omega) (by omega)
      have h2 : ((rb : Int) + 1) * (pitch : Int) = (rb : Int) * (pitch : Int) + (pitch : Int) := by
        ring
      omega
  subst hr
  exact ⟨rfl, by omega⟩

theorem paint_clipped_other (g : Nat → Nat) (h width pitch : Nat) (x y : Int) :
    ∀ (cells : List (Nat × Int × Nat)) (m : Mem) (o : Int),
      (∀ cell ∈ cells, 0 ≤ x + cell.2.1 ∧ x + cell.2.1 < (width : Int) ∧
          0 ≤ y + (cell.1 : Int) ∧ y + (cell.1 : Int) < (h : Int) →
        (y + (cell.1 : Int)) * (pitch : Int) + (x + cell.2.1) ≠ o) →
      paint_clipped g h width pitch x y m cells o = m o := by
  intro cells
  induction cells with
  | nil => intro m o _; rfl
  | cons a rest ih =>
    intro m o hc
    rw [paint_clipped_cons, ih _ o (fun cell hm => hc cell (List.mem_cons_of_mem _ hm))]
    by_cases hin : 0 ≤ x + a.2.1 ∧ x + a.2.1 < (width : Int) ∧ 0 ≤ y + (a.1 : Int) ∧
        y + (a.1 : Int) < (h : Int)
    · have hne := hc a (List.mem_cons_self _ _) hin
      simp only [hin, and_self, if_true, poke]
      have : ¬ o = (y + (a.1 : Int)) * (pitch : Int) + (x + a.2.1) := fun e => hne e.symm
      simp only [this, if_false]
    · simp only [hin, if_false]

theorem paint_clipped_get (g : Nat → Nat) (h width pitch : Nat) (x y : Int)
    (hwp : width ≤ pitch) :
    ∀ (cells : List (Nat × Int × Nat)) (m : Mem),
      List.Pairwise (fun a b : Nat × Int × Nat => a.1 < b.1 ∨ (a.1 = b.1 ∧ a.2.1 < b.2.1)) cells →
      ∀ cell ∈ cells, 0 ≤ x + cell.2.1 ∧ x + cell.2.1 < (width : Int) ∧
          0 ≤ y + (cell.1 : Int) ∧ y + (cell.1 : Int) < (h : Int) →
        paint_clipped g h width pitch x y m cells
          ((y + (cell.1 : Int)) * (pitch : Int) + (x + cell.2.1)) = g cell.2.2 := by
  intro cells
  induction cells with
  | nil => intro m _ cell hc; cases hc
  | cons a rest ih =>
    intro m hp cell hc hin
    rw [paint_clipped_cons]
    rcases List.mem_cons.1 hc with e | e
    · subst e
      rw [paint_clipped_other]
      · simp only [hin, and_self, if_true, poke]
      · intro b hb hbin hcoord
        have hab := (List.pairwise_cons.1 hp).1 b hb
        have := coord_inj pitch x y b.1 cell.1 b.2.1 cell.2.1 hbin.1 (by omega) hin.1 (by omega)
          hcoord
        omega
    · exact ih _ (List.pairwise_cons.1 hp).2 cell e hin

/-- Counterexample to C10 as stated: a surface of width 1, pitch 2 and height 1, and the run
`7 8` blitted by `blit_sprite2_clip` at (0,0).  The pixel of column 1 has `x + c = 1`, not below
the destination width 1, yet it is stored (offset 1, in the row padding): the column test of
the code is against the pitch. -/
theorem clip_width_counterexample :
    first_terminator [2, 0, 0x20, 7, 8, 0x0F] (blit_sprite2_fuel ⟨6, [2, 0, 0x20, 7, 8, 0x0F]⟩) 2
      = some 5 ∧
    compact_cells [2, 0, 0x20, 7, 8, 0x0F] (blit_sprite2_fuel ⟨6, [2, 0, 0x20, 7, 8, 0x0F]⟩) 2 0 0
      = [(0, 0, 7), (0, 1, 8)] ∧
    ¬ ((0 : Int) + 1 < ((⟨1, 1, 2, fun _ => 0⟩ : SDL_Surface).w : Int)) ∧
    (blit_sprite2_clip ⟨1, 1, 2, fun _ => 0⟩ 0 0 ⟨6, [2, 0, 0x20, 7, 8, 0x0F]⟩ 1).mem
        ((0 + 0) * 2 + (0 + 1)) = 8 ∧
    paint_clipped (fun s => s) 1 1 2 0 0 (fun _ => 0) [(0, 0, 7), (0, 1, 8)] ((0 + 0) * 2 + (0 + 1))
      = 0 := by
  decide

/-- C10 (amended): on a terminated compact stream, for every start position, also a negative
one, `blit_sprite2_clip` stores the value of the sprite pixel at (row `r`, column `c`) at
destination coordinate `(x + c, y + r)`, offset `(y + r) * pitch + (x + c)`, if and only if
`0 <= x + c < pitch` and `0 <= y + r < h`, and changes no other byte; a pixel that fails the
test is dropped.  `blit_sprite2_filter_clip` stores `filter | (s & 0x0F)` at exactly the same
coordinates.  Both blits end at the terminator or at the `y >= surface->h` return. -/
theorem clip_by_coordinates (surface : SDL_Surface) (x y : Int) (sprite2s : Sprite2_array)
    (index start t : Nat)
    (hstart : sheet_offset sprite2s.data index = some start)
    (ht : first_terminator sprite2s.data (blit_sprite2_fuel sprite2s) start = some t) :
    (blit_sprite2_clip surface x y sprite2s index).mem
      = paint_clipped (fun s => s) surface.h surface.pitch surface.pitch x y surface.pixels
          (compact_cells sprite2s.data (blit_sprite2_fuel sprite2s) start 0 0) ∧
    (∀ filter : Nat, (blit_sprite2_filter_clip surface x y sprite2s index filter).mem
      = paint_clipped (fun s => filter ||| (s &&& 0x0f)) surface.h surface.pitch surface.pitch x y
          surface.pixels (compact_cells sprite2s.data (blit_sprite2_fuel sprite2s) start 0 0)) ∧
    (∀ cell ∈ compact_cells sprite2s.data (blit_sprite2_fuel sprite2s) start 0 0,
      0 ≤ x + cell.2.1 ∧ x + cell.2.1 < (surface.pitch : Int) ∧
        0 ≤ y + (cell.1 : Int) ∧ y + (cell.1 : Int) < (surface.h : Int) →
      (blit_sprite2_clip surface x y sprite2s index).mem
          ((y + (cell.1 : Int)) * (surface.pitch : Int) + (x + cell.2.1)) = cell.2.2 ∧
      ∀ filter : Nat, (blit_sprite2_filter_clip surface x y sprite2s index filter).mem
          ((y + (cell.1 : Int)) * (surface.pitch : Int) + (x + cell.2.1))
        = filter ||| (cell.2.2 &&& 0x0f)) ∧
    (∀ o : Int,
      (∀ cell ∈ compact_cells sprite2s.data (blit_sprite2_fuel sprite2s) start 0 0,
        0 ≤ x + cell.2.1 ∧ x + cell.2.1 < (surface.pitch : Int) ∧
          0 ≤ y + (cell.1 : Int) ∧ y + (cell.1 : Int) < (surface.h : Int) →
        (y + (cell.1 : Int)) * (surface.pitch : Int) + (x + cell.2.1) ≠ o) →
      (blit_sprite2_clip surface x y sprite2s index).mem o = surface.pixels o ∧
      ∀ filter : Nat,
        (blit_sprite2_filter_clip surface x y sprite2s index filter).mem o = surface.pixels o) ∧
    (∀ f : Nat → Nat, (clip_blit f surface x y sprite2s index).exit = Exit.terminator ∨
      (clip_blit f surface x y sprite2s index).exit = Exit.cutoff) := by
  have key : ∀ f : Nat → Nat, (clip_blit f surface x y sprite2s index).mem
      = paint_clipped f surface.h surface.pitch surface.pitch x y surface.pixels
          (compact_cells sprite2s.data (blit_sprite2_fuel sprite2s) start 0 0) := by
    intro f
    unfold clip_blit
    rw [hstart]
    have := (clip_loop_paint f sprite2s.data surface.h surface.pitch x y _ _ _ 0 0
      surface.pixels ht).1
    simp only [Nat.cast_zero, add_zero] at this
    exact this
  have hsorted := compact_cells_sorted sprite2s.data (blit_sprite2_fuel sprite2s) start 0 0
  refine ⟨key _, fun filter => key _, ?_, ?_, ?_⟩
  · intro cell hc hin
    constructor
    · unfold blit_sprite2_clip
      rw [key]
      exact paint_clipped_get (fun s => s) _ _ _ x y (Nat.le_refl _) _ _ hsorted cell hc hin
    · intro filter
      unfold blit_sprite2_filter_clip
      rw [key]
      exact paint_clipped_get (fun s => filter ||| (s &&& 0x0f)) _ _ _ x y (Nat.le_refl _) _ _
        hsorted cell hc hin
  · intro o ho
    constructor
    · unfold blit_sprite2_clip
      rw [key]
      exact paint_clipped_other _ _ _ _ x y _ _ o ho
    · intro filter
      unfold blit_sprite2_filter_clip
      rw [key]
      exact paint_clipped_other _ _ _ _ x y _ _ o ho
  · intro f
    unfold clip_blit
    rw [hstart]
    have := (clip_loop_paint f sprite2s.data surface.h surface.pitch x y _ _ _ 0 0
      surface.pixels ht).2
    simp only [Nat.cast_zero, add_zero] at this
    exact this

/-- Witness for C10: the run `7 8 9` blitted at (-1, 0): the pixel of column 0 is dropped on the
left, the pixel of column 1 lands on offset 0. -/
theorem clip_by_coordinates_witness :
    (blit_sprite2_clip scenarioSurface (-1) 0 ⟨7, [2, 0, 0x30, 7, 8, 9, 0x0f]⟩ 1).mem
        ((0 + ((0 : Nat) : Int)) * ((20 : Nat) : Int) + (-1 + 1)) = 8 :=
  ((clip_by_coordinates scenarioSurface (-1) 0 ⟨7, [2, 0, 0x30, 7, 8, 9, 0x0f]⟩ 1 2 6
    (by decide) (by decide)).2.2.1 (0, 1, 8) (by decide) (by decide)).1

/-! ## The fuel of the compact loops is never exhausted -/

theorem blit_sprite2_generic_fuel_ok (data : List Nat) (ul pitch : Int) :
    ∀ (fuel i : Nat) (p : Int) (m : Mem), 1 ≤ fuel → data.length + 1 ≤ i + fuel →
      (blit_sprite2_generic data ul pitch fuel i p m).exit ≠ Exit.fuel := by
  intro fuel
  induction fuel with
  | zero => intro i p m h; omega
  | succ f ih =>
    intro i p m _ h2
    rw [blit_sprite2_generic]
    cases hb : data[i]? with
    | none => simp
    | some b =>
      have hi := lt_length_of_getElem? hb
      simp only
      split_ifs
      · simp
      · exact ih _ _ _ (by omega) (by omega)
      · exact ih _ _ _ (by omega) (by omega)
      · simp
      · exact ih _ _ _ (by omega) (by omega)
      · simp

theorem blit_sprite2_AVX512_fuel_ok (data : List Nat) (ul pitch : Int) :
    ∀ (fuel i : Nat) (p : Int) (m : Mem), 1 ≤ fuel → data.length + 1 ≤ i + fuel →
      (blit_sprite2_AVX512 data ul pitch fuel i p m).exit ≠ Exit.fuel := by
  intro fuel
  induction fuel with
  | zero => intro i p m h; omega
  | succ f ih =>
    intro i p m _ h2
    rw [blit_sprite2_AVX512]
    cases hb : data[i]? with
    | none => simp
    | some b =>
      have hi := lt_length_of_getElem? hb
      simp only
      split_ifs
      · simp
      · exact ih _ _ _ (by omega) (by omega)
      · exact ih _ _ _ (by omega) (by omega)
      · simp
      · exact ih _ _ _ (by omega) (by omega)
      · simp

theorem blend_tail_exit (data : List Nat) (ul : Int) :
    ∀ (c i : Nat) (p : Int) (m : Mem), (blend_tail data ul c i p m).2 ≠ some Exit.fuel := by
  intro c
  induction c with
  | zero => intro i p m; simp [blend_tail]
  | succ c ih =>
    intro i p m
    rw [blend_tail]
    split_ifs
    · simp
    · cases store_from blend2_rule data i p m with
      | none => simp
      | some m1 => exact ih _ _ _
    · exact ih _ _ _

theorem blit_sprite2_blend_generic_fuel_ok (data : List Nat) (ul pitch : Int) :
    ∀ (fuel i : Nat) (p : Int) (m : Mem), 1 ≤ fuel → data.length + 1 ≤ i + fuel →
      (blit_sprite2_blend_generic data ul pitch fuel i p m).exit ≠ Exit.fuel := by
  intro fuel
  induction fuel with
  | zero => intro i p m h; omega
  | succ f ih =>
    intro i p m _ h2
    rw [blit_sprite2_blend_generic]
    cases hb : data[i]? with
    | none => simp
    | some b =>
      have hi := lt_length_of_getElem? hb
      simp only
      split_ifs
      · simp
      · exact ih _ _ _ (by omega) (by omega)
      · split
        · exact ih _ _ _ (by omega) (by omega)
        · rename_i e he
          simp only
          intro hfu
          subst hfu
          exact blend_tail_exit data ul _ _ _ _ he
      · simp

theorem blit_sprite2_blend_AVX512_fuel_ok (data : List Nat) (ul pitch : Int) :
    ∀ (fuel i : Nat) (p : Int) (m : Mem), 1 ≤ fuel → data.length + 1 ≤ i + fuel →
      (blit_sprite2_blend_AVX512 data ul pitch fuel i p m).exit ≠ Exit.fuel := by
  intro fuel
  induction fuel with
  | zero => intro i p m h; omega
  | succ f ih =>
    intro i p m _ h2
    rw [blit_sprite2_blend_AVX512]
    cases hb : data[i]? with
    | none => simp
    | some b =>
      have hi := lt_length_of_getElem? hb
      simp only
      split_ifs
      · simp
      · exact ih _ _ _ (by omega) (by omega)
      · exact ih _ _ _ (by omega) (by omega)
      · simp
      · exact ih _ _ _ (by omega) (by omega)
      · simp

theorem sprite2_run_exit_ne_fuel (store : List Nat → Nat → Nat → Option Nat) (data : List Nat)
    (ul : Int) :
    ∀ (c i : Nat) (p : Int) (m : Mem), (sprite2_run store data ul c i p m).2 ≠ some Exit.fuel := by
  intro c
  induction c with
  | zero => intro i p m; simp [sprite2_run]
  | succ c ih =>
    intro i p m
    rw [sprite2_run]
    split_ifs
    · simp
    · cases store data i (m p) with
      | none => simp
      | some v => exact ih _ _ _
    · exact ih _ _ _

theorem sprite2_loop_fuel_ok (store : List Nat → Nat → Nat → Option Nat) (data : List Nat)
    (ul pitch : Int) :
    ∀ (fuel i : Nat) (p : Int) (m : Mem), 1 ≤ fuel → data.length + 1 ≤ i + fuel →
      (sprite2_loop store data ul pitch fuel i p m).exit ≠ Exit.fuel := by
  intro fuel
  induction fuel with
  | zero => intro i p m h; omega
  | succ f ih =>
    intro i p m _ h2
    rw [sprite2_loop]
    cases hb : data[i]? with
    | none => simp
    | some b =>
      have hi := lt_length_of_getElem? hb
      simp only
      split_ifs
      · simp
      · exact ih _ _ _ (by omega) (by omega)
      · split
        · exact ih _ _ _ (by omega) (by omega)
        · rename_i e he
          simp only
          intro hfu
          subst hfu
          exact sprite2_run_exit_ne_fuel store data ul _ _ _ _ he

theorem clip_loop_fuel_ok (f : Nat → Nat) (data : List Nat) (h pitch : Nat) :
    ∀ (fuel i : Nat) (x y : Int) (m : Mem), 1 ≤ fuel → data.length + 1 ≤ i + fuel →
      (clip_loop f data h pitch fuel i x y m).exit ≠ Exit.fuel := by
  intro fuel
  induction fuel with
  | zero => intro i x y m h; omega
  | succ fu ih =>
    intro i x y m _ h2
    rw [clip_loop]
    cases hb : data[i]? with
    | none => simp
    | some b =>
      have hi := lt_length_of_getElem? hb
      simp only
      split_ifs
      · simp
      · simp
      · exact ih _ _ _ _ (by omega) (by omega)
      · exact ih _ _ _ _ (by omega) (by omega)
      · simp
      · exact ih _ _ _ _ (by omega) (by omega)

/-- With the fuel `blit_sprite2_fuel` no compact blit ends for lack of fuel: the outcome is
always the terminator, a cutoff `return`, or a read outside the sheet buffer. -/
theorem compact_blits_fuel_ok (VGAScreen_pitch : Int) (surface : SDL_Surface) (x y : Int)
    (sprite2s : Sprite2_array) (index : Nat) :
    (∀ g : Int, (blit_sprite2 g VGAScreen_pitch surface x y sprite2s index).exit ≠ Exit.fuel ∧
      (blit_sprite2_blend g VGAScreen_pitch surface x y sprite2s index).exit ≠ Exit.fuel) ∧
    (∀ store, (sprite2_blit store VGAScreen_pitch surface x y sprite2s index).exit ≠ Exit.fuel) ∧
    (∀ f, (clip_blit f surface x y sprite2s index).exit ≠ Exit.fuel) := by
  have hf : 1 ≤ blit_sprite2_fuel sprite2s := by unfold blit_sprite2_fuel; omega
  have hl : ∀ start : Nat, sprite2s.data.length + 1 ≤ start + blit_sprite2_fuel sprite2s := by
    intro start
    unfold blit_sprite2_fuel
    omega
  refine ⟨?_, ?_, ?_⟩
  · intro g
    constructor
    · unfold blit_sprite2
      cases sheet_offset sprite2s.data index with
      | none => simp
      | some start =>
        simp only
        split_ifs
        · exact blit_sprite2_AVX512_fuel_ok _ _ _ _ _ _ _ hf (hl start)
        · exact blit_sprite2_generic_fuel_ok _ _ _ _ _ _ _ hf (hl start)
    · unfold blit_sprite2_blend
      cases sheet_offset sprite2s.data index with
      | none => simp
      | some start =>
        simp only
        split_ifs
        · exact blit_sprite2_blend_AVX512_fuel_ok _ _ _ _ _ _ _ hf (hl start)
        · exact blit_sprite2_blend_generic_fuel_ok _ _ _ _ _ _ _ hf (hl start)
  · intro store
    unfold sprite2_blit
    cases sheet_offset sprite2s.data index with
    | none => simp
    | some start => exact sprite2_loop_fuel_ok _ _ _ _ _ _ _ _ hf (hl start)
  · intro f
    unfold clip_blit
    cases sheet_offset sprite2s.data index with
    | none => simp
    | some start => exact clip_loop_fuel_ok _ _ _ _ _ _ _ _ _ hf (hl start)

/-! ## The offset table of a sheet -/

theorem sheet_offset_eq (data : List Nat) (index lo hi : Nat) (h1 : 1 ≤ index)
    (h2 : index < 2 ^ 32) (hlo : data[2 * (index - 1)]? = some lo)
    (hhi : data[2 * (index - 1) + 1]? = some hi) :
    sheet_offset data index = some (lo + 256 * hi) := by
  unfold sheet_offset
  rw [subU32_of_le index 1 h1 h2, hlo, hhi]

/-- C11: for a sprite index `i >= 1` (an `unsigned int`) whose table entry lies in the sheet
buffer, every compact blitter starts its decode loop at byte offset
`data[2(i-1)] + 256 * data[2(i-1)+1]` of the sheet buffer. -/
theorem sheet_offset_table (sprite2s : Sprite2_array) (index lo hi : Nat) (h1 : 1 ≤ index)
    (h2 : index < 2 ^ 32) (hlo : sprite2s.data[2 * (index - 1)]? = some lo)
    (hhi : sprite2s.data[2 * (index - 1) + 1]? = some hi) :
    sheet_offset sprite2s.data index = some (lo + 256 * hi) ∧
    (∀ (g_hasAVX512 VGAScreen_pitch : Int) (surface : SDL_Surface) (x y : Int),
      blit_sprite2 g_hasAVX512 VGAScreen_pitch surface x y sprite2s index
        = (if g_hasAVX512 = 1 then
            blit_sprite2_AVX512 sprite2s.data (pixels_ul surface) VGAScreen_pitch
              (blit_sprite2_fuel sprite2s) (lo + 256 * hi) (pixels_start surface x y)
              surface.pixels
          else
            blit_sprite2_generic sprite2s.data (pixels_ul surface) VGAScreen_pitch
              (blit_sprite2_fuel sprite2s) (lo + 256 * hi) (pixels_start surface x y)
              surface.pixels) ∧
      blit_sprite2_blend g_hasAVX512 VGAScreen_pitch surface x y sprite2s index
        = (if g_hasAVX512 = 1 then
            blit_sprite2_blend_AVX512 sprite2s.data (pixels_ul surface) VGAScreen_pitch
              (blit_sprite2_fuel sprite2s) (lo + 256 * hi) (pixels_start surface x y)
              surface.pixels
          else
            blit_sprite2_blend_generic sprite2s.data (pixels_ul surface) VGAScreen_pitch
              (blit_sprite2_fuel sprite2s) (lo + 256 * hi) (pixels_start surface x y)
              surface.pixels) ∧
      blit_sprite2_darken VGAScreen_pitch surface x y sprite2s index
        = sprite2_loop darken_store sprite2s.data (pixels_ul surface) VGAScreen_pitch
            (blit_sprite2_fuel sprite2s) (lo + 256 * hi) (pixels_start surface x y)
            surface.pixels ∧
      (∀ filter : Nat,
        blit_sprite2_filter VGAScreen_pitch surface x y sprite2s index filter
          = sprite2_loop (filter_store filter) sprite2s.data (pixels_ul surface) VGAScreen_pitch
              (blit_sprite2_fuel sprite2s) (lo + 256 * hi) (pixels_start surface x y)
              surface.pixels ∧
        blit_sprite2_filter_clip surface x y sprite2s index filter
          = clip_loop (fun s => filter ||| (s &&& 0x0f)) sprite2s.data surface.h surface.pitch
              (blit_sprite2_fuel sprite2s) (lo + 256 * hi) x y surface.pixels) ∧
      blit_sprite2_clip surface x y sprite2s index
        = clip_loop (fun s => s) sprite2s.data surface.h surface.pitch
            (blit_sprite2_fuel sprite2s) (lo + 256 * hi) x y surface.pixels) := by
  have hs := sheet_offset_eq sprite2s.data index lo hi h1 h2 hlo hhi
  refine ⟨hs, ?_⟩
  intro g vp surface x y
  refine ⟨?_, ?_, ?_, ?_, ?_⟩
  · unfold blit_sprite2
    rw [hs]
  · unfold blit_sprite2_blend
    rw [hs]
  · unfold blit_sprite2_darken sprite2_blit
    rw [hs]
  · intro filter
    constructor
    · unfold blit_sprite2_filter sprite2_blit
      rw [hs]
    · unfold blit_sprite2_filter_clip clip_blit
      rw [hs]
  · unfold blit_sprite2_clip clip_blit
    rw [hs]

/-- Witness for C11: sprite index 1 of a sheet whose first two bytes are `02 01` starts at
offset `2 + 256 * 1`. -/
theorem sheet_offset_table_witness :
    sheet_offset [2, 1, 0x0f] 1 = some (2 + 256 * 1) :=
  (sheet_offset_table ⟨3, [2, 1, 0x0f]⟩ 1 2 1 (by decide) (by decide) (by decide) (by decide)).1

/-! ## Algebra of the alpha-blend rule -/

theorem blend_rule_low (s d : Nat) (hs : s < 256) :
    blend_rule s d % 16 = (d % 16 + s % 16) / 2 ∧ blend_rule s d / 16 = s / 16 ∧
      blend_rule s d < 256 := by
  have h := alpha_blend_nibbles s d hs
  rw [blend_rule_eq]
  refine ⟨h.2.1, h.1, ?_⟩
  have := h.1
  omega

/-- Counterexample to C12 as stated: source byte 1 over destination byte 0.  The low nibbles
differ, yet a second application changes nothing, because the average `(0 + 1) / 2` truncates
to the destination's nibble. -/
theorem blend_idempotent_counterexample :
    blend_rule 1 (blend_rule 1 0) = blend_rule 1 0 ∧ ¬ ((1 &&& 0x0F) = (0 &&& 0x0F)) := by
  decide

/-- C12 (amended): for all bytes `s` and `d` the rule of `blit_sprite_blend` satisfies
`f_s (f_s d) = f_s d` if and only if the low nibble of `s` exceeds that of `d` by `-1`, `0`,
`1` or `2`; in particular it is idempotent whenever the two low nibbles are equal, and then
`f_s d` has the low nibble of `s`. -/
theorem blend_idempotent_iff (s d : Fin 256) :
    (blend_rule s (blend_rule s d) = blend_rule s d ↔
      ((d.val &&& 0x0F) ≤ (s.val &&& 0x0F) + 1 ∧ (s.val &&& 0x0F) ≤ (d.val &&& 0x0F) + 2)) ∧
    ((s.val &&& 0x0F) = (d.val &&& 0x0F) →
      blend_rule s (blend_rule s d) = blend_rule s d ∧
      (blend_rule s d &&& 0x0F) = (s.val &&& 0x0F)) := by
  have hs := s.isLt
  obtain ⟨a1, a2, a3⟩ := blend_rule_low s.val d.val hs
  obtain ⟨b1, b2, _⟩ := blend_rule_low s.val (blend_rule s.val d.val) hs
  simp only [and_15]
  have key : blend_rule s (blend_rule s d) = blend_rule s d ↔
      (blend_rule s (blend_rule s d)) % 16 = (blend_rule s d) % 16 := by
    constructor
    · intro h
      rw [h]
    · intro h
      have e1 := Nat.div_add_mod (blend_rule s (blend_rule s d)) 16
      have e2 := Nat.div_add_mod (blend_rule s d) 16
      omega
  constructor
  · rw [key]
    omega
  · intro h
    refine ⟨key.2 (by omega), by omega⟩

/-- C13: for all bytes `s` and `d`, the low nibble of `f_s d` lies between the low nibbles of
`d` and `s`; applying the rule again does not increase the distance to the low nibble of `s`,
and the result stays on the side of it where `d` was. -/
theorem blend_converges (s d : Fin 256) :
    (min (d.val &&& 0x0F) (s.val &&& 0x0F) ≤ (blend_rule s d &&& 0x0F) ∧
      (blend_rule s d &&& 0x0F) ≤ max (d.val &&& 0x0F) (s.val &&& 0x0F)) ∧
    (|((s.val &&& 0x0F : Nat) : Int) - ((blend_rule s (blend_rule s d) &&& 0x0F : Nat) : Int)|
        ≤ |((s.val &&& 0x0F : Nat) : Int) - ((blend_rule s d &&& 0x0F : Nat) : Int)| ∧
      |((s.val &&& 0x0F : Nat) : Int) - ((blend_rule s d &&& 0x0F : Nat) : Int)|
        ≤ |((s.val &&& 0x0F : Nat) : Int) - ((d.val &&& 0x0F : Nat) : Int)|) ∧
    (((d.val &&& 0x0F) ≤ (s.val &&& 0x0F) →
        (blend_rule s (blend_rule s d) &&& 0x0F) ≤ (s.val &&& 0x0F)) ∧
      ((s.val &&& 0x0F) ≤ (d.val &&& 0x0F) →
        (s.val &&& 0x0F) ≤ (blend_rule s (blend_rule s d) &&& 0x0F))) := by
  have hs := s.isLt
  obtain ⟨a1, a2, a3⟩ := blend_rule_low s.val d.val hs
  obtain ⟨b1, b2, _⟩ := blend_rule_low s.val (blend_rule s.val d.val) hs
  simp only [and_15]
  refine ⟨⟨by omega, by omega⟩, ⟨?_, ?_⟩, ⟨by omega, by omega⟩⟩
  · rw [abs_le]
    constructor
    · rcases abs_cases (((s.val % 16 : Nat) : Int) - ((blend_rule s d % 16 : Nat) : Int)) with h | h
      · omega
      · omega
    · rcases abs_cases (((s.val % 16 : Nat) : Int) - ((blend_rule s d % 16 : Nat) : Int)) with h | h
      · omega
      · omega
  · rw [abs_le]
    constructor
    · rcases abs_cases (((s.val % 16 : Nat) : Int) - ((d.val % 16 : Nat) : Int)) with h | h
      · omega
      · omega
    · rcases abs_cases (((s.val % 16 : Nat) : Int) - ((d.val % 16 : Nat) : Int)) with h | h
      · omega
      · omega

/-- Witness for C12: source `0x35` over destination `0x25`, equal low nibbles. -/
theorem blend_idempotent_iff_witness :
    ((0x35 : Fin 256).val &&& 0x0F) = ((0x25 : Fin 256).val &&& 0x0F) ∧
    blend_rule (0x35 : Fin 256) (blend_rule (0x35 : Fin 256) (0x25 : Fin 256))
      = blend_rule (0x35 : Fin 256) (0x25 : Fin 256) :=
  ⟨by decide, ((blend_idempotent_iff 0x35 0x25).2 (by decide)).1⟩

/-- Witness for C13: source `0x3F` over destination `0x20`; after two applications the low
nibble is still at most `0xF`, the side on which the destination started. -/
theorem blend_converges_witness :
    ((0x20 : Fin 256).val &&& 0x0F) ≤ ((0x3F : Fin 256).val &&& 0x0F) ∧
    (blend_rule (0x3F : Fin 256) (blend_rule (0x3F : Fin 256) (0x20 : Fin 256)) &&& 0x0F)
      ≤ ((0x3F : Fin 256).val &&& 0x0F) :=
  ⟨by decide, (blend_converges 0x3F 0x20).2.2.1 (by decide)⟩

/-! ## The unclamped hue/value blit -/

/-- Two rules that agree on every opaque byte of the stream give the same blit. -/
theorem sprite_loop_rule_congr (rule1 rule2 : Nat → Nat → Nat) (data : List Nat)
    (size width pitch : Nat) (ul : Int) :
    ∀ (fuel i : Nat) (p : Int) (xo : Nat) (m : Mem) (r c : Nat),
      (∀ cell ∈ sprite_cells data size width fuel i r c,
        ∀ d, rule1 cell.2.2 d = rule2 cell.2.2 d) →
      sprite_loop rule1 data size width pitch ul fuel i p xo m
        = sprite_loop rule2 data size width pitch ul fuel i p xo m := by
  intro fuel
  induction fuel with
  | zero => intro i p xo m r c _; rfl
  | succ f ih =>
    intro i p xo m r c h
    rw [sprite_loop, sprite_loop]
    rw [sprite_cells] at h
    by_cases hi : i < size
    · simp only [hi, if_true] at h ⊢
      by_cases b1 : byteAt data i = 255
      · simp only [b1, if_true] at h ⊢
        exact ih _ _ _ _ _ _ h
      · simp only [b1, if_false] at h ⊢
        by_cases b2 : byteAt data i = 254
        · simp only [b2, if_true] at h ⊢
          exact ih _ _ _ _ _ _ h
        · simp only [b2, if_false] at h ⊢
          by_cases b3 : byteAt data i = 253
          · simp only [b3, if_true] at h ⊢
            exact ih _ _ _ _ _ _ h
          · simp only [b3, if_false] at h ⊢
            have hr := h (r, c, byteAt data i) (List.mem_cons_self _ _) (m p)
            simp only at hr
            rw [hr]
            by_cases hu : p ≥ ul
            · simp only [hu, if_true]
            · simp only [hu, if_false]
              exact ih _ _ _ _ _ _ (fun cell hc => h cell (List.mem_cons_of_mem _ hc))
    · simp only [hi, if_false]

theorem sprite_blit_rule_congr (rule1 rule2 : Nat → Nat → Nat) (surface : SDL_Surface)
    (x y : Int) (table : Sprite_array) (index : Nat)
    (h : ∀ cell ∈ sprite_cells (sprite table index).bytes (sprite table index).size
        (sprite table index).width (sprite table index).size 0 0 0,
      ∀ d, rule1 cell.2.2 d = rule2 cell.2.2 d) :
    sprite_blit rule1 surface x y table index = sprite_blit rule2 surface x y table index := by
  unfold sprite_blit
  split_ifs
  · rfl
  · exact sprite_loop_rule_congr rule1 rule2 _ _ _ _ _ _ _ _ _ _ 0 0 h

theorem toU8_natCast (n : Nat) (h : n < 256) : toU8 (n : Int) = n := by
  unfold toU8
  omega

theorem hv_rules_safe (hue s : Nat) (value : Int)
    (h0 : 0 ≤ ((s &&& 0x0F : Nat) : Int) + value) (h1 : ((s &&& 0x0F : Nat) : Int) + value ≤ 0xF)
    (d : Nat) :
    hv_unsafe_rule (hue_shift hue) value s d
        = ((hue <<< 4) % 256) ||| (((s &&& 0x0F : Nat) : Int) + value).toNat ∧
    hv_rule (hue_shift hue) value s d
        = ((hue <<< 4) % 256) ||| (((s &&& 0x0F : Nat) : Int) + value).toNat := by
  have ht : ((s &&& 0x0F : Nat) : Int) + value
      = (((((s &&& 0x0F : Nat) : Int) + value).toNat : Nat) : Int) := by omega
  have hle : (((s &&& 0x0F : Nat) : Int) + value).toNat ≤ 15 := by omega
  have hh : (hue <<< 4) % 256 = 16 * (hue % 16) := hue_shift_eq hue
  constructor
  · unfold hv_unsafe_rule hue_shift
    rw [ht]
    have e : Int.lor (((hue <<< 4) % 256 : Nat) : Int)
        (((((s &&& 0x0F : Nat) : Int) + value).toNat : Nat) : Int)
        = (((hue <<< 4) % 256 ||| (((s &&& 0x0F : Nat) : Int) + value).toNat : Nat) : Int) := rfl
    rw [e, toU8_natCast]
    · rw [← ht]
    · rw [hh, lor_low _ _ (by omega)]
      omega
  · unfold hv_rule hv_temp_value hue_shift toU8
    simp only
    have e2 : ((((s &&& 0x0F : Nat) : Int) + value) % 256).toNat
        = (((s &&& 0x0F : Nat) : Int) + value).toNat := by omega
    rw [e2]
    have : ¬ (((s &&& 0x0F : Nat) : Int) + value).toNat > 0xf := by omega
    simp only [this, if_false]

/-- C14: when `0 <= (s & 0x0F) + value <= 0xF` for every opaque byte `s` of the sprite's
stream, `blit_sprite_hv_unsafe` and `blit_sprite_hv` leave identical destinations, and every
store is of `((hue << 4) mod 256) | ((s & 0x0F) + value)` for a stream byte `s`. -/
theorem hv_unsafe_agrees_when_safe (surface : SDL_Surface) (x y : Int) (table : Sprite_array)
    (index hue : Nat) (value : Int)
    (hsafe : ∀ cell ∈ sprite_cells (sprite table index).bytes (sprite table index).size
        (sprite table index).width (sprite table index).size 0 0 0,
      0 ≤ ((cell.2.2 &&& 0x0F : Nat) : Int) + value ∧
      ((cell.2.2 &&& 0x0F : Nat) : Int) + value ≤ 0xF) :
    blit_sprite_hv_unsafe surface x y table index hue value
      = blit_sprite_hv surface x y table index hue value ∧
    Stores (blit_store
        (fun s _ => ((hue <<< 4) % 256) ||| (((s &&& 0x0F : Nat) : Int) + value).toNat)
        (sprite table index).bytes (pixels_ul surface))
      surface.pixels ( blit_sprite_hv_unsafe surface x y table index hue value) := by
  have e1 : blit_sprite_hv_unsafe surface x y table index hue value
      = sprite_blit
          (fun s _ => ((hue <<< 4) % 256) ||| (((s &&& 0x0F : Nat) : Int) + value).toNat)
          surface x y table index := by
    unfold blit_sprite_hv_unsafe
    apply sprite_blit_rule_congr
    intro cell hc d
    exact (hv_rules_safe hue cell.2.2 value (hsafe cell hc).1 (hsafe cell hc).2 d).1
  have e2 : blit_sprite_hv surface x y table index hue value
      = sprite_blit
          (fun s _ => ((hue <<< 4) % 256) ||| (((s &&& 0x0F : Nat) : Int) + value).toNat)
          surface x y table index := by
    unfold blit_sprite_hv
    apply sprite_blit_rule_congr
    intro cell hc d
    exact (hv_rules_safe hue cell.2.2 value (hsafe cell hc).1 (hsafe cell hc).2 d).2
  refine ⟨by rw [e1, e2], ?_⟩
  rw [e1]
  exact sprite_blit_stores _ surface x y table index

/-- Witness for C14: the scenario sprite (opaque bytes 1 and 3) with hue 2 and value 2. -/
theorem hv_unsafe_agrees_when_safe_witness :
    blit_sprite_hv_unsafe scenarioSurface 10 10 scenarioTable 0 2 2
      = blit_sprite_hv scenarioSurface 10 10 scenarioTable 0 2 2 :=
  (hv_unsafe_agrees_when_safe scenarioSurface 10 10 scenarioTable 0 2 2 (by decide)).1

/-! ## Nibbles of the darken rule -/

/-- C18 (evaluation at the failing input): the run `1E 2E 3E 4E` blitted by `blit_sprite2_blend`
on the generic path at `(18, 19)` of the zeroed 20x20 surface has its first two pixels at the
in-bounds offsets 398 and 399, yet neither is stored (the blend of `1E` over 0 would be `17`):
the unrolled loop drops the whole block of four.  The same happens at `(-2, 0)`, where the last
two pixels fall on offsets 0 and 1.  The stream is terminated and the blit ends at the
terminator. -/
theorem blend_generic_drops_straddling_block :
    compact_cells straddleSheet.data (blit_sprite2_fuel straddleSheet) 2 0 0
      = [(0, 0, 0x1E), (0, 1, 0x2E), (0, 2, 0x3E), (0, 3, 0x4E)] ∧
    (0 : Int) ≤ (19 + 0) * 20 + (18 + 0) ∧ ((19 + 0) * 20 + (18 + 0) : Int) < 20 * 20 ∧
    alpha_blend 0x1E 0 = 0x17 ∧
    (blit_sprite2_blend 0 20 scenarioSurface 18 19 straddleSheet 1).exit = Exit.terminator ∧
    (blit_sprite2_blend 0 20 scenarioSurface 18 19 straddleSheet 1).mem ((19 + 0) * 20 + (18 + 0))
      = 0 ∧
    (blit_sprite2_blend 0 20 scenarioSurface 18 19 straddleSheet 1).mem ((19 + 0) * 20 + (18 + 1))
      = 0 ∧
    alpha_blend 0x3E 0 = 0x37 ∧
    (blit_sprite2_blend 0 20 scenarioSurface (-2) 0 straddleSheet 1).mem ((0 + 0) * 20 + (-2 + 2))
      = 0 := by
  decide

/-- C19 (evaluation at the failing input): on the run `1E 2E 3E 4E` at `(18, 19)` of the zeroed
20x20 surface the two paths of `blit_sprite2_blend` leave different destinations: with
`g_hasAVX512 = 1` offsets 398 and 399 hold the blended pixels `17` and `27`, on the generic
path they are left at 0. -/
theorem blend_paths_differ :
    (blit_sprite2_blend 1 20 scenarioSurface 18 19 straddleSheet 1).mem 398 = 0x17 ∧
    (blit_sprite2_blend 1 20 scenarioSurface 18 19 straddleSheet 1).mem 399 = 0x27 ∧
    (blit_sprite2_blend 0 20 scenarioSurface 18 19 straddleSheet 1).mem 398 = 0 ∧
    (blit_sprite2_blend 0 20 scenarioSurface 18 19 straddleSheet 1).mem 399 = 0 ∧
    (blit_sprite2_blend 1 20 scenarioSurface 18 19 straddleSheet 1).mem
      ≠ (blit_sprite2_blend 0 20 scenarioSurface 18 19 straddleSheet 1).mem := by
  refine ⟨by decide, by decide, by decide, by decide, ?_⟩
  intro h
  have h1 : (blit_sprite2_blend 1 20 scenarioSurface 18 19 straddleSheet 1).mem 398 = 0x17 := by
    decide
  have h0 : (blit_sprite2_blend 0 20 scenarioSurface 18 19 straddleSheet 1).mem 398 = 0 := by
    decide
  rw [h, h0] at h1
  exact absurd h1 (by decide)

/-! ## The row advance of the compact blits -/

/-- C20 (evaluation at the failing input): the two-row sprite blitted by `blit_sprite2` at
`(0, 0)` on a surface of pitch 24 while the screen pitch is 320.  The pixel `99` of row 1,
column 0 belongs at offset `(0 + 1) * 24 + 0 + 0 = 24`; the blit leaves that byte at 0 and
stores the pixel at offset 320 (row 13, column 8 of the destination).  `blit_sprite2_darken`
and `blit_sprite2_filter` place it at 320 as well, and `blit_sprite2_blend` blends it there.
With a screen pitch equal to the pitch of the destination the pixel is at offset 24. -/
theorem row_advance_uses_screen_pitch :
    (1, (0 : Int), 99) ∈ compact_cells twoRowSheet.data (blit_sprite2_fuel twoRowSheet) 2 0 0 ∧
    (blit_sprite2 0 320 narrowSurface 0 0 twoRowSheet 1).exit = Exit.terminator ∧
    (blit_sprite2 0 320 narrowSurface 0 0 twoRowSheet 1).mem ((0 + 1) * 24 + 0 + 0) = 0 ∧
    (blit_sprite2 0 320 narrowSurface 0 0 twoRowSheet 1).mem 320 = 99 ∧
    (blit_sprite2 1 320 narrowSurface 0 0 twoRowSheet 1).mem ((0 + 1) * 24 + 0 + 0) = 0 ∧
    (blit_sprite2 1 320 narrowSurface 0 0 twoRowSheet 1).mem 320 = 99 ∧
    (blit_sprite2_blend 0 320 narrowSurface 0 0 twoRowSheet 1).mem ((0 + 1) * 24 + 0 + 0) = 0 ∧
    (blit_sprite2_blend 0 320 narrowSurface 0 0 twoRowSheet 1).mem 320 = alpha_blend 99 0 ∧
    (blit_sprite2_filter 320 narrowSurface 0 0 twoRowSheet 1 0x90).mem ((0 + 1) * 24 + 0 + 0)
      = 0 ∧
    (blit_sprite2_filter 320 narrowSurface 0 0 twoRowSheet 1 0x90).mem 320
      = 0x90 ||| (99 &&& 0x0F) ∧
    (blit_sprite2_darken 320 ⟨24, 20, 24, fun _ => 0x2E⟩ 0 0 twoRowSheet 1).mem
        ((0 + 1) * 24 + 0 + 0) = 0x2E ∧
    (blit_sprite2_darken 320 ⟨24, 20, 24, fun _ => 0x2E⟩ 0 0 twoRowSheet 1).mem 320
      = darken_pixel 0x2E ∧
    (blit_sprite2 0 24 narrowSurface 0 0 twoRowSheet 1).mem ((0 + 1) * 24 + 0 + 0) = 99 := by
  decide

/-! ## Out-of-range sprite indices -/

theorem sprite_blit_out_of_range (rule : Nat → Nat → Nat) (surface : SDL_Surface) (x y : Int)
    (table : Sprite_array) (index : Nat) (h : table.count ≤ index) :
    sprite_blit rule surface x y table index = surface.pixels := by
  unfold sprite_blit
  rw [if_pos (Or.inl h)]

theorem index_guard_out_of_range (table : Sprite_array) (index : Nat)
    (h : table.count ≤ index) : index_guard table index = true := by
  unfold index_guard
  simp [h]

/-- C21: for every table and every `index >= count`, each of the six indexed-array blits
returns the destination unchanged and reads no byte of any sprite stream when assertions
are compiled out, and reaches `assert(false)` (the abort) when they are compiled in. -/
theorem out_of_range_index_is_noop (surface : SDL_Surface) (x y : Int) (table : Sprite_array)
    (index hue : Nat) (value : Int) (black : Bool) (h : table.count ≤ index) :
    (blit_sprite surface x y table index = surface.pixels ∧
      blit_sprite_blend surface x y table index = surface.pixels ∧
      blit_sprite_hv_unsafe surface x y table index hue value = surface.pixels ∧
      blit_sprite_hv surface x y table index hue value = surface.pixels ∧
      blit_sprite_hv_blend surface x y table index hue value = surface.pixels ∧
      blit_sprite_dark surface x y table index black = surface.pixels) ∧
    (blit_sprite_reads surface x y table index = [] ∧
      sprite_blit_reads surface x y table index = []) ∧
    (∀ result, with_assertions false table index result = some result) ∧
    (∀ result, with_assertions true table index result = none) := by
  refine ⟨⟨?_, ?_, ?_, ?_, ?_, ?_⟩, ⟨?_, ?_⟩, ?_, ?_⟩
  · unfold blit_sprite
    rw [if_pos (Or.inl h)]
  · exact sprite_blit_out_of_range _ surface x y table index h
  · exact sprite_blit_out_of_range _ surface x y table index h
  · exact sprite_blit_out_of_range _ surface x y table index h
  · exact sprite_blit_out_of_range _ surface x y table index h
  · exact sprite_blit_out_of_range _ surface x y table index h
  · unfold blit_sprite_reads
    rw [if_pos (Or.inl h)]
  · unfold sprite_blit_reads
    rw [if_pos (Or.inl h)]
  · intro result
    simp [with_assertions]
  · intro result
    simp [with_assertions, index_guard_out_of_range table index h]

/-- Witness for C21: index 1 of the one-sprite scenario table. -/
theorem out_of_range_index_is_noop_witness :
    blit_sprite scenarioSurface 3 4 scenarioTable 1 = scenarioSurface.pixels :=
  (out_of_range_index_is_noop scenarioSurface 3 4 scenarioTable 1 0 0 false (by decide)).1.1

/-! ## Out-of-range indices of the compact blits -/

theorem sheet_offset_zero (data : List Nat) (h : data.length < 2 ^ 32) :
    sheet_offset data 0 = none := by
  unfold sheet_offset
  have e : subU32 0 1 = 2 ^ 32 - 1 := by decide
  have h1 : data[2 * subU32 0 1]? = none := by
    rw [e]
    apply List.getElem?_eq_none
    norm_num at h ⊢
    omega
  rw [h1]

/-- The hypothesis of an out-of-range index of a sheet: the index is 0 (with a buffer of
fewer than `2^32` bytes), or its table entry is not in the buffer, or the start offset in
the entry is not in the buffer. -/
theorem compact_start_cases (data : List Nat) (index : Nat)
    (h : (index = 0 ∧ data.length < 2 ^ 32) ∨ sheet_offset data index = none ∨
      ∃ start, sheet_offset data index = some start ∧ data.length ≤ start) :
    sheet_offset data index = none ∨
      ∃ start, sheet_offset data index = some start ∧ data[start]? = none := by
  rcases h with ⟨h0, hl⟩ | h | ⟨start, hs, hl⟩
  · left
    rw [h0]
    exact sheet_offset_zero data hl
  · exact Or.inl h
  · exact Or.inr ⟨start, hs, List.getElem?_eq_none hl⟩

/-- C22 (counterexample): with index 0 each compact blit needs the table entry at byte
offset `2 * (2^32 - 1)` of an 8-byte sheet, and with a start offset of 9 in a 4-byte
sheet it needs the stream byte at offset 9: a read outside the sheet buffer. -/
theorem compact_index_counterexample :
    (blit_sprite2 0 20 scenarioSurface 0 0 straddleSheet 0).exit = Exit.fault ∧
    (blit_sprite2 1 20 scenarioSurface 0 0 straddleSheet 0).exit = Exit.fault ∧
    (blit_sprite2_clip scenarioSurface 0 0 straddleSheet 0).exit = Exit.fault ∧
    (blit_sprite2_blend 0 20 scenarioSurface 0 0 straddleSheet 0).exit = Exit.fault ∧
    (blit_sprite2_darken 20 scenarioSurface 0 0 straddleSheet 0).exit = Exit.fault ∧
    (blit_sprite2_filter 20 scenarioSurface 0 0 straddleSheet 0 0x90).exit = Exit.fault ∧
    (blit_sprite2_filter_clip scenarioSurface 0 0 straddleSheet 0 0x90).exit = Exit.fault ∧
    sheet_offset [9, 0, 0x0f, 0x0f] 1 = some 9 ∧
    (blit_sprite2 0 20 scenarioSurface 0 0 ⟨4, [9, 0, 0x0f, 0x0f]⟩ 1).exit = Exit.fault := by
  decide

/-- The fault of a run: the loop needed a byte outside the sheet and stored nothing. -/
theorem compact_loops_fault_at_start (data : List Nat) (ul pitch : Int) (h pitchN : Nat)
    (store : List Nat → Nat → Nat → Option Nat) (f : Nat → Nat)
    (fuel start : Nat) (p x y : Int) (m : Mem) (hs : data[start]? = none) :
    blit_sprite2_generic data ul pitch (fuel + 1) start p m = ⟨m, start, Exit.fault⟩ ∧
    blit_sprite2_AVX512 data ul pitch (fuel + 1) start p m = ⟨m, start, Exit.fault⟩ ∧
    blit_sprite2_blend_generic data ul pitch (fuel + 1) start p m = ⟨m, start, Exit.fault⟩ ∧
    blit_sprite2_blend_AVX512 data ul pitch (fuel + 1) start p m = ⟨m, start, Exit.fault⟩ ∧
    sprite2_loop store data ul pitch (fuel + 1) start p m = ⟨m, start, Exit.fault⟩ ∧
    clip_loop f data h pitchN (fuel + 1) start x y m = ⟨m, start, Exit.fault⟩ := by
  refine ⟨?_, ?_, ?_, ?_, ?_, ?_⟩
  · rw [blit_sprite2_generic, hs]
  · rw [blit_sprite2_AVX512, hs]
  · rw [blit_sprite2_blend_generic, hs]
  · rw [blit_sprite2_blend_AVX512, hs]
  · rw [sprite2_loop, hs]
  · rw [clip_loop, hs]

/-- C22 (amended): the compact blits do not check the index.  For a sheet of fewer than
`2^32` bytes and an index that is 0, or whose offset-table entry is not in the sheet
buffer, or whose start offset is not in it, each of the six compact blits ends in the
read of a byte outside the sheet buffer (the table entry, or the first byte of the
stream) and has stored nothing to the destination before that read. -/
theorem compact_bad_index_faults (g_hasAVX512 VGAScreen_pitch : Int) (surface : SDL_Surface)
    (x y : Int) (sprite2s : Sprite2_array) (index filter : Nat)
    (h : (index = 0 ∧ sprite2s.data.length < 2 ^ 32) ∨
      sheet_offset sprite2s.data index = none ∨
      ∃ start, sheet_offset sprite2s.data index = some start ∧ sprite2s.data.length ≤ start) :
    ∀ r ∈ [blit_sprite2 g_hasAVX512 VGAScreen_pitch surface x y sprite2s index,
        blit_sprite2_clip surface x y sprite2s index,
        blit_sprite2_blend g_hasAVX512 VGAScreen_pitch surface x y sprite2s index,
        blit_sprite2_darken VGAScreen_pitch surface x y sprite2s index,
        blit_sprite2_filter VGAScreen_pitch surface x y sprite2s index filter,
        blit_sprite2_filter_clip surface x y sprite2s index filter],
      r.exit = Exit.fault ∧ r.mem = surface.pixels := by
  have hc := compact_start_cases sprite2s.data index h
  intro r hr
  simp only [List.mem_cons, List.mem_singleton, List.not_mem_nil, or_false] at hr
  rcases hc with hn | ⟨start, hs, hd⟩
  · rcases hr with e | e | e | e | e | e <;> subst e
    · simp only [blit_sprite2, hn, and_self]
    · simp only [blit_sprite2_clip, clip_blit, hn, and_self]
    · simp only [blit_sprite2_blend, hn, and_self]
    · simp only [blit_sprite2_darken, sprite2_blit, hn, and_self]
    · simp only [blit_sprite2_filter, sprite2_blit, hn, and_self]
    · simp only [blit_sprite2_filter_clip, clip_blit, hn, and_self]
  · have hf : blit_sprite2_fuel sprite2s = sprite2s.data.length + 1 := rfl
    rcases hr with e | e | e | e | e | e <;> subst e
    · simp only [blit_sprite2, hs, hf]
      split_ifs
      · rw [(compact_loops_fault_at_start sprite2s.data _ _ 0 0 darken_store id _ start _ 0 0 _
          hd).2.1]
        exact ⟨rfl, rfl⟩
      · rw [(compact_loops_fault_at_start sprite2s.data _ _ 0 0 darken_store id _ start _ 0 0 _
          hd).1]
        exact ⟨rfl, rfl⟩
    · simp only [blit_sprite2_clip, clip_blit, hs, hf]
      rw [(compact_loops_fault_at_start sprite2s.data 0 0 _ _ darken_store _ _ start 0 _ _ _
          hd).2.2.2.2.2]
      exact ⟨rfl, rfl⟩
    · simp only [blit_sprite2_blend, hs, hf]
      split_ifs
      · rw [(compact_loops_fault_at_start sprite2s.data _ _ 0 0 darken_store id _ start _ 0 0 _
          hd).2.2.2.1]
        exact ⟨rfl, rfl⟩
      · rw [(compact_loops_fault_at_start sprite2s.data _ _ 0 0 darken_store id _ start _ 0 0 _
          hd).2.2.1]
        exact ⟨rfl, rfl⟩
    · simp only [blit_sprite2_darken, sprite2_blit, hs, hf]
      rw [(compact_loops_fault_at_start sprite2s.data _ _ 0 0 _ id _ start _ 0 0 _
          hd).2.2.2.2.1]
      exact ⟨rfl, rfl⟩
    · simp only [blit_sprite2_filter, sprite2_blit, hs, hf]
      rw [(compact_loops_fault_at_start sprite2s.data _ _ 0 0 _ id _ start _ 0 0 _
          hd).2.2.2.2.1]
      exact ⟨rfl, rfl⟩
    · simp only [blit_sprite2_filter_clip, clip_blit, hs, hf]
      rw [(compact_loops_fault_at_start sprite2s.data 0 0 _ _ darken_store _ _ start 0 _ _ _
          hd).2.2.2.2.2]
      exact ⟨rfl, rfl⟩

/-- Witness for C22: index 0 of an 8-byte sheet. -/
theorem compact_bad_index_faults_witness :
    (blit_sprite2 0 20 scenarioSurface 3 4 straddleSheet 0).exit = Exit.fault ∧
    (blit_sprite2 0 20 scenarioSurface 3 4 straddleSheet 0).mem = scenarioSurface.pixels :=
  compact_bad_index_faults 0 20 scenarioSurface 3 4 straddleSheet 0 0
    (Or.inl ⟨rfl, by decide⟩) _ (List.mem_cons_self _ _)

/-! ## Slots of a table -/

theorem sprite_store (table : Sprite_array) (i j : Nat) (s : Sprite) :
    sprite (table.store i s) j = if j = i then s else sprite table j := by
  unfold sprite Sprite_array.store
  simp only [List.getD_eq_getElem?_getD]
  by_cases hji : j = i
  · subst hji
    rw [if_pos rfl, List.getElem?_set_self (by simp; omega)]
    rfl
  · rw [if_neg hji, List.getElem?_set_ne (Ne.symm hji)]
    by_cases hj : j < table.sprite.length
    · rw [List.getElem?_append_left hj]
    · rw [List.getElem?_append_right (by omega)]
      rw [List.getElem?_eq_none (by omega : table.sprite.length ≤ j)]
      by_cases hj2 : j - table.sprite.length < i + 1 - table.sprite.length
      · rw [List.getElem?_replicate_of_lt hj2]
        rfl
      · rw [List.getElem?_eq_none (by simp; omega)]

theorem store_count (table : Sprite_array) (i : Nat) (s : Sprite) :
    (table.store i s).count = table.count := rfl

theorem free_sprites_loop_spec :
    ∀ (n i : Nat) (table : Sprite_array) (j : Nat),
      sprite (free_sprites_loop n i table) j
        = if i ≤ j ∧ j < i + n then Sprite.empty else sprite table j := by
  intro n
  induction n with
  | zero =>
    intro i table j
    rw [free_sprites_loop, if_neg (by omega)]
  | succ n ih =>
    intro i table j
    rw [free_sprites_loop, ih, sprite_store]
    by_cases h1 : i + 1 ≤ j ∧ j < i + 1 + n
    · rw [if_pos h1, if_pos (by omega)]
    · rw [if_neg h1]
      by_cases h2 : j = i
      · rw [if_pos h2, if_pos (by omega)]
      · rw [if_neg h2, if_neg (by omega)]

theorem sprite_free_sprites (table : Sprite_array) (j : Nat) :
    sprite (free_sprites table) j = if j < table.count then Sprite.empty else sprite table j := by
  have h := free_sprites_loop_spec table.count 0 table j
  unfold sprite at h ⊢
  unfold free_sprites
  simp only [Nat.zero_le, true_and, Nat.zero_add] at h
  exact h

theorem free_sprites_of_count_zero (table : Sprite_array) (h : table.count = 0) :
    free_sprites table = table := by
  unfold free_sprites
  rw [h, free_sprites_loop]
  cases table
  simp only at h
  subst h
  rfl

/-- C30: `free_sprites` leaves `count = 0`, every slot below the old count with width 0,
height 0, size 0 and no data and every other slot as it was; a second `free_sprites`
changes nothing; and a table with count 0 (so the all-zero, never-loaded one) is left as
it is. -/
theorem free_sprites_resets (table : Sprite_array) :
    (free_sprites table).count = 0 ∧
    (∀ i, i < table.count → sprite (free_sprites table) i = ⟨0, 0, 0, none⟩) ∧
    (∀ i, table.count ≤ i → sprite (free_sprites table) i = sprite table i) ∧
    free_sprites (free_sprites table) = free_sprites table ∧
    (∀ slots, free_sprites ⟨0, slots⟩ = ⟨0, slots⟩) := by
  refine ⟨rfl, ?_, ?_, ?_, ?_⟩
  · intro i hi
    rw [sprite_free_sprites, if_pos hi]
    rfl
  · intro i hi
    rw [sprite_free_sprites, if_neg (by omega)]
  · exact free_sprites_of_count_zero _ rfl
  · intro slots
    exact free_sprites_of_count_zero _ rfl

/-! ## Loading a table from its file -/

theorem fread_u16_die_bytes (v : Nat) (f : List Nat) :
    fread_u16_die (u16_bytes v ++ f) = some (v, f) := by
  unfold u16_bytes fread_u16_die
  simp only [List.cons_append, List.nil_append]
  congr 2
  omega

theorem fread_u8_die_append (data f : List Nat) :
    fread_u8_die data.length (data ++ f) = some (data, f) := by
  unfold fread_u8_die
  rw [if_pos (by simp)]
  simp

/-- The slot that the loop of `load_sprites` stores for a populated record. -/
theorem load_sprites_loop_spec (malloc0_null : Bool) (SPRITES_PER_TABLE_MAX : Nat) :
    ∀ (records : List SlotRecord) (i : Nat) (table : Sprite_array) (f : List Nat),
      i + records.length ≤ SPRITES_PER_TABLE_MAX →
      ∃ t, load_sprites_loop malloc0_null SPRITES_PER_TABLE_MAX records.length i table
            (encode_slots records ++ f) = Load.loaded t f ∧
        t.count = table.count ∧
        ∀ j, sprite t j =
          if j < i then sprite table j
          else match records[j - i]? with
            | none => sprite table j
            | some r =>
              if r.populated = 0 then sprite table j
              else ⟨r.width, r.height, r.data.length,
                if r.data.length = 0 ∧ malloc0_null then none else some r.data⟩ := by
  intro records
  induction records with
  | nil =>
    intro i table f _
    refine ⟨table, rfl, rfl, ?_⟩
    intro j
    by_cases hj : j < i
    · rw [if_pos hj]
    · rw [if_neg hj]
      rfl
  | cons r rs ih =>
    intro i table f hi
    simp only [List.length_cons] at hi
    by_cases hp : r.populated = 0
    · have e : encode_slots (r :: rs) ++ f = 0 :: (encode_slots rs ++ f) := by
        simp [encode_slots, SlotRecord.encode, hp]
      obtain ⟨t, h1, h2, h3⟩ := ih (i + 1) table f (by omega)
      refine ⟨t, ?_, h2, ?_⟩
      · rw [e]
        simp only [List.length_cons, load_sprites_loop, fread_bool_die]
        exact h1
      · intro j
        rw [h3 j]
        by_cases hj : j < i
        · rw [if_pos hj, if_pos (by omega)]
        · rw [if_neg hj]
          by_cases hji : j = i
          · subst hji
            rw [if_pos (by omega)]
            simp [hp]
          · rw [if_neg (by omega)]
            have e2 : j - i = (j - (i + 1)) + 1 := by omega
            rw [e2, List.getElem?_cons_succ]
    · have e : encode_slots (r :: rs) ++ f
          = r.populated :: (u16_bytes r.width ++ (u16_bytes r.height ++
              (u16_bytes r.data.length ++ (r.data ++ (encode_slots rs ++ f))))) := by
        simp [encode_slots, SlotRecord.encode, hp]
      obtain ⟨t, h1, h2, h3⟩ := ih (i + 1)
        (table.store i ⟨r.width, r.height, r.data.length,
          if r.data.length = 0 ∧ malloc0_null then none else some r.data⟩) f (by omega)
      refine ⟨t, ?_, ?_, ?_⟩
      · rw [e]
        have hb : (r.populated != 0) = true := by simp [hp]
        simp only [List.length_cons, load_sprites_loop, fread_bool_die, hb]
        rw [if_neg (by omega)]
        simp only [fread_u16_die_bytes, fread_u8_die_append]
        exact h1
      · rw [h2]
        rfl
      · intro j
        rw [h3 j]
        by_cases hj : j < i
        · rw [if_pos hj, if_pos (by omega), sprite_store, if_neg (by omega)]
        · rw [if_neg hj]
          by_cases hji : j = i
          · subst hji
            rw [if_pos (by omega), sprite_store, if_pos rfl]
            simp [hp]
          · rw [if_neg (by omega)]
            have e2 : j - i = (j - (i + 1)) + 1 := by omega
            rw [e2, List.getElem?_cons_succ, sprite_store, if_neg hji]

/-- C28: for a table file made of a 16-bit count `n <= SPRITES_PER_TABLE_MAX` and `n` slot
records, followed by any bytes `rest`, `load_sprites` (in either build, on a table that
satisfies the table invariant) returns with exactly the bytes of the records consumed and
a table of count `n` in which a slot whose record is not populated is empty and a slot
whose record is populated holds its width, height, size and data bytes. -/
theorem load_sprites_loads (assertions malloc0_null : Bool) (SPRITES_PER_TABLE_MAX : Nat)
    (table : Sprite_array) (records : List SlotRecord) (rest : List Nat)
    (hinv : table_inv table) (hmax : records.length ≤ SPRITES_PER_TABLE_MAX) :
    ∃ t, load_sprites assertions malloc0_null SPRITES_PER_TABLE_MAX table
          (table_file records ++ rest) = Load.loaded t rest ∧
      t.count = records.length ∧
      ∀ i r, records[i]? = some r →
        (r.populated = 0 → sprite t i = Sprite.empty) ∧
        (r.populated ≠ 0 →
          (sprite t i).width = r.width ∧ (sprite t i).height = r.height ∧
          (sprite t i).size = r.data.length ∧ (sprite t i).bytes = r.data ∧
          (0 < r.data.length → (sprite t i).data = some r.data)) := by
  obtain ⟨t, h1, h2, h3⟩ := load_sprites_loop_spec malloc0_null SPRITES_PER_TABLE_MAX records 0
    ⟨records.length, (free_sprites table).sprite⟩ rest (by omega)
  have hempty : ∀ j, sprite ⟨records.length, (free_sprites table).sprite⟩ j = Sprite.empty := by
    intro j
    have h := sprite_free_sprites table j
    unfold sprite at h ⊢
    rw [h]
    by_cases hj : j < table.count
    · rw [if_pos hj]
    · rw [if_neg hj]
      exact hinv j (by omega)
  refine ⟨t, ?_, h2, ?_⟩
  · unfold load_sprites table_file
    simp only [List.append_assoc, fread_u16_die_bytes]
    rw [if_neg (by
      intro hc
      exact absurd hc.2 (by omega))]
    exact h1
  · intro i r hr
    have h := h3 i
    rw [if_neg (by omega), Nat.sub_zero, hr] at h
    simp only [hempty] at h
    constructor
    · intro hp
      rw [h, if_pos hp]
    · intro hp
      rw [h, if_neg hp]
      refine ⟨rfl, rfl, rfl, ?_, ?_⟩
      · unfold Sprite.bytes
        by_cases hz : r.data.length = 0 ∧ malloc0_null = true
        · simp only [hz, and_self, if_true, Option.getD_none]
          exact (List.length_eq_zero.mp hz.1).symm
        · simp only [hz, if_false, Option.getD_some]
      · intro hpos
        have hz : ¬ (r.data.length = 0 ∧ malloc0_null = true) := by omega
        simp only [hz, if_false]

/-- Witness for C28: a file of two records, the first populated with the scenario sprite
and the second not populated, followed by one more byte, loaded into the empty table. -/
theorem load_sprites_loads_witness :
    ∃ t, load_sprites true false 151 ⟨0, []⟩
          (table_file [⟨1, 2, 2, [1, 254, 3, 255, 1]⟩, ⟨0, 0, 0, []⟩] ++ [9]) = Load.loaded t [9] ∧
      t.count = 2 ∧ sprite t 0 = scenarioSprite ∧ sprite t 1 = Sprite.empty := by
  obtain ⟨t, h1, h2, h3⟩ := load_sprites_loads true false 151 ⟨0, []⟩
    [⟨1, 2, 2, [1, 254, 3, 255, 1]⟩, ⟨0, 0, 0, []⟩] [9] (fun _ _ => rfl) (by decide)
  refine ⟨t, h1, h2, ?_, ?_⟩
  · have h := (h3 0 ⟨1, 2, 2, [1, 254, 3, 255, 1]⟩ rfl).2 (by decide)
    obtain ⟨a, b, c, _, e⟩ := h
    have e2 := e (by decide)
    cases hs : sprite t 0 with
    | mk w hh sz dat =>
      rw [hs] at a b c e2
      simp only at a b c e2
      subst a b c e2
      rfl
  · exact (h3 1 ⟨0, 0, 0, []⟩ rfl).1 rfl

/-! ## A declared count above the maximum -/

set_option maxRecDepth 100000 in
/-- C29 (evaluation at the failing input): with a per-table maximum of 151 and a file that
declares 152 slots, the first 151 of them not populated and the last one populated
(width 1, height 1, size 1, data byte 7), a build without assertions does not fail on the
count: it runs the loop and stores to slot 151, outside the array; when slot 151 is not
populated either it returns with a count of 152.  In a build with assertions the same
files stop at the assertion, before any slot record is read. -/
theorem load_sprites_count_unchecked :
    load_sprites false false 151 ⟨0, []⟩
        ([152, 0] ++ List.replicate 151 0 ++ [1, 1, 0, 1, 0, 1, 0, 7])
      = Load.overrun ⟨152, []⟩ 151 ∧
    load_sprites false false 151 ⟨0, []⟩ ([152, 0] ++ List.replicate 152 0)
      = Load.loaded ⟨152, []⟩ [] ∧
    load_sprites true false 151 ⟨0, []⟩
        ([152, 0] ++ List.replicate 151 0 ++ [1, 1, 0, 1, 0, 1, 0, 7])
      = Load.assert_failed ⟨152, []⟩ (List.replicate 151 0 ++ [1, 1, 0, 1, 0, 1, 0, 7]) ∧
    load_sprites true false 151 ⟨0, []⟩ ([152, 0] ++ List.replicate 152 0)
      = Load.assert_failed ⟨152, []⟩ (List.replicate 152 0) := by
  decide

/-! ## The anti-aliasing pass -/

/-- A nested loop of stores: every address either holds the value of a store to it, or
no store went to it and it is unchanged. -/
theorem nested_poke_cases (pos : Nat → Nat → Int) (val : Nat → Nat → Nat) (xs : List Nat)
    (q : Int) :
    ∀ (ys : List Nat) (m : Mem),
      (∃ y ∈ ys, ∃ x ∈ xs, pos x y = q ∧
        (ys.foldl (fun m y => xs.foldl (fun m x => poke m (pos x y) (val x y)) m) m) q
          = val x y) ∨
      ((∀ y ∈ ys, ∀ x ∈ xs, pos x y ≠ q) ∧
        (ys.foldl (fun m y => xs.foldl (fun m x => poke m (pos x y) (val x y)) m) m) q = m q) := by
  have inner : ∀ (y : Nat) (l : List Nat) (m : Mem),
      (∃ x ∈ l, pos x y = q ∧ (l.foldl (fun m x => poke m (pos x y) (val x y)) m) q = val x y) ∨
      ((∀ x ∈ l, pos x y ≠ q) ∧ (l.foldl (fun m x => poke m (pos x y) (val x y)) m) q = m q) := by
    intro y l
    induction l with
    | nil =>
      intro m
      right
      exact ⟨fun _ h => absurd h (List.not_mem_nil _), rfl⟩
    | cons a l ih =>
      intro m
      rw [List.foldl_cons]
      rcases ih (poke m (pos a y) (val a y)) with ⟨x, hx, hp, hv⟩ | ⟨hn, hv⟩
      · exact Or.inl ⟨x, List.mem_cons_of_mem _ hx, hp, hv⟩
      · by_cases ha : pos a y = q
        · left
          refine ⟨a, List.mem_cons_self _ _, ha, ?_⟩
          rw [hv]
          unfold poke
          rw [if_pos ha.symm]
        · right
          refine ⟨?_, ?_⟩
          · intro x hx
            rcases List.mem_cons.mp hx with e | e
            · rw [e]
              exact ha
            · exact hn x e
          · rw [hv]
            unfold poke
            rw [if_neg (fun e => ha e.symm)]
  intro ys
  induction ys with
  | nil =>
    intro m
    right
    exact ⟨fun _ h => absurd h (List.not_mem_nil _), rfl⟩
  | cons b ys ih =>
    intro m
    rw [List.foldl_cons]
    rcases ih (xs.foldl (fun m x => poke m (pos x b) (val x b)) m) with
      ⟨y, hy, x, hx, hp, hv⟩ | ⟨hn, hv⟩
    · exact Or.inl ⟨y, List.mem_cons_of_mem _ hy, x, hx, hp, hv⟩
    · rcases inner b xs m with ⟨x, hx, hp, hv2⟩ | ⟨hn2, hv2⟩
      · left
        refine ⟨b, List.mem_cons_self _ _, x, hx, hp, ?_⟩
        rw [hv, hv2]
      · right
        refine ⟨?_, ?_⟩
        · intro y hy
          rcases List.mem_cons.mp hy with e | e
          · rw [e]
            exact hn2
          · exact hn y e
        · rw [hv, hv2]

/-- Two pixels of rows no wider than the stride have the same index only when they are
the same pixel. -/
theorem pixel_index_inj (P x x2 y y2 : Int) (hx0 : 0 ≤ x) (hx : x < P) (hx20 : 0 ≤ x2)
    (hx2 : x2 < P) (h : y * P + x = y2 * P + x2) : x = x2 ∧ y = y2 := by
  have hy : y = y2 := by
    by_contra hne
    rcases lt_or_gt_of_ne hne with hlt | hgt
    · have h1 : (y2 - y) * P ≥ 1 * P :=
        Int.mul_le_mul_of_nonneg_right (by omega) (by omega)
      have h2 : (y2 - y) * P = y2 * P - y * P := by ring
      omega
    · have h1 : (y - y2) * P ≥ 1 * P :=
        Int.mul_le_mul_of_nonneg_right (by omega) (by omega)
      have h2 : (y - y2) * P = y * P - y2 * P := by ring
      omega
  subst hy
  exact ⟨by omega, rfl⟩

/-- The copy of the frame holds pixel `(x, y)` of the frame at index `y * width + x`. -/
theorem fxaa_snapshot_spec (pixels fxaa_buffer : Mem) (width : Nat) (pitch_pixels : Int) :
    ∀ (height x y : Nat), x < width → y < height →
      fxaa_snapshot pixels width height pitch_pixels fxaa_buffer ((y : Int) * (width : Int) + (x : Int))
        = pixels ((y : Int) * pitch_pixels + (x : Int)) := by
  intro height
  induction height with
  | zero =>
    intro x y _ hy
    omega
  | succ n ih =>
    intro x y hx hy
    unfold fxaa_snapshot
    rw [List.range_succ, List.foldl_append, List.foldl_cons, List.foldl_nil]
    have hidx : ((y : Int) * (width : Int) + (x : Int)) = ((y * width + x : Nat) : Int) := by
      push_cast
      ring
    by_cases hyn : y = n
    · subst hyn
      have c : ((y * width : Nat) : Int) ≤ (y : Int) * (width : Int) + (x : Int) ∧
          (y : Int) * (width : Int) + (x : Int) < ((y * width + width : Nat) : Int) := by
        push_cast
        constructor <;> omega
      simp only [c, and_self, if_true]
      congr 1
      push_cast
      ring
    · have hlt : y < n := by omega
      have hmul : (y + 1) * width ≤ n * width := Nat.mul_le_mul_right _ (by omega)
      have c : ¬ (((n * width : Nat) : Int) ≤ (y : Int) * (width : Int) + (x : Int) ∧
          (y : Int) * (width : Int) + (x : Int) < ((n * width + width : Nat) : Int)) := by
        rw [hidx]
        intro hc
        have h1 := hc.1
        have h2 : n * width ≤ y * width + x := by exact_mod_cast h1
        have h3 : (y + 1) * width = y * width + width := by ring
        omega
      simp only [c, if_false]
      exact ih x y hx hlt

/-- The copy of the frame at signed coordinates inside the frame. -/
theorem fxaa_snapshot_at (pixels fxaa_buffer : Mem) (width height : Nat) (pitch_pixels : Int)
    (x y : Int) (hx0 : 0 ≤ x) (hx : x < (width : Int)) (hy0 : 0 ≤ y) (hy : y < (height : Int)) :
    fxaa_snapshot pixels width height pitch_pixels fxaa_buffer (y * (width : Int) + x)
      = pixels (y * pitch_pixels + x) := by
  have h := fxaa_snapshot_spec pixels fxaa_buffer width pitch_pixels height x.toNat y.toNat
    (by omega) (by omega)
  have ex : ((x.toNat : Nat) : Int) = x := Int.toNat_of_nonneg hx0
  have ey : ((y.toNat : Nat) : Int) = y := Int.toNat_of_nonneg hy0
  rw [ex, ey] at h
  exact h

/-- The value computed for an interior pixel is `fxaa_pixel` of the nine values that the
frame held before the call. -/
theorem fxaa_at_snapshot {F : Type} (ops : FloatOps F) (pixels fxaa_buffer : Mem)
    (width height : Nat) (pitch_pixels : Int) (x y : Int) (hx1 : 1 ≤ x)
    (hx2 : x + 1 < (width : Int)) (hy1 : 1 ≤ y) (hy2 : y + 1 < (height : Int)) :
    fxaa_at ops (fxaa_snapshot pixels width height pitch_pixels fxaa_buffer) (width : Int) x y
      = fxaa_pixel ops (pixels (y * pitch_pixels + x))
          (pixels ((y - 1) * pitch_pixels + x))
          (pixels ((y + 1) * pitch_pixels + x))
          (pixels (y * pitch_pixels + (x + 1)))
          (pixels (y * pitch_pixels + (x - 1)))
          (pixels ((y - 1) * pitch_pixels + (x - 1)))
          (pixels ((y - 1) * pitch_pixels + (x + 1)))
          (pixels ((y + 1) * pitch_pixels + (x - 1)))
          (pixels ((y + 1) * pitch_pixels + (x + 1))) := by
  unfold fxaa_at
  rw [fxaa_snapshot_at pixels fxaa_buffer width height pitch_pixels x y
      (by omega) (by omega) (by omega) (by omega),
    fxaa_snapshot_at pixels fxaa_buffer width height pitch_pixels x (y - 1)
      (by omega) (by omega) (by omega) (by omega),
    fxaa_snapshot_at pixels fxaa_buffer width height pitch_pixels x (y + 1)
      (by omega) (by omega) (by omega) (by omega),
    fxaa_snapshot_at pixels fxaa_buffer width height pitch_pixels (x + 1) y
      (by omega) (by omega) (by omega) (by omega),
    fxaa_snapshot_at pixels fxaa_buffer width height pitch_pixels (x - 1) y
      (by omega) (by omega) (by omega) (by omega),
    fxaa_snapshot_at pixels fxaa_buffer width height pitch_pixels (x - 1) (y - 1)
      (by omega) (by omega) (by omega) (by omega),
    fxaa_snapshot_at pixels fxaa_buffer width height pitch_pixels (x + 1) (y - 1)
      (by omega) (by omega) (by omega) (by omega),
    fxaa_snapshot_at pixels fxaa_buffer width height pitch_pixels (x - 1) (y + 1)
      (by omega) (by omega) (by omega) (by omega),
    fxaa_snapshot_at pixels fxaa_buffer width height pitch_pixels (x + 1) (y + 1)
      (by omega) (by omega) (by omega) (by omega)]

/-- Every element of the array after `apply_fxaa` is the value computed for an interior
pixel stored at that index, or no interior pixel has that index and it is unchanged. -/
theorem apply_fxaa_cases {F : Type} (ops : FloatOps F) (fxaa_buffer pixels : Mem)
    (width height : Nat) (pitch_pixels : Int) (q : Int) :
    (∃ x y : Nat, (1 ≤ x ∧ x + 1 < width) ∧ (1 ≤ y ∧ y + 1 < height) ∧
      (y : Int) * pitch_pixels + (x : Int) = q ∧
      apply_fxaa ops true fxaa_buffer pixels width height pitch_pixels q
        = fxaa_at ops (fxaa_snapshot pixels width height pitch_pixels fxaa_buffer) (width : Int)
            (x : Int) (y : Int)) ∨
    ((∀ x y : Nat, 1 ≤ x → x + 1 < width → 1 ≤ y → y + 1 < height →
        (y : Int) * pitch_pixels + (x : Int) ≠ q) ∧
      apply_fxaa ops true fxaa_buffer pixels width height pitch_pixels q = pixels q) := by
  have h := nested_poke_cases (fun x y => (y : Int) * pitch_pixels + (x : Int))
    (fun x y => fxaa_at ops (fxaa_snapshot pixels width height pitch_pixels fxaa_buffer)
      (width : Int) (x : Int) (y : Int))
    (List.range' 1 (width - 2)) q (List.range' 1 (height - 2)) pixels
  have e : apply_fxaa ops true fxaa_buffer pixels width height pitch_pixels
      = List.foldl (fun m (y : Nat) =>
          List.foldl (fun m (x : Nat) =>
            poke m ((y : Int) * pitch_pixels + (x : Int))
              (fxaa_at ops (fxaa_snapshot pixels width height pitch_pixels fxaa_buffer)
                (width : Int) (x : Int) (y : Int))) m (List.range' 1 (width - 2)))
          pixels (List.range' 1 (height - 2)) := by
    unfold apply_fxaa
    rw [if_pos rfl]
  rw [e]
  rcases h with ⟨y, hy, x, hx, hp, hv⟩ | ⟨hn, hv⟩
  · left
    rw [List.mem_range'_1] at hx hy
    exact ⟨x, y, by omega, by omega, hp, hv⟩
  · right
    refine ⟨?_, hv⟩
    intro x y hx1 hx2 hy1 hy2
    exact hn y (List.mem_range'_1.mpr (by omega)) x (List.mem_range'_1.mpr (by omega))

/-- C25: for a buffer whose rows have stride padding beyond column `width - 1`, that is a
stride `pitch_pixels >= width` (`hires_scale_aa`, the only caller, passes `dst_pitch / 4`
of a texture `dst_width` pixels wide), whatever the buffer holds, every element at a
column `0 <= x < pitch_pixels` of a row `y` that is not an interior pixel
(`1 <= x <= width - 2` and `1 <= y <= height - 2`) is after `apply_fxaa` what it was
before: row 0, row `height - 1`, column 0, column `width - 1` and the padding beyond it.
For `width < 3` or `height < 3` nothing changes. -/
theorem fxaa_border_untouched {F : Type} (ops : FloatOps F) (realloc_ok : Bool)
    (fxaa_buffer pixels : Mem) (width height : Nat) (pitch_pixels : Int)
    (hp : (width : Int) ≤ pitch_pixels) :
    (∀ x y : Int, 0 ≤ x → x < pitch_pixels →
      ¬ (1 ≤ x ∧ x ≤ (width : Int) - 2 ∧ 1 ≤ y ∧ y ≤ (height : Int) - 2) →
      apply_fxaa ops realloc_ok fxaa_buffer pixels width height pitch_pixels
          (y * pitch_pixels + x) = pixels (y * pitch_pixels + x)) ∧
    (width < 3 ∨ height < 3 →
      apply_fxaa ops realloc_ok fxaa_buffer pixels width height pitch_pixels = pixels) := by
  cases realloc_ok with
  | false =>
    have e : apply_fxaa ops false fxaa_buffer pixels width height pitch_pixels = pixels := by
      unfold apply_fxaa
      simp
    rw [e]
    exact ⟨fun _ _ _ _ _ => rfl, fun _ => rfl⟩
  | true =>
    constructor
    · intro x y hx0 hx hni
      rcases apply_fxaa_cases ops fxaa_buffer pixels width height pitch_pixels
          (y * pitch_pixels + x) with ⟨x2, y2, hx2, hy2, hq, _⟩ | ⟨_, hv⟩
      · exfalso
        have hi := pixel_index_inj pitch_pixels (x2 : Int) x (y2 : Int) y (by omega) (by omega)
          hx0 hx hq
        apply hni
        omega
      · exact hv
    · intro hsmall
      funext q
      rcases apply_fxaa_cases ops fxaa_buffer pixels width height pitch_pixels q with
        ⟨x2, y2, hx2, hy2, _, _⟩ | ⟨_, hv⟩
      · omega
      · exact hv

/-- Witness for C25: the pixel of row 0 and column 3 of a 4 x 3 frame with stride 4. -/
theorem fxaa_border_untouched_witness :
    apply_fxaa exact_arith true (fun _ => 0)
      (fun k : Int => if k = 1 ∨ k = 5 then 0xFFFFFF else 0) 4 3 4 (0 * 4 + 3)
      = (fun k : Int => if k = 1 ∨ k = 5 then 0xFFFFFF else 0) (0 * 4 + 3) :=
  (fxaa_border_untouched exact_arith true (fun _ => 0)
    (fun k : Int => if k = 1 ∨ k = 5 then 0xFFFFFF else 0) 4 3 4 (by decide)).1 3 0
    (by decide) (by decide) (by decide)

/-- C26: in an arithmetic in which `fminf(a, a)` and `fmaxf(a, a)` are `a` and the
difference of the luminance of `c` with itself is below `0.05f`, `fxaa_pixel` of a centre
and eight neighbours all equal to `c` is `c`, and `apply_fxaa` leaves every pixel of a
frame whose pixels are all `c` equal to `c`. -/
theorem fxaa_uniform_unchanged {F : Type} (ops : FloatOps F) (c : Nat)
    (hmin : ∀ a, ops.fminf a a = a) (hmax : ∀ a, ops.fmaxf a a = a)
    (hlow : ops.lt (ops.sub (luminance ops c) (luminance ops c)) (ops.lit 5 100) = true) :
    fxaa_pixel ops c c c c c c c c c = c ∧
    ∀ (realloc_ok : Bool) (fxaa_buffer pixels : Mem) (width height : Nat) (pitch_pixels : Int),
      (∀ x y : Nat, x < width → y < height → pixels ((y : Int) * pitch_pixels + (x : Int)) = c) →
      ∀ x y : Nat, x < width → y < height →
        apply_fxaa ops realloc_ok fxaa_buffer pixels width height pitch_pixels
          ((y : Int) * pitch_pixels + (x : Int)) = c := by
  have hpix : fxaa_pixel ops c c c c c c c c c = c := by
    unfold fxaa_pixel
    simp only [hmin, hmax, hlow, if_true]
  refine ⟨hpix, ?_⟩
  intro realloc_ok fxaa_buffer pixels width height pitch_pixels hall x y hx hy
  cases realloc_ok with
  | false =>
    have e : apply_fxaa ops false fxaa_buffer pixels width height pitch_pixels = pixels := by
      unfold apply_fxaa
      simp
    rw [e]
    exact hall x y hx hy
  | true =>
    rcases apply_fxaa_cases ops fxaa_buffer pixels width height pitch_pixels
        ((y : Int) * pitch_pixels + (x : Int)) with ⟨x2, y2, hx2, hy2, _, hv⟩ | ⟨_, hv⟩
    · rw [hv, fxaa_at_snapshot ops pixels fxaa_buffer width height pitch_pixels (x2 : Int)
        (y2 : Int) (by omega) (by omega) (by omega) (by omega)]
      obtain ⟨x0, rfl⟩ : ∃ x0, x2 = x0 + 1 := ⟨x2 - 1, by omega⟩
      obtain ⟨y0, rfl⟩ : ∃ y0, y2 = y0 + 1 := ⟨y2 - 1, by omega⟩
      have e1 : (((x0 + 1 : Nat) : Int) - 1) = ((x0 : Nat) : Int) := by push_cast; ring
      have e2 : (((x0 + 1 : Nat) : Int) + 1) = ((x0 + 2 : Nat) : Int) := by push_cast; ring
      have e3 : (((y0 + 1 : Nat) : Int) - 1) = ((y0 : Nat) : Int) := by push_cast; ring
      have e4 : (((y0 + 1 : Nat) : Int) + 1) = ((y0 + 2 : Nat) : Int) := by push_cast; ring
      rw [e1, e2, e3, e4]
      rw [hall (x0 + 1) (y0 + 1) (by omega) (by omega), hall (x0 + 1) y0 (by omega) (by omega),
        hall (x0 + 1) (y0 + 2) (by omega) (by omega), hall (x0 + 2) (y0 + 1) (by omega) (by omega),
        hall x0 (y0 + 1) (by omega) (by omega), hall x0 y0 (by omega) (by omega),
        hall (x0 + 2) y0 (by omega) (by omega), hall x0 (y0 + 2) (by omega) (by omega),
        hall (x0 + 2) (y0 + 2) (by omega) (by omega)]
      exact hpix
    · rw [hv]
      exact hall x y hx hy

/-- Witness for C26: exact arithmetic satisfies the three laws for the colour `0x102030`. -/
theorem fxaa_uniform_unchanged_witness :
    fxaa_pixel exact_arith 0x102030 0x102030 0x102030 0x102030 0x102030 0x102030 0x102030
      0x102030 0x102030 = 0x102030 :=
  (fxaa_uniform_unchanged exact_arith 0x102030
    (fun a => by
      show (if a.1 * a.2 < a.1 * a.2 then a else a) = a
      rw [if_neg (lt_irrefl _)])
    (fun a => by
      show (if a.1 * a.2 < a.1 * a.2 then a else a) = a
      rw [if_neg (lt_irrefl _)])
    (by decide)).1

/-- C27: for a stride `pitch_pixels >= width` and an interior pixel `(x, y)`, the value
that the array holds at `(x, y)` after `apply_fxaa` is `fxaa_pixel` of the values that the
pixel and its eight neighbours had before the call; it depends neither on what the
persistent buffer held nor on the values stored for other pixels during the pass. -/
theorem fxaa_reads_snapshot {F : Type} (ops : FloatOps F) (fxaa_buffer pixels : Mem)
    (width height : Nat) (pitch_pixels : Int) (hp : (width : Int) ≤ pitch_pixels)
    (x y : Int) (hx1 : 1 ≤ x) (hx2 : x + 1 < (width : Int)) (hy1 : 1 ≤ y)
    (hy2 : y + 1 < (height : Int)) :
    apply_fxaa ops true fxaa_buffer pixels width height pitch_pixels (y * pitch_pixels + x)
      = fxaa_pixel ops (pixels (y * pitch_pixels + x))
          (pixels ((y - 1) * pitch_pixels + x))
          (pixels ((y + 1) * pitch_pixels + x))
          (pixels (y * pitch_pixels + (x + 1)))
          (pixels (y * pitch_pixels + (x - 1)))
          (pixels ((y - 1) * pitch_pixels + (x - 1)))
          (pixels ((y - 1) * pitch_pixels + (x + 1)))
          (pixels ((y + 1) * pitch_pixels + (x - 1)))
          (pixels ((y + 1) * pitch_pixels + (x + 1))) := by
  rcases apply_fxaa_cases ops fxaa_buffer pixels width height pitch_pixels
      (y * pitch_pixels + x) with ⟨x2, y2, hx, hy, hq, hv⟩ | ⟨hn, _⟩
  · have hi := pixel_index_inj pitch_pixels (x2 : Int) x (y2 : Int) y (by omega) (by omega)
      (by omega) (by omega) hq
    rw [hv, hi.1, hi.2]
    exact fxaa_at_snapshot ops pixels fxaa_buffer width height pitch_pixels x y hx1 hx2 hy1 hy2
  · exfalso
    have h := hn x.toNat y.toNat (by omega) (by omega) (by omega) (by omega)
    apply h
    rw [Int.toNat_of_nonneg (by omega : 0 ≤ x), Int.toNat_of_nonneg (by omega : 0 ≤ y)]

/-- Witness for C27: the centre of a 3 x 3 frame with stride 5. -/
theorem fxaa_reads_snapshot_witness :
    apply_fxaa exact_arith true (fun _ => 7)
      (fun k : Int => if k = 1 ∨ k = 11 then 0xFFFFFF else 0) 3 3 5 (1 * 5 + 1) = 0x7F7F7F :=
  (fxaa_reads_snapshot exact_arith (fun _ => 7)
    (fun k : Int => if k = 1 ∨ k = 11 then 0xFFFFFF else 0) 3 3 5 (by decide) 1 1
    (by decide) (by decide) (by decide) (by decide)).trans (by decide)

/-! ## Block scalers -/

/-- Row and byte-in-row of the byte at `Y * pitch + b`. -/
theorem row_byte (pitch Y b : Nat) (hb : b < pitch) :
    (Y * pitch + b) / pitch = Y ∧ (Y * pitch + b) % pitch = b := by
  have hp : 0 < pitch := by omega
  apply (Nat.div_mod_unique hp).mpr
  constructor
  · rw [Nat.mul_comm pitch Y]
    omega
  · exact hb

theorem Painted.congr {pitch scale : Nat} {col : Nat → Nat → Nat} {P P2 : Nat → Nat → Prop}
    {m m1 : Tex} (h : Painted pitch scale col P m m1) (hP : ∀ Y b, P Y b ↔ P2 Y b) :
    Painted pitch scale col P2 m m1 := by
  intro q
  rw [← hP]
  exact h q

theorem Painted.refl (pitch scale : Nat) (col : Nat → Nat → Nat) (m : Tex) :
    Painted pitch scale col (fun _ _ => False) m m := by
  intro q
  exact ⟨fun h => absurd h id, fun _ => rfl⟩

/-- Two paintings of the same bytes over the same memory are equal. -/
theorem Painted.unique {pitch scale : Nat} {col : Nat → Nat → Nat} {P : Nat → Nat → Prop}
    {m m1 m2 : Tex} (h1 : Painted pitch scale col P m m1) (h2 : Painted pitch scale col P m m2) :
    m1 = m2 := by
  funext q
  by_cases hq : P (q / pitch) (q % pitch)
  · rw [(h1 q).1 hq, (h2 q).1 hq]
  · rw [(h1 q).2 hq, (h2 q).2 hq]

/-- One 32-bit store of the colour of the block that the output pixel lies in. -/
theorem Painted.store {pitch scale : Nat} {col : Nat → Nat → Nat} {P : Nat → Nat → Prop}
    {m m1 : Tex} (h : Painted pitch scale col P m m1) (Y0 k x y : Nat)
    (hk : 4 * k + 4 ≤ pitch) (hx : k / scale = x) (hy : Y0 / scale = y) :
    Painted pitch scale col (fun Y b => P Y b ∨ (Y = Y0 ∧ 4 * k ≤ b ∧ b < 4 * k + 4)) m
      (store32 m1 (Y0 * pitch + 4 * k) (col x y)) := by
  intro q
  unfold store32
  by_cases hq : Y0 * pitch + 4 * k ≤ q ∧ q < Y0 * pitch + 4 * k + 4
  · have e : q = Y0 * pitch + (q - Y0 * pitch) := by omega
    have hb : q - Y0 * pitch < pitch := by omega
    obtain ⟨e1, e2⟩ := row_byte pitch Y0 (q - Y0 * pitch) hb
    rw [← e] at e1 e2
    rw [if_pos hq, e1, e2]
    constructor
    · intro _
      have a1 : (q - Y0 * pitch) / 4 = k := by omega
      have a2 : (q - Y0 * pitch) % 4 = q - (Y0 * pitch + 4 * k) := by omega
      rw [a1, a2, hx, hy]
    · intro hn
      exfalso
      apply hn
      right
      exact ⟨rfl, by omega, by omega⟩
  · rw [if_neg hq]
    have hiff : (P (q / pitch) (q % pitch) ∨
        (q / pitch = Y0 ∧ 4 * k ≤ q % pitch ∧ q % pitch < 4 * k + 4)) ↔
        P (q / pitch) (q % pitch) := by
      constructor
      · intro h2
        rcases h2 with h2 | ⟨h3, h4, h5⟩
        · exact h2
        · exfalso
          apply hq
          have := Nat.div_add_mod q pitch
          rw [h3, Nat.mul_comm] at this
          omega
      · exact Or.inl
    exact ⟨fun h2 => (h q).1 (hiff.mp h2), fun h2 => (h q).2 (fun hp => h2 (hiff.mpr hp))⟩

/-- The four bytes of a 32-bit value. -/
theorem load32_bytes (m : Tex) (p v : Nat) (hv : v < 2 ^ 32)
    (h : ∀ k, k < 4 → m (p + k) = byte_of v k) : load32 m p = v := by
  unfold load32
  have h0 := h 0 (by omega)
  have h1 := h 1 (by omega)
  have h2 := h 2 (by omega)
  have h3 := h 3 (by omega)
  rw [Nat.add_zero] at h0
  rw [h0, h1, h2, h3]
  unfold byte_of
  norm_num at hv ⊢
  omega

/-- The output pixel `(x * scale + dx, y * scale + dy)` of a painted texture. -/
theorem Painted.pixel {pitch scale : Nat} {col : Nat → Nat → Nat} {P : Nat → Nat → Prop}
    {m m1 : Tex} (h : Painted pitch scale col P m m1) (x y dx dy : Nat)
    (hdx : dx < scale) (hdy : dy < scale) (hk : 4 * (x * scale + dx) + 4 ≤ pitch)
    (hP : ∀ b, 4 * (x * scale + dx) ≤ b → b < 4 * (x * scale + dx) + 4 → P (y * scale + dy) b)
    (hv : col x y < 2 ^ 32) :
    load32 m1 ((y * scale + dy) * pitch + 4 * (x * scale + dx)) = col x y := by
  apply load32_bytes _ _ _ hv
  intro k hk4
  have hb : 4 * (x * scale + dx) + k < pitch := by omega
  obtain ⟨e1, e2⟩ := row_byte pitch (y * scale + dy) (4 * (x * scale + dx) + k) hb
  have hq := (h ((y * scale + dy) * pitch + (4 * (x * scale + dx) + k))).1
  rw [e1, e2] at hq
  have hs : 0 < scale := by omega
  have a1 : (4 * (x * scale + dx) + k) / 4 = x * scale + dx := by omega
  have a2 : (4 * (x * scale + dx) + k) % 4 = k := by omega
  have a3 : (x * scale + dx) / scale = x := by
    rw [Nat.add_comm, Nat.add_mul_div_right _ _ hs, Nat.div_eq_of_lt hdx, Nat.zero_add]
  have a4 : (y * scale + dy) / scale = y := by
    rw [Nat.add_comm, Nat.add_mul_div_right _ _ hs, Nat.div_eq_of_lt hdy, Nat.zero_add]
  rw [a1, a2, a3, a4] at hq
  rw [← Nat.add_assoc] at hq
  exact hq (hP _ (by omega) (by omega))

/-- Quotient of an output coordinate by the scale. -/
theorem block_div (a scale d : Nat) (hd : d < scale) : (a * scale + d) / scale = a := by
  have hs : 0 < scale := by omega
  rw [Nat.add_comm, Nat.add_mul_div_right _ _ hs, Nat.div_eq_of_lt hd, Nat.zero_add]

/-- The loop over `dx` of a block scaler. -/
theorem block_dx (col : Nat → Nat → Nat) (pitch scale Y0 x y : Nat) (hY : Y0 / scale = y)
    (hW : 4 * (x * scale + scale) ≤ pitch) :
    ∀ n, n ≤ scale → ∀ (P : Nat → Nat → Prop) (m m1 : Tex), Painted pitch scale col P m m1 →
      Painted pitch scale col
        (fun Y b => P Y b ∨ (Y = Y0 ∧ 4 * (x * scale) ≤ b ∧ b < 4 * (x * scale + n))) m
        ((List.range n).foldl
          (fun m dx => store32 m (Y0 * pitch + (x * scale + dx) * 4) (col x y)) m1) := by
  intro n
  induction n with
  | zero =>
    intro _ P m m1 h
    apply h.congr
    intro Y b
    constructor
    · exact Or.inl
    · rintro (h2 | h2)
      · exact h2
      · omega
  | succ n ih =>
    intro hn P m m1 h
    rw [List.range_succ, List.foldl_append, List.foldl_cons, List.foldl_nil]
    have h1 := ih (by omega) P m m1 h
    have h2 := h1.store Y0 (x * scale + n) x y (by omega) (block_div x scale n (by omega)) hY
    rw [Nat.mul_comm (x * scale + n) 4]
    apply h2.congr
    intro Y b
    constructor
    · rintro ((h3 | h3) | h3)
      · exact Or.inl h3
      · exact Or.inr ⟨h3.1, h3.2.1, by omega⟩
      · exact Or.inr ⟨h3.1, by omega, by omega⟩
    · rintro (h3 | h3)
      · exact Or.inl (Or.inl h3)
      · by_cases hb : b < 4 * (x * scale + n)
        · exact Or.inl (Or.inr ⟨h3.1, h3.2.1, hb⟩)
        · exact Or.inr ⟨h3.1, by omega, by omega⟩

/-- The loop over `dy` of a block scaler. -/
theorem block_dy (col : Nat → Nat → Nat) (pitch scale x y : Nat)
    (hW : 4 * (x * scale + scale) ≤ pitch) :
    ∀ n, n ≤ scale → ∀ (P : Nat → Nat → Prop) (m m1 : Tex), Painted pitch scale col P m m1 →
      Painted pitch scale col
        (fun Y b => P Y b ∨ (y * scale ≤ Y ∧ Y < y * scale + n ∧
          4 * (x * scale) ≤ b ∧ b < 4 * (x * scale + scale))) m
        ((List.range n).foldl (fun m dy =>
          (List.range scale).foldl (fun m dx =>
            store32 m ((y * scale + dy) * pitch + (x * scale + dx) * 4) (col x y)) m) m1) := by
  intro n
  induction n with
  | zero =>
    intro _ P m m1 h
    apply h.congr
    intro Y b
    constructor
    · exact Or.inl
    · rintro (h2 | h2)
      · exact h2
      · omega
  | succ n ih =>
    intro hn P m m1 h
    rw [List.range_succ, List.foldl_append, List.foldl_cons, List.foldl_nil]
    have h1 := ih (by omega) P m m1 h
    have h2 := block_dx col pitch scale (y * scale + n) x y (block_div y scale n (by omega)) hW
      scale (Nat.le_refl _) _ m _ h1
    apply h2.congr
    intro Y b
    constructor
    · rintro ((h3 | h3) | h3)
      · exact Or.inl h3
      · exact Or.inr ⟨h3.1, by omega, h3.2.2⟩
      · exact Or.inr ⟨by omega, by omega, h3.2⟩
    · rintro (h3 | h3)
      · exact Or.inl (Or.inl h3)
      · by_cases hb : Y < y * scale + n
        · exact Or.inl (Or.inr ⟨h3.1, hb, h3.2.2⟩)
        · exact Or.inr ⟨by omega, h3.2.2⟩

/-- The loop over `x` of a block scaler. -/
theorem block_x (col : Nat → Nat → Nat) (pitch scale width y : Nat)
    (hW : 4 * (width * scale) ≤ pitch) :
    ∀ n, n ≤ width → ∀ (P : Nat → Nat → Prop) (m m1 : Tex), Painted pitch scale col P m m1 →
      Painted pitch scale col
        (fun Y b => P Y b ∨ (y * scale ≤ Y ∧ Y < y * scale + scale ∧ b < 4 * (n * scale))) m
        ((List.range n).foldl (fun m x =>
          (List.range scale).foldl (fun m dy =>
            (List.range scale).foldl (fun m dx =>
              store32 m ((y * scale + dy) * pitch + (x * scale + dx) * 4) (col x y)) m) m)
          m1) := by
  intro n
  induction n with
  | zero =>
    intro _ P m m1 h
    apply h.congr
    intro Y b
    constructor
    · exact Or.inl
    · rintro (h2 | h2)
      · exact h2
      · omega
  | succ n ih =>
    intro hn P m m1 h
    rw [List.range_succ, List.foldl_append, List.foldl_cons, List.foldl_nil]
    have h1 := ih (by omega) P m m1 h
    have hm : (n + 1) * scale ≤ width * scale := Nat.mul_le_mul_right _ hn
    have e : (n + 1) * scale = n * scale + scale := by ring
    have h2 := block_dy col pitch scale n y (by omega) scale (Nat.le_refl _) _ m _ h1
    apply h2.congr
    intro Y b
    rw [e]
    constructor
    · rintro ((h3 | h3) | h3)
      · exact Or.inl h3
      · exact Or.inr ⟨h3.1, h3.2.1, by omega⟩
      · exact Or.inr ⟨h3.1, h3.2.1, by omega⟩
    · rintro (h3 | h3)
      · exact Or.inl (Or.inl h3)
      · by_cases hb : b < 4 * (n * scale)
        · exact Or.inl (Or.inr ⟨h3.1, h3.2.1, hb⟩)
        · exact Or.inr ⟨h3.1, h3.2.1, by omega, by omega⟩

/-- A block scaler paints the `height * scale` rows of `4 * width * scale` bytes. -/
theorem block_scaler_painted (col : Nat → Nat → Nat) (pitch scale width : Nat) (dst : Tex)
    (hW : 4 * (width * scale) ≤ pitch) :
    ∀ height, Painted pitch scale col
      (fun Y b => Y < height * scale ∧ b < 4 * (width * scale)) dst
      (block_scaler col width height dst pitch scale) := by
  intro height
  induction height with
  | zero =>
    apply (Painted.refl pitch scale col dst).congr
    intro Y b
    constructor
    · exact fun h => absurd h id
    · intro h
      omega
  | succ n ih =>
    unfold block_scaler at ih ⊢
    rw [List.range_succ, List.foldl_append, List.foldl_cons, List.foldl_nil]
    have h2 := block_x col pitch scale width n hW width (Nat.le_refl _) _ dst _ ih
    have e : (n + 1) * scale = n * scale + scale := by ring
    apply h2.congr
    intro Y b
    rw [e]
    constructor
    · rintro (h3 | h3)
      · exact ⟨by omega, h3.2⟩
      · exact ⟨by omega, h3.2.2⟩
    · intro h3
      by_cases hb : Y < n * scale
      · exact Or.inl ⟨hb, h3.2⟩
      · exact Or.inr ⟨by omega, by omega, h3.2⟩

/-! ## Nearest-neighbour upscale -/

/-- A copy of a painted row to another row of the same block. -/
theorem Painted.memcpy {pitch scale : Nat} {col : Nat → Nat → Nat} {P : Nat → Nat → Prop}
    {m m1 : Tex} (h : Painted pitch scale col P m m1) (Y0 Y1 W : Nat) (hW : 4 * W ≤ pitch)
    (hrow : ∀ b, b < 4 * W → P Y0 b) (hy : Y1 / scale = Y0 / scale) :
    Painted pitch scale col (fun Y b => P Y b ∨ (Y = Y1 ∧ b < 4 * W)) m
      (memcpy_tex m1 (Y1 * pitch) (Y0 * pitch) (W * 4)) := by
  intro q
  unfold memcpy_tex
  by_cases hq : Y1 * pitch ≤ q ∧ q < Y1 * pitch + W * 4
  · have e : q = Y1 * pitch + (q - Y1 * pitch) := by omega
    have hb : q - Y1 * pitch < pitch := by omega
    obtain ⟨e1, e2⟩ := row_byte pitch Y1 (q - Y1 * pitch) hb
    rw [← e] at e1 e2
    obtain ⟨e3, e4⟩ := row_byte pitch Y0 (q - Y1 * pitch) hb
    have hs := (h (Y0 * pitch + (q - Y1 * pitch))).1
    rw [e3, e4] at hs
    rw [if_pos hq, e1, e2]
    constructor
    · intro _
      rw [hy]
      exact hs (hrow _ (by omega))
    · intro hn
      exfalso
      apply hn
      right
      exact ⟨rfl, by omega⟩
  · rw [if_neg hq]
    have hiff : (P (q / pitch) (q % pitch) ∨ (q / pitch = Y1 ∧ q % pitch < 4 * W)) ↔
        P (q / pitch) (q % pitch) := by
      constructor
      · intro h2
        rcases h2 with h2 | ⟨h3, h4⟩
        · exact h2
        · exfalso
          apply hq
          have := Nat.div_add_mod q pitch
          rw [h3, Nat.mul_comm] at this
          omega
      · exact Or.inl
    exact ⟨fun h2 => (h q).1 (hiff.mp h2), fun h2 => (h q).2 (fun hp => h2 (hiff.mpr hp))⟩

/-- The innermost loop of `nn_hires`. -/
theorem nn_fill_painted (col : Nat → Nat → Nat) (pitch scale Y0 x y : Nat)
    (hY : Y0 / scale = y) (hW : 4 * (x * scale + scale) ≤ pitch) :
    ∀ z j dst, j + z ≤ scale → dst = Y0 * pitch + 4 * (x * scale + j) →
      ∀ (P : Nat → Nat → Prop) (m m1 : Tex), Painted pitch scale col P m m1 →
      (nn_fill (col x y) z dst m1).1 = Y0 * pitch + 4 * (x * scale + j + z) ∧
      Painted pitch scale col
        (fun Y b => P Y b ∨ (Y = Y0 ∧ 4 * (x * scale + j) ≤ b ∧ b < 4 * (x * scale + j + z))) m
        (nn_fill (col x y) z dst m1).2 := by
  intro z
  induction z with
  | zero =>
    intro j dst _ hdst P m m1 h
    refine ⟨hdst, ?_⟩
    apply h.congr
    intro Y b
    constructor
    · exact Or.inl
    · rintro (h2 | h2)
      · exact h2
      · omega
  | succ z ih =>
    intro j dst hj hdst P m m1 h
    rw [nn_fill]
    have h1 := h.store Y0 (x * scale + j) x y (by omega) (block_div x scale j (by omega)) hY
    rw [← hdst] at h1
    obtain ⟨a1, a2⟩ := ih (j + 1) (dst + 4) (by omega) (by omega) _ m _ h1
    refine ⟨by omega, ?_⟩
    apply a2.congr
    intro Y b
    constructor
    · rintro ((h3 | h3) | h3)
      · exact Or.inl h3
      · exact Or.inr ⟨h3.1, by omega, by omega⟩
      · exact Or.inr ⟨h3.1, by omega, by omega⟩
    · rintro (h3 | h3)
      · exact Or.inl (Or.inl h3)
      · by_cases hb : b < 4 * (x * scale + j) + 4
        · exact Or.inl (Or.inr ⟨h3.1, by omega, by omega⟩)
        · exact Or.inr ⟨h3.1, by omega, by omega⟩

/-- The loop of `nn_hires` over the pixels of a source row. -/
theorem nn_row_painted (rgb_palette : Nat → Nat) (src_pixels : Mem) (src_pitch pitch scale width
    Y0 y : Nat) (hY : Y0 / scale = y) (hW : 4 * (width * scale) ≤ pitch) :
    ∀ n i src dst, i + n ≤ width → src = y * src_pitch + i → dst = Y0 * pitch + 4 * (i * scale) →
      ∀ (P : Nat → Nat → Prop) (m m1 : Tex),
      Painted pitch scale (fun x y => rgb_palette (src_pixels ((y * src_pitch + x : Nat) : Int)))
        P m m1 →
      (nn_row rgb_palette src_pixels scale n src dst m1).1 = Y0 * pitch + 4 * ((i + n) * scale) ∧
      Painted pitch scale (fun x y => rgb_palette (src_pixels ((y * src_pitch + x : Nat) : Int)))
        (fun Y b => P Y b ∨ (Y = Y0 ∧ 4 * (i * scale) ≤ b ∧ b < 4 * ((i + n) * scale))) m
        (nn_row rgb_palette src_pixels scale n src dst m1).2 := by
  intro n
  induction n with
  | zero =>
    intro i src dst _ _ hdst P m m1 h
    refine ⟨hdst, ?_⟩
    apply h.congr
    intro Y b
    constructor
    · exact Or.inl
    · rintro (h2 | h2)
      · exact h2
      · exfalso
        have := h2.2
        rw [Nat.add_zero] at this
        omega
  | succ n ih =>
    intro i src dst hi hsrc hdst P m m1 h
    rw [nn_row]
    have hm : (i + 1) * scale ≤ width * scale := Nat.mul_le_mul_right _ (by omega)
    have e1 : (i + 1) * scale = i * scale + scale := by ring
    have e2 : (i + 1 + n) * scale = (i + (n + 1)) * scale := by
      congr 1
      omega
    have hf := nn_fill_painted
      (fun x y => rgb_palette (src_pixels ((y * src_pitch + x : Nat) : Int)))
      pitch scale Y0 i y hY (by omega) scale 0 dst (by omega) (by omega) P m m1 h
    simp only [← hsrc] at hf
    simp only [Nat.add_zero] at hf
    obtain ⟨f1, f2⟩ := hf
    obtain ⟨a1, a2⟩ := ih (i + 1) (src + 1)
      (nn_fill (rgb_palette (src_pixels (src : Int))) scale dst m1).1
      (by omega) (by omega) (by rw [f1, e1]) _ m _ f2
    rw [e2] at a1 a2
    refine ⟨a1, ?_⟩
    apply a2.congr
    intro Y b
    have hmono : (i + 1) * scale ≤ (i + (n + 1)) * scale := Nat.mul_le_mul_right _ (by omega)
    constructor
    · rintro ((h3 | h3) | h3)
      · exact Or.inl h3
      · exact Or.inr ⟨h3.1, by omega, by omega⟩
      · exact Or.inr ⟨h3.1, by omega, by omega⟩
    · rintro (h3 | h3)
      · exact Or.inl (Or.inl h3)
      · by_cases hb : b < 4 * ((i + 1) * scale)
        · exact Or.inl (Or.inr ⟨h3.1, by omega, by omega⟩)
        · exact Or.inr ⟨h3.1, by omega, by omega⟩

/-- The copy loop of `nn_hires`. -/
theorem nn_copy_painted (col : Nat → Nat → Nat) (pitch scale W y : Nat)
    (hW : 4 * W ≤ pitch) :
    ∀ z j dst, 1 ≤ j → j + z ≤ scale → dst = (y * scale + j) * pitch →
      ∀ (P : Nat → Nat → Prop) (m m1 : Tex), Painted pitch scale col P m m1 →
      (∀ b, b < 4 * W → P (y * scale) b) →
      (nn_copy (y * scale * pitch) W pitch z dst m1).1 = (y * scale + j + z) * pitch ∧
      Painted pitch scale col
        (fun Y b => P Y b ∨ (y * scale + j ≤ Y ∧ Y < y * scale + j + z ∧ b < 4 * W)) m
        (nn_copy (y * scale * pitch) W pitch z dst m1).2 := by
  intro z
  induction z with
  | zero =>
    intro j dst _ _ hdst P m m1 h _
    refine ⟨hdst, ?_⟩
    apply h.congr
    intro Y b
    constructor
    · exact Or.inl
    · rintro (h2 | h2)
      · exact h2
      · omega
  | succ z ih =>
    intro j dst hj1 hj hdst P m m1 h hrow
    rw [nn_copy]
    have hy : (y * scale + j) / scale = (y * scale) / scale := by
      rw [block_div y scale j (by omega)]
      have := block_div y scale 0 (by omega)
      rw [Nat.add_zero] at this
      exact this.symm
    have h1 := h.memcpy (y * scale) (y * scale + j) W hW hrow hy
    rw [← hdst] at h1
    have e : dst + pitch = (y * scale + (j + 1)) * pitch := by
      rw [hdst]
      ring
    obtain ⟨a1, a2⟩ := ih (j + 1) (dst + pitch) (by omega) (by omega) e _ m _ h1
      (fun b hb => Or.inl (hrow b hb))
    have e2 : y * scale + (j + 1) + z = y * scale + j + (z + 1) := by omega
    rw [e2] at a1 a2
    refine ⟨a1, ?_⟩
    apply a2.congr
    intro Y b
    constructor
    · rintro ((h3 | h3) | h3)
      · exact Or.inl h3
      · exact Or.inr ⟨by omega, by omega, h3.2⟩
      · exact Or.inr ⟨by omega, by omega, h3.2.2⟩
    · rintro (h3 | h3)
      · exact Or.inl (Or.inl h3)
      · by_cases hb : Y = y * scale + j
        · exact Or.inl (Or.inr ⟨hb, h3.2.2⟩)
        · exact Or.inr ⟨by omega, by omega, h3.2.2⟩

/-- The loop of `nn_hires` over the source rows. -/
theorem nn_rows_painted (rgb_palette : Nat → Nat) (src_pixels : Mem) (src_pitch pitch scale
    width : Nat) (hs : 1 ≤ scale) (hW : 4 * (width * scale) ≤ pitch) :
    ∀ n y src dst, src = y * src_pitch → dst = y * scale * pitch →
      ∀ (P : Nat → Nat → Prop) (m m1 : Tex),
      Painted pitch scale (fun x y => rgb_palette (src_pixels ((y * src_pitch + x : Nat) : Int)))
        P m m1 →
      Painted pitch scale (fun x y => rgb_palette (src_pixels ((y * src_pitch + x : Nat) : Int)))
        (fun Y b => P Y b ∨ (y * scale ≤ Y ∧ Y < (y + n) * scale ∧ b < 4 * (width * scale))) m
        (nn_rows rgb_palette src_pixels scale width src_pitch (width * scale) pitch n src dst
          m1) := by
  intro n
  induction n with
  | zero =>
    intro y src dst _ _ P m m1 h
    rw [nn_rows]
    apply h.congr
    intro Y b
    constructor
    · exact Or.inl
    · rintro (h2 | h2)
      · exact h2
      · exfalso
        have := h2.2.1
        rw [Nat.add_zero] at this
        omega
  | succ n ih =>
    intro y src dst hsrc hdst P m m1 h
    rw [nn_rows]
    have hy0 : (y * scale) / scale = y := by
      have := block_div y scale 0 (by omega)
      rw [Nat.add_zero] at this
      exact this
    obtain ⟨r1, r2⟩ := nn_row_painted rgb_palette src_pixels src_pitch pitch scale width
      (y * scale) y hy0 hW width 0 src dst (by omega) (by omega) (by rw [hdst]; ring) P m m1 h
    rw [Nat.zero_add] at r1 r2
    obtain ⟨c1, c2⟩ := nn_copy_painted
      (fun x y => rgb_palette (src_pixels ((y * src_pitch + x : Nat) : Int)))
      pitch scale (width * scale) y hW (scale - 1) 1 (dst + pitch) (Nat.le_refl _) (by omega)
      (by rw [hdst]; ring) _ m _ r2
      (fun b hb => Or.inr ⟨rfl, by omega, hb⟩)
    rw [← hdst] at c1 c2
    have e1 : (y * scale + 1 + (scale - 1)) = (y + 1) * scale := by
      have : (y + 1) * scale = y * scale + scale := by ring
      omega
    rw [e1] at c1 c2
    have h3 := ih (y + 1) (src + src_pitch) _ (by rw [hsrc]; ring) c1 _ m _ c2
    have e2 : (y + 1 + n) * scale = (y + (n + 1)) * scale := by
      congr 1
      omega
    rw [e2] at h3
    apply h3.congr
    intro Y b
    have e3 : (y + 1) * scale = y * scale + scale := by ring
    have hmono : (y + 1) * scale ≤ (y + (n + 1)) * scale := Nat.mul_le_mul_right _ (by omega)
    constructor
    · rintro (((h4 | h4) | h4) | h4)
      · exact Or.inl h4
      · exact Or.inr ⟨by omega, by omega, h4.2.2⟩
      · exact Or.inr ⟨by omega, by omega, h4.2.2⟩
      · exact Or.inr ⟨by omega, h4.2.1, h4.2.2⟩
    · rintro (h4 | h4)
      · exact Or.inl (Or.inl (Or.inl h4))
      · by_cases hb : Y = y * scale
        · exact Or.inl (Or.inl (Or.inr ⟨hb, by omega, by omega⟩))
        · by_cases hb2 : Y < (y + 1) * scale
          · exact Or.inl (Or.inr ⟨by omega, hb2, h4.2.2⟩)
          · exact Or.inr ⟨by omega, h4.2.1, h4.2.2⟩

/-- C23: for a scale `N >= 1`, a destination `width * N` pixels wide with a row stride of
at least `4 * width * N` bytes, any source stride and any palette of 32-bit colours,
`nn_hires` leaves `palette[src[y][x]]` in every output pixel `(x * N + dx, y * N + dy)`
with `dx, dy < N`, and the texture it leaves is the one that the first pass of
`hires_scale_aa` leaves, which computes every output pixel instead of copying rows. -/
theorem nn_hires_blocks (rgb_palette : Nat → Nat) (vga_width vga_height : Nat)
    (src_surface : SDL_Surface) (dst : Tex) (dst_pitch scale : Nat) (hscale : 1 ≤ scale)
    (hpitch : 4 * (vga_width * scale) ≤ dst_pitch) (hpal : ∀ i, rgb_palette i < 2 ^ 32) :
    (∀ x y dx dy, x < vga_width → y < vga_height → dx < scale → dy < scale →
      load32 (nn_hires rgb_palette vga_width vga_height src_surface dst (vga_width * scale)
          dst_pitch scale) ((y * scale + dy) * dst_pitch + 4 * (x * scale + dx))
        = rgb_palette (src_surface.pixels ((y * src_surface.pitch + x : Nat) : Int))) ∧
    nn_hires rgb_palette vga_width vga_height src_surface dst (vga_width * scale) dst_pitch scale
      = hires_scale_aa_first_pass rgb_palette vga_width vga_height src_surface dst dst_pitch
          scale := by
  have hnn := nn_rows_painted rgb_palette src_surface.pixels src_surface.pitch dst_pitch scale
    vga_width hscale hpitch vga_height 0 0 0 (by ring) (by ring) _ dst dst
    (Painted.refl _ _ _ dst)
  have hnn2 : Painted dst_pitch scale
      (fun x y => rgb_palette (src_surface.pixels ((y * src_surface.pitch + x : Nat) : Int)))
      (fun Y b => Y < vga_height * scale ∧ b < 4 * (vga_width * scale)) dst
      (nn_hires rgb_palette vga_width vga_height src_surface dst (vga_width * scale)
        dst_pitch scale) := by
    unfold nn_hires
    apply hnn.congr
    intro Y b
    rw [Nat.zero_add, Nat.zero_mul]
    constructor
    · rintro (h | h)
      · exact absurd h id
      · exact ⟨h.2.1, h.2.2⟩
    · intro h
      exact Or.inr ⟨Nat.zero_le _, h.1, h.2⟩
  have haa := block_scaler_painted
    (fun x y => rgb_palette (src_surface.pixels ((y * src_surface.pitch + x : Nat) : Int)))
    dst_pitch scale vga_width dst hpitch vga_height
  constructor
  · intro x y dx dy hx hy hdx hdy
    have hm1 : (x + 1) * scale ≤ vga_width * scale := Nat.mul_le_mul_right _ (by omega)
    have hm2 : (y + 1) * scale ≤ vga_height * scale := Nat.mul_le_mul_right _ (by omega)
    have e1 : (x + 1) * scale = x * scale + scale := by ring
    have e2 : (y + 1) * scale = y * scale + scale := by ring
    exact hnn2.pixel x y dx dy hdx hdy (by omega) (fun b _ _ => ⟨by omega, by omega⟩) (hpal _)
  · exact hnn2.unique haa

/-- Witness for C23: a 2 x 2 source at scale 2 into rows of 20 bytes. -/
theorem nn_hires_blocks_witness :
    load32 (nn_hires (fun i => 1000 + i % 256) 2 2
        ⟨2, 2, 3, fun q => if q = 4 then 4 else 9⟩ (fun _ => 0) (2 * 2) 20 2)
        ((1 * 2 + 1) * 20 + 4 * (1 * 2 + 0)) = 1004 :=
  (nn_hires_blocks (fun i => 1000 + i % 256) 2 2 ⟨2, 2, 3, fun q => if q = 4 then 4 else 9⟩
    (fun _ => 0) 20 2 (by decide) (by decide)
    (fun i => by
      have : i % 256 < 256 := Nat.mod_lt _ (by decide)
      show 1000 + i % 256 < 2 ^ 32
      norm_num
      omega)).1 1 1 0 1 (by decide) (by decide) (by decide) (by decide)

/-! ## Bilateral-smoothing upscale -/

theorem toU32_lt (v : Int) : toU32 v < 2 ^ 32 := by
  unfold toU32
  have h1 : 0 ≤ v % 2 ^ 32 := Int.emod_nonneg _ (by norm_num)
  have h2 : v % 2 ^ 32 < 2 ^ 32 := Int.emod_lt_of_pos _ (by norm_num)
  omega

theorem clamp_coord_eq (n : Int) (limit : Nat) (h : 1 ≤ limit) :
    clamp_coord n limit = max 0 (min n ((limit : Int) - 1)) := by
  unfold clamp_coord
  by_cases h1 : n < 0
  · simp only [h1, if_true]
    rw [if_neg (by omega)]
    omega
  · simp only [h1, if_false]
    by_cases h2 : n ≥ (limit : Int)
    · rw [if_pos h2]
      omega
    · rw [if_neg h2]
      omega

theorem smooth_samples_eq (width height x y : Nat) :
    smooth_samples width height x y
      = ([(-1, -1), (0, -1), (1, -1), (-1, 0), (1, 0), (-1, 1), (0, 1), (1, 1)] :
          List (Int × Int)).map
        (fun d => (clamp_coord ((x : Int) + d.1) width, clamp_coord ((y : Int) + d.2) height)) := by
  unfold smooth_samples
  simp [List.flatMap, List.filterMap]

theorem hires_scale_smooth_eq (rgb_palette : Nat → Nat) (vga_width vga_height : Nat)
    (src_surface : SDL_Surface) (dst : Tex) (dst_pitch scale : Nat) (smooth_strength : Int) :
    hires_scale_smooth rgb_palette vga_width vga_height src_surface dst dst_pitch scale
        smooth_strength
      = block_scaler (smoothed rgb_palette vga_width vga_height src_surface smooth_strength)
          vga_width vga_height dst dst_pitch scale := by
  have e : ∀ y x dy dx : Nat, y * scale * dst_pitch + x * scale * 4 + dy * dst_pitch + dx * 4
      = (y * scale + dy) * dst_pitch + (x * scale + dx) * 4 := by
    intro y x dy dx
    ring
  unfold hires_scale_smooth block_scaler
  simp only [e]

/-! ## The look-ahead read of `blit_sprite` -/

/-- C34 (evaluation at the failing input): for a sprite of width 2 whose stream is the one
opaque byte `7` (size 1), `blit_sprite` reads the stream at index 0 and then, in the
condition of the run-ahead loop, at index 1, which is the size of the stream; the other
variants read index 0 only. -/
theorem run_ahead_reads_past_end :
    blit_sprite_reads scenarioSurface 0 0 ⟨1, [⟨2, 1, 1, some [7]⟩]⟩ 0 = [0, 1] ∧
    (sprite ⟨1, [⟨2, 1, 1, some [7]⟩]⟩ 0).size = 1 ∧
    sprite_blit_reads scenarioSurface 0 0 ⟨1, [⟨2, 1, 1, some [7]⟩]⟩ 0 = [0] := by
  decide

/-! ## A skip past the end of the destination row -/

/-- C36 (evaluation at the failing input): a sprite of width 2 with the stream
`255 10 7` on a zeroed surface of pitch 4: the skip of 10 from column 0 crosses the row
end, the grammar puts the pixel `7` at row 1, column 0, offset `(0 + 1) * 4 + 0 + 0`; the
row wrap adds the `unsigned int` difference `4 - 10 = 2^32 - 6` to the cursor, and the
offset keeps its `0`.  The same on a surface of pitch 320 for a sprite of width 100 and the
stream `255 70 255 255 7`.  With a skip that ends inside the pitch (`255 3 7`) the pixel is
at row 1, column 0. -/
theorem skip_past_pitch_loses_row :
    sprite_cells [255, 10, 7] 3 2 3 0 0 0 = [(1, 0, 7)] ∧
    row_wrap 2 4 10 10 = ((10 : Int) + ((2 ^ 32 - 6 : Nat) : Int), 0) ∧
    blit_sprite ⟨4, 4, 4, fun _ => 0⟩ 0 0 ⟨1, [⟨2, 2, 3, some [255, 10, 7]⟩]⟩ 0
      ((0 + 1) * 4 + 0 + 0) = 0 ∧
    blit_sprite_blend ⟨4, 4, 4, fun _ => 0⟩ 0 0 ⟨1, [⟨2, 2, 3, some [255, 10, 7]⟩]⟩ 0
      ((0 + 1) * 4 + 0 + 0) = 0 ∧
    sprite_cells [255, 70, 255, 255, 7] 5 100 5 0 0 0 = [(1, 0, 7)] ∧
    blit_sprite ⟨320, 200, 320, fun _ => 0⟩ 0 0
      ⟨1, [⟨100, 2, 5, some [255, 70, 255, 255, 7]⟩]⟩ 0 ((0 + 1) * 320 + 0 + 0) = 0 ∧
    blit_sprite ⟨4, 4, 4, fun _ => 0⟩ 0 0 ⟨1, [⟨2, 2, 3, some [255, 3, 7]⟩]⟩ 0
      ((0 + 1) * 4 + 0 + 0) = 7 := by
  decide

/-- C33 (evaluation at the failing input): width 2, pitch 4, stream `255 10 7` at
`(0, 0)`: the only opaque byte is decoded at row 1, column 0, its offset
`(0 + 1) * 4 + 0 + 0 = 4` lies in `[0, 4 * 4)`, and `blit_sprite` leaves the zeroed
destination as it was, at that offset and everywhere else. -/
theorem early_return_reference_differs :
    sprite_cells [255, 10, 7] 3 2 3 0 0 0 = [(1, 0, 7)] ∧
    ((0 : Int) ≤ (0 + 1) * 4 + 0 + 0 ∧ ((0 : Int) + 1) * 4 + 0 + 0 < 4 * 4) ∧
    (∀ o : Fin 16, blit_sprite ⟨4, 4, 4, fun _ => 0⟩ 0 0 ⟨1, [⟨2, 2, 3, some [255, 10, 7]⟩]⟩ 0
      (o.val : Int) = 0) := by
  decide

/-! ## Opcode 254 -/

/-- The row wrap after opcode 254 at a column inside a sprite no wider than the pitch. -/
theorem row_wrap_254 (width pitch : Nat) (p : Int) (xo : Nat) (hxo : xo < width)
    (hw : width ≤ pitch) (hp : pitch < 2 ^ 32) :
    row_wrap width pitch (p + (subU32 width xo : Nat)) width
      = (p - (xo : Int) + (pitch : Int), 0) := by
  unfold row_wrap
  rw [if_pos (Nat.le_refl _), subU32_of_le width xo (by omega) (by omega),
    subU32_of_le pitch width hw hp]
  congr 1
  omega

/-- C35 (counterexample): a sprite of width 3 on a surface of pitch 2 and height 4, at
`(0, 0)`.  Opcode 254 at column 0 adds `width - x_offset = 3` to the cursor and sets
`x_offset = 3`; the row wrap then adds the `unsigned int` difference `2 - 3 = 2^32 - 1`, so
the cursor is at `2 + 2^32` and not at column 0 of the next row, offset 2.  For the stream
`254 7` the pixel `7` of row 1, column 0 is not stored: the destination keeps its zeros, at
offset `(0 + 1) * 2 + 0` and everywhere else, under `blit_sprite` and under
`blit_sprite_blend`. -/
theorem opcode_254_wide_sprite_counterexample :
    row_wrap 3 2 ((0 : Int) + (subU32 3 0 : Nat)) 3 = ((2 : Int) + 2 ^ 32, 0) ∧
    sprite_cells [254, 7] 2 3 2 0 0 0 = [(1, 0, 7)] ∧
    (∀ o : Fin 8, blit_sprite ⟨2, 4, 2, fun _ => 0⟩ 0 0 ⟨1, [⟨3, 2, 2, some [254, 7]⟩]⟩ 0
      (o.val : Int) = 0) ∧
    (∀ o : Fin 8, blit_sprite_blend ⟨2, 4, 2, fun _ => 0⟩ 0 0 ⟨1, [⟨3, 2, 2, some [254, 7]⟩]⟩ 0
      (o.val : Int) = 0) ∧
    blit_sprite ⟨3, 4, 3, fun _ => 0⟩ 0 0 ⟨1, [⟨3, 2, 2, some [254, 7]⟩]⟩ 0
      ((0 + 1) * 3 + 0) = 7 := by
  decide

/-- C35 (amended): in the decode loops of `blit_sprite` and of its variants, for a sprite no
wider than the pitch, opcode 254 met at any column `x_offset < width` moves the cursor from
`pixels` to `pixels - x_offset + pitch`, column 0 of the next destination row, with
`x_offset = 0`, and stores nothing; met at column 0 it skips a whole row: the stream
`1 2 254 3 4` with width 2 leaves row 1 empty and draws `3 4` on row 2. -/
theorem opcode_254_next_row (rule : Nat → Nat → Nat) (data : List Nat)
    (size width pitch : Nat) (ul : Int) (fuel i : Nat) (p : Int) (xo : Nat) (m : Mem)
    (hi : i < size) (hb : byteAt data i = 254) (hxo : xo < width) (hw : width ≤ pitch)
    (hp : pitch < 2 ^ 32) :
    sprite_loop rule data size width pitch ul (fuel + 1) i p xo m
      = sprite_loop rule data size width pitch ul fuel (i + 1) (p - (xo : Int) + (pitch : Int))
          0 m ∧
    blit_sprite_loop data size width pitch ul (fuel + 1) i p xo m
      = blit_sprite_loop data size width pitch ul fuel (i + 1) (p - (xo : Int) + (pitch : Int))
          0 m ∧
    (∀ o : Fin 60, blit_sprite scenarioSurface 0 0 ⟨1, [⟨2, 3, 5, some [1, 2, 254, 3, 4]⟩]⟩ 0
      (o.val : Int) = if o.val = 0 then 1 else if o.val = 1 then 2 else if o.val = 40 then 3
        else if o.val = 41 then 4 else 0) := by
  have h255 : ¬ ((254 : Nat) = 255) := by decide
  refine ⟨?_, ?_, by decide⟩
  · rw [sprite_loop, if_pos hi, hb, if_neg h255, if_pos rfl]
    simp only [row_wrap_254 width pitch p xo hxo hw hp]
  · rw [blit_sprite_loop, if_pos hi, hb, if_neg h255, if_pos rfl]
    simp only [row_wrap_254 width pitch p xo hxo hw hp]

/-- Witness for C35: opcode 254 at column 1 of a sprite of width 2 on a pitch of 20. -/
theorem opcode_254_next_row_witness :
    sprite_loop (fun s _ => s) [1, 254, 3] 3 2 20 400 3 1 1 1 (fun _ => 0)
      = sprite_loop (fun s _ => s) [1, 254, 3] 3 2 20 400 2 2 (1 - 1 + 20) 0 (fun _ => 0) :=
  (opcode_254_next_row (fun s _ => s) [1, 254, 3] 3 2 20 400 2 1 1 1 (fun _ => 0)
    (by decide) (by decide) (by decide) (by decide) (by decide)).1

/-! ## The weights of the eight neighbours -/

/-- C32 (evaluation at the failing input): `hires_scale_smooth` fills `neighbors` in the
order NW, N, NE, W, E, SW, S, SE, so the test `i < 4` of `enhanced_bilateral` gives base
weight 3 to NW, N, NE and W and base weight 2 to E, SW, S and SE.  On a 3 x 3 grey source
(palette `i -> 0x010101 * i`, strength 3) whose pixels are 100 except the western neighbour
of the centre, which is 110, the centre is smoothed to `0x656565`; on the mirror image
(the eastern neighbour 110) it is smoothed to `0x646464`.  The same for a northern
neighbour and its mirror image, the southern one. -/
theorem bilateral_weights_not_symmetric :
    smooth_samples 3 3 1 1
      = [(0, 0), (1, 0), (2, 0), (0, 1), (2, 1), (0, 2), (1, 2), (2, 2)] ∧
    (bilateral_step 100 26 ⟨0, 0, 0, 0⟩ 3 0x646464).weight_sum = 3 ∧
    (bilateral_step 100 26 ⟨0, 0, 0, 0⟩ 4 0x646464).weight_sum = 2 ∧
    (bilateral_step 100 26 ⟨0, 0, 0, 0⟩ 0 0x646464).weight_sum = 3 ∧
    (bilateral_step 100 26 ⟨0, 0, 0, 0⟩ 6 0x646464).weight_sum = 2 ∧
    smoothed (fun i => 0x010101 * i) 3 3 ⟨3, 3, 3, fun q => if q = 3 then 110 else 100⟩ 3 1 1
      = 0x656565 ∧
    smoothed (fun i => 0x010101 * i) 3 3 ⟨3, 3, 3, fun q => if q = 5 then 110 else 100⟩ 3 1 1
      = 0x646464 ∧
    smoothed (fun i => 0x010101 * i) 3 3 ⟨3, 3, 3, fun q => if q = 1 then 110 else 100⟩ 3 1 1
      = 0x656565 ∧
    smoothed (fun i => 0x010101 * i) 3 3 ⟨3, 3, 3, fun q => if q = 7 then 110 else 100⟩ 3 1 1
      = 0x646464 := by
  decide

/-! ## Freeing the main shape tables -/

/-- C39 (evaluation at the failing input): `free_main_shape_tables` leaves
`spriteSheetT2000` as it is, whatever the state.  After `JE_loadMainShapeTables` of a shape
file with six one-byte sheets into the empty state, `free_main_shape_tables` leaves every
table with count 0 and `spriteSheet8` .. `spriteSheet12` with no data and size 0, and
`spriteSheetT2000` with its data and size 1; a following `JE_loadMainShapeTables` stops at
the assertion `sprite2s->data == NULL` of `JE_loadCompShapesB` in a build with assertions
and overwrites the pointer in a build without. -/
theorem t2000_sheet_not_freed :
    (∀ s : Shapes, (free_main_shape_tables s).spriteSheetT2000 = s.spriteSheetT2000) ∧
    JE_loadMainShapeTables true false 151 emptyShapes demoShapeFile
      = Step.done ⟨List.replicate 7 ⟨0, []⟩, ⟨some [0x0f], 1⟩, ⟨some [0x0f], 1⟩,
          ⟨some [0x0f], 1⟩, ⟨some [0x0f], 1⟩, ⟨some [0x0f], 1⟩, ⟨some [0x0f], 1⟩⟩ ∧
    free_main_shape_tables ⟨List.replicate 7 ⟨0, []⟩, ⟨some [0x0f], 1⟩, ⟨some [0x0f], 1⟩,
          ⟨some [0x0f], 1⟩, ⟨some [0x0f], 1⟩, ⟨some [0x0f], 1⟩, ⟨some [0x0f], 1⟩⟩
      = ⟨List.replicate 7 ⟨0, []⟩, ⟨none, 0⟩, ⟨none, 0⟩, ⟨none, 0⟩, ⟨none, 0⟩, ⟨none, 0⟩,
          ⟨some [0x0f], 1⟩⟩ ∧
    JE_loadMainShapeTables true false 151
        ⟨List.replicate 7 ⟨0, []⟩, ⟨none, 0⟩, ⟨none, 0⟩, ⟨none, 0⟩, ⟨none, 0⟩, ⟨none, 0⟩,
          ⟨some [0x0f], 1⟩⟩ demoShapeFile
      = Step.assert_failed ∧
    JE_loadCompShapesB true false ⟨some [0x0f], 1⟩ [0x0f] = Step.assert_failed ∧
    JE_loadMainShapeTables false false 151
        ⟨List.replicate 7 ⟨0, []⟩, ⟨none, 0⟩, ⟨none, 0⟩, ⟨none, 0⟩, ⟨none, 0⟩, ⟨none, 0⟩,
          ⟨some [0x0f], 1⟩⟩ demoShapeFile
      = Step.done ⟨List.replicate 7 ⟨0, []⟩, ⟨some [0x0f], 1⟩, ⟨some [0x0f], 1⟩,
          ⟨some [0x0f], 1⟩, ⟨some [0x0f], 1⟩, ⟨some [0x0f], 1⟩, ⟨some [0x0f], 1⟩⟩ := by
  refine ⟨fun s => rfl, by decide, by decide, by decide, by decide, by decide⟩

/-! ## The table invariant -/

/-- One iteration of the loop of `load_sprites` that leads to a return: the slot is
skipped, or it is inside the array and one sprite is stored in it. -/
theorem load_sprites_loop_succ (z : Bool) (M n i : Nat) (t u : Sprite_array) (f r : List Nat)
    (h : load_sprites_loop z M (n + 1) i t f = Load.loaded u r) :
    (∃ f1, load_sprites_loop z M n (i + 1) t f1 = Load.loaded u r) ∨
    (∃ f1 w hh sz bytes, i < M ∧
      load_sprites_loop z M n (i + 1)
        (t.store i ⟨w, hh, sz, if sz = 0 ∧ z then none else some bytes⟩) f1 = Load.loaded u r) := by
  rw [load_sprites_loop] at h
  cases hb : fread_bool_die f with
  | none =>
    rw [hb] at h
    exact absurd h (by simp)
  | some bf =>
    obtain ⟨b, f1⟩ := bf
    rw [hb] at h
    cases b with
    | false =>
      left
      exact ⟨f1, h⟩
    | true =>
      right
      simp only at h
      by_cases hi : i ≥ M
      · rw [if_pos hi] at h
        exact absurd h (by simp)
      · rw [if_neg hi] at h
        cases h1 : fread_u16_die f1 with
        | none =>
          rw [h1] at h
          exact absurd h (by simp)
        | some wf =>
          obtain ⟨w, f2⟩ := wf
          rw [h1] at h
          simp only at h
          cases h2 : fread_u16_die f2 with
          | none =>
            rw [h2] at h
            exact absurd h (by simp)
          | some hf =>
            obtain ⟨hh, f3⟩ := hf
            rw [h2] at h
            simp only at h
            cases h3 : fread_u16_die f3 with
            | none =>
              rw [h3] at h
              exact absurd h (by simp)
            | some sf =>
              obtain ⟨sz, f4⟩ := sf
              rw [h3] at h
              simp only at h
              cases h4 : fread_u8_die sz f4 with
              | none =>
                rw [h4] at h
                exact absurd h (by simp)
              | some bf =>
                obtain ⟨bytes, f5⟩ := bf
                rw [h4] at h
                simp only at h
                exact ⟨f5, w, hh, sz, bytes, by omega, h⟩

/-- What a successful run of the loop of `load_sprites` leaves: the count as it was, the
slots outside `[i, i + n)` as they were, and in every slot a property that the slots had
and that every stored sprite has. -/
theorem load_sprites_loop_keeps (z : Bool) (M : Nat) (Q : Sprite → Prop)
    (hQ : ∀ w hh sz bytes, Q ⟨w, hh, sz, if sz = 0 ∧ z then none else some bytes⟩) :
    ∀ (n i : Nat) (t u : Sprite_array) (f r : List Nat),
      load_sprites_loop z M n i t f = Load.loaded u r →
      u.count = t.count ∧
      (∀ j, (j < i ∨ i + n ≤ j) → sprite u j = sprite t j) ∧
      ((∀ j, Q (sprite t j)) → ∀ j, Q (sprite u j)) := by
  intro n
  induction n with
  | zero =>
    intro i t u f r h
    rw [load_sprites_loop] at h
    injection h with h1 h2
    subst h1
    exact ⟨rfl, fun _ _ => rfl, fun hq => hq⟩
  | succ n ih =>
    intro i t u f r h
    rcases load_sprites_loop_succ z M n i t u f r h with ⟨f1, h1⟩ | ⟨f1, w, hh, sz, bytes, _, h1⟩
    · obtain ⟨a, b, c⟩ := ih (i + 1) t u f1 r h1
      exact ⟨a, fun j hj => b j (by omega), c⟩
    · obtain ⟨a, b, c⟩ := ih (i + 1) _ u f1 r h1
      refine ⟨a, ?_, ?_⟩
      · intro j hj
        rw [b j (by omega), sprite_store, if_neg (by omega)]
      · intro hq
        apply c
        intro j
        rw [sprite_store]
        by_cases hj : j = i
        · rw [if_pos hj]
          exact hQ w hh sz bytes
        · rw [if_neg hj]
          exact hq j

/-- The loop of `load_sprites` on two tables with the same slots. -/
theorem load_sprites_loop_congr (z : Bool) (M : Nat) :
    ∀ (n i : Nat) (t1 t2 u1 : Sprite_array) (f r : List Nat),
      t1.count = t2.count → (∀ j, sprite t1 j = sprite t2 j) →
      load_sprites_loop z M n i t1 f = Load.loaded u1 r →
      ∃ u2, load_sprites_loop z M n i t2 f = Load.loaded u2 r ∧ u2.count = u1.count ∧
        ∀ j, sprite u2 j = sprite u1 j := by
  intro n
  induction n with
  | zero =>
    intro i t1 t2 u1 f r hc hs h
    rw [load_sprites_loop] at h
    injection h with h1 h2
    subst h1 h2
    exact ⟨t2, by rw [load_sprites_loop], hc.symm, fun j => (hs j).symm⟩
  | succ n ih =>
    intro i t1 t2 u1 f r hc hs h
    rw [load_sprites_loop] at h ⊢
    cases hb : fread_bool_die f with
    | none =>
      rw [hb] at h
      exact absurd h (by simp)
    | some bf =>
      obtain ⟨b, f1⟩ := bf
      rw [hb] at h
      cases b with
      | false => exact ih (i + 1) t1 t2 u1 f1 r hc hs h
      | true =>
        simp only at h ⊢
        by_cases hi : i ≥ M
        · rw [if_pos hi] at h
          exact absurd h (by simp)
        · rw [if_neg hi] at h ⊢
          cases h1 : fread_u16_die f1 with
          | none =>
            rw [h1] at h
            exact absurd h (by simp)
          | some wf =>
            obtain ⟨w, f2⟩ := wf
            rw [h1] at h
            simp only at h ⊢
            cases h2 : fread_u16_die f2 with
            | none =>
              rw [h2] at h
              exact absurd h (by simp)
            | some hf =>
              obtain ⟨hh, f3⟩ := hf
              rw [h2] at h
              simp only at h ⊢
              cases h3 : fread_u16_die f3 with
              | none =>
                rw [h3] at h
                exact absurd h (by simp)
              | some sf =>
                obtain ⟨sz, f4⟩ := sf
                rw [h3] at h
                simp only at h ⊢
                cases h4 : fread_u8_die sz f4 with
                | none =>
                  rw [h4] at h
                  exact absurd h (by simp)
                | some bf =>
                  obtain ⟨bytes, f5⟩ := bf
                  rw [h4] at h
                  simp only at h ⊢
                  apply ih (i + 1) _ _ u1 f5 r _ _ h
                  · exact hc
                  · intro j
                    rw [sprite_store, sprite_store, hs j]

/-- After `free_sprites` of a table that satisfies the table invariant every slot is
empty. -/
theorem free_sprites_all_empty (table : Sprite_array) (hinv : table_inv table) (j : Nat) :
    sprite (free_sprites table) j = Sprite.empty := by
  rw [sprite_free_sprites]
  by_cases hj : j < table.count
  · rw [if_pos hj]
  · rw [if_neg hj]
    exact hinv j (by omega)

/-- A successful `load_sprites` is a successful run of its loop on the freed table. -/
theorem load_sprites_loaded (a z : Bool) (M : Nat) (table u : Sprite_array) (f r : List Nat)
    (h : load_sprites a z M table f = Load.loaded u r) :
    ∃ temp f1, fread_u16_die f = some (temp, f1) ∧ ¬ (a = true ∧ temp > M) ∧
      load_sprites_loop z M temp 0 ⟨temp, (free_sprites table).sprite⟩ f1 = Load.loaded u r := by
  unfold load_sprites at h
  cases h1 : fread_u16_die f with
  | none =>
    rw [h1] at h
    exact absurd h (by simp)
  | some tf =>
    obtain ⟨temp, f1⟩ := tf
    rw [h1] at h
    simp only at h
    by_cases hc : a = true ∧ temp > M
    · rw [if_pos hc] at h
      exact absurd h (by simp)
    · rw [if_neg hc] at h
      exact ⟨temp, f1, rfl, hc, h⟩

/-- The slots of the table on which the loop of `load_sprites` starts. -/
theorem sprite_freed_count (table : Sprite_array) (temp j : Nat) :
    sprite ⟨temp, (free_sprites table).sprite⟩ j = sprite (free_sprites table) j := rfl

/-- C38: the table invariant (every slot at `index >= count` is empty) holds for a table
with count 0 whose slots are all zero, and is preserved by `free_sprites` and by every
`load_sprites` that returns; and the table that `load_sprites` returns from a byte source
has the same count and the same slots (and the same bytes are left in the source) for any
two tables that satisfy the invariant before the load. -/
theorem table_invariant_preserved (assertions malloc0_null : Bool) (SPRITES_PER_TABLE_MAX : Nat) :
    (∀ k, table_inv ⟨0, List.replicate k ⟨0, 0, 0, none⟩⟩) ∧
    (∀ t, table_inv t → table_inv (free_sprites t)) ∧
    (∀ t u f r, table_inv t →
      load_sprites assertions malloc0_null SPRITES_PER_TABLE_MAX t f = Load.loaded u r →
      table_inv u) ∧
    (∀ t1 t2 u1 f r, table_inv t1 → table_inv t2 →
      load_sprites assertions malloc0_null SPRITES_PER_TABLE_MAX t1 f = Load.loaded u1 r →
      ∃ u2, load_sprites assertions malloc0_null SPRITES_PER_TABLE_MAX t2 f = Load.loaded u2 r ∧
        u2.count = u1.count ∧ ∀ j, sprite u2 j = sprite u1 j) := by
  refine ⟨?_, ?_, ?_, ?_⟩
  · intro k i _
    unfold sprite
    simp only [List.getD_eq_getElem?_getD]
    by_cases hi : i < k
    · rw [List.getElem?_replicate_of_lt hi]
      rfl
    · rw [List.getElem?_eq_none (by simp; omega)]
      rfl
  · intro t ht i _
    exact free_sprites_all_empty t ht i
  · intro t u f r ht h i hi
    obtain ⟨temp, f1, _, _, hl⟩ := load_sprites_loaded _ _ _ t u f r h
    obtain ⟨hc, hs, _⟩ := load_sprites_loop_keeps malloc0_null SPRITES_PER_TABLE_MAX
      (fun _ => True) (fun _ _ _ _ => trivial) temp 0 _ u f1 r hl
    have hi2 : temp ≤ i := by
      rw [hc] at hi
      exact hi
    rw [hs i (by omega), sprite_freed_count t temp i]
    exact free_sprites_all_empty t ht i
  · intro t1 t2 u1 f r h1 h2 h
    obtain ⟨temp, f1, hf, hn, hl⟩ := load_sprites_loaded _ _ _ t1 u1 f r h
    obtain ⟨u2, e1, e2, e3⟩ := load_sprites_loop_congr malloc0_null SPRITES_PER_TABLE_MAX temp 0
      ⟨temp, (free_sprites t1).sprite⟩ ⟨temp, (free_sprites t2).sprite⟩ u1 f1 r rfl
      (fun j => by
        rw [sprite_freed_count t1 temp j, sprite_freed_count t2 temp j,
          free_sprites_all_empty t1 h1 j, free_sprites_all_empty t2 h2 j]) hl
    refine ⟨u2, ?_, e2, e3⟩
    unfold load_sprites
    rw [hf]
    simp only
    rw [if_neg hn]
    exact e1

/-! ## Presence of the data of a slot -/

/-- C31 (counterexample): where `malloc(0)` returns a pointer that is not null, the file
with one record, populated, of width 2, height 3 and size 0, loads into a slot with size 0
whose data is present. -/
theorem populated_empty_slot_counterexample :
    load_sprites true false 151 ⟨0, []⟩ [1, 0, 1, 2, 0, 3, 0, 0, 0]
      = Load.loaded ⟨1, [⟨2, 3, 0, some []⟩]⟩ [] ∧
    (sprite ⟨1, [⟨2, 3, 0, some []⟩]⟩ 0).data.isSome = true ∧
    (sprite ⟨1, [⟨2, 3, 0, some []⟩]⟩ 0).size = 0 := by
  decide

/-- C31 (amended): after `free_sprites` of a table that satisfies the table invariant
every slot has size 0 and no data.  After a `load_sprites` that returns, into such a table,
every slot with a size above 0 has its data, and, where `malloc(0)` returns a null pointer,
every slot that has data has a size above 0.  A slot whose record is flagged populated with
a declared size of 0 holds the width and height of the record and what `malloc(0)`
returned: no data for a null pointer, an empty buffer otherwise. -/
theorem slot_data_presence (assertions malloc0_null : Bool) (SPRITES_PER_TABLE_MAX : Nat) :
    (∀ t, table_inv t → ∀ j, sprite (free_sprites t) j = ⟨0, 0, 0, none⟩) ∧
    (∀ t u f r, table_inv t →
      load_sprites assertions malloc0_null SPRITES_PER_TABLE_MAX t f = Load.loaded u r →
      ∀ j, (0 < (sprite u j).size → (sprite u j).data.isSome = true) ∧
        (malloc0_null = true → (sprite u j).data.isSome = true → 0 < (sprite u j).size)) ∧
    (∀ t w h rest, table_inv t → 1 ≤ SPRITES_PER_TABLE_MAX →
      ∃ u, load_sprites assertions malloc0_null SPRITES_PER_TABLE_MAX t
            (table_file [⟨1, w, h, []⟩] ++ rest) = Load.loaded u rest ∧
        sprite u 0 = ⟨w, h, 0, if malloc0_null = true then none else some []⟩) := by
  refine ⟨?_, ?_, ?_⟩
  · intro t ht j
    exact free_sprites_all_empty t ht j
  · intro t u f r ht h
    obtain ⟨temp, f1, _, _, hl⟩ := load_sprites_loaded _ _ _ t u f r h
    obtain ⟨_, _, hq⟩ := load_sprites_loop_keeps malloc0_null SPRITES_PER_TABLE_MAX
      (fun s => (0 < s.size → s.data.isSome = true) ∧
        (malloc0_null = true → s.data.isSome = true → 0 < s.size))
      (fun w hh sz bytes => by
        by_cases hz : sz = 0 ∧ malloc0_null = true
        · simp only [hz, and_self, if_true]
          exact ⟨fun h0 => absurd h0 (by omega), fun _ h0 => absurd h0 (by simp)⟩
        · simp only [hz, if_false]
          refine ⟨fun _ => rfl, fun hm _ => ?_⟩
          by_contra h0
          exact hz ⟨by omega, hm⟩)
      temp 0 _ u f1 r hl
    apply hq
    intro j
    rw [sprite_freed_count t temp j, free_sprites_all_empty t ht j]
    exact ⟨fun h0 => absurd h0 (by decide), fun _ h0 => absurd h0 (by decide)⟩
  · intro t w h rest ht hM
    obtain ⟨u, h1, _, h3⟩ := load_sprites_loop_spec malloc0_null SPRITES_PER_TABLE_MAX
      [⟨1, w, h, []⟩] 0 ⟨1, (free_sprites t).sprite⟩ rest (by simpa using hM)
    refine ⟨u, ?_, ?_⟩
    · unfold load_sprites table_file
      simp only [List.append_assoc, fread_u16_die_bytes]
      rw [if_neg (by
        intro hc
        have := hc.2
        simp only [List.length_singleton] at this
        omega)]
      exact h1
    · have h0 := h3 0
      simp at h0
      rw [h0]

/-! ## Convexity of the bilateral filter -/

theorem toS32_of_range (v : Int) (h1 : 0 ≤ v) (h2 : v < 2 ^ 31) : toS32 v = v := by
  unfold toS32
  norm_num at h2 ⊢
  omega

theorem RED_le (c : Nat) : RED c ≤ 255 := Nat.and_le_right

theorem GREEN_le (c : Nat) : GREEN c ≤ 255 := Nat.and_le_right

theorem BLUE_le (c : Nat) : BLUE c ≤ 255 := Nat.and_le_right

/-- One weighted addition to a channel sum that stays within the range of `int`. -/
theorem sum_step (x w v weight lo hi : Int) (hw0 : 0 ≤ w) (hwt0 : 0 ≤ weight)
    (hlo : 0 ≤ lo) (hhi : hi ≤ 255) (hv1 : lo ≤ v) (hv2 : v ≤ hi)
    (h1 : lo * w ≤ x) (h2 : x ≤ hi * w) (hb : 255 * (w + weight) < 2 ^ 31) :
    toS32 (x + v * weight) = x + v * weight ∧ lo * (w + weight) ≤ x + v * weight ∧
      x + v * weight ≤ hi * (w + weight) := by
  have a1 : lo * weight ≤ v * weight := Int.mul_le_mul_of_nonneg_right hv1 hwt0
  have a2 : v * weight ≤ hi * weight := Int.mul_le_mul_of_nonneg_right hv2 hwt0
  have a3 : hi * (w + weight) ≤ 255 * (w + weight) :=
    Int.mul_le_mul_of_nonneg_right hhi (by omega)
  have a4 : 0 ≤ lo * (w + weight) := Int.mul_nonneg hlo (by omega)
  have e1 : lo * (w + weight) = lo * w + lo * weight := by ring
  have e2 : hi * (w + weight) = hi * w + hi * weight := by ring
  refine ⟨toS32_of_range _ (by omega) (by omega), by omega, by omega⟩

/-- One iteration of the loop of `enhanced_bilateral`: the weight added is 0, 1, 2 or 3
and at most the base weight of the index, and the channel sums stay between the bounds of
the channels times the weight sum. -/
theorem bilateral_step_inv (cl thr S : Int) (s : Sums) (i n : Nat)
    (lr hr lg hg lb hb : Int) (budget : Int)
    (hlr : 0 ≤ lr) (hhr : hr ≤ 255) (hlg : 0 ≤ lg) (hhg : hg ≤ 255) (hlb : 0 ≤ lb)
    (hhb : hb ≤ 255)
    (hS : 0 ≤ S) (hw : S ≤ s.weight_sum)
    (hbud : s.weight_sum + (if i < 4 then 3 else 2) ≤ budget) (hrange : 255 * budget < 2 ^ 31)
    (hr1 : lr * s.weight_sum ≤ s.r_sum) (hr2 : s.r_sum ≤ hr * s.weight_sum)
    (hg1 : lg * s.weight_sum ≤ s.g_sum) (hg2 : s.g_sum ≤ hg * s.weight_sum)
    (hb1 : lb * s.weight_sum ≤ s.b_sum) (hb2 : s.b_sum ≤ hb * s.weight_sum)
    (nr : lr ≤ (RED n : Int) ∧ (RED n : Int) ≤ hr) (ng : lg ≤ (GREEN n : Int) ∧ (GREEN n : Int) ≤ hg)
    (nb : lb ≤ (BLUE n : Int) ∧ (BLUE n : Int) ≤ hb) :
    (S ≤ (bilateral_step cl thr s i n).weight_sum ∧ (bilateral_step cl thr s i n).weight_sum ≤ s.weight_sum + (if i < 4 then 3 else 2)) ∧
    ((bilateral_step cl thr s i n).weight_sum - s.weight_sum = 0 ∨ (bilateral_step cl thr s i n).weight_sum - s.weight_sum = 1 ∨
      (bilateral_step cl thr s i n).weight_sum - s.weight_sum = 2 ∨ (bilateral_step cl thr s i n).weight_sum - s.weight_sum = 3) ∧
    (lr * (bilateral_step cl thr s i n).weight_sum ≤ (bilateral_step cl thr s i n).r_sum ∧ (bilateral_step cl thr s i n).r_sum ≤ hr * (bilateral_step cl thr s i n).weight_sum) ∧
    (lg * (bilateral_step cl thr s i n).weight_sum ≤ (bilateral_step cl thr s i n).g_sum ∧ (bilateral_step cl thr s i n).g_sum ≤ hg * (bilateral_step cl thr s i n).weight_sum) ∧
    (lb * (bilateral_step cl thr s i n).weight_sum ≤ (bilateral_step cl thr s i n).b_sum ∧ (bilateral_step cl thr s i n).b_sum ≤ hb * (bilateral_step cl thr s i n).weight_sum) := by
  have key : ∀ weight : Int, 1 ≤ weight → weight ≤ (if i < 4 then 3 else 2) →
      let t : Sums := ⟨toS32 (s.r_sum + (RED n : Int) * weight),
        toS32 (s.g_sum + (GREEN n : Int) * weight), toS32 (s.b_sum + (BLUE n : Int) * weight),
        s.weight_sum + weight⟩
      (S ≤ t.weight_sum ∧ t.weight_sum ≤ s.weight_sum + (if i < 4 then 3 else 2)) ∧
      (t.weight_sum - s.weight_sum = 0 ∨ t.weight_sum - s.weight_sum = 1 ∨
        t.weight_sum - s.weight_sum = 2 ∨ t.weight_sum - s.weight_sum = 3) ∧
      (lr * t.weight_sum ≤ t.r_sum ∧ t.r_sum ≤ hr * t.weight_sum) ∧
      (lg * t.weight_sum ≤ t.g_sum ∧ t.g_sum ≤ hg * t.weight_sum) ∧
      (lb * t.weight_sum ≤ t.b_sum ∧ t.b_sum ≤ hb * t.weight_sum) := by
    intro weight hw1 hw2 t
    have hw3 : weight ≤ 3 := by
      split_ifs at hw2 <;> omega
    have hbb : 255 * (s.weight_sum + weight) < 2 ^ 31 := by omega
    obtain ⟨r0, r1, r2⟩ := sum_step s.r_sum s.weight_sum (RED n) weight lr hr
      (by omega) (by omega) hlr hhr nr.1 nr.2 hr1 hr2 hbb
    obtain ⟨g0, g1, g2⟩ := sum_step s.g_sum s.weight_sum (GREEN n) weight lg hg
      (by omega) (by omega) hlg hhg ng.1 ng.2 hg1 hg2 hbb
    obtain ⟨b0, b1, b2⟩ := sum_step s.b_sum s.weight_sum (BLUE n) weight lb hb
      (by omega) (by omega) hlb hhb nb.1 nb.2 hb1 hb2 hbb
    show (S ≤ s.weight_sum + weight ∧ s.weight_sum + weight ≤ _) ∧ _ ∧
      (lr * (s.weight_sum + weight) ≤ toS32 _ ∧ toS32 _ ≤ hr * (s.weight_sum + weight)) ∧
      (lg * (s.weight_sum + weight) ≤ toS32 _ ∧ toS32 _ ≤ hg * (s.weight_sum + weight)) ∧
      (lb * (s.weight_sum + weight) ≤ toS32 _ ∧ toS32 _ ≤ hb * (s.weight_sum + weight))
    rw [r0, g0, b0]
    refine ⟨⟨by omega, Int.add_le_add_left hw2 _⟩, ?_, ⟨r1, r2⟩, ⟨g1, g2⟩, ⟨b1, b2⟩⟩
    show (s.weight_sum + weight - s.weight_sum = 0 ∨ s.weight_sum + weight - s.weight_sum = 1 ∨
      s.weight_sum + weight - s.weight_sum = 2 ∨ s.weight_sum + weight - s.weight_sum = 3)
    omega
  have stay : (S ≤ s.weight_sum ∧ s.weight_sum ≤ s.weight_sum + (if i < 4 then 3 else 2)) ∧
      (s.weight_sum - s.weight_sum = 0 ∨ s.weight_sum - s.weight_sum = 1 ∨
        s.weight_sum - s.weight_sum = 2 ∨ s.weight_sum - s.weight_sum = 3) ∧
      (lr * s.weight_sum ≤ s.r_sum ∧ s.r_sum ≤ hr * s.weight_sum) ∧
      (lg * s.weight_sum ≤ s.g_sum ∧ s.g_sum ≤ hg * s.weight_sum) ∧
      (lb * s.weight_sum ≤ s.b_sum ∧ s.b_sum ≤ hb * s.weight_sum) := by
    refine ⟨⟨hw, ?_⟩, Or.inl (by omega), ⟨hr1, hr2⟩, ⟨hg1, hg2⟩, ⟨hb1, hb2⟩⟩
    split_ifs <;> omega
  have t32 : Int.tdiv 3 2 = 1 := by decide
  have t22 : Int.tdiv 2 2 = 1 := by decide
  unfold bilateral_step
  simp only
  by_cases hc : ((bilateral_lum n - cl).natAbs : Int) < thr
  · rw [if_pos hc]
    by_cases hi : i < 4
    · by_cases hd : ((bilateral_lum n - cl).natAbs : Int) > Int.tdiv thr 2
      · simp only [hi, hd, if_true, t32]
        have := key 1 (by omega) (by simp [hi])
        simpa [hi] using this
      · simp only [hi, hd, if_true, if_false]
        have := key 3 (by omega) (by simp [hi])
        simpa [hi] using this
    · by_cases hd : ((bilateral_lum n - cl).natAbs : Int) > Int.tdiv thr 2
      · simp only [hi, hd, if_true, if_false, t22]
        have := key 1 (by omega) (by simp [hi])
        simpa [hi] using this
      · simp only [hi, hd, if_false]
        have := key 2 (by omega) (by simp [hi])
        simpa [hi] using this
  · rw [if_neg hc]
    exact stay

/-- The weight that one iteration adds is 0, 1, 2 or 3. -/
theorem bilateral_step_weight (cl thr : Int) (s : Sums) (i n : Nat) :
    (bilateral_step cl thr s i n).weight_sum - s.weight_sum = 0 ∨
    (bilateral_step cl thr s i n).weight_sum - s.weight_sum = 1 ∨
    (bilateral_step cl thr s i n).weight_sum - s.weight_sum = 2 ∨
    (bilateral_step cl thr s i n).weight_sum - s.weight_sum = 3 := by
  have t32 : Int.tdiv 3 2 = 1 := by decide
  have t22 : Int.tdiv 2 2 = 1 := by decide
  unfold bilateral_step
  simp only
  by_cases hc : ((bilateral_lum n - cl).natAbs : Int) < thr
  · rw [if_pos hc]
    by_cases hi : i < 4 <;>
      by_cases hd : ((bilateral_lum n - cl).natAbs : Int) > Int.tdiv thr 2 <;>
      simp only [hi, hd, if_true, if_false, t32, t22] <;> omega
  · rw [if_neg hc]
    omega

/-- The loop of `enhanced_bilateral` over a list of indices. -/
theorem bilateral_fold_inv (cl thr S : Int) (neighbors : List Nat)
    (lr hr lg hg lb hb : Int) (budget : Int)
    (hlr : 0 ≤ lr) (hhr : hr ≤ 255) (hlg : 0 ≤ lg) (hhg : hg ≤ 255) (hlb : 0 ≤ lb)
    (hhb : hb ≤ 255) (hS : 0 ≤ S) (hrange : 255 * budget < 2 ^ 31)
    (hn : ∀ i, i < 8 →
      (lr ≤ (RED (neighbors.getD i 0) : Int) ∧ (RED (neighbors.getD i 0) : Int) ≤ hr) ∧
      (lg ≤ (GREEN (neighbors.getD i 0) : Int) ∧ (GREEN (neighbors.getD i 0) : Int) ≤ hg) ∧
      (lb ≤ (BLUE (neighbors.getD i 0) : Int) ∧ (BLUE (neighbors.getD i 0) : Int) ≤ hb)) :
    ∀ (l : List Nat) (s : Sums), (∀ i ∈ l, i < 8) → S ≤ s.weight_sum →
      s.weight_sum + (l.map (fun i => if i < 4 then (3 : Int) else 2)).sum ≤ budget →
      (lr * s.weight_sum ≤ s.r_sum ∧ s.r_sum ≤ hr * s.weight_sum) →
      (lg * s.weight_sum ≤ s.g_sum ∧ s.g_sum ≤ hg * s.weight_sum) →
      (lb * s.weight_sum ≤ s.b_sum ∧ s.b_sum ≤ hb * s.weight_sum) →
      (S ≤ (l.foldl (fun s i => bilateral_step cl thr s i (neighbors.getD i 0)) s).weight_sum ∧
        (l.foldl (fun s i => bilateral_step cl thr s i (neighbors.getD i 0)) s).weight_sum
          ≤ budget) ∧
      (lr * (l.foldl (fun s i => bilateral_step cl thr s i (neighbors.getD i 0)) s).weight_sum
          ≤ (l.foldl (fun s i => bilateral_step cl thr s i (neighbors.getD i 0)) s).r_sum ∧
        (l.foldl (fun s i => bilateral_step cl thr s i (neighbors.getD i 0)) s).r_sum
          ≤ hr * (l.foldl (fun s i => bilateral_step cl thr s i (neighbors.getD i 0)) s).weight_sum) ∧
      (lg * (l.foldl (fun s i => bilateral_step cl thr s i (neighbors.getD i 0)) s).weight_sum
          ≤ (l.foldl (fun s i => bilateral_step cl thr s i (neighbors.getD i 0)) s).g_sum ∧
        (l.foldl (fun s i => bilateral_step cl thr s i (neighbors.getD i 0)) s).g_sum
          ≤ hg * (l.foldl (fun s i => bilateral_step cl thr s i (neighbors.getD i 0)) s).weight_sum) ∧
      (lb * (l.foldl (fun s i => bilateral_step cl thr s i (neighbors.getD i 0)) s).weight_sum
          ≤ (l.foldl (fun s i => bilateral_step cl thr s i (neighbors.getD i 0)) s).b_sum ∧
        (l.foldl (fun s i => bilateral_step cl thr s i (neighbors.getD i 0)) s).b_sum
          ≤ hb * (l.foldl (fun s i => bilateral_step cl thr s i (neighbors.getD i 0)) s).weight_sum) := by
  intro l
  induction l with
  | nil =>
    intro s _ hw hbud h1 h2 h3
    simp only [List.map_nil, List.sum_nil, Int.add_zero] at hbud
    exact ⟨⟨hw, hbud⟩, h1, h2, h3⟩
  | cons a l ih =>
    intro s hl hw hbud h1 h2 h3
    rw [List.foldl_cons]
    simp only [List.map_cons, List.sum_cons] at hbud
    have hsum : 0 ≤ (l.map (fun i => if i < 4 then (3 : Int) else 2)).sum := by
      apply List.sum_nonneg
      intro x hx
      rw [List.mem_map] at hx
      obtain ⟨i, _, hi⟩ := hx
      rw [← hi]
      split_ifs <;> omega
    have ha := hn a (hl a (List.mem_cons_self _ _))
    obtain ⟨⟨w1, w2⟩, _, c1, c2, c3⟩ := bilateral_step_inv cl thr S s a (neighbors.getD a 0)
      lr hr lg hg lb hb budget hlr hhr hlg hhg hlb hhb hS hw (by omega) hrange
      h1.1 h1.2 h2.1 h2.2 h3.1 h3.2 ha.1 ha.2.1 ha.2.2
    exact ih _ (fun i hi => hl i (List.mem_cons_of_mem _ hi)) w1 (by omega) c1 c2 c3

/-- The packed colour of three channel values below 256. -/
theorem MAKE_RGB_channels (r g b : Nat) (hr : r ≤ 255) (hg : g ≤ 255) (hb : b ≤ 255) :
    MAKE_RGB (r : Int) (g : Int) (b : Int) = 65536 * r + 256 * g + b ∧
    RED (65536 * r + 256 * g + b) = r ∧ GREEN (65536 * r + 256 * g + b) = g ∧
    BLUE (65536 * r + 256 * g + b) = b := by
  have e1 : 2 ^ 16 * r + g * 256 = 2 ^ 16 * r ||| g * 256 :=
    Nat.mul_add_lt_is_or (by norm_num; omega) r
  have e2 : 2 ^ 8 * (256 * r + g) + b = 2 ^ 8 * (256 * r + g) ||| b :=
    Nat.mul_add_lt_is_or (by norm_num; omega) (256 * r + g)
  have e3 : (r * 65536 ||| g * 256) ||| b = 65536 * r + 256 * g + b := by
    have a1 : r * 65536 ||| g * 256 = 2 ^ 8 * (256 * r + g) := by
      rw [Nat.mul_comm r 65536]
      have : (65536 : Nat) = 2 ^ 16 := by norm_num
      rw [this, ← e1]
      norm_num
      omega
    rw [a1, ← e2]
    norm_num
    omega
  refine ⟨?_, ?_, ?_, ?_⟩
  · unfold MAKE_RGB toU32
    have c1 : (r : Int) * 65536 = ((r * 65536 : Nat) : Int) := by push_cast; ring
    have c2 : (g : Int) * 256 = ((g * 256 : Nat) : Int) := by push_cast; ring
    rw [c1, c2]
    have c3 : Int.lor (Int.lor ((r * 65536 : Nat) : Int) ((g * 256 : Nat) : Int)) (b : Int)
        = (((r * 65536 ||| g * 256) ||| b : Nat) : Int) := rfl
    rw [c3, e3]
    norm_num
    omega
  · unfold RED
    rw [Nat.shiftRight_eq_div_pow]
    have : (0xFF : Nat) = 2 ^ 8 - 1 := by norm_num
    rw [this, Nat.and_pow_two_sub_one_eq_mod]
    norm_num
    omega
  · unfold GREEN
    rw [Nat.shiftRight_eq_div_pow]
    have : (0xFF : Nat) = 2 ^ 8 - 1 := by norm_num
    rw [this, Nat.and_pow_two_sub_one_eq_mod]
    norm_num
    omega
  · unfold BLUE
    have : (0xFF : Nat) = 2 ^ 8 - 1 := by norm_num
    rw [this, Nat.and_pow_two_sub_one_eq_mod]
    norm_num
    omega

/-- The quotient of a channel sum by the weight sum lies between the bounds of the channel. -/
theorem channel_quotient (x w lo hi : Int) (hw : 1 ≤ w) (hlo : 0 ≤ lo) (h1 : lo * w ≤ x)
    (h2 : x ≤ hi * w) :
    ∃ q : Nat, Int.tdiv x w = (q : Int) ∧ lo ≤ (q : Int) ∧ (q : Int) ≤ hi := by
  have hx : 0 ≤ x := le_trans (Int.mul_nonneg hlo (by omega)) h1
  have e : Int.tdiv x w = x / w := Int.tdiv_eq_ediv hx (by omega)
  have q1 : lo ≤ x / w := Int.le_ediv_of_mul_le (by omega) h1
  have q2 : x / w ≤ hi := Int.ediv_le_of_le_mul (by omega) h2
  refine ⟨(x / w).toNat, ?_, ?_, ?_⟩
  · rw [e, Int.toNat_of_nonneg (by omega)]
  · rw [Int.toNat_of_nonneg (by omega)]
    exact q1
  · rw [Int.toNat_of_nonneg (by omega)]
    exact q2

/-- The sums and the result of `enhanced_bilateral` for a strength that keeps the sums in
the range of `int`. -/
theorem bilateral_core (center : Nat) (neighbors : List Nat) (strength : Int)
    (hlen : neighbors.length = 8) (hs1 : 1 ≤ strength) (hs2 : 255 * (strength + 20) < 2 ^ 31)
    (lr hr lg hg lb hb : Nat) (hhr : hr ≤ 255) (hhg : hg ≤ 255) (hhb : hb ≤ 255)
    (cr : lr ≤ RED center ∧ RED center ≤ hr) (cg : lg ≤ GREEN center ∧ GREEN center ≤ hg)
    (cb : lb ≤ BLUE center ∧ BLUE center ≤ hb)
    (nr : ∀ n ∈ neighbors, lr ≤ RED n ∧ RED n ≤ hr)
    (ng : ∀ n ∈ neighbors, lg ≤ GREEN n ∧ GREEN n ≤ hg)
    (nb : ∀ n ∈ neighbors, lb ≤ BLUE n ∧ BLUE n ≤ hb) :
    (strength ≤ (bilateral_sums center neighbors strength).weight_sum ∧
      (bilateral_sums center neighbors strength).weight_sum ≤ strength + 20) ∧
    ∃ qr qg qb : Nat, (lr ≤ qr ∧ qr ≤ hr) ∧ (lg ≤ qg ∧ qg ≤ hg) ∧ (lb ≤ qb ∧ qb ≤ hb) ∧
      enhanced_bilateral center neighbors strength = 65536 * qr + 256 * qg + qb := by
  have hn : ∀ i, i < 8 →
      (((lr : Nat) : Int) ≤ (RED (neighbors.getD i 0) : Int) ∧
        (RED (neighbors.getD i 0) : Int) ≤ ((hr : Nat) : Int)) ∧
      (((lg : Nat) : Int) ≤ (GREEN (neighbors.getD i 0) : Int) ∧
        (GREEN (neighbors.getD i 0) : Int) ≤ ((hg : Nat) : Int)) ∧
      (((lb : Nat) : Int) ≤ (BLUE (neighbors.getD i 0) : Int) ∧
        (BLUE (neighbors.getD i 0) : Int) ≤ ((hb : Nat) : Int)) := by
    intro i hi
    have hi2 : i < neighbors.length := by omega
    have hm : neighbors.getD i 0 ∈ neighbors := by
      rw [List.getD_eq_getElem neighbors 0 hi2]
      exact List.getElem_mem hi2
    have a := nr _ hm
    have b := ng _ hm
    have c := nb _ hm
    omega
  have init : ∀ (v lo hi : Nat), lo ≤ v → v ≤ hi → hi ≤ 255 →
      toS32 ((v : Int) * strength) = (v : Int) * strength ∧
      (lo : Int) * strength ≤ (v : Int) * strength ∧
      (v : Int) * strength ≤ (hi : Int) * strength := by
    intro v lo hi h1 h2 h3
    have a1 : (lo : Int) * strength ≤ (v : Int) * strength :=
      Int.mul_le_mul_of_nonneg_right (by omega) (by omega)
    have a2 : (v : Int) * strength ≤ (hi : Int) * strength :=
      Int.mul_le_mul_of_nonneg_right (by omega) (by omega)
    have a3 : (hi : Int) * strength ≤ 255 * strength :=
      Int.mul_le_mul_of_nonneg_right (by omega) (by omega)
    have a4 : 0 ≤ (lo : Int) * strength := Int.mul_nonneg (by omega) (by omega)
    exact ⟨toS32_of_range _ (by omega) (by omega), a1, a2⟩
  obtain ⟨r0, r1, r2⟩ := init (RED center) lr hr cr.1 cr.2 hhr
  obtain ⟨g0, g1, g2⟩ := init (GREEN center) lg hg cg.1 cg.2 hhg
  obtain ⟨b0, b1, b2⟩ := init (BLUE center) lb hb cb.1 cb.2 hhb
  have hsum : ((List.range 8).map (fun i => if i < 4 then (3 : Int) else 2)).sum = 20 := by
    decide
  have hfold := bilateral_fold_inv (bilateral_lum center) (20 + strength * 2) strength neighbors
    lr hr lg hg lb hb (strength + 20) (by omega) (by omega) (by omega) (by omega) (by omega)
    (by omega) (by omega) hs2 hn (List.range 8)
    ⟨(RED center : Int) * strength, (GREEN center : Int) * strength,
      (BLUE center : Int) * strength, strength⟩
    (fun i hi => List.mem_range.mp hi) (Int.le_refl _) (by rw [hsum]) ⟨r1, r2⟩ ⟨g1, g2⟩
    ⟨b1, b2⟩
  have e : bilateral_sums center neighbors strength
      = (List.range 8).foldl
          (fun s i => bilateral_step (bilateral_lum center) (20 + strength * 2) s i
            (neighbors.getD i 0))
          ⟨(RED center : Int) * strength, (GREEN center : Int) * strength,
            (BLUE center : Int) * strength, strength⟩ := by
    unfold bilateral_sums
    simp only [r0, g0, b0]
  rw [← e] at hfold
  obtain ⟨⟨w1, w2⟩, ⟨x1, x2⟩, ⟨y1, y2⟩, ⟨z1, z2⟩⟩ := hfold
  refine ⟨⟨w1, w2⟩, ?_⟩
  obtain ⟨qr, er, qr1, qr2⟩ := channel_quotient _ _ _ _ (by omega) (by omega) x1 x2
  obtain ⟨qg, eg, qg1, qg2⟩ := channel_quotient _ _ _ _ (by omega) (by omega) y1 y2
  obtain ⟨qb, eb, qb1, qb2⟩ := channel_quotient _ _ _ _ (by omega) (by omega) z1 z2
  refine ⟨qr, qg, qb, ⟨by omega, by omega⟩, ⟨by omega, by omega⟩, ⟨by omega, by omega⟩, ?_⟩
  unfold enhanced_bilateral
  simp only [er, eg, eb]
  exact (MAKE_RGB_channels qr qg qb (by omega) (by omega) (by omega)).1

set_option maxRecDepth 100000 in
/-- C37 (counterexample): with the strength `2^24` the red sum of a centre `0xFF0000` among
eight neighbours `0xFF0000` is the `int` value `-16772116`, the quotient by the weight sum
`2^24 + 20` is 0, and the filter returns 0 although the centre and every neighbour have the
red channel 255.  The sums first leave the range of `int` at the strength 8421485, where
the red sum is `255 * 8421505 - 2^32`. -/
theorem bilateral_strength_counterexample :
    enhanced_bilateral 0xFF0000 (List.replicate 8 0xFF0000) 16777216 = 0 ∧
    RED (enhanced_bilateral 0xFF0000 (List.replicate 8 0xFF0000) 16777216) = 0 ∧
    RED 0xFF0000 = 255 ∧
    (bilateral_sums 0xFF0000 (List.replicate 8 0xFF0000) 16777216).r_sum = -16772116 ∧
    (bilateral_sums 0xFF0000 (List.replicate 8 0xFF0000) 16777216).weight_sum = 16777236 ∧
    (bilateral_sums 0xFF0000 (List.replicate 8 0xFF0000) 8421485).r_sum
      = 255 * 8421505 - 2 ^ 32 := by
  decide

/-- C37 (amended): for every centre, every 8 neighbours and every strength `>= 1` with
`255 * (strength + 20) < 2^31` (every strength up to 8421484), the weight sum of
`enhanced_bilateral` is at least the strength and at most `strength + 20`, so no division
is by zero; the weight of a neighbour is 0, 1, 2 or 3; each channel of the result lies
between any bounds that hold for that channel of the centre and of the 8 neighbours; the
result is its three channels packed, below `2^24`; and when the 8 neighbours equal the
centre the channels of the result are those of the centre. -/
theorem bilateral_convex (center : Nat) (neighbors : List Nat) (strength : Int)
    (hlen : neighbors.length = 8) (hs1 : 1 ≤ strength) (hs2 : 255 * (strength + 20) < 2 ^ 31) :
    (strength ≤ (bilateral_sums center neighbors strength).weight_sum ∧
      (bilateral_sums center neighbors strength).weight_sum ≤ strength + 20) ∧
    (∀ cl thr s i n, (bilateral_step cl thr s i n).weight_sum - s.weight_sum = 0 ∨
      (bilateral_step cl thr s i n).weight_sum - s.weight_sum = 1 ∨
      (bilateral_step cl thr s i n).weight_sum - s.weight_sum = 2 ∨
      (bilateral_step cl thr s i n).weight_sum - s.weight_sum = 3) ∧
    (∀ lo hi : Nat, lo ≤ RED center → RED center ≤ hi →
      (∀ n ∈ neighbors, lo ≤ RED n ∧ RED n ≤ hi) →
      lo ≤ RED (enhanced_bilateral center neighbors strength) ∧
        RED (enhanced_bilateral center neighbors strength) ≤ hi) ∧
    (∀ lo hi : Nat, lo ≤ GREEN center → GREEN center ≤ hi →
      (∀ n ∈ neighbors, lo ≤ GREEN n ∧ GREEN n ≤ hi) →
      lo ≤ GREEN (enhanced_bilateral center neighbors strength) ∧
        GREEN (enhanced_bilateral center neighbors strength) ≤ hi) ∧
    (∀ lo hi : Nat, lo ≤ BLUE center → BLUE center ≤ hi →
      (∀ n ∈ neighbors, lo ≤ BLUE n ∧ BLUE n ≤ hi) →
      lo ≤ BLUE (enhanced_bilateral center neighbors strength) ∧
        BLUE (enhanced_bilateral center neighbors strength) ≤ hi) ∧
    (enhanced_bilateral center neighbors strength
        = 65536 * RED (enhanced_bilateral center neighbors strength)
          + 256 * GREEN (enhanced_bilateral center neighbors strength)
          + BLUE (enhanced_bilateral center neighbors strength) ∧
      enhanced_bilateral center neighbors strength < 2 ^ 24) ∧
    ((∀ n ∈ neighbors, n = center) →
      RED (enhanced_bilateral center neighbors strength) = RED center ∧
      GREEN (enhanced_bilateral center neighbors strength) = GREEN center ∧
      BLUE (enhanced_bilateral center neighbors strength) = BLUE center) := by
  have full := fun lr hr lg hg lb hb hhr hhg hhb cr cg cb nr ng nb =>
    bilateral_core center neighbors strength hlen hs1 hs2 lr hr lg hg lb hb hhr hhg hhb
      cr cg cb nr ng nb
  have all := full 0 255 0 255 0 255 (Nat.le_refl _) (Nat.le_refl _) (Nat.le_refl _)
    ⟨Nat.zero_le _, RED_le _⟩ ⟨Nat.zero_le _, GREEN_le _⟩ ⟨Nat.zero_le _, BLUE_le _⟩
    (fun n _ => ⟨Nat.zero_le _, RED_le n⟩) (fun n _ => ⟨Nat.zero_le _, GREEN_le n⟩)
    (fun n _ => ⟨Nat.zero_le _, BLUE_le n⟩)
  refine ⟨all.1, bilateral_step_weight, ?_, ?_, ?_, ?_, ?_⟩
  · intro lo hi h1 h2 hn
    obtain ⟨_, qr, qg, qb, ⟨a1, a2⟩, ⟨_, a4⟩, ⟨_, a6⟩, e⟩ := full lo (min hi 255) 0 255 0 255
      (Nat.min_le_right _ _) (Nat.le_refl _) (Nat.le_refl _)
      ⟨h1, Nat.le_min.mpr ⟨h2, RED_le _⟩⟩ ⟨Nat.zero_le _, GREEN_le _⟩ ⟨Nat.zero_le _, BLUE_le _⟩
      (fun n hm => ⟨(hn n hm).1, Nat.le_min.mpr ⟨(hn n hm).2, RED_le n⟩⟩)
      (fun n _ => ⟨Nat.zero_le _, GREEN_le n⟩) (fun n _ => ⟨Nat.zero_le _, BLUE_le n⟩)
    have hq : qr ≤ 255 := le_trans a2 (Nat.min_le_right _ _)
    rw [e, (MAKE_RGB_channels qr qg qb hq a4 a6).2.1]
    exact ⟨a1, le_trans a2 (Nat.min_le_left _ _)⟩
  · intro lo hi h1 h2 hn
    obtain ⟨_, qr, qg, qb, ⟨_, a2⟩, ⟨a3, a4⟩, ⟨_, a6⟩, e⟩ := full 0 255 lo (min hi 255) 0 255
      (Nat.le_refl _) (Nat.min_le_right _ _) (Nat.le_refl _)
      ⟨Nat.zero_le _, RED_le _⟩ ⟨h1, Nat.le_min.mpr ⟨h2, GREEN_le _⟩⟩ ⟨Nat.zero_le _, BLUE_le _⟩
      (fun n _ => ⟨Nat.zero_le _, RED_le n⟩)
      (fun n hm => ⟨(hn n hm).1, Nat.le_min.mpr ⟨(hn n hm).2, GREEN_le n⟩⟩)
      (fun n _ => ⟨Nat.zero_le _, BLUE_le n⟩)
    have hq : qg ≤ 255 := le_trans a4 (Nat.min_le_right _ _)
    rw [e, (MAKE_RGB_channels qr qg qb a2 hq a6).2.2.1]
    exact ⟨a3, le_trans a4 (Nat.min_le_left _ _)⟩
  · intro lo hi h1 h2 hn
    obtain ⟨_, qr, qg, qb, ⟨_, a2⟩, ⟨_, a4⟩, ⟨a5, a6⟩, e⟩ := full 0 255 0 255 lo (min hi 255)
      (Nat.le_refl _) (Nat.le_refl _) (Nat.min_le_right _ _)
      ⟨Nat.zero_le _, RED_le _⟩ ⟨Nat.zero_le _, GREEN_le _⟩ ⟨h1, Nat.le_min.mpr ⟨h2, BLUE_le _⟩⟩
      (fun n _ => ⟨Nat.zero_le _, RED_le n⟩) (fun n _ => ⟨Nat.zero_le _, GREEN_le n⟩)
      (fun n hm => ⟨(hn n hm).1, Nat.le_min.mpr ⟨(hn n hm).2, BLUE_le n⟩⟩)
    have hq : qb ≤ 255 := le_trans a6 (Nat.min_le_right _ _)
    rw [e, (MAKE_RGB_channels qr qg qb a2 a4 hq).2.2.2]
    exact ⟨a5, le_trans a6 (Nat.min_le_left _ _)⟩
  · obtain ⟨_, qr, qg, qb, ⟨_, a2⟩, ⟨_, a4⟩, ⟨_, a6⟩, e⟩ := all
    obtain ⟨_, c1, c2, c3⟩ := MAKE_RGB_channels qr qg qb a2 a4 a6
    rw [e, c1, c2, c3]
    refine ⟨rfl, ?_⟩
    norm_num
    omega
  · intro hn
    obtain ⟨_, qr, qg, qb, ⟨a1, a2⟩, ⟨a3, a4⟩, ⟨a5, a6⟩, e⟩ := full (RED center) (RED center)
      (GREEN center) (GREEN center) (BLUE center) (BLUE center) (RED_le _) (GREEN_le _)
      (BLUE_le _) ⟨Nat.le_refl _, Nat.le_refl _⟩ ⟨Nat.le_refl _, Nat.le_refl _⟩
      ⟨Nat.le_refl _, Nat.le_refl _⟩
      (fun n hm => by rw [hn n hm]; exact ⟨Nat.le_refl _, Nat.le_refl _⟩)
      (fun n hm => by rw [hn n hm]; exact ⟨Nat.le_refl _, Nat.le_refl _⟩)
      (fun n hm => by rw [hn n hm]; exact ⟨Nat.le_refl _, Nat.le_refl _⟩)
    have hr : qr ≤ 255 := le_trans a2 (RED_le _)
    have hg : qg ≤ 255 := le_trans a4 (GREEN_le _)
    have hb : qb ≤ 255 := le_trans a6 (BLUE_le _)
    obtain ⟨_, c1, c2, c3⟩ := MAKE_RGB_channels qr qg qb hr hg hb
    rw [e, c1, c2, c3]
    exact ⟨by omega, by omega, by omega⟩

/-- Witness for C37: strength 3, a centre and eight neighbours `0x102030`. -/
theorem bilateral_convex_witness :
    RED (enhanced_bilateral 0x102030 (List.replicate 8 0x102030) 3) = RED 0x102030 :=
  ((bilateral_convex 0x102030 (List.replicate 8 0x102030) 3 (by decide) (by decide)
    (by decide)).2.2.2.2.2.2 (fun n hn => List.eq_of_mem_replicate hn)).1

/-! ## The stored value of the rule blits on a stream of opaque pixels -/

/-- C24: for a strength in the range in which `enhanced_bilateral` is defined in C
(`1 <= strength` and `255 * (strength + 20) < 2^31`, which holds for the strengths 3 to 7 of
the six scalers), `hires_scale_smooth` samples the 8 neighbours of a source pixel `(x, y)`
at the coordinates `(clamp(x + dx, 0, width - 1), clamp(y + dy, 0, height - 1))`, all of
them inside the source, also on the edges and in the corners; the weight sum of the filter
of every source pixel is at least the strength, so no division is by zero; and, when the
rows of the destination hold the `width * scale` output pixels
(`dst_pitch >= 4 * width * scale`), every output pixel `(x * scale + dx, y * scale + dy)` of
the block of `(x, y)` holds the one colour
`enhanced_bilateral(palette[src[y][x]], those 8 neighbours, strength)`. -/
theorem smooth_blocks (rgb_palette : Nat → Nat) (vga_width vga_height : Nat)
    (src_surface : SDL_Surface) (dst : Tex) (dst_pitch scale : Nat) (smooth_strength : Int)
    (hpitch : 4 * (vga_width * scale) ≤ dst_pitch)
    (hs1 : 1 ≤ smooth_strength) (hs2 : 255 * (smooth_strength + 20) < 2 ^ 31) :
    (∀ x y, x < vga_width → y < vga_height →
      smooth_samples vga_width vga_height x y
        = ([(-1, -1), (0, -1), (1, -1), (-1, 0), (1, 0), (-1, 1), (0, 1), (1, 1)] :
            List (Int × Int)).map
          (fun d => (max 0 (min ((x : Int) + d.1) ((vga_width : Int) - 1)),
            max 0 (min ((y : Int) + d.2) ((vga_height : Int) - 1)))) ∧
      ∀ c ∈ smooth_samples vga_width vga_height x y,
        0 ≤ c.1 ∧ c.1 < (vga_width : Int) ∧ 0 ≤ c.2 ∧ c.2 < (vga_height : Int)) ∧
    (∀ x y : Nat,
      0 < (bilateral_sums
            (rgb_palette (src_surface.pixels ((y * src_surface.pitch + x : Nat) : Int)))
            ((smooth_samples vga_width vga_height x y).map
              (fun c => rgb_palette (src_surface.pixels (c.2 * (src_surface.pitch : Int) + c.1))))
            smooth_strength).weight_sum ∧
      smooth_strength ≤ (bilateral_sums
            (rgb_palette (src_surface.pixels ((y * src_surface.pitch + x : Nat) : Int)))
            ((smooth_samples vga_width vga_height x y).map
              (fun c => rgb_palette (src_surface.pixels (c.2 * (src_surface.pitch : Int) + c.1))))
            smooth_strength).weight_sum) ∧
    (∀ x y dx dy, x < vga_width → y < vga_height → dx < scale → dy < scale →
      load32 (hires_scale_smooth rgb_palette vga_width vga_height src_surface dst dst_pitch scale
          smooth_strength) ((y * scale + dy) * dst_pitch + 4 * (x * scale + dx))
        = enhanced_bilateral
            (rgb_palette (src_surface.pixels ((y * src_surface.pitch + x : Nat) : Int)))
            ((smooth_samples vga_width vga_height x y).map
              (fun c => rgb_palette (src_surface.pixels (c.2 * (src_surface.pitch : Int) + c.1))))
            smooth_strength) := by
  refine ⟨?_, ?_, ?_⟩
  · intro x y hx hy
    have e : smooth_samples vga_width vga_height x y
        = ([(-1, -1), (0, -1), (1, -1), (-1, 0), (1, 0), (-1, 1), (0, 1), (1, 1)] :
            List (Int × Int)).map
          (fun d => (max 0 (min ((x : Int) + d.1) ((vga_width : Int) - 1)),
            max 0 (min ((y : Int) + d.2) ((vga_height : Int) - 1)))) := by
      rw [smooth_samples_eq]
      apply List.map_congr_left
      intro d _
      rw [clamp_coord_eq _ _ (by omega), clamp_coord_eq _ _ (by omega)]
    refine ⟨e, ?_⟩
    intro c hc
    rw [e, List.mem_map] at hc
    obtain ⟨d, _, hd⟩ := hc
    rw [← hd]
    simp only
    omega
  · intro x y
    have hlen : ((smooth_samples vga_width vga_height x y).map
        (fun c => rgb_palette (src_surface.pixels (c.2 * (src_surface.pitch : Int) + c.1)))).length
        = 8 := by
      rw [smooth_samples_eq]
      rfl
    have hw := (bilateral_core
      (rgb_palette (src_surface.pixels ((y * src_surface.pitch + x : Nat) : Int)))
      ((smooth_samples vga_width vga_height x y).map
        (fun c => rgb_palette (src_surface.pixels (c.2 * (src_surface.pitch : Int) + c.1))))
      smooth_strength hlen hs1 hs2 0 255 0 255 0 255 (Nat.le_refl _) (Nat.le_refl _)
      (Nat.le_refl _) ⟨Nat.zero_le _, RED_le _⟩ ⟨Nat.zero_le _, GREEN_le _⟩
      ⟨Nat.zero_le _, BLUE_le _⟩ (fun n _ => ⟨Nat.zero_le _, RED_le n⟩)
      (fun n _ => ⟨Nat.zero_le _, GREEN_le n⟩) (fun n _ => ⟨Nat.zero_le _, BLUE_le n⟩)).1
    exact ⟨by omega, hw.1⟩
  · intro x y dx dy hx hy hdx hdy
    rw [hires_scale_smooth_eq]
    have hp := block_scaler_painted
      (smoothed rgb_palette vga_width vga_height src_surface smooth_strength)
      dst_pitch scale vga_width dst hpitch vga_height
    have hm1 : (x + 1) * scale ≤ vga_width * scale := Nat.mul_le_mul_right _ (by omega)
    have hm2 : (y + 1) * scale ≤ vga_height * scale := Nat.mul_le_mul_right _ (by omega)
    have e1 : (x + 1) * scale = x * scale + scale := by ring
    have e2 : (y + 1) * scale = y * scale + scale := by ring
    exact hp.pixel x y dx dy hdx hdy (by omega) (fun b _ _ => ⟨by omega, by omega⟩)
      (toU32_lt _)

/-- Witness for C24: the corner pixel `(1, 1)` of a 2 x 2 source at scale 2 and
strength 3. -/
theorem smooth_blocks_witness :
    load32 (hires_scale_smooth (fun i => 0x010101 * i) 2 2
        ⟨2, 2, 3, fun q => if q = 0 then 1 else if q = 1 then 2 else if q = 3 then 3 else 4⟩
        (fun _ => 0) 20 2 3) ((1 * 2 + 1) * 20 + 4 * (1 * 2 + 0)) = 0x020202 :=
  ((smooth_blocks (fun i => 0x010101 * i) 2 2
    ⟨2, 2, 3, fun q => if q = 0 then 1 else if q = 1 then 2 else if q = 3 then 3 else 4⟩
    (fun _ => 0) 20 2 3 (by decide) (by decide) (by decide)).2.2 1 1 0 1 (by decide) (by decide)
    (by decide) (by decide)).trans (by decide)

end OpenTyrian
